import Mathlib

/-!
# ns6 (ipv6toolkit): packet construction, fragmentation and listen-mode filters

A shallow embedding of `tools/ns6.c`.  Buffers are byte memories indexed by
offsets, pointers are offsets into the buffer they point to, `unsigned int`
arithmetic is done modulo `2^32`, and `exit(EXIT_FAILURE)` is an explicit
result.  Loops run on a fuel counter; running out of fuel is a result of its
own, distinct from every result of the program.
-/

namespace Ns6

/-! ## Byte memory -/

/-- A byte-addressed memory region: offset to byte value. -/
abbrev Mem := Nat → Nat

/-- Store of one `unsigned char`: `*(m + off) = v`. -/
def poke (m : Mem) (off v : Nat) : Mem :=
  fun i => if i = off then v % 256 else m i

/-- The C library `memcpy(dst + doff, src + soff, n)`. -/
def memcpy (dst : Mem) (doff : Nat) (src : Mem) (soff n : Nat) : Mem :=
  fun i => if doff ≤ i ∧ i < doff + n then src (soff + (i - doff)) else dst i

/-- The C library `memset(m + off, v, n)`. -/
def memset (m : Mem) (off v n : Nat) : Mem :=
  fun i => if off ≤ i ∧ i < off + n then v % 256 else m i

/-- The `n` bytes found at `off`. -/
def readBytes (m : Mem) (off n : Nat) : List Nat :=
  (List.range n).map (fun i => m (off + i))

/-- How a run of the program can stop short of a result. -/
inductive Stop where
  | exitFailure
  | outOfFuel
  deriving DecidableEq, Repr

/-! ## Protocol constants (system headers) -/

def MIN_IPV6_HLEN : Nat := 40
def FRAG_HDR_SIZE : Nat := 8
def IPPROTO_HOPOPTS : Nat := 0
def IPPROTO_DSTOPTS : Nat := 60
def IPPROTO_FRAGMENT : Nat := 44
def IPPROTO_ICMPV6 : Nat := 58
def ND_NEIGHBOR_SOLICIT : Nat := 135
def ND_OPT_SOURCE_LINKADDR : Nat := 1
def SLLA_OPT_LEN : Nat := 1
def ETH_ALEN : Nat := 6
def DLT_NULL : Nat := 0
def DLT_EN10MB : Nat := 1
/-- The size of `struct nd_neighbor_solicit`: ICMPv6 header (8) and target (16). -/
def sizeof_nd_neighbor_solicit : Nat := 24
/-- The size of `struct nd_opt_slla`: type, length and a 6-byte address. -/
def sizeof_nd_opt_slla : Nat := 8
/-- The modulus of `unsigned int` arithmetic. -/
def U32 : Nat := 4294967296

/-! ## Extension header options `-u`, `-U`, `-H` (main, lines 253-383) -/

/-- One slot of a header class: the block obtained from `malloc` (its size and
contents) and the entry of the class's length table with the same index. -/
structure ExtHdr where
  size : Nat
  mem : Mem
  len : Nat

/-- The tables of one header class: `dstopthdr[]`/`dstopthdrlen[]` with the
count `ndstopthdr` (the length of the list) and the flag `dstopthdr_f`, and
likewise for the two other classes. -/
structure HdrClass where
  hdrs : List ExtHdr
  flag : Bool

/-- Modelled from the spec: `insert_pad_opt` is defined in libipv6, which is not
part of the sources at hand.  A padding option is a 1-byte Pad1 (a zero byte) or
a Pad-N option (type 1, a data length of at most 255, zero data), so a whole
option never exceeds 257 bytes; the call fails when the option does not fit
before `ptrhdrend`. -/
def insert_pad_opt (m : Mem) (ptrhdr ptrhdrend padn : Nat) : Option Mem :=
  if ptrhdrend - ptrhdr < padn ∨ padn = 0 ∨ 257 < padn then none
  else if padn = 1 then some (poke m ptrhdr 0)
  else some (memset (poke (poke m ptrhdr 1) (ptrhdr + 1) (padn - 2)) (ptrhdr + 2) 0 (padn - 2))

/-- The padding loop `while (ptrhdr < ptrhdrend)` of the three option cases. -/
def padLoop : Nat → Mem → Nat → Nat → Except Stop Mem
  | 0, m, ptrhdr, ptrhdrend => if ptrhdr < ptrhdrend then .error .outOfFuel else .ok m
  | fuel + 1, m, ptrhdr, ptrhdrend =>
    if ptrhdr < ptrhdrend then
      let pad := if ptrhdrend - ptrhdr > 257 then 257 else ptrhdrend - ptrhdr
      match insert_pad_opt m ptrhdr ptrhdrend pad with
      | none => .error .exitFailure
      | some m1 => padLoop fuel m1 (ptrhdr + pad) ptrhdrend
    else .ok m

/-- The value of `hdrlen` after `hdrlen = atoi(optarg)`: an `int` converted to
`unsigned int`. -/
def toUInt (n : Int) : Nat := (n % 4294967296).toNat

/-- The statement `hdrlen = ((hdrlen + 7) / 8) * 8` on `unsigned int`. -/
def roundHdrlen (hdrlen : Nat) : Nat := ((hdrlen + 7) % U32 / 8 * 8) % U32

/-- The byte stored by `*(hdr + 1) = (hdrlen / 8) - 1`: an `unsigned int`
expression converted to `unsigned char`. -/
def hdrExtLen (hdrlen : Nat) : Nat := ((hdrlen / 8 + U32 - 1) % U32) % 256

/-- The body shared by `case 'u'`, `case 'U'` and `case 'H'`: `max` is the
class's limit (`MAX_DST_OPT_HDR`, `MAX_DST_OPT_U_HDR`, `MAX_HBH_OPT_HDR`),
`junk` the contents of the block that `malloc` returns, `optarg` the value of
`atoi(optarg)`.  `malloc` is taken to succeed. -/
def ext_hdr_option (max : Nat) (junk : Mem) (c : HdrClass) (optarg : Int) :
    Except Stop HdrClass :=
  if c.hdrs.length ≥ max then .error .exitFailure
  else
    let hdrlen0 := toUInt optarg
    if hdrlen0 < 8 then .error .exitFailure
    else
      let hdrlen := roundHdrlen hdrlen0
      match padLoop hdrlen junk 2 hdrlen with
      | .error e => .error e
      | .ok m =>
        .ok { hdrs := c.hdrs ++ [{ size := hdrlen, mem := poke m 1 (hdrExtLen hdrlen), len := hdrlen }],
              flag := true }


/-! ## Interface data and file-scope variables -/

/-- The fields of `struct iface_data` that the code at hand reads.  `loopback`
is `idata->flags & IFACE_LOOPBACK`; addresses are lists of bytes. -/
structure IfaceData where
  type : Nat
  loopback : Bool
  linkhsize : Nat
  mtu : Nat
  max_packet_size : Nat
  fragh_f : Bool
  srcaddr : List Nat
  dstaddr : List Nat
  hsrcaddr : List Nat
  hdstaddr : List Nat
  srcaddr_f : Bool
  hsrcaddr_f : Bool
  srcpreflen : Nat

/-- The target of the pointer `prev_nh`: a byte of `buffer`, or the first byte
of the separate `fraghdr` record. -/
inductive NhPtr where
  | inBuffer (off : Nat)
  | inFraghdr
  deriving DecidableEq, Repr

/-- The file-scope variables of ns6.c that packet construction and sending use.
Pointers into `buffer` (`ptr`, `fragpart`, `ns`, `sllaopt`, `startofprefixes`)
are offsets from `buffer`; `v6buffer` is `buffer + idata->linkhsize`.
`linkaddr` holds `linkaddr[0 .. nlinkaddr)`. -/
structure Globals where
  buffer : Mem
  fragbuffer : Mem
  fraghdr : Mem
  hoplimit : Nat
  targetaddr : List Nat
  linkaddr : List (List Nat)
  sllopt_f : Bool
  sllopta_f : Bool
  hbhopt : HdrClass
  dstoptu : HdrClass
  dstopt : HdrClass
  nfrags : Nat
  ptr : Nat
  prev_nh : NhPtr
  fragpart : Nat
  ns : Nat
  sllaopt : Nat
  startofprefixes : Nat

/-- Store of `n` bytes taken from a list (struct assignment, `memcpy` from an
address value); a list that is too short is read as zero bytes. -/
def pokeBytes (m : Mem) (off n : Nat) (bs : List Nat) : Mem :=
  fun i => if off ≤ i ∧ i < off + n then bs.getD (i - off) 0 % 256 else m i

/-- Store of a 16-bit value in network byte order (`x = htons(v)`). -/
def pokeU16be (m : Mem) (off v : Nat) : Mem :=
  poke (poke m off (v / 256)) (off + 1) v

/-- The statement `*prev_nh = v`. -/
def storeNh (g : Globals) (v : Nat) : Globals :=
  match g.prev_nh with
  | .inBuffer off => { g with buffer := poke g.buffer off v }
  | .inFraghdr => { g with fraghdr := poke g.fraghdr 0 v }

/-- The byte that `p` points to. -/
def loadNh (g : Globals) (p : NhPtr) : Nat :=
  match p with
  | .inBuffer off => g.buffer off
  | .inFraghdr => g.fraghdr 0

/-! ## init_packet_data (lines 1073-1211) -/

/-- One of the three loops `while (hdrs < nhdr)` of init_packet_data over the
entries of a class: `limit` is `v6buffer + idata->mtu` or
`v6buffer + idata->max_packet_size`, `proto` the class's protocol number. -/
def appendHdrs (proto limit : Nat) : List ExtHdr → Globals → Except Stop Globals
  | [], g => .ok g
  | e :: rest, g =>
    if g.ptr + e.len > limit then .error .exitFailure
    else
      let g1 := storeNh g proto
      appendHdrs proto limit rest
        { g1 with prev_nh := .inBuffer g.ptr,
                  buffer := memcpy g1.buffer g.ptr e.mem 0 e.len,
                  ptr := g.ptr + e.len }

/-- The value of `PF_INET6` stored in the 4-byte family field of a DLT_NULL link
header (Linux value, little-endian host). -/
def PF_INET6 : Nat := 10

/-- The link header part of init_packet_data (lines 1080-1095). -/
def initLinkHeader (idata : IfaceData) (buffer : Mem) : Mem :=
  if idata.type = DLT_EN10MB then
    let b := pokeU16be buffer 12 0x86dd
    if !idata.loopback then
      pokeBytes (pokeBytes b 6 ETH_ALEN idata.hsrcaddr) 0 ETH_ALEN idata.hdstaddr
    else b
  else if idata.type = DLT_NULL then
    pokeBytes buffer 0 4 [PF_INET6, 0, 0, 0]
  else buffer

/-- The fixed IPv6 header fields (lines 1097-1104): flow, version, hop limit,
source and destination; `prev_nh` is left on the IPv6 next-header byte and
`ptr` right after the IPv6 header. -/
def initIPv6Header (idata : IfaceData) (g : Globals) : Globals :=
  let v6 := idata.linkhsize
  let b0 := initLinkHeader idata g.buffer
  let b1 := poke (memset b0 v6 0 4) v6 0x60
  let b2 := poke b1 (v6 + 7) g.hoplimit
  let b3 := pokeBytes b2 (v6 + 8) 16 idata.srcaddr
  let b4 := pokeBytes b3 (v6 + 24) 16 idata.dstaddr
  { g with buffer := b4, prev_nh := .inBuffer (v6 + 6), ptr := v6 + MIN_IPV6_HLEN }

/-- Lines 1143-1159: the Fragment Header record is prepared apart from the
packet. -/
def initFragHdr (idata : IfaceData) (g : Globals) : Except Stop Globals :=
  if idata.fragh_f then
    if g.fragpart + FRAG_HDR_SIZE + g.nfrags > idata.linkhsize + idata.mtu then
      .error .exitFailure
    else
      let g1 := storeNh { g with fraghdr := memset g.fraghdr 0 0 FRAG_HDR_SIZE } IPPROTO_FRAGMENT
      .ok { g1 with prev_nh := .inFraghdr }
  else .ok g

/-- Lines 1179-1210: the Neighbor Solicitation header and, when exactly one
link-layer address is configured, its option. -/
def initNS (idata : IfaceData) (g : Globals) : Except Stop Globals :=
  let g1 := storeNh g IPPROTO_ICMPV6
  if g1.ptr + sizeof_nd_neighbor_solicit > idata.linkhsize + idata.max_packet_size then
    .error .exitFailure
  else
    let ns := g1.ptr
    let b1 := poke g1.buffer ns ND_NEIGHBOR_SOLICIT
    let b2 := poke b1 (ns + 1) 0
    let b3 := memset b2 (ns + 4) 0 4
    let b4 := pokeBytes b3 (ns + 8) 16 g1.targetaddr
    let ptr := ns + sizeof_nd_neighbor_solicit
    let g2 := { g1 with buffer := b4, ns := ns, ptr := ptr, sllaopt := ptr }
    if g2.sllopt_f ∧ g2.linkaddr.length = 1 then
      if ptr + sizeof_nd_opt_slla ≤ idata.linkhsize + idata.max_packet_size then
        let c1 := poke g2.buffer ptr ND_OPT_SOURCE_LINKADDR
        let c2 := poke c1 (ptr + 1) SLLA_OPT_LEN
        let c3 := pokeBytes c2 (ptr + 2) ETH_ALEN (g2.linkaddr.headD [])
        .ok { g2 with buffer := c3, ptr := ptr + sizeof_nd_opt_slla,
                      startofprefixes := ptr + sizeof_nd_opt_slla }
      else .error .exitFailure
    else .ok { g2 with startofprefixes := ptr }

/-- The entries a class contributes: its loop runs only when its flag is set. -/
def activeHdrs (c : HdrClass) : List ExtHdr := if c.flag then c.hdrs else []

/-- The function init_packet_data. -/
def init_packet_data (idata : IfaceData) (g : Globals) : Except Stop Globals :=
  let g0 := initIPv6Header idata g
  match appendHdrs IPPROTO_HOPOPTS (idata.linkhsize + idata.mtu) (activeHdrs g0.hbhopt) g0 with
  | .error e => .error e
  | .ok g1 =>
    match appendHdrs IPPROTO_DSTOPTS (idata.linkhsize + idata.mtu) (activeHdrs g1.dstoptu) g1 with
    | .error e => .error e
    | .ok g2 =>
      match initFragHdr idata { g2 with fragpart := g2.ptr } with
      | .error e => .error e
      | .ok g3 =>
        match appendHdrs IPPROTO_DSTOPTS (idata.linkhsize + idata.max_packet_size)
            (activeHdrs g3.dstopt) g3 with
        | .error e => .error e
        | .ok g4 => initNS idata g4

/-! ## The fragment path of send_packet (lines 1291-1346) -/

/-- One call `pcap_inject(pfd, p, len)`: the memory that `p` points to at the
time of the call and the number of bytes injected.  Injection is taken to
succeed and to write the whole frame. -/
structure Frame where
  data : Mem
  len : Nat

/-- The bytes of a frame. -/
def Frame.bytes (f : Frame) : List Nat := readBytes f.data 0 f.len

/-- The host-order value `ntohs(IP6F_OFF_MASK)`: the 13 offset bits of the
16-bit offset/flags field. -/
def IP6F_OFF_MASK_HOST : Nat := 0xfff8

/-- The value of `(nfrags + 7) & ntohs(IP6F_OFF_MASK)` on `unsigned int`. -/
def roundFragSize (nfrags : Nat) : Nat := ((nfrags + 7) % U32) &&& IP6F_OFF_MASK_HOST

/-- The 16-bit field `(htons(off) & IP6F_OFF_MASK) | m` read as a big-endian
number: the low 16 bits of `off` with the three low bits cleared, and the
more-fragments bit (the field's lowest bit in network order). -/
def offlgValue (off : Nat) (more : Bool) : Nat :=
  ((off % 65536) &&& IP6F_OFF_MASK_HOST) ||| (if more then 1 else 0)

/-- The loop `while ((ptr < ptrend) && m == IP6F_MORE_FRAG)`.  `fh` is the
offset of the Fragment Header in `fragbuffer`, `more` stands for
`m == IP6F_MORE_FRAG`; the result is the list of injected frames, the final
`fragbuffer` and the final `ptr`. -/
def fragLoop (linkhsize : Nat) (buffer : Mem) (fragpart ptrend fh startoffragment nfrags : Nat) :
    Nat → Nat → Bool → Mem → Except Stop (List Frame × Mem × Nat)
  | 0, ptr, more, fb =>
    if ptr < ptrend ∧ more = true then .error .outOfFuel else .ok ([], fb, ptr)
  | fuel + 1, ptr, more, fb =>
    if ptr < ptrend ∧ more = true then
      let last : Bool := decide (ptrend - ptr ≤ nfrags)
      let fragsize := if last then ptrend - ptr else roundFragSize nfrags
      let m : Bool := !last
      let fb1 := memcpy fb startoffragment buffer ptr fragsize
      let fb2 := pokeU16be fb1 (fh + 2) (offlgValue (ptr - fragpart) m)
      let fptr := startoffragment + fragsize
      let fb3 := pokeU16be fb2 (linkhsize + 4) ((fptr - MIN_IPV6_HLEN - linkhsize) % 65536)
      match fragLoop linkhsize buffer fragpart ptrend fh startoffragment nfrags fuel
          (ptr + fragsize) m fb3 with
      | .error e => .error e
      | .ok (fs, fbEnd, ptrEnd) => .ok ({ data := fb3, len := fptr } :: fs, fbEnd, ptrEnd)
    else .ok ([], fb, ptr)

/-- The four bytes of `fh->ip6f_ident = random()` as they lie in memory
(little-endian host). -/
def identBytes (ident : Nat) : List Nat :=
  [ident % 256, ident / 256 % 256, ident / 65536 % 256, ident / 16777216 % 256]

/-- The `else` branch of `if (!idata->fragh_f)` in send_packet.
`FRAG_BUFFER_SIZE` is the size of `fragbuffer` (a constant of a header that is
not at hand), `ident` the value returned by `random()`.  The loop gets as much
fuel as there are bytes to send.  The result is the list of injected frames and
the variables as the loop leaves them (`nfrags` possibly clipped).
send_packet_to_ns (lines 1490-1546) holds the same statements, returning
FAILURE where send_packet exits. -/
def fragment_path (FRAG_BUFFER_SIZE : Nat) (idata : IfaceData) (g : Globals) (ident : Nat) :
    Except Stop (List Frame × Globals) :=
  let ptrend := g.ptr
  let fb1 := memcpy g.fragbuffer 0 g.buffer 0 g.fragpart
  let fptr := g.fragpart
  if fptr + FRAG_HDR_SIZE > FRAG_BUFFER_SIZE then .error .exitFailure
  else
    let fb2 := memcpy fb1 fptr g.fraghdr 0 FRAG_HDR_SIZE
    let fh := fptr
    let fb3 := pokeBytes fb2 (fh + 4) 4 (identBytes ident)
    let startoffragment := fptr + FRAG_HDR_SIZE
    let nfrags := if g.nfrags > FRAG_BUFFER_SIZE - fptr then FRAG_BUFFER_SIZE - fptr else g.nfrags
    match fragLoop idata.linkhsize g.buffer g.fragpart ptrend fh startoffragment nfrags
        (ptrend - g.fragpart + 1) g.fragpart true fb3 with
    | .error e => .error e
    | .ok (fs, fbEnd, ptrEnd) =>
      .ok (fs, { g with fragbuffer := fbEnd, nfrags := nfrags, ptr := ptrEnd })

/-- The decoded offset/flags field of a fragment whose Fragment Header lies at
`fh`: bytes `fh + 2` and `fh + 3` as a big-endian number. -/
def Frame.offlg (f : Frame) (fh : Nat) : Nat := f.data (fh + 2) * 256 + f.data (fh + 3)

/-- The fragment offset in bytes that a fragment carries (13 high bits). -/
def Frame.fragOffset (f : Frame) (fh : Nat) : Nat := f.offlg fh / 8 * 8

/-- The more-fragments flag of a fragment (lowest bit of the field). -/
def Frame.moreFrag (f : Frame) (fh : Nat) : Bool := decide (f.offlg fh % 2 = 1)

/-- The chunk a fragment carries: the bytes after its Fragment Header. -/
def Frame.chunk (f : Frame) (fh : Nat) : List Nat :=
  readBytes f.data (fh + FRAG_HDR_SIZE) (f.len - (fh + FRAG_HDR_SIZE))

/-- The identification field of a fragment. -/
def Frame.ident (f : Frame) (fh : Nat) : List Nat := readBytes f.data (fh + 4) 4

/-- The IPv6 payload-length field of a frame. -/
def Frame.plen (f : Frame) (linkhsize : Nat) : Nat :=
  f.data (linkhsize + 4) * 256 + f.data (linkhsize + 5)

/-! ## Listen mode: the filter decision (main, lines 817-925) -/

/-- The filter lists of `struct filters`: each list holds the entries below the
corresponding counter (`nblocksrc`, ...); an IPv6 entry is an address with its
prefix length (`blocksrc[i]`, `blocksrclen[i]`). -/
structure Filters where
  blocklinksrc : List (List Nat)
  blocklinkdst : List (List Nat)
  blocksrc : List (List Nat × Nat)
  blockdst : List (List Nat × Nat)
  blocktarget : List (List Nat × Nat)
  acceptlinksrc : List (List Nat)
  acceptlinkdst : List (List Nat)
  acceptsrc : List (List Nat × Nat)
  acceptdst : List (List Nat × Nat)
  accepttarget : List (List Nat × Nat)
  acceptfilters_f : Bool

/-- Modelled from the spec: `sanitize_ipv6_prefix` is defined in libipv6, which
is not part of the sources at hand.  The host bits beyond the prefix length are
zeroed; the address is 16 bytes. -/
def sanitize_ipv6_prefix (a : List Nat) (len : Nat) : List Nat :=
  (List.range 16).map (fun i =>
    let b := a.getD i 0 % 256
    if 8 * (i + 1) ≤ len then b
    else if len ≤ 8 * i then 0
    else b / 2 ^ (8 * (i + 1) - len) * 2 ^ (8 * (i + 1) - len))

/-- Modelled from the spec: `match_ipv6` is defined in libipv6, which is not
part of the sources at hand.  A candidate matches a stored (prefix, length)
pair when the stored address equals the candidate masked to that length. -/
def match_ipv6 (prefixes : List (List Nat × Nat)) (addr : List Nat) : Bool :=
  prefixes.any (fun p => decide ( sanitize_ipv6_prefix addr p.2 = p.1))

/-- Modelled from the spec: `match_ether` is defined in libipv6, which is not
part of the sources at hand.  Matching a link-layer entry is exact 48-bit
equality. -/
def match_ether (addrs : List (List Nat)) (addr : List Nat) : Bool :=
  addrs.any (fun a => decide (a = addr))

/-- What the listen loop does with one captured frame. -/
inductive Verdict where
  | discarded
  | blocked
  | accepted
  deriving DecidableEq, Repr

/-- The fields of a captured frame that the listen loop reads through
`pkt_ether`, `pkt_ipv6` and `pkt_ns`. -/
def pktEtherSrc (pktdata : Mem) : List Nat := readBytes pktdata 6 ETH_ALEN
def pktEtherDst (pktdata : Mem) : List Nat := readBytes pktdata 0 ETH_ALEN
def pktIp6Src (idata : IfaceData) (pktdata : Mem) : List Nat :=
  readBytes pktdata (idata.linkhsize + 8) 16
def pktIp6Dst (idata : IfaceData) (pktdata : Mem) : List Nat :=
  readBytes pktdata (idata.linkhsize + 24) 16
def pktTarget (idata : IfaceData) (pktdata : Mem) : List Nat :=
  readBytes pktdata (idata.linkhsize + MIN_IPV6_HLEN + 8) 16

/-- The test of lines 825-827: the frame is an ICMPv6 Neighbor Solicitation
with code 0. -/
def isNS (idata : IfaceData) (pktdata : Mem) : Bool :=
  decide (pktdata (idata.linkhsize + 6) = IPPROTO_ICMPV6) &&
  decide (pktdata (idata.linkhsize + MIN_IPV6_HLEN) = ND_NEIGHBOR_SOLICIT) &&
  decide (pktdata (idata.linkhsize + MIN_IPV6_HLEN + 1) = 0)

/-- The condition `idata.type == DLT_EN10MB && !(idata.flags & IFACE_LOOPBACK)`. -/
def linkFiltersApply (idata : IfaceData) : Bool :=
  decide (idata.type = DLT_EN10MB) && !idata.loopback

/-- The value of `accepted_f` after the accept filters (lines 881-909). -/
def acceptedFlag (idata : IfaceData) (flt : Filters) (pktdata : Mem) : Bool :=
  let a0 := false
  let a1 :=
    if linkFiltersApply idata ∧ flt.acceptlinksrc.length ≠ 0 ∧
        match_ether flt.acceptlinksrc (pktEtherSrc pktdata) = true then true else a0
  let a2 :=
    if linkFiltersApply idata ∧ (flt.acceptlinkdst.length ≠ 0 ∧ a1 = false) ∧
        match_ether flt.acceptlinkdst (pktEtherDst pktdata) = true then true else a1
  let a3 :=
    if (flt.acceptsrc.length ≠ 0 ∧ a2 = false) ∧
        match_ipv6 flt.acceptsrc (pktIp6Src idata pktdata) = true then true else a2
  let a4 :=
    if (flt.acceptdst.length ≠ 0 ∧ a3 = false) ∧
        match_ipv6 flt.acceptdst (pktIp6Dst idata pktdata) = true then true else a3
  if (flt.accepttarget.length ≠ 0 ∧ a4 = false) ∧
      match_ipv6 flt.accepttarget (pktTarget idata pktdata) = true then true else a4

/-- The body of the listen loop for one captured frame, up to the call of
send_packet_to_ns: a reply is sent exactly when the verdict is `accepted`;
every `continue` gives `discarded` (not a Neighbor Solicitation) or `blocked`. -/
def listen_filter (idata : IfaceData) (flt : Filters) (pktdata : Mem) : Verdict :=
  if isNS idata pktdata = false then .discarded
  else if linkFiltersApply idata ∧ flt.blocklinksrc.length ≠ 0 ∧
      match_ether flt.blocklinksrc (pktEtherSrc pktdata) = true then .blocked
  else if linkFiltersApply idata ∧ flt.blocklinkdst.length ≠ 0 ∧
      match_ether flt.blocklinkdst (pktEtherDst pktdata) = true then .blocked
  else if flt.blocksrc.length ≠ 0 ∧
      match_ipv6 flt.blocksrc (pktIp6Src idata pktdata) = true then .blocked
  else if flt.blockdst.length ≠ 0 ∧
      match_ipv6 flt.blockdst (pktIp6Dst idata pktdata) = true then .blocked
  else if flt.blocktarget.length ≠ 0 ∧
      match_ipv6 flt.blocktarget (pktTarget idata pktdata) = true then .blocked
  else if flt.acceptfilters_f = true ∧ acceptedFlag idata flt pktdata = false then .blocked
  else .accepted

/-! ## The next-header chain of the template -/

/-- The offsets at which consecutive headers start when the first one is placed
at `p`: each header advances the cursor by its entry of the length table, as
`ptr = ptr + hdrlen[i]` does. -/
def hdrStarts : Nat → List ExtHdr → List Nat
  | _, [] => []
  | p, e :: rest => p :: hdrStarts (p + e.len) rest

/-- The sum of the recorded lengths of a list of headers. -/
def totalLen : List ExtHdr → Nat
  | [] => 0
  | e :: rest => e.len + totalLen rest

/-- The headers of one class as chain items: the protocol number of the class
and the place of each header's own next-header byte (its first byte). -/
def segItems (proto : Nat) (starts : List Nat) : List (Nat × NhPtr) :=
  starts.map (fun s => (proto, NhPtr.inBuffer s))

/-- The extension headers of the template in the order init_packet_data lays
them out, each with its protocol number and the place of its next-header byte:
Hop-by-Hop headers, unfragmentable Destination Options headers, the Fragment
Header record when fragmentation is enabled, fragmentable Destination Options
headers. -/
def chainOf (idata : IfaceData) (g : Globals) : List (Nat × NhPtr) :=
  let p0 := idata.linkhsize + MIN_IPV6_HLEN
  let hs := activeHdrs g.hbhopt
  let us := activeHdrs g.dstoptu
  let ds := activeHdrs g.dstopt
  segItems IPPROTO_HOPOPTS (hdrStarts p0 hs) ++
  segItems IPPROTO_DSTOPTS (hdrStarts (p0 + totalLen hs) us) ++
  (if idata.fragh_f then [(IPPROTO_FRAGMENT, NhPtr.inFraghdr)] else []) ++
  segItems IPPROTO_DSTOPTS (hdrStarts (p0 + totalLen hs + totalLen us) ds)

/-- Walking the chain: the next-header byte at `q` holds the protocol number of
the first item, whose own next-header byte leads to the rest; the byte of the
last header holds `final`. -/
def ChainFrom (g : Globals) : NhPtr → List (Nat × NhPtr) → Nat → Prop
  | q, [], final => loadNh g q = final
  | q, (p, loc) :: rest, final => loadNh g q = p ∧ ChainFrom g loc rest final

/-- The configured headers with the offsets at which the template holds them:
the three classes in layout order (the Fragment Header takes no room in the
template). -/
def placedHdrs (idata : IfaceData) (g : Globals) : List (Nat × ExtHdr) :=
  let all := activeHdrs g.hbhopt ++ activeHdrs g.dstoptu ++ activeHdrs g.dstopt
  List.zip (hdrStarts (idata.linkhsize + MIN_IPV6_HLEN) all) all

/-- The protocol numbers met when walking from `q`: each next-header byte read
on the way, the walk ending after the byte of the last item. -/
def walkProtos (g : Globals) : NhPtr → List (Nat × NhPtr) → List Nat
  | q, [] => [loadNh g q]
  | q, (_, loc) :: rest => loadNh g q :: walkProtos g loc rest

/-! ## Invariants and round-by-round descriptions used in the proofs -/

/-- A place whose byte later steps of the construction leave alone: it is not
the pending next-header byte, it lies before the write cursor, and the Fragment
Header record counts only once it is part of the chain (`live`). -/
def FrozenLoc (live : Bool) (g : Globals) (l : NhPtr) : Prop :=
  l ≠ g.prev_nh ∧ (∀ off, l = NhPtr.inBuffer off → off < g.ptr) ∧
    (l = NhPtr.inFraghdr → live = true)

/-- The links of a chain except the pending last one, each on a frozen place. -/
def OpenFz (live : Bool) (g : Globals) : NhPtr → List (Nat × NhPtr) → Prop
  | _, [] => True
  | q, (p, loc) :: rest => loadNh g q = p ∧ FrozenLoc live g q ∧ OpenFz live g loc rest

/-- The place of the last next-header byte of a chain that starts at `q`. -/
def endOf : NhPtr → List (Nat × NhPtr) → NhPtr
  | q, [] => q
  | _, (_, loc) :: rest => endOf loc rest

/-- The headers copied so far lie unchanged (but for their first byte) on frozen
offsets. -/
def PlacedFz (g : Globals) (placed : List (Nat × ExtHdr)) : Prop :=
  ∀ x ∈ placed, ∀ k, 1 ≤ k → k < x.2.len →
    g.buffer (x.1 + k) = x.2.mem k ∧ x.1 + k < g.ptr ∧ g.prev_nh ≠ NhPtr.inBuffer (x.1 + k)

/-- The invariant of the construction after the headers `items` were appended. -/
structure BuildInv (live : Bool) (g : Globals) (q0 : NhPtr) (items : List (Nat × NhPtr))
    (placed : List (Nat × ExtHdr)) : Prop where
  links : OpenFz live g q0 items
  pend : g.prev_nh = endOf q0 items
  wf : ∀ off, g.prev_nh = NhPtr.inBuffer off → off < g.ptr
  held : PlacedFz g placed

/-- The state after one round of a header loop. -/
def stepHdr (proto : Nat) (e : ExtHdr) (g : Globals) : Globals :=
  { storeNh g proto with
      prev_nh := NhPtr.inBuffer g.ptr,
      buffer := memcpy (storeNh g proto).buffer g.ptr e.mem 0 e.len,
      ptr := g.ptr + e.len }

/-- The configuration that the construction reads and never writes. -/
def SameConfig (g g1 : Globals) : Prop :=
  g1.hbhopt = g.hbhopt ∧ g1.dstoptu = g.dstoptu ∧ g1.dstopt = g.dstopt ∧ g1.nfrags = g.nfrags ∧
    g1.targetaddr = g.targetaddr ∧ g1.linkaddr = g.linkaddr ∧ g1.sllopt_f = g.sllopt_f ∧
    g1.sllopta_f = g.sllopta_f ∧ g1.hoplimit = g.hoplimit ∧ g1.fragpart = g.fragpart

/-- Every configured header that takes part in the construction has a positive
recorded length (the options `-u`, `-U`, `-H` record at least 8). -/
def HdrLensPositive (g : Globals) : Prop :=
  (∀ e ∈ activeHdrs g.hbhopt, 0 < e.len) ∧ (∀ e ∈ activeHdrs g.dstoptu, 0 < e.len) ∧
    (∀ e ∈ activeHdrs g.dstopt, 0 < e.len)

/-- The frames that the fragment loop emits from `ptr` on, described round by
round: the relation that `fragLoop` computes. -/
def FragsSpec (linkhsize : Nat) (buffer : Mem)
    (fragpart ptrend fh startoffragment nfrags : Nat) : Nat → Bool → Mem → List Frame → Prop
  | ptr, more, _, [] => ¬ (ptr < ptrend ∧ more = true)
  | ptr, more, fb, f :: rest =>
    (ptr < ptrend ∧ more = true) ∧
    f = { data := pokeU16be
            (pokeU16be
              (memcpy fb startoffragment buffer ptr
                (if ptrend - ptr ≤ nfrags then ptrend - ptr else roundFragSize nfrags))
              (fh + 2) (offlgValue (ptr - fragpart) (!decide (ptrend - ptr ≤ nfrags))))
            (linkhsize + 4)
            ((startoffragment +
                (if ptrend - ptr ≤ nfrags then ptrend - ptr else roundFragSize nfrags) -
              MIN_IPV6_HLEN - linkhsize) % 65536),
          len := startoffragment +
            (if ptrend - ptr ≤ nfrags then ptrend - ptr else roundFragSize nfrags) } ∧
    FragsSpec linkhsize buffer fragpart ptrend fh startoffragment nfrags
      (ptr + (if ptrend - ptr ≤ nfrags then ptrend - ptr else roundFragSize nfrags))
      (!decide (ptrend - ptr ≤ nfrags)) f.data rest

/-- The number of bytes of the fragmentable part that a fragment carries. -/
def Frame.chunkLen (f : Frame) (fh : Nat) : Nat := f.len - (fh + FRAG_HDR_SIZE)

/-- Offsets of successive fragments: the first is `o`, each is a multiple of 8,
every fragment carries at least one byte, and the next offset is the previous
one plus the bytes carried. -/
def OffsetsFrom (fh : Nat) : Nat → List Frame → Prop
  | _, [] => True
  | o, f :: rest =>
    f.fragOffset fh = o ∧ 8 ∣ o ∧ 0 < f.chunkLen fh ∧ OffsetsFrom fh (o + f.chunkLen fh) rest

/-- The value of `nfrags` after the clipping of lines 1313-1314. -/
def clipNfrags (FRAG_BUFFER_SIZE : Nat) (g : Globals) : Nat :=
  if g.nfrags > FRAG_BUFFER_SIZE - g.fragpart then FRAG_BUFFER_SIZE - g.fragpart else g.nfrags

/-- The contents of `fragbuffer` when the fragment loop starts: the
unfragmentable part, then the prepared Fragment Header with the identification
filled in. -/
def fragStart (g : Globals) (ident : Nat) : Mem :=
  pokeBytes
    (memcpy (memcpy g.fragbuffer 0 g.buffer 0 g.fragpart) g.fragpart g.fraghdr 0 FRAG_HDR_SIZE)
    (g.fragpart + 4) 4 (identBytes ident)

/-- The frame emitted by one round of the fragment loop. -/
def roundFrame (lh : Nat) (buf : Mem) (fp fh sof ptr fragsize : Nat) (m : Bool) (fb : Mem) : Frame :=
  { data := pokeU16be
      (pokeU16be (memcpy fb sof buf ptr fragsize) (fh + 2) (offlgValue (ptr - fp) m))
      (lh + 4) ((sof + fragsize - MIN_IPV6_HLEN - lh) % 65536),
    len := sof + fragsize }

/-! ## Concrete configurations used to exercise the theorems -/

/-- Whether a run produced a result. -/
def isOk {α : Type} : Except Stop α → Bool
  | .ok _ => true
  | .error _ => false

/-- An 8-byte options header as `-u 8`, `-U 8` or `-H 8` builds it: a Pad-N
option with four bytes of data. -/
def hdr8 : ExtHdr :=
  { size := 8, mem := fun i => if i = 2 then 1 else if i = 3 then 4 else 0, len := 8 }

/-- An Ethernet interface with a 1500-byte MTU, fragmentation enabled. -/
def ethFrag : IfaceData :=
  { type := DLT_EN10MB, loopback := false, linkhsize := 14, mtu := 1500,
    max_packet_size := 65535, fragh_f := true,
    srcaddr := [0xfe, 0x80, 0, 0, 0, 0, 0, 0, 0, 0, 0, 0, 0, 0, 0, 2],
    dstaddr := [0xff, 0x02, 0, 0, 0, 0, 0, 0, 0, 0, 0, 0, 0, 0, 0, 1],
    hsrcaddr := [2, 0, 0, 0, 0, 1], hdstaddr := [0x33, 0x33, 0, 0, 0, 1],
    srcaddr_f := true, hsrcaddr_f := true, srcpreflen := 128 }

/-- File-scope variables before init_packet_data: no extension header, no
link-layer address option, fragment size `nfrags`. -/
def plainGlobals (nfrags : Nat) : Globals :=
  { buffer := fun _ => 0, fragbuffer := fun _ => 0, fraghdr := fun _ => 0, hoplimit := 255,
    targetaddr := [0xfe, 0x80, 0, 0, 0, 0, 0, 0, 0, 0, 0, 0, 0, 0, 0, 1],
    linkaddr := [], sllopt_f := false, sllopta_f := false,
    hbhopt := { hdrs := [], flag := false }, dstoptu := { hdrs := [], flag := false },
    dstopt := { hdrs := [], flag := false }, nfrags := nfrags, ptr := 0,
    prev_nh := NhPtr.inBuffer 0, fragpart := 0, ns := 0, sllaopt := 0, startofprefixes := 0 }

/-- One header of each class (`-H 8 -U 8 -u 8`) with `-y 8`. -/
def oneOfEach : Globals :=
  { plainGlobals 8 with
    hbhopt := { hdrs := [hdr8], flag := true },
    dstoptu := { hdrs := [hdr8], flag := true },
    dstopt := { hdrs := [hdr8], flag := true } }

/-- One fragmentable Destination Options header (`-u 8`) with `-y 8`. -/
def oneDstOpt : Globals :=
  { plainGlobals 8 with dstopt := { hdrs := [hdr8], flag := true } }

/-- The template that init_packet_data builds (the variables unchanged when it
stops with a failure). -/
def templ (idata : IfaceData) (g : Globals) : Globals :=
  match init_packet_data idata g with
  | .ok g1 => g1
  | .error _ => g

/-- A single link-layer address option (`-e` with the source address, or one
`-E`) and fragment size `nfrags`: the fragmentable part is the 24-byte
Neighbor Solicitation header and one 8-byte option. -/
def sllaGlobals (nfrags : Nat) : Globals :=
  { plainGlobals nfrags with sllopt_f := true, linkaddr := [[2, 0, 0, 0, 0, 1]] }

/-- A 1432-byte fragmentable Destination Options header (`-u 1432`) with
`-y 1452`: the whole packet has 40 + 1432 + 24 = 1496 bytes. -/
def bigDstOpt : Globals :=
  { plainGlobals 1452 with
    dstopt := { hdrs := [{ size := 1432, mem := fun i => if i = 1 then 178 else 0, len := 1432 }],
                flag := true } }

/-- The Ethernet interface with the largest packet size equal to the MTU. -/
def ethFragTight : IfaceData := { ethFrag with max_packet_size := 1500 }

/-- A size for `fragbuffer`: link header, IPv6 header and the largest payload. -/
def demoFragBufferSize : Nat := 65589

/-- For each injected fragment: the offset and the more-fragments flag it
carries, the number of payload bytes, and the length of the frame. -/
def pathSummary (fh : Nat) : Except Stop (List Frame × Globals) → Option (List (Nat × Bool × Nat × Nat))
  | .ok (frames, _) =>
    some (frames.map (fun f => (f.fragOffset fh, f.moreFrag fh, f.chunkLen fh, f.len)))
  | .error _ => none

/-- An Ethernet-type loopback interface (`DLT_EN10MB` with `IFACE_LOOPBACK`). -/
def loopbackEth : IfaceData := { ethFrag with loopback := true, fragh_f := false }

/-- A filter set whose only entry blocks the link-layer source address
00:00:00:00:00:00 (`-J 00:00:00:00:00:00`). -/
def blockZeroLinkSrc : Filters :=
  { blocklinksrc := [[0, 0, 0, 0, 0, 0]], blocklinkdst := [], blocksrc := [], blockdst := [],
    blocktarget := [], acceptlinksrc := [], acceptlinkdst := [], acceptsrc := [],
    acceptdst := [], accepttarget := [], acceptfilters_f := false }

/-- A captured Neighbor Solicitation behind a 14-byte link header whose other
bytes (link-layer addresses included) are zero. -/
def zeroNS : Mem :=
  fun i => if i = 20 then IPPROTO_ICMPV6 else if i = 54 then ND_NEIGHBOR_SOLICIT else 0

/-! ## Filter options `-j -k -J -K -b -g -B -G -w -W` (main, lines 456-711) -/

/-- The limits of the filter tables: constants of a header that is not at hand. -/
structure FilterLimits where
  MAX_BLOCK_SRC : Nat
  MAX_BLOCK_DST : Nat
  MAX_BLOCK_LINK_SRC : Nat
  MAX_BLOCK_LINK_DST : Nat
  MAX_BLOCK_TARGET : Nat
  MAX_ACCEPT_SRC : Nat
  MAX_ACCEPT_DST : Nat
  MAX_ACCEPT_LINK_SRC : Nat
  MAX_ACCEPT_LINK_DST : Nat
  MAX_ACCEPT_TARGET : Nat

/-- One filter option with what the library calls make of its argument: the
address that `inet_pton` or `ether_pton` delivers (`none` when the argument is
rejected) and, for an IPv6 filter, the value stored in the length table by
`len[n] = atoi(...)` (`none` when the argument has no `/len` part). -/
inductive FilterOpt where
  | j (addr : Option (List Nat)) (len : Option Nat)
  | k (addr : Option (List Nat)) (len : Option Nat)
  | J (addr : Option (List Nat))
  | K (addr : Option (List Nat))
  | b (addr : Option (List Nat)) (len : Option Nat)
  | g (addr : Option (List Nat)) (len : Option Nat)
  | B (addr : Option (List Nat))
  | G (addr : Option (List Nat))
  | w (addr : Option (List Nat)) (len : Option Nat)
  | W (addr : Option (List Nat)) (len : Option Nat)

/-- The entry an IPv6 filter option stores: the parsed address sanitized to the
prefix length, which defaults to 128 and must not exceed 128. -/
def ipv6FilterEntry (addr : Option (List Nat)) (len : Option Nat) :
    Except Stop (List Nat × Nat) :=
  match addr with
  | none => .error .exitFailure
  | some a =>
    let l := match len with
      | none => 128
      | some n => n
    if l > 128 then .error .exitFailure
    else .ok ( sanitize_ipv6_prefix a l, l)

/-- The entry a link-layer filter option stores. -/
def linkFilterEntry (addr : Option (List Nat)) : Except Stop (List Nat) :=
  match addr with
  | none => .error .exitFailure
  | some a => .ok a

/-- One filter option case of main.  The test of the counter against its limit
is `>=` in cases `j`, `k`, `W` and `>` in the others, as in the source; every
accept option sets `acceptfilters_f`. -/
def filter_option (lim : FilterLimits) (flt : Filters) : FilterOpt → Except Stop Filters
  | .j addr len =>
    if flt.blocksrc.length ≥ lim.MAX_BLOCK_SRC then .error .exitFailure
    else match ipv6FilterEntry addr len with
      | .error e => .error e
      | .ok p => .ok { flt with blocksrc := flt.blocksrc ++ [p] }
  | .k addr len =>
    if flt.blockdst.length ≥ lim.MAX_BLOCK_DST then .error .exitFailure
    else match ipv6FilterEntry addr len with
      | .error e => .error e
      | .ok p => .ok { flt with blockdst := flt.blockdst ++ [p] }
  | .J addr =>
    if flt.blocklinksrc.length > lim.MAX_BLOCK_LINK_SRC then .error .exitFailure
    else match linkFilterEntry addr with
      | .error e => .error e
      | .ok a => .ok { flt with blocklinksrc := flt.blocklinksrc ++ [a] }
  | .K addr =>
    if flt.blocklinkdst.length > lim.MAX_BLOCK_LINK_DST then .error .exitFailure
    else match linkFilterEntry addr with
      | .error e => .error e
      | .ok a => .ok { flt with blocklinkdst := flt.blocklinkdst ++ [a] }
  | .b addr len =>
    if flt.acceptsrc.length > lim.MAX_ACCEPT_SRC then .error .exitFailure
    else match ipv6FilterEntry addr len with
      | .error e => .error e
      | .ok p => .ok { flt with acceptsrc := flt.acceptsrc ++ [p], acceptfilters_f := true }
  | .g addr len =>
    if flt.acceptdst.length > lim.MAX_ACCEPT_DST then .error .exitFailure
    else match ipv6FilterEntry addr len with
      | .error e => .error e
      | .ok p => .ok { flt with acceptdst := flt.acceptdst ++ [p], acceptfilters_f := true }
  | .B addr =>
    if flt.acceptlinksrc.length > lim.MAX_ACCEPT_LINK_SRC then .error .exitFailure
    else match linkFilterEntry addr with
      | .error e => .error e
      | .ok a => .ok { flt with acceptlinksrc := flt.acceptlinksrc ++ [a], acceptfilters_f := true }
  | .G addr =>
    if flt.acceptlinkdst.length > lim.MAX_ACCEPT_LINK_DST then .error .exitFailure
    else match linkFilterEntry addr with
      | .error e => .error e
      | .ok a => .ok { flt with acceptlinkdst := flt.acceptlinkdst ++ [a], acceptfilters_f := true }
  | .w addr len =>
    if flt.blocktarget.length > lim.MAX_BLOCK_TARGET then .error .exitFailure
    else match ipv6FilterEntry addr len with
      | .error e => .error e
      | .ok p => .ok { flt with blocktarget := flt.blocktarget ++ [p] }
  | .W addr len =>
    if flt.accepttarget.length ≥ lim.MAX_ACCEPT_TARGET then .error .exitFailure
    else match ipv6FilterEntry addr len with
      | .error e => .error e
      | .ok p => .ok { flt with accepttarget := flt.accepttarget ++ [p], acceptfilters_f := true }

/-- The filter structure before any option: no entry, `acceptfilters_f` clear. -/
def noFilters : Filters :=
  { blocklinksrc := [], blocklinkdst := [], blocksrc := [], blockdst := [], blocktarget := [],
    acceptlinksrc := [], acceptlinkdst := [], acceptsrc := [], acceptdst := [],
    accepttarget := [], acceptfilters_f := false }

/-- The filter options of a command line, processed in order. -/
def filter_options (lim : FilterLimits) : List FilterOpt → Filters → Except Stop Filters
  | [], flt => .ok flt
  | o :: rest, flt =>
    match filter_option lim flt o with
    | .error e => .error e
    | .ok flt1 => filter_options lim rest flt1

/-- No accept filter of any kind is configured. -/
def NoAcceptFilters (flt : Filters) : Prop :=
  flt.acceptlinksrc = [] ∧ flt.acceptlinkdst = [] ∧ flt.acceptsrc = [] ∧ flt.acceptdst = [] ∧
    flt.accepttarget = []

/-- The frame matches no entry of any block list. -/
def MatchesNoBlock (idata : IfaceData) (flt : Filters) (pktdata : Mem) : Prop :=
  match_ether flt.blocklinksrc (pktEtherSrc pktdata) = false ∧
  match_ether flt.blocklinkdst (pktEtherDst pktdata) = false ∧
  match_ipv6 flt.blocksrc (pktIp6Src idata pktdata) = false ∧
  match_ipv6 flt.blockdst (pktIp6Dst idata pktdata) = false ∧
  match_ipv6 flt.blocktarget (pktTarget idata pktdata) = false

/-- Limits of 16 entries per table. -/
def demoFilterLimits : FilterLimits :=
  { MAX_BLOCK_SRC := 16, MAX_BLOCK_DST := 16, MAX_BLOCK_LINK_SRC := 16, MAX_BLOCK_LINK_DST := 16,
    MAX_BLOCK_TARGET := 16, MAX_ACCEPT_SRC := 16, MAX_ACCEPT_DST := 16,
    MAX_ACCEPT_LINK_SRC := 16, MAX_ACCEPT_LINK_DST := 16, MAX_ACCEPT_TARGET := 16 }

/-- The filter set of `-B 00:00:00:00:00:00`. -/
def acceptZeroLinkSrc : Filters :=
  { noFilters with acceptlinksrc := [[0, 0, 0, 0, 0, 0]], acceptfilters_f := true }

/-- The captured Neighbor Solicitation `zeroNS` with other link-layer addresses
(the first twelve bytes set to 0xaa). -/
def zeroNSOtherLink : Mem := fun i => if i < 12 then 0xaa else zeroNS i

/-- The flag `acceptfilters_f` is set exactly when some accept list has an entry. -/
def AcceptFlagInv (flt : Filters) : Prop :=
  flt.acceptfilters_f = true ↔ ¬ NoAcceptFilters flt

/-! ## The flood controller: send_packet (lines 1219-1358) -/

/-- The file-scope variables that drive flooding, as main leaves them. -/
structure FloodVars where
  floods_f : Bool
  floodt_f : Bool
  nsources : Nat
  ntargets : Nat
  targetpreflen : Nat

/-- The random draws of a run: the bytes behind the k-th call of
`randomize_ipv6_addr`, the address of the k-th call of `randomize_ether_addr`,
and the value of the k-th call of `random()` for a fragment identification. -/
structure Oracle where
  ipv6 : Nat → List Nat
  ether : Nat → List Nat
  ident : Nat → Nat

/-- The variables that the send functions change: the packet variables, the
number of draws made so far, and the flag `multicastdst_f`. -/
structure SendSt where
  g : Globals
  nipv6 : Nat
  nether : Nat
  nident : Nat
  multicastdst_f : Bool

/-- One datagram handed to the link: the packet buffer and its length when the
checksum has been stored, the frames injected for it (the datagram itself with
its payload length, or its fragments), and the values of `sources` and
`targets` at that time. -/
structure Sent where
  datagram : Frame
  frames : List Frame
  sources : Nat
  targets : Nat

/-- Modelled from the spec: `randomize_ipv6_addr` is defined in libipv6, which
is not part of the sources at hand.  The result lies within the prefix: the
first `preflen` bits are those of `prefix`, the others are drawn. -/
def randomize_ipv6_addr (draw : List Nat) (pref : List Nat) (preflen : Nat) : List Nat :=
  (List.range 16).map (fun i =>
    let p := pref.getD i 0 % 256
    let x := draw.getD i 0 % 256
    if 8 * (i + 1) ≤ preflen then p
    else if preflen ≤ 8 * i then x
    else p / 2 ^ (8 * (i + 1) - preflen) * 2 ^ (8 * (i + 1) - preflen) +
      x % 2 ^ (8 * (i + 1) - preflen))

/-- Modelled from the spec: `in_chksum` is defined in libipv6, which is not part
of the sources at hand.  It is taken to be a function `cks` of the source and
destination addresses of the IPv6 header at `v6buffer`, of the `len` bytes at
`ns` and of the protocol number; its 16-bit result is stored as the number its
two bytes form in memory order. -/
def in_chksum (cks : List Nat → List Nat → List Nat → Nat → Nat) (buffer : Mem)
    (v6buffer ns len proto : Nat) : Nat :=
  cks (readBytes buffer (v6buffer + 8) 16) (readBytes buffer (v6buffer + 24) 16)
    (readBytes buffer ns len) proto

/-- The loop of lines 1263-1272 over the link-layer addresses not yet sent:
an option is appended while it fits below `max_packet_size`.  The result is the
packet variables, `linkaddrs` and `newdata_f`. -/
def fillOptions (idata : IfaceData) : List (List Nat) → Globals → Nat → Bool → Globals × Nat × Bool
  | [], g, linkaddrs, newdata => (g, linkaddrs, newdata)
  | a :: rest, g, linkaddrs, newdata =>
    if g.ptr + sizeof_nd_opt_slla - idata.linkhsize ≤ idata.max_packet_size then
      let b1 := poke g.buffer g.ptr ND_OPT_SOURCE_LINKADDR
      let b2 := poke b1 (g.ptr + 1) SLLA_OPT_LEN
      let b3 := pokeBytes b2 (g.ptr + 2) ETH_ALEN a
      fillOptions idata rest
        { g with buffer := b3, sllaopt := g.ptr, ptr := g.ptr + sizeof_nd_opt_slla }
        ((linkaddrs + 1) % U32) true
    else (g, linkaddrs, newdata)

/-- The buffer that lines 1274-1275 leave: `ns->nd_ns_cksum = 0;` followed by
`ns->nd_ns_cksum = in_chksum(v6buffer, ns, ptr - ns, IPPROTO_ICMPV6)`. -/
def storeChecksum (cks : List Nat → List Nat → List Nat → Nat → Nat) (idata : IfaceData)
    (g : Globals) : Mem :=
  let b1 := pokeU16be g.buffer (g.ns + 2) 0
  pokeU16be b1 (g.ns + 2) (in_chksum cks b1 idata.linkhsize g.ns (g.ptr - g.ns) IPPROTO_ICMPV6)

/-- Lines 1274-1347: the checksum is stored, then the datagram is injected with
its payload length, or handed to the fragment path. -/
def sendDatagram (cks : List Nat → List Nat → List Nat → Nat → Nat) (orc : Oracle) (FBS : Nat)
    (idata : IfaceData) (sources targets : Nat) (st : SendSt) : Except Stop (List Sent × SendSt) :=
  let g := st.g
  let b1 := pokeU16be g.buffer (g.ns + 2) 0
  let c := in_chksum cks b1 idata.linkhsize g.ns (g.ptr - g.ns) IPPROTO_ICMPV6
  let b2 := pokeU16be b1 (g.ns + 2) c
  if idata.fragh_f = false then
    let b3 := pokeU16be b2 (idata.linkhsize + 4)
      ((g.ptr - idata.linkhsize - MIN_IPV6_HLEN) % 65536)
    .ok ([{ datagram := { data := b2, len := g.ptr }, frames := [{ data := b3, len := g.ptr }],
            sources := sources, targets := targets }],
         { st with g := { g with buffer := b3 } })
  else
    match fragment_path FBS idata { g with buffer := b2 } (orc.ident st.nident) with
    | .error e => .error e
    | .ok (frames, g1) =>
      .ok ([{ datagram := { data := b2, len := g.ptr }, frames := frames,
              sources := sources, targets := targets }],
           { st with g := g1, nident := st.nident + 1 })

/-- One round of the loop `do { ... } while (linkaddrs < nlinkaddr && newdata_f)`:
the write cursor returns to `startofprefixes`, options are filled in, the
datagram is sent.  The result also gives `linkaddrs` and `newdata_f`. -/
def linkRound (cks : List Nat → List Nat → List Nat → Nat → Nat) (orc : Oracle) (FBS : Nat)
    (idata : IfaceData) (sources targets linkaddrs : Nat) (st : SendSt) :
    Except Stop ((List Sent × SendSt) × Nat × Bool) :=
  let g0 := { st.g with ptr := st.g.startofprefixes }
  let r := fillOptions idata (g0.linkaddr.drop linkaddrs) g0 linkaddrs false
  match sendDatagram cks orc FBS idata sources targets { st with g := r.1 } with
  | .error e => .error e
  | .ok res => .ok (res, r.2.1, r.2.2)

/-- The loop `do { ... } while (linkaddrs < nlinkaddr && newdata_f)`. -/
def linkLoop (cks : List Nat → List Nat → List Nat → Nat → Nat) (orc : Oracle) (FBS : Nat)
    (idata : IfaceData) (sources targets : Nat) :
    Nat → Nat → SendSt → Except Stop (List Sent × SendSt)
  | 0, _, _ => .error .outOfFuel
  | fuel + 1, linkaddrs, st =>
    match linkRound cks orc FBS idata sources targets linkaddrs st with
    | .error e => .error e
    | .ok ((out, st1), linkaddrs1, newdata) =>
      if linkaddrs1 < st1.g.linkaddr.length ∧ newdata = true then
        match linkLoop cks orc FBS idata sources targets fuel linkaddrs1 st1 with
        | .error e => .error e
        | .ok (out2, st2) => .ok (out ++ out2, st2)
      else .ok (out, st1)

/-- A loop `do { body; i++; } while (i < limit)` over an `unsigned int` counter. -/
def doWhile {σ : Type} (body : Nat → σ → Except Stop (List Sent × σ)) (limit : Nat) :
    Nat → Nat → σ → Except Stop (List Sent × σ)
  | 0, _, _ => .error .outOfFuel
  | fuel + 1, i, s =>
    match body i s with
    | .error e => .error e
    | .ok (out, s1) =>
      if (i + 1) % U32 < limit then
        match doWhile body limit fuel ((i + 1) % U32) s1 with
        | .error e => .error e
        | .ok (out2, s2) => .ok (out ++ out2, s2)
      else .ok (out, s1)

/-- The statement `randomize_ipv6_addr(&(ns->nd_ns_target), &targetaddr,
targetpreflen)`. -/
def randomizeTarget (orc : Oracle) (fl : FloodVars) (st : SendSt) : SendSt :=
  { st with
    g := { st.g with
           buffer := pokeBytes st.g.buffer (st.g.ns + 8) 16
             (randomize_ipv6_addr (orc.ipv6 st.nipv6) st.g.targetaddr fl.targetpreflen) },
    nipv6 := st.nipv6 + 1 }

/-- The body of the loop over targets.  `rt` tells whether the target is
randomized: `floodt_f` in send_packet, never in send_packet_to_ns, whose loop
has no such statement. -/
def targetBody (cks : List Nat → List Nat → List Nat → Nat → Nat) (orc : Oracle) (FBS : Nat)
    (idata : IfaceData) (fl : FloodVars) (rt : Bool) (sources targets : Nat) (st : SendSt) :
    Except Stop (List Sent × SendSt) :=
  let st1 := if rt = true then randomizeTarget orc fl st else st
  let linkaddrs := if st1.g.linkaddr.length = 1 then 1 else 0
  linkLoop cks orc FBS idata sources targets (st1.g.linkaddr.length + 1) linkaddrs st1

/-- The statement `randomize_ipv6_addr(&(ipv6->ip6_src), &(idata->srcaddr),
idata->srcpreflen)`. -/
def randomizeSrc (orc : Oracle) (idata : IfaceData) (st : SendSt) : SendSt :=
  { st with
    g := { st.g with
           buffer := pokeBytes st.g.buffer (idata.linkhsize + 8) 16
             (randomize_ipv6_addr (orc.ipv6 st.nipv6) idata.srcaddr idata.srcpreflen) },
    nipv6 := st.nipv6 + 1 }

/-- The statement `randomize_ether_addr(&(ethernet->src))`. -/
def randomizeEtherSrc (orc : Oracle) (st : SendSt) : SendSt :=
  { st with
    g := { st.g with buffer := pokeBytes st.g.buffer 6 ETH_ALEN (orc.ether st.nether) },
    nether := st.nether + 1 }

/-- The statement `memcpy(sllaopt->address, ethernet->src.a, ETH_ALEN)`. -/
def mirrorEtherSrc (st : SendSt) : SendSt :=
  { st with g := { st.g with buffer := memcpy st.g.buffer (st.g.sllaopt + 2) st.g.buffer 6 ETH_ALEN } }

/-- The per-source statements of send_packet (lines 1223-1241). -/
def floodSource (orc : Oracle) (idata : IfaceData) (fl : FloodVars) (st : SendSt) : SendSt :=
  if fl.floods_f = true then
    let st1 := randomizeSrc orc idata st
    if idata.hsrcaddr_f = false then
      let st2 := randomizeEtherSrc orc st1
      if st2.g.sllopt_f = true ∧ st2.g.sllopta_f = false then mirrorEtherSrc st2 else st2
    else st1
  else st

/-- The body of the loop over sources in send_packet. -/
def sourceBody (cks : List Nat → List Nat → List Nat → Nat → Nat) (orc : Oracle) (FBS : Nat)
    (idata : IfaceData) (fl : FloodVars) (sources : Nat) (st : SendSt) :
    Except Stop (List Sent × SendSt) :=
  doWhile (targetBody cks orc FBS idata fl fl.floodt_f sources) fl.ntargets (fl.ntargets + 1) 0
    (floodSource orc idata fl st)

/-- The function send_packet. -/
def send_packet (cks : List Nat → List Nat → List Nat → Nat → Nat) (orc : Oracle) (FBS : Nat)
    (idata : IfaceData) (fl : FloodVars) (st : SendSt) : Except Stop (List Sent × SendSt) :=
  doWhile (sourceBody cks orc FBS idata fl) fl.nsources (fl.nsources + 1) 0 st

/-! ## Listen mode: the reply to a Neighbor Solicitation (send_packet_to_ns, lines 1366-1557) -/

/-- The macro `IN6_IS_ADDR_UNSPECIFIED` of `<netinet/in.h>`: all bytes are zero. -/
def IN6_IS_ADDR_UNSPECIFIED (a : List Nat) : Bool := a.all (fun b => decide (b = 0))

/-- The macro `IN6_IS_ADDR_MULTICAST` of `<netinet/in.h>`: the first byte is 0xff. -/
def IN6_IS_ADDR_MULTICAST (a : List Nat) : Bool := decide (a.getD 0 0 = 0xff)

/-- The macro `IN6_IS_ADDR_LINKLOCAL` of `<netinet/in.h>`: the first ten bits
are those of fe80::/10. -/
def IN6_IS_ADDR_LINKLOCAL (a : List Nat) : Bool :=
  decide (a.getD 0 0 = 0xfe) && decide (a.getD 1 0 &&& 0xc0 = 0x80)

/-- The addresses that `inet_pton` and `ether_pton` give for the strings
`ALL_NODES_MULTICAST_ADDR` and `ETHER_ALLNODES_LINK_ADDR`, constants of a header
that is not at hand; both conversions are taken to succeed. -/
structure AllNodes where
  ALL_NODES_MULTICAST_ADDR : List Nat
  ETHER_ALLNODES_LINK_ADDR : List Nat

/-- Lines 1381-1397: the destination addresses of the reply, written into
`buffer`. -/
def replyDst (an : AllNodes) (idata : IfaceData) (pktdata : Mem) (buffer : Mem) : Mem :=
  if IN6_IS_ADDR_UNSPECIFIED (pktIp6Src idata pktdata) = true then
    pokeBytes (pokeBytes buffer (idata.linkhsize + 24) 16 an.ALL_NODES_MULTICAST_ADDR) 0 ETH_ALEN
      an.ETHER_ALLNODES_LINK_ADDR
  else
    memcpy (memcpy buffer (idata.linkhsize + 24) pktdata (idata.linkhsize + 8) 16) 0 pktdata 6
      ETH_ALEN

/-- Lines 1409-1424: the source addresses of the reply, written into `buffer`,
the value that `sources` starts from and the flag `multicastdst_f`. -/
def replySrc (idata : IfaceData) (fl : FloodVars) (pktdata : Mem) (buffer : Mem) :
    Mem × Nat × Bool :=
  if IN6_IS_ADDR_MULTICAST (pktIp6Dst idata pktdata) = true then
    let b2 :=
      if idata.srcaddr_f = false ∧ IN6_IS_ADDR_LINKLOCAL (pktTarget idata pktdata) = true then
        memcpy buffer (idata.linkhsize + 8) pktdata (idata.linkhsize + MIN_IPV6_HLEN + 8) 16
      else pokeBytes buffer (idata.linkhsize + 8) 16 idata.srcaddr
    (pokeBytes b2 6 ETH_ALEN idata.hsrcaddr, 0, true)
  else
    (memcpy (memcpy buffer (idata.linkhsize + 8) pktdata (idata.linkhsize + 24) 16) 6 pktdata 0
       ETH_ALEN, fl.nsources, false)

/-- Lines 1371-1426: the addresses and the target of the reply are taken from
the captured frame `pktdata`.  The result is the new state and the value that
`sources` starts from. -/
def replyAddressing (an : AllNodes) (idata : IfaceData) (fl : FloodVars) (pktdata : Mem)
    (st : SendSt) : SendSt × Nat :=
  let r := replySrc idata fl pktdata (replyDst an idata pktdata st.g.buffer)
  ({ st with
     g := { st.g with
            buffer := memcpy r.1 (st.g.ns + 8) pktdata (idata.linkhsize + MIN_IPV6_HLEN + 8) 16 },
     multicastdst_f := r.2.2 }, r.2.1)

/-- The per-source statements of send_packet_to_ns (lines 1429-1444); `pktNull`
stands for `pktdata == NULL`. -/
def floodSourceNS (orc : Oracle) (idata : IfaceData) (fl : FloodVars) (pktNull : Bool)
    (st : SendSt) : SendSt :=
  if fl.floods_f = true ∧ (pktNull = true ∨ st.multicastdst_f = true) then
    let st1 := randomizeSrc orc idata st
    let st2 := if idata.hsrcaddr_f = false then randomizeEtherSrc orc st1 else st1
    if st2.g.sllopt_f = true ∧ st2.g.sllopta_f = false then mirrorEtherSrc st2 else st2
  else st

/-- The body of the loop over sources in send_packet_to_ns. -/
def sourceBodyNS (cks : List Nat → List Nat → List Nat → Nat → Nat) (orc : Oracle) (FBS : Nat)
    (idata : IfaceData) (fl : FloodVars) (pktNull : Bool) (sources : Nat) (st : SendSt) :
    Except Stop (List Sent × SendSt) :=
  doWhile (targetBody cks orc FBS idata fl false sources) fl.ntargets (fl.ntargets + 1) 0
    (floodSourceNS orc idata fl pktNull st)

/-- The function send_packet_to_ns; `pktdata` is `none` for a NULL pointer.
`return (FAILURE)` is `Stop.exitFailure`: the caller exits on it. -/
def send_packet_to_ns (cks : List Nat → List Nat → List Nat → Nat → Nat) (orc : Oracle)
    (an : AllNodes) (FBS : Nat) (idata : IfaceData) (fl : FloodVars) (pktdata : Option Mem)
    (st : SendSt) : Except Stop (List Sent × SendSt) :=
  let start : SendSt × Nat :=
    match pktdata with
    | none => (st, 0)
    | some p => replyAddressing an idata fl p st
  doWhile (sourceBodyNS cks orc FBS idata fl pktdata.isNone) fl.nsources (fl.nsources + 1)
    start.2 start.1

/-- What the listen loop does with one captured frame (lines 817-925): the
reply is sent when the filters accept the frame, every `continue` sends
nothing and leaves the variables as they are. -/
def listen_step (cks : List Nat → List Nat → List Nat → Nat → Nat) (orc : Oracle)
    (an : AllNodes) (FBS : Nat) (idata : IfaceData) (fl : FloodVars) (flt : Filters)
    (pktdata : Mem) (st : SendSt) : Except Stop (List Sent × SendSt) :=
  match listen_filter idata flt pktdata with
  | .accepted => send_packet_to_ns cks orc an FBS idata fl (some pktdata) st
  | _ => .ok ([], st)

/-! ## Predicates used to state the properties of the send loops -/

/-- A list of `n` byte values. -/
def IsBytes (n : Nat) (l : List Nat) : Prop := l.length = n ∧ ∀ b ∈ l, b < 256

/-- The values of `sources` and `targets` a datagram was sent under. -/
def Sent.label (x : Sent) : Nat × Nat := (x.sources, x.targets)

/-- The order in which nested loops visit `ns` sources (outer loop) and `nt`
targets (inner loop). -/
def visitOrder (ns nt : Nat) : List (Nat × Nat) :=
  ((List.range ns).map (fun s => (List.range nt).map (fun t => (s, t)))).flatten

/-- What init_packet_data leaves in the pointers that the send functions rely
on: the fragmentable part starts behind the IPv6 header and not after the
Neighbor Solicitation header, the options start behind that header. -/
def Layout (idata : IfaceData) (g : Globals) : Prop :=
  idata.linkhsize + MIN_IPV6_HLEN ≤ g.fragpart ∧ g.fragpart ≤ g.ns ∧
  g.ns + sizeof_nd_neighbor_solicit ≤ g.startofprefixes ∧
  g.ns + sizeof_nd_neighbor_solicit ≤ g.sllaopt

/-- The offsets of `buffer` that the send loops leave alone: all bytes before
the options except the payload length and the checksum, the source addresses
when sources are randomized (`rs`) and the target when targets are (`rt`). -/
def Untouched (idata : IfaceData) (g : Globals) (rs rt : Bool) (i : Nat) : Prop :=
  i ≠ idata.linkhsize + 4 ∧ i ≠ idata.linkhsize + 5 ∧ i ≠ g.ns + 2 ∧ i ≠ g.ns + 3 ∧
  i < g.ns + sizeof_nd_neighbor_solicit ∧
  (rs = true → ¬ (idata.linkhsize + 8 ≤ i ∧ i < idata.linkhsize + 24) ∧ ¬ (6 ≤ i ∧ i < 12)) ∧
  (rt = true → i < g.ns + 8)

/-- The state `s` of a send function some way into a run that started in `s0`:
the layout is the same and the bytes that the loops leave alone are those of
`s0`. -/
def Kept (idata : IfaceData) (rs rt : Bool) (s0 s : SendSt) : Prop :=
  s.g.ns = s0.g.ns ∧ s.g.fragpart = s0.g.fragpart ∧
  s.g.startofprefixes = s0.g.startofprefixes ∧ s.multicastdst_f = s0.multicastdst_f ∧
  s0.g.ns + sizeof_nd_neighbor_solicit ≤ s.g.sllaopt ∧
  ∀ i, Untouched idata s0.g rs rt i → s.g.buffer i = s0.g.buffer i

/-- A datagram and its frames carry the bytes of `s0` wherever the loops leave
the buffer alone (for fragments: in the part before the Fragment Header). -/
def SentKeeps (idata : IfaceData) (rs rt : Bool) (s0 : SendSt) (x : Sent) : Prop :=
  (∀ i, Untouched idata s0.g rs rt i → x.datagram.data i = s0.g.buffer i) ∧
  ∀ f ∈ x.frames, ∀ i, Untouched idata s0.g rs rt i →
    (idata.fragh_f = false ∨ i < s0.g.fragpart) → f.data i = s0.g.buffer i

/-- The checksum equation of a datagram whose Neighbor Solicitation header lies
at `ns`: the two bytes of the checksum field hold the value that `cks` gives
for the source and destination addresses of the datagram and for the bytes from
`ns` to the end of the datagram with the checksum field set to zero. -/
def ChecksumOk (cks : List Nat → List Nat → List Nat → Nat → Nat) (linkhsize ns : Nat)
    (d : Frame) : Prop :=
  let c := cks (readBytes d.data (linkhsize + 8) 16) (readBytes d.data (linkhsize + 24) 16)
    (readBytes (pokeU16be d.data (ns + 2) 0) ns (d.len - ns)) IPPROTO_ICMPV6
  d.data (ns + 2) = c / 256 % 256 ∧ d.data (ns + 3) = c % 256

/-- The datagrams of a run that returned; none for a run that stopped short of
a result. -/
def emitted : Except Stop (List Sent × SendSt) → List Sent
  | .ok (out, _) => out
  | .error _ => []

/-- The frames of a fragmented datagram are those that the fragment path cuts
from the datagram as it was checksummed, with the fragmentable part starting at
`fragpart`. -/
def FragmentsOf (FBS : Nat) (idata : IfaceData) (fragpart : Nat) (x : Sent) : Prop :=
  ∃ g0 ident g1, g0.buffer = x.datagram.data ∧ g0.ptr = x.datagram.len ∧
    g0.fragpart = fragpart ∧ fragment_path FBS idata g0 ident = .ok (x.frames, g1)

/-- What holds of every datagram that the send loops hand to the link, with
the Neighbor Solicitation header at `ns` and the fragmentable part at
`fragpart`: the datagram satisfies the checksum equation; without
fragmentation the one injected frame is the datagram with the payload length
filled in, and satisfies the equation too; with fragmentation the injected
frames are the fragments of the datagram. -/
def SentChecked (cks : List Nat → List Nat → List Nat → Nat → Nat) (FBS : Nat)
    (idata : IfaceData) (ns fragpart : Nat) (x : Sent) : Prop :=
  ChecksumOk cks idata.linkhsize ns x.datagram ∧
  (idata.fragh_f = false → ∃ f, x.frames = [f] ∧ f.len = x.datagram.len ∧
    (∀ i, i ≠ idata.linkhsize + 4 → i ≠ idata.linkhsize + 5 → f.data i = x.datagram.data i) ∧
    ChecksumOk cks idata.linkhsize ns f) ∧
  (idata.fragh_f = true → FragmentsOf FBS idata fragpart x)

/-! ## Concrete runs of the send functions -/

/-- The Ethernet interface of `ethFrag` without fragmentation and with no
source address configured. -/
def ethPlain : IfaceData := { ethFrag with fragh_f := false, srcaddr_f := false }

/-- No flooding: one source, one target. -/
def noFlood : FloodVars :=
  { floods_f := false, floodt_f := false, nsources := 1, ntargets := 1, targetpreflen := 128 }

/-- Flooding with `-F 3 -T 2`, targets drawn from a /64. -/
def flood32 : FloodVars :=
  { floods_f := true, floodt_f := true, nsources := 3, ntargets := 2, targetpreflen := 64 }

/-- Source flooding with `-F -1`: `atoi` gives -1, stored in the
`unsigned int nsources` as 4294967295. -/
def floodMax : FloodVars :=
  { floods_f := true, floodt_f := false, nsources := 4294967295, ntargets := 0,
    targetpreflen := 0 }

/-- The variables of listen mode without `-F` and `-T`: both counts keep their
initial value 0. -/
def listenVars : FloodVars :=
  { floods_f := false, floodt_f := false, nsources := 0, ntargets := 0, targetpreflen := 0 }

/-- Random draws: the k-th address has all bytes equal to `k + 1`. -/
def demoOracle : Oracle :=
  { ipv6 := fun k => List.replicate 16 (k + 1), ether := fun k => List.replicate 6 (k + 1),
    ident := fun k => k + 7 }

/-- A stand-in for the checksum function: the sum of all bytes it is given and
of the protocol number. -/
def demoCks (src dst span : List Nat) (proto : Nat) : Nat :=
  (src.sum + dst.sum + span.sum + proto) % 65536

/-- The all-nodes addresses ff02::1 and 33:33:00:00:00:01. -/
def demoAllNodes : AllNodes :=
  { ALL_NODES_MULTICAST_ADDR := [0xff, 0x02, 0, 0, 0, 0, 0, 0, 0, 0, 0, 0, 0, 0, 0, 1],
    ETHER_ALLNODES_LINK_ADDR := [0x33, 0x33, 0, 0, 0, 1] }

/-- The state in which a send function is first called on the template `g`. -/
def startSt (g : Globals) : SendSt :=
  { g := g, nipv6 := 0, nether := 0, nident := 0, multicastdst_f := false }

/-- A captured frame given by its bytes. -/
def frameOf (bytes : List Nat) : Mem := fun i => bytes.getD i 0

/-- A Neighbor Solicitation as sent for duplicate address detection on
Ethernet: from 02:00:00:00:00:09 to 33:33:ff:00:00:01, IPv6 source `::`,
destination ff02::1:ff00:1, target fe80::1. -/
def solicitDad : Mem :=
  frameOf ([0x33, 0x33, 0xff, 0, 0, 1, 2, 0, 0, 0, 0, 9, 0x86, 0xdd,
    0x60, 0, 0, 0, 0, 24, 58, 255,
    0, 0, 0, 0, 0, 0, 0, 0, 0, 0, 0, 0, 0, 0, 0, 0,
    0xff, 0x02, 0, 0, 0, 0, 0, 0, 0, 0, 0, 1, 0xff, 0, 0, 1,
    135, 0, 0, 0, 0, 0, 0, 0,
    0xfe, 0x80, 0, 0, 0, 0, 0, 0, 0, 0, 0, 0, 0, 0, 0, 1])

/-- A Neighbor Solicitation sent to a unicast address on Ethernet: from
02:00:00:00:00:09 to 02:00:00:00:00:01, IPv6 source fe80::9, destination
fe80::1, target fe80::1. -/
def solicitUnicast : Mem :=
  frameOf ([2, 0, 0, 0, 0, 1, 2, 0, 0, 0, 0, 9, 0x86, 0xdd,
    0x60, 0, 0, 0, 0, 24, 58, 255,
    0xfe, 0x80, 0, 0, 0, 0, 0, 0, 0, 0, 0, 0, 0, 0, 0, 9,
    0xfe, 0x80, 0, 0, 0, 0, 0, 0, 0, 0, 0, 0, 0, 0, 0, 1,
    135, 0, 0, 0, 0, 0, 0, 0,
    0xfe, 0x80, 0, 0, 0, 0, 0, 0, 0, 0, 0, 0, 0, 0, 0, 1])

/-- An IPv6 frame on Ethernet that carries UDP (next header 17). -/
def udpFrame : Mem :=
  frameOf ([2, 0, 0, 0, 0, 1, 2, 0, 0, 0, 0, 9, 0x86, 0xdd,
    0x60, 0, 0, 0, 0, 24, 17, 255])

/-- For each datagram of a run: its labels and, for each of its frames, the
length, the IPv6 source, the IPv6 destination, the Ethernet source and the
Ethernet destination. -/
def runSummary (lh : Nat) :
    Except Stop (List Sent × SendSt) →
      Option (List ((Nat × Nat) × List (Nat × List Nat × List Nat × List Nat × List Nat)))
  | .ok (out, _) =>
    some (out.map (fun x => (x.label, x.frames.map (fun f =>
      (f.len, readBytes f.data (lh + 8) 16, readBytes f.data (lh + 24) 16,
       readBytes f.data 6 6, readBytes f.data 0 6)))))
  | .error _ => none

/-- The reply of a responder on `ethPlain` (no source configured, no flooding,
no fragmentation, no option) to the solicitation `solicitDad`. -/
def dadReply : Except Stop (List Sent × SendSt) :=
  send_packet_to_ns demoCks demoOracle demoAllNodes demoFragBufferSize ethPlain listenVars
    (some solicitDad) (startSt (templ ethPlain (plainGlobals 8)))

/-- The reply of a responder on `ethPlain` with `-F 3 -T 2` to the solicitation
`solicitUnicast`. -/
def unicastReply : Except Stop (List Sent × SendSt) :=
  send_packet_to_ns demoCks demoOracle demoAllNodes demoFragBufferSize ethPlain flood32
    (some solicitUnicast) (startSt (templ ethPlain (plainGlobals 8)))

/-- The reply of a fragmenting responder (`-y 16`, one link-layer address
option, `-F 3 -T 2`) on `ethFrag` to the solicitation `solicitDad`. -/
def fragReply : Except Stop (List Sent × SendSt) :=
  send_packet_to_ns demoCks demoOracle demoAllNodes demoFragBufferSize ethFrag flood32
    (some solicitDad) (startSt (templ ethFrag (sllaGlobals 16)))

/-- An attack run with `-F 3 -T 2` and one link-layer address option on
`ethPlain`, sources drawn from a /64 with random Ethernet sources. -/
def floodRun : Except Stop (List Sent × SendSt) :=
  send_packet demoCks demoOracle demoFragBufferSize
    { ethPlain with hsrcaddr_f := false, srcpreflen := 64 } flood32
    (startSt (templ ethPlain (sllaGlobals 8)))

/-- The reply of a responder on `ethPlain` started with `-F -1` to the
solicitation `solicitUnicast`, whose IPv6 destination is not multicast. -/
def wrapReply : Except Stop (List Sent × SendSt) :=
  send_packet_to_ns demoCks demoOracle demoAllNodes demoFragBufferSize ethPlain floodMax
    (some solicitUnicast) (startSt (templ ethPlain (plainGlobals 8)))

/-! ## Invariants of the filter tables -/

/-- The IPv6 filter list that an option appends to, together with the address
and length arguments of the option; `none` for a link-layer filter option. -/
def FilterOpt.ipv6Target :
    FilterOpt → Option ((Filters → List (List Nat × Nat)) × Option (List Nat) × Option Nat)
  | .j a l => some (Filters.blocksrc, a, l)
  | .k a l => some (Filters.blockdst, a, l)
  | .b a l => some (Filters.acceptsrc, a, l)
  | .g a l => some (Filters.acceptdst, a, l)
  | .w a l => some (Filters.blocktarget, a, l)
  | .W a l => some (Filters.accepttarget, a, l)
  | .J _ => none
  | .K _ => none
  | .B _ => none
  | .G _ => none

/-- An entry of an IPv6 filter list with a length of at most 128 and an
address that is the result of sanitizing an address to that length. -/
def EntrySanitized (p : List Nat × Nat) : Prop :=
  p.2 ≤ 128 ∧ ∃ a, p.1 = sanitize_ipv6_prefix a p.2

/-- All entries of the six IPv6 filter lists are sanitized. -/
def IPv6EntriesSanitized (flt : Filters) : Prop :=
  (∀ p ∈ flt.blocksrc, EntrySanitized p) ∧ (∀ p ∈ flt.blockdst, EntrySanitized p) ∧
  (∀ p ∈ flt.blocktarget, EntrySanitized p) ∧ (∀ p ∈ flt.acceptsrc, EntrySanitized p) ∧
  (∀ p ∈ flt.acceptdst, EntrySanitized p) ∧ (∀ p ∈ flt.accepttarget, EntrySanitized p)

/-! ## Extension header options: sequences and the padding loop -/

/-- The limits of the three header classes: constants of a header that is not
at hand. -/
structure ExtLimits where
  MAX_DST_OPT_HDR : Nat
  MAX_DST_OPT_U_HDR : Nat
  MAX_HBH_OPT_HDR : Nat

/-- An extension header option `-u`, `-U` or `-H` with the value of
`atoi(optarg)`. -/
inductive ExtOpt where
  | u (optarg : Int)
  | U (optarg : Int)
  | H (optarg : Int)

/-- One of the cases `'u'`, `'U'`, `'H'` of main, acting on the tables of its
class; `junk` is the contents of the block that `malloc` returns. -/
def ext_option (lim : ExtLimits) (junk : Mem) (g : Globals) : ExtOpt → Except Stop Globals
  | .u n =>
    match ext_hdr_option lim.MAX_DST_OPT_HDR junk g.dstopt n with
    | .error e => .error e
    | .ok c => .ok { g with dstopt := c }
  | .U n =>
    match ext_hdr_option lim.MAX_DST_OPT_U_HDR junk g.dstoptu n with
    | .error e => .error e
    | .ok c => .ok { g with dstoptu := c }
  | .H n =>
    match ext_hdr_option lim.MAX_HBH_OPT_HDR junk g.hbhopt n with
    | .error e => .error e
    | .ok c => .ok { g with hbhopt := c }

/-- The extension header options of a command line, processed in order; the
`k`-th call of `malloc` returns a block with contents `junk k`. -/
def ext_options (lim : ExtLimits) (junk : Nat → Mem) : List ExtOpt → Nat → Globals → Except Stop Globals
  | [], _, g => .ok g
  | o :: rest, k, g =>
    match ext_option lim (junk k) g o with
    | .error e => .error e
    | .ok g1 => ext_options lim junk rest (k + 1) g1

/-- The counts of the three classes are within their limits. -/
def WithinExtLimits (lim : ExtLimits) (g : Globals) : Prop :=
  g.dstopt.hdrs.length ≤ lim.MAX_DST_OPT_HDR ∧ g.dstoptu.hdrs.length ≤ lim.MAX_DST_OPT_U_HDR ∧
  g.hbhopt.hdrs.length ≤ lim.MAX_HBH_OPT_HDR

/-- The padding loop `while (ptrhdr < ptrhdrend)` of the three option cases,
with the sizes `pad` that it asks `insert_pad_opt` for, in order, and the final
value of `ptrhdr`. -/
def padLoopSizes : Nat → Mem → Nat → Nat → Except Stop (List Nat × Mem × Nat)
  | 0, m, ptrhdr, ptrhdrend =>
    if ptrhdr < ptrhdrend then .error .outOfFuel else .ok ([], m, ptrhdr)
  | fuel + 1, m, ptrhdr, ptrhdrend =>
    if ptrhdr < ptrhdrend then
      let pad := if ptrhdrend - ptrhdr > 257 then 257 else ptrhdrend - ptrhdr
      match insert_pad_opt m ptrhdr ptrhdrend pad with
      | none => .error .exitFailure
      | some m1 =>
        match padLoopSizes fuel m1 (ptrhdr + pad) ptrhdrend with
        | .error e => .error e
        | .ok (ps, m2, q) => .ok (pad :: ps, m2, q)
    else .ok ([], m, ptrhdr)

/-- Each size of the list is no larger than the space that remains when it is
asked for, starting with `r` bytes. -/
def FitsRemaining : Nat → List Nat → Prop
  | _, [] => True
  | r, p :: ps => p ≤ r ∧ FitsRemaining (r - p) ps


/-! ## The tail of main: mode dispatch and defaults (lines 759-1061) -/

/-- The flags of main that the option loop leaves and that the packet functions
do not read. -/
structure MainVars where
  iface_f : Bool
  listen_f : Bool
  targetaddr_f : Bool
  targetprefix_f : Bool
  srcprefix_f : Bool
  dstaddr_f : Bool
  hdstaddr_f : Bool

/-- What the calls of main's tail into the system and the libraries deliver:
the effective user id, and for each of the other calls whether it succeeds. -/
structure MainEnv where
  geteuid : Nat
  init_filters : Bool
  load_dst_and_pcap : Bool
  pcap_compile : Bool
  pcap_setfilter : Bool

/-- The address that `inet_pton` gives for the string "fe80::". -/
def fe80 : List Nat := [0xfe, 0x80, 0, 0, 0, 0, 0, 0, 0, 0, 0, 0, 0, 0, 0, 0]

/-- The statements `linkaddr[0] = idata.hsrcaddr; nlinkaddr++;` (lines
1021-1022) on the static array `linkaddr`, of which `Globals.linkaddr` holds
the first `nlinkaddr` entries: the entry that comes into view at the end was
never written and is zero. -/
def setFirstLinkaddr (h : List Nat) : List (List Nat) → List (List Nat)
  | [] => [h]
  | _ :: rest => h :: rest ++ [List.replicate 6 0]

/-- The variables of main that its tail works on: the interface data, the
flooding variables, and the packet variables with the count of random draws. -/
structure Config where
  idata : IfaceData
  fl : FloodVars
  st : SendSt

/-- Lines 964-977: without `-s` and without `-F` the source address is drawn
from fe80::/64. -/
def srcDefault (orc : Oracle) (c : Config) : Config :=
  if c.idata.srcaddr_f = false ∧ c.fl.floods_f = false then
    { c with idata := { c.idata with srcaddr := randomize_ipv6_addr (orc.ipv6 c.st.nipv6) fe80 64 },
             st := { c.st with nipv6 := c.st.nipv6 + 1 } }
  else c

/-- Lines 983-991: with `-F` and no source prefix the sources are drawn from
fe80::/64. -/
def floodSrcDefault (orc : Oracle) (mv : MainVars) (c : Config) : Config :=
  if c.fl.floods_f = true ∧ mv.srcprefix_f = false then
    { c with idata := { c.idata with srcaddr := randomize_ipv6_addr (orc.ipv6 c.st.nipv6) fe80 64,
                                     srcpreflen := 64 },
             st := { c.st with nipv6 := c.st.nipv6 + 1 } }
  else c

/-- Lines 997-1008: with `-T` and no target prefix the targets are drawn from
fe80::/64; without `-T` there is one target. -/
def targetDefault (orc : Oracle) (mv : MainVars) (c : Config) : Config :=
  let c1 :=
    if c.fl.floodt_f = true ∧ mv.targetprefix_f = false then
      { c with fl := { c.fl with targetpreflen := 64 },
               st := { c.st with
                       g := { c.st.g with
                              targetaddr := randomize_ipv6_addr (orc.ipv6 c.st.nipv6) fe80 64 },
                       nipv6 := c.st.nipv6 + 1 } }
    else c
  if c1.fl.floodt_f = false then { c1 with fl := { c1.fl with ntargets := 1 } } else c1

/-- Lines 1010-1015: the destination address defaults to all-nodes. -/
def dstDefault (an : AllNodes) (mv : MainVars) (c : Config) : Config :=
  if mv.dstaddr_f = false then
    { c with idata := { c.idata with dstaddr := an.ALL_NODES_MULTICAST_ADDR } }
  else c

/-- Lines 1017-1018: without `-S` and without `-F` the Ethernet source address
is drawn. -/
def etherSrcDefault (orc : Oracle) (c : Config) : Config :=
  if c.idata.hsrcaddr_f = false ∧ c.fl.floods_f = false then
    { c with idata := { c.idata with hsrcaddr := orc.ether c.st.nether },
             st := { c.st with nether := c.st.nether + 1 } }
  else c

/-- Lines 1020-1023: with `-e` and without `-E` the value of the option is the
Ethernet source address. -/
def sllaDefault (c : Config) : Config :=
  if c.st.g.sllopt_f = true ∧ c.st.g.sllopta_f = false then
    { c with st := { c.st with
                     g := { c.st.g with
                            linkaddr := setFirstLinkaddr c.idata.hsrcaddr c.st.g.linkaddr } } }
  else c

/-- Lines 1025-1032: the Ethernet destination address defaults to all-nodes;
without `-F` there is one source. -/
def etherDstDefault (an : AllNodes) (mv : MainVars) (c : Config) : Config :=
  let c1 :=
    if mv.hdstaddr_f = false then
      { c with idata := { c.idata with hdstaddr := an.ETHER_ALLNODES_LINK_ADDR } }
    else c
  if c1.fl.floods_f = false then { c1 with fl := { c1.fl with nsources := 1 } } else c1

/-- The defaults of the attack branch in the order of lines 964-1032.  The
conversions of the constant strings are taken to succeed. -/
def attackConfig (orc : Oracle) (an : AllNodes) (mv : MainVars) (c : Config) : Config :=
  etherDstDefault an mv (sllaDefault (etherSrcDefault orc (dstDefault an mv
    (targetDefault orc mv (floodSrcDefault orc mv (srcDefault orc c))))))

/-- The attack branch of main up to the call of init_packet_data (lines
934-1040): the checks, the defaults, and the test for an unfragmentable
Destination Options header without fragmentation. -/
def attack_defaults (env : MainEnv) (orc : Oracle) (an : AllNodes) (mv : MainVars)
    (c : Config) : Except Stop Config :=
  if mv.targetaddr_f = false then .error .exitFailure
  else if env.load_dst_and_pcap = false then .error .exitFailure
  else if env.pcap_compile = false then .error .exitFailure
  else if env.pcap_setfilter = false then .error .exitFailure
  else if (attackConfig orc an mv c).idata.fragh_f = false ∧
      (attackConfig orc an mv c).st.g.dstoptu.flag = true then .error .exitFailure
  else .ok (attackConfig orc an mv c)

/-- Lines 759-785 and 932-1040 of main: what runs between the option loop and
the call of init_packet_data, in listen mode and in attack mode. -/
def main_setup (env : MainEnv) (orc : Oracle) (an : AllNodes) (mv : MainVars) (c : Config) :
    Except Stop Config :=
  if env.geteuid ≠ 0 then .error .exitFailure
  else if mv.iface_f = false then .error .exitFailure
  else if mv.listen_f = true then
    if env.init_filters = false then .error .exitFailure
    else .ok c
  else attack_defaults env orc an mv c

/-- Main up to and including the call of init_packet_data (line 786 in listen
mode, line 1047 in attack mode): the configuration and the packet template. -/
def main_template (env : MainEnv) (orc : Oracle) (an : AllNodes) (mv : MainVars) (c : Config) :
    Except Stop Config :=
  match main_setup env orc an mv c with
  | .error e => .error e
  | .ok c1 =>
    match init_packet_data c1.idata c1.st.g with
    | .error e => .error e
    | .ok g1 => .ok { c1 with st := { c1.st with g := g1 } }

/-- The attack branch of main up to the return of the first call of send_packet
(line 1050). -/
def main_attack (cks : List Nat → List Nat → List Nat → Nat → Nat) (env : MainEnv)
    (orc : Oracle) (an : AllNodes) (FBS : Nat) (mv : MainVars) (c : Config) :
    Except Stop (List Sent × SendSt) :=
  match main_template env orc an mv c with
  | .error e => .error e
  | .ok c1 => send_packet cks orc FBS c1.idata c1.fl c1.st

/-- Every call succeeds and the process runs as root. -/
def rootEnv : MainEnv :=
  { geteuid := 0, init_filters := true, load_dst_and_pcap := true, pcap_compile := true,
    pcap_setfilter := true }

/-- The flags of `-i eth0 -L`, without any address option. -/
def listenMode : MainVars :=
  { iface_f := true, listen_f := true, targetaddr_f := false, targetprefix_f := false,
    srcprefix_f := false, dstaddr_f := false, hdstaddr_f := false }

/-- The flags of `-i eth0 -t fe80::1`. -/
def attackMode : MainVars :=
  { iface_f := true, listen_f := false, targetaddr_f := true, targetprefix_f := false,
    srcprefix_f := false, dstaddr_f := false, hdstaddr_f := false }

/-- One unfragmentable Destination Options header (`-U 8`) and no `-y`. -/
def oneDstOptU : Globals :=
  { plainGlobals 0 with dstoptu := { hdrs := [hdr8], flag := true } }

/-- The packet variables of a run with one link-layer address option that
init_packet_data wrote behind the Neighbor Solicitation header at `ns`: the
options start behind that one option, whose type and length bytes are in
place, and its value is the default (`-e` without `-E`). -/
def SllaState (ns : Nat) (g : Globals) : Prop :=
  g.ns = ns ∧ g.startofprefixes = ns + 32 ∧ g.sllaopt = ns + 24 ∧ g.linkaddr.length = 1 ∧
  g.sllopt_f = true ∧ g.sllopta_f = false ∧
  g.buffer (ns + 24) = ND_OPT_SOURCE_LINKADDR ∧ g.buffer (ns + 25) = SLLA_OPT_LEN

/-- The address field of the option behind the Neighbor Solicitation header at
`ns` holds the six bytes of the Ethernet source address field. -/
def MirrorsEtherSrc (ns : Nat) (m : Mem) : Prop :=
  ∀ j, j < 6 → m (ns + 26 + j) = m (6 + j)

/-- A datagram or frame whose Neighbor Solicitation header at `ns` is followed
by exactly one option, a source link-layer address option whose address is the
Ethernet source address of the same frame. -/
def OneSllaOfEtherSrc (ns : Nat) (d : Frame) : Prop :=
  d.len = ns + sizeof_nd_neighbor_solicit + sizeof_nd_opt_slla ∧
  d.data (ns + 24) = ND_OPT_SOURCE_LINKADDR ∧ d.data (ns + 25) = SLLA_OPT_LEN ∧
  readBytes d.data (ns + 26) ETH_ALEN = readBytes d.data 6 ETH_ALEN

/-- The variables of `-F 2` without `-T`: `ntargets` and `targetpreflen` keep
their initial value 0 until the attack branch sets its defaults. -/
def flood2 : FloodVars :=
  { floods_f := true, floodt_f := false, nsources := 2, ntargets := 0, targetpreflen := 0 }

/-- The configuration of `-i lo -t fe80::1 -F 2 -e -S 02:00:00:00:00:01` on a
loopback interface of Ethernet type. -/
def floodSllaLoopback : Config :=
  { idata := loopbackEth, fl := flood2, st := startSt { plainGlobals 0 with sllopt_f := true } }

/-- The configuration of `-i eth0 -t fe80::1 -F 2 -e` on Ethernet: the Ethernet
source address is drawn for every source. -/
def floodSllaRandom : Config :=
  { idata := { ethPlain with hsrcaddr_f := false }, fl := flood2,
    st := startSt { plainGlobals 0 with sllopt_f := true } }

/-- The responder as the specification words it: once the reply addressing is
written, the template is handed to the flood controller and the fragmentation
engine exactly as in attack mode, that is, to send_packet. -/
def send_packet_to_ns_spec (cks : List Nat → List Nat → List Nat → Nat → Nat) (orc : Oracle)
    (an : AllNodes) (FBS : Nat) (idata : IfaceData) (fl : FloodVars) (pktdata : Mem)
    (st : SendSt) : Except Stop (List Sent × SendSt) :=
  send_packet cks orc FBS idata fl (replyAddressing an idata fl pktdata st).1

/-- The bytes of the target field of every injected frame of a run, for a
Neighbor Solicitation header at `ns`. -/
def targetsOf (ns : Nat) (r : Except Stop (List Sent × SendSt)) : List (List (List Nat)) :=
  (emitted r).map (fun x => x.frames.map (fun f => readBytes f.data (ns + 8) 16))

/-- A source link-layer address option as it lies in a packet: the type, the
length in units of 8 bytes, and the six bytes of the address. -/
def sllaOption (a : List Nat) : List Nat := [ND_OPT_SOURCE_LINKADDR, SLLA_OPT_LEN] ++ a

/-- The `k` 8-byte records that lie in `m` from offset `off` on. -/
def optionsAt (m : Mem) (off k : Nat) : List (List Nat) :=
  (List.range k).map (fun j => readBytes m (off + 8 * j) 8)

/-- The options a datagram carries: the 8-byte records between the end of the
Neighbor Solicitation header (`startofprefixes`) and the end of the datagram. -/
def optionsOf (startofprefixes : Nat) (d : Frame) : List (List Nat) :=
  optionsAt d.data startofprefixes ((d.len - startofprefixes) / 8)

/-- The configuration of `-E` given three times on `ethPlain`, with a
`max_packet_size` of 82 bytes: behind the IPv6 header and the Neighbor
Solicitation header there is room for two options. -/
def threeLinkaddrs : Globals :=
  { plainGlobals 0 with
    sllopt_f := true, sllopta_f := true,
    linkaddr := [[2, 0, 0, 0, 0, 1], [2, 0, 0, 0, 0, 2], [2, 0, 0, 0, 0, 3]] }

/-- The interface `ethPlain` with a `max_packet_size` of 82 bytes. -/
def ethPlainTight : IfaceData := { ethPlain with max_packet_size := 82 }

/-- What the loop over the link-layer addresses keeps from round to round: the
configured addresses, the pointers of the template, and with fragmentation a
fragment size of at least 8. -/
def LinkInv (idata : IfaceData) (L : List (List Nat)) (sop ns fp : Nat) (s : SendSt) : Prop :=
  s.g.linkaddr = L ∧ s.g.startofprefixes = sop ∧ s.g.ns = ns ∧ s.g.fragpart = fp ∧
  (idata.fragh_f = true → 8 ≤ s.g.nfrags)


/-! ## Fixtures for the reply addressing -/

/-- A Neighbor Solicitation on Ethernet sent to a multicast address for a
target that is not link-local: from 02:00:00:00:00:09 to 33:33:ff:00:00:01,
IPv6 source fe80::9, destination ff02::1:ff00:1, target 2001:db8::1. -/
def solicitGlobal : Mem :=
  frameOf ([0x33, 0x33, 0xff, 0, 0, 1, 2, 0, 0, 0, 0, 9, 0x86, 0xdd,
    0x60, 0, 0, 0, 0, 24, 58, 255,
    0xfe, 0x80, 0, 0, 0, 0, 0, 0, 0, 0, 0, 0, 0, 0, 0, 9,
    0xff, 0x02, 0, 0, 0, 0, 0, 0, 0, 0, 0, 1, 0xff, 0, 0, 1,
    135, 0, 0, 0, 0, 0, 0, 0,
    0x20, 0x01, 0x0d, 0xb8, 0, 0, 0, 0, 0, 0, 0, 0, 0, 0, 0, 1])

/-- The interface `ethPlain` of a responder started without `-s`: the source
address is the zero-filled value of an unconfigured `idata.srcaddr`. -/
def ethUnconfigured : IfaceData := { ethPlain with srcaddr := List.replicate 16 0 }

/-- The reply of a responder on `ethUnconfigured` (no flooding) to the
solicitation `solicitGlobal`. -/
def globalReply : Except Stop (List Sent × SendSt) :=
  send_packet_to_ns demoCks demoOracle demoAllNodes demoFragBufferSize ethUnconfigured listenVars
    (some solicitGlobal) (startSt (templ ethUnconfigured (plainGlobals 8)))

/-! ## Counters of the option loop -/

/-- The bounds that the tests of the filter options keep: the counters tested
with `>=` stay within their limit, those tested with `>` stay within the limit
plus one. -/
def FilterCounts (lim : FilterLimits) (flt : Filters) : Prop :=
  flt.blocksrc.length ≤ lim.MAX_BLOCK_SRC ∧ flt.blockdst.length ≤ lim.MAX_BLOCK_DST ∧
  flt.accepttarget.length ≤ lim.MAX_ACCEPT_TARGET ∧
  flt.blocklinksrc.length ≤ lim.MAX_BLOCK_LINK_SRC + 1 ∧
  flt.blocklinkdst.length ≤ lim.MAX_BLOCK_LINK_DST + 1 ∧
  flt.blocktarget.length ≤ lim.MAX_BLOCK_TARGET + 1 ∧
  flt.acceptsrc.length ≤ lim.MAX_ACCEPT_SRC + 1 ∧
  flt.acceptdst.length ≤ lim.MAX_ACCEPT_DST + 1 ∧
  flt.acceptlinksrc.length ≤ lim.MAX_ACCEPT_LINK_SRC + 1 ∧
  flt.acceptlinkdst.length ≤ lim.MAX_ACCEPT_LINK_DST + 1


/-! ## The link-layer address options of the command line -/

/-- The options `-E` and `-e` of main (lines 430-444); `-E` carries the result
of `ether_pton` on its argument, `none` when the conversion fails. -/
inductive SllaOpt where
  | E (addr : Option (List Nat))
  | e
  deriving DecidableEq, Repr

/-- One iteration of the option loop for `-E` or `-e`.  Case `E` sets
`sllopt_f`, stores the converted address at `linkaddr[nlinkaddr]`, sets
`sllopta_f` and increments `nlinkaddr`; it compares `nlinkaddr` with nothing.
`Globals.linkaddr` holds the entries written so far, so the store at index
`nlinkaddr` appends. -/
def slla_option (g : Globals) : SllaOpt → Except Stop Globals
  | .E addr =>
    let g1 := { g with sllopt_f := true }
    match addr with
    | none => .error Stop.exitFailure
    | some a => .ok { g1 with linkaddr := g1.linkaddr ++ [a], sllopta_f := true }
  | .e => .ok { g with sllopt_f := true }

/-- The link-layer address options of a command line, processed in order. -/
def slla_options : List SllaOpt → Globals → Except Stop Globals
  | [], g => .ok g
  | o :: rest, g =>
    match slla_option g o with
    | .error e => .error e
    | .ok g1 => slla_options rest g1

/-! ## The fragmentable part and the rounds of the fragment loop -/

/-- Every recorded length of a fragmentable Destination Options header is a
multiple of 8. -/
def DstOptLensMult8 (g : Globals) : Prop := ∀ e ∈ g.dstopt.hdrs, e.len % 8 = 0

/-- The rounds of the fragment loop seen from the bytes not yet sent: with `r`
bytes left when a round starts, `r` is positive and a multiple of 8, and the
round copies no more than `r` bytes. -/
def ChunksWithin : Nat → List Nat → Prop
  | _, [] => True
  | r, c :: rest => 0 < r ∧ r % 8 = 0 ∧ c ≤ r ∧ ChunksWithin (r - c) rest

/-- The configuration of `-E` given twice with `-y 8`. -/
def twoLinkaddrs : Globals :=
  { plainGlobals 8 with
    sllopt_f := true, sllopta_f := true,
    linkaddr := [[2, 0, 0, 0, 0, 1], [2, 0, 0, 0, 0, 2]] }

/-- The interface `ethPlain` with a `max_packet_size` of 64 bytes: the IPv6
header and the Neighbor Solicitation header fill it. -/
def ethPlainFull : IfaceData := { ethPlain with max_packet_size := 64 }

/-- The interface `ethFrag` with a `max_packet_size` of 64 bytes. -/
def ethFragFull : IfaceData := { ethFrag with max_packet_size := 64 }

/-- The interface `ethFrag` with a `max_packet_size` of 82 bytes: behind the
IPv6 header and the Neighbor Solicitation header there is room for two
options. -/
def ethFragTwoOptions : IfaceData := { ethFrag with max_packet_size := 82 }

/-- The configuration of `-E` given three times with `-y 8`. -/
def threeLinkaddrsFrag : Globals := { threeLinkaddrs with nfrags := 8 }

/-- Limits of four headers for each class. -/
def demoExtLimits : ExtLimits :=
  { MAX_DST_OPT_HDR := 4, MAX_DST_OPT_U_HDR := 4, MAX_HBH_OPT_HDR := 4 }

/-- The configuration of `-E` given three times with `-y 20`. -/
def threeLinkaddrsOdd : Globals := { threeLinkaddrs with nfrags := 20 }

/-- The variables that `-u 13` leaves when given after `-E` three times and
`-y 20` (those unchanged when the option is rejected). -/
def withDstOpt13 : Globals :=
  match ext_options demoExtLimits (fun _ _ => 0) [ExtOpt.u 13] 0 threeLinkaddrsOdd with
  | .ok g => g
  | .error _ => threeLinkaddrsOdd

/-- The interface `ethFrag` with a `max_packet_size` of 98 bytes. -/
def ethFrag98 : IfaceData := { ethFrag with max_packet_size := 98 }

/-! ## Fixtures: headers requested with a negative length -/

/-- The variables that `-u -1` leaves (those unchanged when the option is
rejected). -/
def dstOptMinusOne : Globals :=
  match ext_options demoExtLimits (fun _ _ => 0) [ExtOpt.u (-1)] 0 (plainGlobals 8) with
  | .ok g => g
  | .error _ => plainGlobals 8

/-- The variables that `-H -1` leaves (those unchanged when the option is
rejected). -/
def hbhMinusOne : Globals :=
  match ext_options demoExtLimits (fun _ _ => 0) [ExtOpt.H (-1)] 0 (plainGlobals 8) with
  | .ok g => g
  | .error _ => plainGlobals 8

/-- The filter set of `-G aa:aa:aa:aa:aa:aa -J aa:aa:aa:aa:aa:aa`. -/
def acceptOtherLinkDst : Filters :=
  { noFilters with
    acceptlinkdst := [[0xaa, 0xaa, 0xaa, 0xaa, 0xaa, 0xaa]],
    blocklinksrc := [[0xaa, 0xaa, 0xaa, 0xaa, 0xaa, 0xaa]], acceptfilters_f := true }

/-! ## Fixtures: replies to a solicitation for a target other than the template's -/

/-- The reply of a responder on `ethPlain` with `-F 3 -T 2` to the solicitation
`solicitGlobal`, whose target 2001:db8::1 is not the target fe80::1 of the
template. -/
def globalFloodReply : Except Stop (List Sent × SendSt) :=
  send_packet_to_ns demoCks demoOracle demoAllNodes demoFragBufferSize ethPlain flood32
    (some solicitGlobal) (startSt (templ ethPlain (plainGlobals 8)))

/-- The reply of a fragmenting responder (`-y 16`, one link-layer address
option, no flooding) on `ethFrag` to the solicitation `solicitGlobal`. -/
def globalFragReply : Except Stop (List Sent × SendSt) :=
  send_packet_to_ns demoCks demoOracle demoAllNodes demoFragBufferSize ethFrag listenVars
    (some solicitGlobal) (startSt (templ ethFrag (sllaGlobals 16)))

/-! ## The frames of two runs compared -/

/-- The bytes of the frames injected for a datagram, frame by frame. -/
def Sent.wire (x : Sent) : List (List Nat) := x.frames.map Frame.bytes

/-- Two runs of a loop of a send function correspond: both return, with the
same frames injected for each datagram in turn (same number of frames, same
bytes) and with final states related by `R`, or both stop short in the same
way. -/
def SimRes {σ : Type} (R : σ → σ → Prop) (r r1 : Except Stop (List Sent × σ)) : Prop :=
  match r, r1 with
  | .ok (o, t), .ok (o1, t1) => o.map Sent.wire = o1.map Sent.wire ∧ R t t1
  | .error e, .error e1 => e = e1
  | _, _ => False

/-- Two runs inject exactly the same sequence of frames, or stop short in the
same way. -/
def SameFrames (r r1 : Except Stop (List Sent × SendSt)) : Prop :=
  SimRes (fun _ _ => True) r r1

/-- The state `s1` is the state `s` with other bytes in the packet buffer from
offset `W` on. -/
def AgreeBelow (W : Nat) (s s1 : SendSt) : Prop :=
  ∃ b, s1 = { s with g := { s.g with buffer := b } } ∧ ∀ i, i < W → b i = s.g.buffer i

/-- What a responder started with `-e` and without `-E` keeps while it
replies: no link-layer address is configured, the datagram ends at `W` behind
the Neighbor Solicitation header, and the option that `sllaopt` points to lies
behind that end. -/
def ReplyInv (W ns fp : Nat) (s : SendSt) : Prop :=
  s.g.linkaddr = [] ∧ s.g.startofprefixes = W ∧ s.g.ns = ns ∧ s.g.fragpart = fp ∧
  W ≤ s.g.sllaopt ∧ s.g.sllopt_f = true ∧ s.g.sllopta_f = false ∧ s.multicastdst_f = true

/-- The template of a responder on `ethFrag` (Ethernet source fixed with `-S`)
started with `-e` and without `-E`, with `-y 8`: no address is configured. -/
def listenSllaNoAddr : Globals := { plainGlobals 8 with sllopt_f := true }
/-! # Theorems -/

/-! ## Extension header options: properties -/

theorem insert_pad_opt_fits (m : Mem) (p e pad : Nat) (h1 : 1 ≤ pad) (h2 : pad ≤ 257)
    (h3 : pad ≤ e - p) : ∃ m1, insert_pad_opt m p e pad = some m1 := by
  unfold insert_pad_opt
  have hn : ¬ (e - p < pad ∨ pad = 0 ∨ 257 < pad) := by omega
  rw [if_neg hn]
  by_cases h : pad = 1
  · rw [if_pos h]; exact ⟨_, rfl⟩
  · rw [if_neg h]; exact ⟨_, rfl⟩

theorem padLoop_returns (fuel : Nat) : ∀ (m : Mem) (p e : Nat), e - p ≤ fuel →
    ∃ m1, padLoop fuel m p e = .ok m1 := by
  induction fuel with
  | zero =>
    intro m p e h
    have hn : ¬ p < e := by omega
    exact ⟨m, by simp [padLoop, hn]⟩
  | succ n ih =>
    intro m p e h
    by_cases hlt : p < e
    · obtain ⟨m1, hm1⟩ := insert_pad_opt_fits m p e (if e - p > 257 then 257 else e - p)
        (by split <;> omega) (by split <;> omega) (by split <;> omega)
      obtain ⟨m2, hm2⟩ := ih m1 (p + (if e - p > 257 then 257 else e - p)) e (by split <;> omega)
      refine ⟨m2, ?_⟩
      simp only [padLoop, if_pos hlt, hm1]
      exact hm2
    · exact ⟨m, by simp [padLoop, hlt]⟩

theorem ext_hdr_option_returns (max : Nat) (junk : Mem) (c : HdrClass) (L : Int)
    (hroom : c.hdrs.length < max) (h8 : 8 ≤ toUInt L) :
    ∃ m, ext_hdr_option max junk c L =
      .ok { hdrs := c.hdrs ++ [{ size := roundHdrlen (toUInt L),
                                 mem := poke m 1 (hdrExtLen (roundHdrlen (toUInt L))),
                                 len := roundHdrlen (toUInt L) }],
            flag := true } := by
  obtain ⟨m, hm⟩ := padLoop_returns (roundHdrlen (toUInt L)) junk 2 (roundHdrlen (toUInt L))
    (by omega)
  refine ⟨m, ?_⟩
  unfold ext_hdr_option
  have h1 : ¬ c.hdrs.length ≥ max := by omega
  have h2 : ¬ toUInt L < 8 := by omega
  simp only [if_neg h1, if_neg h2, hm]

theorem poke_same (m : Mem) (off v : Nat) : poke m off v off = v % 256 := by
  simp [poke]

theorem roundHdrlen_spec (L : Int) (h8 : 8 ≤ L) (hint : L < 2147483648) :
    8 ∣ roundHdrlen (toUInt L) ∧ L ≤ (roundHdrlen (toUInt L) : Int) ∧
      ∀ k : Nat, 8 ∣ k → L ≤ (k : Int) → roundHdrlen (toUInt L) ≤ k := by
  unfold roundHdrlen toUInt U32
  refine ⟨by omega, by omega, ?_⟩
  intro k hk hL
  omega

/-- C1 (as amended).  For a requested length `8 ≤ L` (an `int`, as `atoi` returns
it) given to `-u`, `-U` or `-H` while the class has room, the option builds a
blob whose size is the smallest multiple of 8 that is at least `L`, records that
size in the length table, and stores `(size / 8 - 1) mod 256` in byte 1: the
8-bit field equals `size / 8 - 1` whenever `L ≤ 2048`. -/
theorem ext_hdr_option_blob (max : Nat) (junk : Mem) (c : HdrClass) (L : Int)
    (hroom : c.hdrs.length < max) (h8 : 8 ≤ L) (hint : L < 2147483648) :
    ∃ e : ExtHdr, ext_hdr_option max junk c L = .ok { hdrs := c.hdrs ++ [e], flag := true } ∧
      (8 ∣ e.size ∧ L ≤ (e.size : Int) ∧ ∀ k : Nat, 8 ∣ k → L ≤ (k : Int) → e.size ≤ k) ∧
      e.len = e.size ∧
      e.mem 1 = (e.size / 8 - 1) % 256 ∧
      (L ≤ 2048 → e.mem 1 = e.size / 8 - 1) := by
  obtain ⟨m, hm⟩ := ext_hdr_option_returns max junk c L hroom (by unfold toUInt; omega)
  refine ⟨_, hm, roundHdrlen_spec L h8 hint, rfl, ?_, ?_⟩
  · show poke m 1 _ 1 = (roundHdrlen (toUInt L) / 8 - 1) % 256
    rw [poke_same]
    unfold hdrExtLen roundHdrlen toUInt U32
    omega
  · intro h
    show poke m 1 _ 1 = roundHdrlen (toUInt L) / 8 - 1
    rw [poke_same]
    unfold hdrExtLen roundHdrlen toUInt U32
    omega

theorem ext_hdr_option_blob_witness :
    (([] : List ExtHdr).length < 4 ∧ (8 : Int) ≤ 13 ∧ (13 : Int) < 2147483648) ∧
    ∃ e : ExtHdr, ext_hdr_option 4 (fun _ => 0) { hdrs := [], flag := false } 13 =
        .ok { hdrs := [] ++ [e], flag := true } ∧
      (8 ∣ e.size ∧ (13 : Int) ≤ (e.size : Int) ∧
        ∀ k : Nat, 8 ∣ k → (13 : Int) ≤ (k : Int) → e.size ≤ k) ∧
      e.len = e.size ∧
      e.mem 1 = (e.size / 8 - 1) % 256 ∧
      ((13 : Int) ≤ 2048 → e.mem 1 = e.size / 8 - 1) :=
  ⟨⟨by decide, by decide, by decide⟩,
   ext_hdr_option_blob 4 (fun _ => 0) { hdrs := [], flag := false } 13
     (by decide) (by decide) (by decide)⟩

/-- C1 as stated fails at `L = 2056`: the blob has 2056 bytes, `size / 8 - 1` is
256, and the 8-bit field of byte 1 holds 0. -/
theorem ext_hdr_option_length_field_wraps :
    ∃ e : ExtHdr, ext_hdr_option 4 (fun _ => 0) { hdrs := [], flag := false } 2056 =
        .ok { hdrs := [e], flag := true } ∧
      e.size = 2056 ∧ e.len = 2056 ∧ e.mem 1 = 0 ∧ e.size / 8 - 1 = 256 ∧
      e.mem 1 ≠ e.size / 8 - 1 := by
  obtain ⟨m, hm⟩ := ext_hdr_option_returns 4 (fun _ => 0) { hdrs := [], flag := false } 2056
    (by decide) (by decide)
  have hsz : roundHdrlen (toUInt 2056) = 2056 := by decide
  have hb : poke m 1 (hdrExtLen (roundHdrlen (toUInt 2056))) 1 = 0 := by
    rw [poke_same]; decide
  refine ⟨_, hm, hsz, hsz, hb, ?_, ?_⟩
  · show roundHdrlen (toUInt 2056) / 8 - 1 = 256
    decide
  · show poke m 1 _ 1 ≠ roundHdrlen (toUInt 2056) / 8 - 1
    rw [hb]; decide

/-! ## init_packet_data: the chain invariant -/

theorem endOf_snoc (q : NhPtr) (items : List (Nat × NhPtr)) (x : Nat × NhPtr) :
    endOf q (items ++ [x]) = x.2 := by
  induction items generalizing q with
  | nil => rfl
  | cons y ys ih => simpa [endOf] using ih y.2

theorem endOf_append (q : NhPtr) (xs ys : List (Nat × NhPtr)) :
    endOf q (xs ++ ys) = endOf (endOf q xs) ys := by
  induction xs generalizing q with
  | nil => rfl
  | cons y ys' ih => simpa [endOf] using ih y.2

theorem OpenFz_snoc (live : Bool) (g : Globals) (q : NhPtr) (items : List (Nat × NhPtr))
    (x : Nat × NhPtr) :
    OpenFz live g q (items ++ [x]) ↔
      OpenFz live g q items ∧ loadNh g (endOf q items) = x.1 ∧ FrozenLoc live g (endOf q items) := by
  induction items generalizing q with
  | nil => simp [OpenFz, endOf]
  | cons y ys ih =>
    obtain ⟨p, loc⟩ := y
    show (loadNh g q = p ∧ FrozenLoc live g q ∧ OpenFz live g loc (ys ++ [x])) ↔
      (loadNh g q = p ∧ FrozenLoc live g q ∧ OpenFz live g loc ys) ∧
        loadNh g (endOf loc ys) = x.1 ∧ FrozenLoc live g (endOf loc ys)
    rw [ih loc]
    tauto

theorem OpenFz_transport (live live1 : Bool) (g g1 : Globals)
    (keep : ∀ l, FrozenLoc live g l → FrozenLoc live1 g1 l ∧ loadNh g1 l = loadNh g l)
    (q : NhPtr) (items : List (Nat × NhPtr)) (h : OpenFz live g q items) :
    OpenFz live1 g1 q items := by
  induction items generalizing q with
  | nil => trivial
  | cons y ys ih =>
    obtain ⟨h1, h2, h3⟩ := h
    exact ⟨(keep q h2).2.trans h1, (keep q h2).1, ih y.2 h3⟩

theorem ChainFrom_of_open (live : Bool) (g : Globals) (q : NhPtr) (items : List (Nat × NhPtr))
    (final : Nat) (h : OpenFz live g q items) (hend : loadNh g (endOf q items) = final) :
    ChainFrom g q items final := by
  induction items generalizing q with
  | nil => exact hend
  | cons y ys ih => exact ⟨h.1, ih y.2 h.2.2 hend⟩

theorem walkProtos_of_chain (g : Globals) (q : NhPtr) (items : List (Nat × NhPtr)) (final : Nat)
    (h : ChainFrom g q items final) :
    walkProtos g q items = items.map Prod.fst ++ [final] := by
  induction items generalizing q with
  | nil => simp [walkProtos]; exact h
  | cons y ys ih =>
    obtain ⟨h1, h2⟩ := h
    simp [walkProtos, h1, ih y.2 h2]

theorem appendHdrs_cons (proto limit : Nat) (e : ExtHdr) (rest : List ExtHdr) (g : Globals) :
    appendHdrs proto limit (e :: rest) g =
      if g.ptr + e.len > limit then .error .exitFailure
      else appendHdrs proto limit rest (stepHdr proto e g) := rfl

theorem stepHdr_keep (live : Bool) (proto : Nat) (e : ExtHdr) (g : Globals) (l : NhPtr)
    (h : FrozenLoc live g l) :
    FrozenLoc live (stepHdr proto e g) l ∧ loadNh (stepHdr proto e g) l = loadNh g l := by
  obtain ⟨h1, h2, h3⟩ := h
  cases l with
  | inBuffer off =>
    have hoff : off < g.ptr := h2 off rfl
    refine ⟨⟨?_, ?_, ?_⟩, ?_⟩
    · simp only [stepHdr]; intro hc; injection hc with hc; omega
    · intro o ho; injection ho with ho; simp only [stepHdr]; omega
    · intro hc; cases hc
    · cases hp : g.prev_nh with
      | inBuffer q =>
        have hne : off ≠ q := by
          intro hc; apply h1; rw [hp, hc]
        have hm : ¬ (g.ptr ≤ off ∧ off < g.ptr + e.len) := by omega
        simp [stepHdr, storeNh, hp, loadNh, memcpy, poke, hm, hne]
      | inFraghdr =>
        have hm : ¬ (g.ptr ≤ off ∧ off < g.ptr + e.len) := by omega
        simp [stepHdr, storeNh, hp, loadNh, memcpy, hm]
  | inFraghdr =>
    refine ⟨⟨?_, ?_, h3⟩, ?_⟩
    · simp only [stepHdr]; intro hc; cases hc
    · intro o ho; cases ho
    · cases hp : g.prev_nh with
      | inBuffer q => simp [stepHdr, storeNh, hp, loadNh]
      | inFraghdr => exact absurd hp.symm h1

theorem stepHdr_pending (proto : Nat) (hp : proto < 256) (e : ExtHdr) (g : Globals)
    (wf : ∀ off, g.prev_nh = NhPtr.inBuffer off → off < g.ptr) :
    loadNh (stepHdr proto e g) g.prev_nh = proto := by
  cases hq : g.prev_nh with
  | inBuffer q =>
    have hlt := wf q hq
    have hm : ¬ (g.ptr ≤ q ∧ q < g.ptr + e.len) := by omega
    simp [stepHdr, storeNh, hq, loadNh, memcpy, poke, hm]
    omega
  | inFraghdr =>
    simp [stepHdr, storeNh, hq, loadNh, poke]
    omega

theorem stepHdr_inv (live : Bool) (proto : Nat) (hp : proto < 256) (e : ExtHdr) (g : Globals)
    (he : 0 < e.len) (q0 : NhPtr) (items : List (Nat × NhPtr)) (placed : List (Nat × ExtHdr))
    (hlive : g.prev_nh = NhPtr.inFraghdr → live = true)
    (inv : BuildInv live g q0 items placed) :
    BuildInv live (stepHdr proto e g) q0 (items ++ [(proto, NhPtr.inBuffer g.ptr)])
      (placed ++ [(g.ptr, e)]) := by
  refine ⟨?_, ?_, ?_, ?_⟩
  · rw [OpenFz_snoc]
    refine ⟨OpenFz_transport live live g _ (stepHdr_keep live proto e g) q0 items inv.links, ?_, ?_⟩
    · rw [← inv.pend]; exact stepHdr_pending proto hp e g inv.wf
    · rw [← inv.pend]
      refine ⟨?_, ?_, hlive⟩
      · simp only [stepHdr]
        intro hc
        have := inv.wf g.ptr hc
        omega
      · intro off hoff
        have := inv.wf off hoff
        simp only [stepHdr]; omega
  · rw [endOf_snoc]; rfl
  · intro off hoff
    simp only [stepHdr] at hoff ⊢
    injection hoff with hoff
    omega
  · intro x hx k hk1 hk2
    rcases List.mem_append.mp hx with hx | hx
    · obtain ⟨a, b, c⟩ := inv.held x hx k hk1 hk2
      have hfz : FrozenLoc live g (NhPtr.inBuffer (x.1 + k)) :=
        ⟨fun hc => c hc.symm, fun o ho => by injection ho with ho; omega, fun hc => by cases hc⟩
      obtain ⟨f1, f2⟩ := stepHdr_keep live proto e g _ hfz
      refine ⟨?_, ?_, ?_⟩
      · have : (stepHdr proto e g).buffer (x.1 + k) = g.buffer (x.1 + k) := f2
        rw [this, a]
      · simp only [stepHdr]; omega
      · exact fun hc => f1.1 hc.symm
    · simp only [List.mem_singleton] at hx
      subst hx
      dsimp only at hk2 ⊢
      refine ⟨?_, ?_, ?_⟩
      · have hm : g.ptr ≤ g.ptr + k ∧ g.ptr + k < g.ptr + e.len := by constructor <;> omega
        simp [stepHdr, memcpy, hm]
      · simp only [stepHdr]; omega
      · simp only [stepHdr]; intro hc; injection hc with hc; omega

theorem SameConfig.refl (g : Globals) : SameConfig g g :=
  ⟨rfl, rfl, rfl, rfl, rfl, rfl, rfl, rfl, rfl, rfl⟩

theorem SameConfig.trans {a b c : Globals} (h1 : SameConfig a b) (h2 : SameConfig b c) :
    SameConfig a c := by
  obtain ⟨a1, a2, a3, a4, a5, a6, a7, a8, a9, a10⟩ := h1
  obtain ⟨b1, b2, b3, b4, b5, b6, b7, b8, b9, b10⟩ := h2
  exact ⟨b1.trans a1, b2.trans a2, b3.trans a3, b4.trans a4, b5.trans a5, b6.trans a6,
    b7.trans a7, b8.trans a8, b9.trans a9, b10.trans a10⟩

theorem stepHdr_config (proto : Nat) (e : ExtHdr) (g : Globals) :
    SameConfig g (stepHdr proto e g) := by
  cases hp : g.prev_nh <;> simp [SameConfig, stepHdr, storeNh, hp]

theorem appendHdrs_inv (live : Bool) (proto limit : Nat) (hp : proto < 256) :
    ∀ (hs : List ExtHdr) (g g1 : Globals) (q0 : NhPtr) (items : List (Nat × NhPtr))
      (placed : List (Nat × ExtHdr)),
      appendHdrs proto limit hs g = .ok g1 → (∀ e ∈ hs, 0 < e.len) →
      (g.prev_nh = NhPtr.inFraghdr → live = true) →
      BuildInv live g q0 items placed →
      BuildInv live g1 q0 (items ++ segItems proto (hdrStarts g.ptr hs))
          (placed ++ List.zip (hdrStarts g.ptr hs) hs) ∧
        g1.ptr = g.ptr + totalLen hs ∧
        (g1.prev_nh = NhPtr.inFraghdr → live = true) ∧
        SameConfig g g1 ∧
        (hs ≠ [] → g1.ptr ≤ limit) := by
  intro hs
  induction hs with
  | nil =>
    intro g g1 q0 items placed h _ hl inv
    simp only [appendHdrs, Except.ok.injEq] at h
    subst h
    refine ⟨?_, ?_, hl, SameConfig.refl _, fun hc => absurd rfl hc⟩
    · simpa [segItems, hdrStarts] using inv
    · simp [totalLen]
  | cons e rest ih =>
    intro g g1 q0 items placed h hpos hl inv
    rw [appendHdrs_cons] at h
    by_cases hbig : g.ptr + e.len > limit
    · rw [if_pos hbig] at h; cases h
    · rw [if_neg hbig] at h
      have he : 0 < e.len := hpos e (List.mem_cons_self _ _)
      have inv1 := stepHdr_inv live proto hp e g he q0 items placed hl inv
      have hl1 : (stepHdr proto e g).prev_nh = NhPtr.inFraghdr → live = true := by
        intro hc; simp only [stepHdr] at hc; cases hc
      obtain ⟨r1, r2, r3, r4, r5⟩ := ih (stepHdr proto e g) g1 q0 _ _ h
        (fun x hx => hpos x (List.mem_cons_of_mem _ hx)) hl1 inv1
      have hptr : (stepHdr proto e g).ptr = g.ptr + e.len := rfl
      rw [hptr] at r1 r2
      refine ⟨?_, ?_, r3, (stepHdr_config proto e g).trans r4, ?_⟩
      · simpa [segItems, hdrStarts, List.append_assoc] using r1
      · simp only [totalLen]; omega
      · intro _
        cases rest with
        | nil =>
          simp only [totalLen] at r2
          omega
        | cons e2 rest2 => exact r5 (List.cons_ne_nil _ _)

theorem hdrStarts_length (p : Nat) (hs : List ExtHdr) : (hdrStarts p hs).length = hs.length := by
  induction hs generalizing p with
  | nil => rfl
  | cons e rest ih => simp [hdrStarts, ih]

theorem hdrStarts_append (p : Nat) (xs ys : List ExtHdr) :
    hdrStarts p (xs ++ ys) = hdrStarts p xs ++ hdrStarts (p + totalLen xs) ys := by
  induction xs generalizing p with
  | nil => simp [hdrStarts, totalLen]
  | cons e rest ih => simp [hdrStarts, totalLen, ih, Nat.add_assoc]

theorem totalLen_append (xs ys : List ExtHdr) :
    totalLen (xs ++ ys) = totalLen xs + totalLen ys := by
  induction xs with
  | nil => simp [totalLen]
  | cons e rest ih => simp [totalLen, ih, Nat.add_assoc]

theorem zip_hdrStarts_append (p : Nat) (xs ys : List ExtHdr) :
    List.zip (hdrStarts p (xs ++ ys)) (xs ++ ys) =
      List.zip (hdrStarts p xs) xs ++ List.zip (hdrStarts (p + totalLen xs) ys) ys := by
  rw [hdrStarts_append, List.zip_append (hdrStarts_length p xs)]

theorem segItems_protos (proto : Nat) (starts : List Nat) :
    (segItems proto starts).map Prod.fst = List.replicate starts.length proto := by
  induction starts with
  | nil => rfl
  | cons s rest ih =>
    simp only [segItems, List.map_cons, List.map_map, List.length_cons, List.replicate_succ] at ih ⊢
    rw [ih]

theorem storeNh_ptr (g : Globals) (v : Nat) : (storeNh g v).ptr = g.ptr := by
  cases hp : g.prev_nh <;> simp [storeNh, hp]

theorem storeNh_prev_nh (g : Globals) (v : Nat) : (storeNh g v).prev_nh = g.prev_nh := by
  cases hp : g.prev_nh <;> simp [storeNh, hp]

theorem storeNh_config (g : Globals) (v : Nat) : SameConfig g (storeNh g v) := by
  cases hp : g.prev_nh <;> simp [SameConfig, storeNh, hp]

theorem storeNh_load_pending (g : Globals) (v : Nat) (hv : v < 256) :
    loadNh (storeNh g v) g.prev_nh = v := by
  cases hp : g.prev_nh <;> simp [storeNh, hp, loadNh, poke] <;> omega

theorem storeNh_load_other (g : Globals) (v : Nat) (l : NhPtr) (hl : l ≠ g.prev_nh) :
    loadNh (storeNh g v) l = loadNh g l := by
  cases hp : g.prev_nh with
  | inBuffer q =>
    cases l with
    | inBuffer off =>
      have : off ≠ q := by intro hc; apply hl; rw [hp, hc]
      simp [storeNh, hp, loadNh, poke, this]
    | inFraghdr => simp [storeNh, hp, loadNh]
  | inFraghdr =>
    cases l with
    | inBuffer off => simp [storeNh, hp, loadNh]
    | inFraghdr => exact absurd hp.symm hl

theorem initNS_effect (idata : IfaceData) (g g1 : Globals) (h : initNS idata g = .ok g1) :
    g1.prev_nh = g.prev_nh ∧ g1.fraghdr = (storeNh g IPPROTO_ICMPV6).fraghdr ∧
      (∀ off, off < g.ptr → g1.buffer off = (storeNh g IPPROTO_ICMPV6).buffer off) ∧
      g1.ns = g.ptr ∧ g1.buffer g1.ns = ND_NEIGHBOR_SOLICIT ∧
      g.ptr + sizeof_nd_neighbor_solicit ≤ g1.ptr ∧
      g1.startofprefixes = g1.ptr ∧
      g1.ptr ≤ idata.linkhsize + idata.max_packet_size ∧
      SameConfig g g1 := by
  unfold initNS at h
  have hptr := storeNh_ptr g IPPROTO_ICMPV6
  have hpn := storeNh_prev_nh g IPPROTO_ICMPV6
  have hcfg := storeNh_config g IPPROTO_ICMPV6
  generalize storeNh g IPPROTO_ICMPV6 = s at h hptr hpn hcfg ⊢
  obtain ⟨c1, c2, c3, c4, c5, c6, c7, c8, c9, c10⟩ := hcfg
  simp only at h
  split at h
  · cases h
  · split at h
    · split at h
      · simp only [Except.ok.injEq] at h
        subst h
        refine ⟨hpn, rfl, ?_, hptr, ?_, ?_, rfl, ?_, ?_⟩
        · intro off hoff
          have a1 : ¬ (s.ptr + sizeof_nd_neighbor_solicit + 2 ≤ off ∧
              off < s.ptr + sizeof_nd_neighbor_solicit + 2 + ETH_ALEN) := by omega
          have a2 : off ≠ s.ptr + sizeof_nd_neighbor_solicit + 1 := by omega
          have a3 : off ≠ s.ptr + sizeof_nd_neighbor_solicit := by omega
          have a4 : ¬ (s.ptr + 8 ≤ off ∧ off < s.ptr + 8 + 16) := by omega
          have a5 : ¬ (s.ptr + 4 ≤ off ∧ off < s.ptr + 4 + 4) := by omega
          have a6 : off ≠ s.ptr + 1 := by omega
          have a7 : off ≠ s.ptr := by omega
          simp [pokeBytes, poke, memset, a1, a2, a3, a4, a5, a6, a7]
        · have b1 : ¬ (s.ptr + 24 + 2 ≤ s.ptr ∧ s.ptr < s.ptr + 24 + 2 + 6) := by omega
          have b2 : s.ptr ≠ s.ptr + 24 + 1 := by omega
          simp [pokeBytes, poke, memset, sizeof_nd_neighbor_solicit, ETH_ALEN,
            ND_NEIGHBOR_SOLICIT, b1, b2]
        · simp only [sizeof_nd_neighbor_solicit, sizeof_nd_opt_slla]; omega
        · simp only [sizeof_nd_neighbor_solicit, sizeof_nd_opt_slla] at *; omega
        · exact ⟨c1, c2, c3, c4, c5, c6, c7, c8, c9, c10⟩
      · cases h
    · simp only [Except.ok.injEq] at h
      subst h
      refine ⟨hpn, rfl, ?_, hptr, ?_, ?_, rfl, ?_, ?_⟩
      · intro off hoff
        have a4 : ¬ (s.ptr + 8 ≤ off ∧ off < s.ptr + 8 + 16) := by omega
        have a5 : ¬ (s.ptr + 4 ≤ off ∧ off < s.ptr + 4 + 4) := by omega
        have a6 : off ≠ s.ptr + 1 := by omega
        have a7 : off ≠ s.ptr := by omega
        simp [pokeBytes, poke, memset, a4, a5, a6, a7]
      · simp [pokeBytes, poke, memset, ND_NEIGHBOR_SOLICIT]
      · simp only [sizeof_nd_neighbor_solicit]; omega
      · simp only [sizeof_nd_neighbor_solicit] at *; omega
      · exact ⟨c1, c2, c3, c4, c5, c6, c7, c8, c9, c10⟩

theorem initFragHdr_inv (idata : IfaceData) (g g1 : Globals) (q0 : NhPtr)
    (items : List (Nat × NhPtr)) (placed : List (Nat × ExtHdr))
    (h : initFragHdr idata g = .ok g1) (hbuf : g.prev_nh ≠ NhPtr.inFraghdr)
    (inv : BuildInv false g q0 items placed) :
    BuildInv idata.fragh_f g1 q0
        (items ++ (if idata.fragh_f then [(IPPROTO_FRAGMENT, NhPtr.inFraghdr)] else [])) placed ∧
      g1.ptr = g.ptr ∧ (g1.prev_nh = NhPtr.inFraghdr → idata.fragh_f = true) ∧
      SameConfig g g1 ∧
      (idata.fragh_f = true →
        g.fragpart + FRAG_HDR_SIZE + g.nfrags ≤ idata.linkhsize + idata.mtu) := by
  unfold initFragHdr at h
  by_cases hf : idata.fragh_f = true
  · rw [if_pos hf] at h
    split at h
    · cases h
    · rename_i hchk
      simp only [Except.ok.injEq] at h
      cases hp : g.prev_nh with
      | inFraghdr => exact absurd hp hbuf
      | inBuffer q =>
        have hq : q < g.ptr := inv.wf q hp
        simp only [storeNh, hp] at h
        subst h
        have keep : ∀ l, FrozenLoc false g l →
            FrozenLoc true
              { g with fraghdr := memset g.fraghdr 0 0 FRAG_HDR_SIZE,
                       buffer := poke g.buffer q IPPROTO_FRAGMENT,
                       prev_nh := NhPtr.inFraghdr } l ∧
            loadNh { g with fraghdr := memset g.fraghdr 0 0 FRAG_HDR_SIZE,
                            buffer := poke g.buffer q IPPROTO_FRAGMENT,
                            prev_nh := NhPtr.inFraghdr } l = loadNh g l := by
          intro l hl
          obtain ⟨l1, l2, l3⟩ := hl
          cases l with
          | inFraghdr => exact absurd (l3 rfl) (by decide)
          | inBuffer off =>
            have hne : off ≠ q := by intro hc; apply l1; rw [hp, hc]
            refine ⟨⟨(by intro hc; cases hc), l2, (by intro hc; cases hc)⟩, ?_⟩
            simp [loadNh, poke, hne]
        rw [hf, if_pos rfl]
        refine ⟨⟨?_, ?_, ?_, ?_⟩, rfl, fun _ => rfl, ?_, ?_⟩
        · rw [OpenFz_snoc]
          refine ⟨OpenFz_transport false true g _ keep q0 items inv.links, ?_, ?_⟩
          · rw [← inv.pend, hp]
            simp [loadNh, poke, IPPROTO_FRAGMENT]
          · rw [← inv.pend, hp]
            refine ⟨(by intro hc; cases hc), ?_, (by intro hc; cases hc)⟩
            intro off ho; injection ho with ho
            show off < g.ptr
            omega
        · rw [endOf_snoc]
        · intro off ho; cases ho
        · intro x hx k hk1 hk2
          obtain ⟨a, b, c⟩ := inv.held x hx k hk1 hk2
          have hne : x.1 + k ≠ q := by intro hc; apply c; rw [hp, hc]
          refine ⟨?_, b, (by intro hc; cases hc)⟩
          simp only [poke, if_neg hne]
          exact a
        · simp [SameConfig]
        · intro _
          omega
  · rw [if_neg hf] at h
    simp only [Except.ok.injEq] at h
    subst h
    have hf2 : idata.fragh_f = false := by simpa using hf
    refine ⟨?_, rfl, ?_, SameConfig.refl _, ?_⟩
    · simpa [hf2] using inv
    · intro hc; exact absurd hc hbuf
    · intro hc; rw [hf2] at hc; cases hc

theorem init_packet_data_chain (idata : IfaceData) (g g1 : Globals)
    (h : init_packet_data idata g = .ok g1) (hpos : HdrLensPositive g) :
    ChainFrom g1 (NhPtr.inBuffer (idata.linkhsize + 6)) (chainOf idata g) IPPROTO_ICMPV6 ∧
      (∀ x ∈ placedHdrs idata g, ∀ k, 1 ≤ k → k < x.2.len → g1.buffer (x.1 + k) = x.2.mem k) ∧
      g1.ns = idata.linkhsize + MIN_IPV6_HLEN +
        totalLen (activeHdrs g.hbhopt ++ activeHdrs g.dstoptu ++ activeHdrs g.dstopt) ∧
      g1.buffer g1.ns = ND_NEIGHBOR_SOLICIT := by
  obtain ⟨pos1, pos2, pos3⟩ := hpos
  unfold init_packet_data at h
  simp only at h
  -- the IPv6 header
  have inv0 : BuildInv false (initIPv6Header idata g) (NhPtr.inBuffer (idata.linkhsize + 6)) [] [] := by
    refine ⟨trivial, rfl, ?_, ?_⟩
    · intro off ho
      simp only [initIPv6Header] at ho ⊢
      injection ho with ho
      simp only [MIN_IPV6_HLEN]; omega
    · intro x hx; cases hx
  have cfg0 : SameConfig g (initIPv6Header idata g) := by simp [SameConfig, initIPv6Header]
  have ptr0 : (initIPv6Header idata g).ptr = idata.linkhsize + MIN_IPV6_HLEN := rfl
  have pn0 : (initIPv6Header idata g).prev_nh = NhPtr.inFraghdr → false = true := by
    intro hc; simp only [initIPv6Header] at hc; cases hc
  generalize initIPv6Header idata g = g0 at h inv0 cfg0 ptr0 pn0
  -- Hop-by-Hop headers
  cases h1 : appendHdrs IPPROTO_HOPOPTS (idata.linkhsize + idata.mtu) (activeHdrs g0.hbhopt) g0 with
  | error e => rw [h1] at h; cases h
  | ok ga =>
  rw [h1] at h
  simp only at h
  rw [cfg0.1] at h1
  obtain ⟨inv1, ptr1, pn1, cfg1, _⟩ := appendHdrs_inv false IPPROTO_HOPOPTS _ (by decide) _ g0 ga _ _ _
    h1 pos1 pn0 inv0
  -- unfragmentable Destination Options headers
  cases h2 : appendHdrs IPPROTO_DSTOPTS (idata.linkhsize + idata.mtu) (activeHdrs ga.dstoptu) ga with
  | error e => rw [h2] at h; cases h
  | ok gb =>
  rw [h2] at h
  simp only at h
  rw [(cfg0.trans cfg1).2.1] at h2
  obtain ⟨inv2, ptr2, pn2, cfg2, _⟩ := appendHdrs_inv false IPPROTO_DSTOPTS _ (by decide) _ ga gb _ _ _
    h2 pos2 pn1 inv1
  -- the Fragment Header record
  cases h3 : initFragHdr idata { gb with fragpart := gb.ptr } with
  | error e => rw [h3] at h; cases h
  | ok gc =>
  rw [h3] at h
  simp only at h
  have inv2f : BuildInv false { gb with fragpart := gb.ptr } (NhPtr.inBuffer (idata.linkhsize + 6))
      ([] ++ segItems IPPROTO_HOPOPTS (hdrStarts g0.ptr (activeHdrs g.hbhopt)) ++
        segItems IPPROTO_DSTOPTS (hdrStarts ga.ptr (activeHdrs g.dstoptu)))
      ([] ++ List.zip (hdrStarts g0.ptr (activeHdrs g.hbhopt)) (activeHdrs g.hbhopt) ++
        List.zip (hdrStarts ga.ptr (activeHdrs g.dstoptu)) (activeHdrs g.dstoptu)) :=
    ⟨OpenFz_transport false false gb { gb with fragpart := gb.ptr } (fun l hl => ⟨hl, rfl⟩) _ _
        inv2.links, inv2.pend,
      inv2.wf, inv2.held⟩
  have hbuf : ({ gb with fragpart := gb.ptr } : Globals).prev_nh ≠ NhPtr.inFraghdr := by
    intro hc
    exact absurd (pn2 hc) (by decide)
  obtain ⟨inv3, ptr3, pn3, cfg3, _⟩ := initFragHdr_inv idata _ gc _ _ _ h3 hbuf inv2f
  have cfg3d : gc.dstopt = g.dstopt := by
    rw [cfg3.2.2.1]
    exact (cfg0.trans (cfg1.trans cfg2)).2.2.1
  -- fragmentable Destination Options headers
  cases h4 : appendHdrs IPPROTO_DSTOPTS (idata.linkhsize + idata.max_packet_size)
      (activeHdrs gc.dstopt) gc with
  | error e => rw [h4] at h; cases h
  | ok gd =>
  rw [h4] at h
  rw [cfg3d] at h4
  obtain ⟨inv4, ptr4, pn4, cfg4, _⟩ := appendHdrs_inv idata.fragh_f IPPROTO_DSTOPTS _ (by decide) _
    gc gd _ _ _ h4 pos3 pn3 inv3
  -- the Neighbor Solicitation header
  obtain ⟨n1, n2, n3, n4, n5, n6, n7, n8, n9⟩ := initNS_effect idata gd g1 h
  have hptrc : gc.ptr = idata.linkhsize + MIN_IPV6_HLEN + totalLen (activeHdrs g.hbhopt) +
      totalLen (activeHdrs g.dstoptu) := by
    rw [ptr3]; show gb.ptr = _; rw [ptr2, ptr1, ptr0]
  have hitems : [] ++ segItems IPPROTO_HOPOPTS (hdrStarts g0.ptr (activeHdrs g.hbhopt)) ++
        segItems IPPROTO_DSTOPTS (hdrStarts ga.ptr (activeHdrs g.dstoptu)) ++
        (if idata.fragh_f = true then [(IPPROTO_FRAGMENT, NhPtr.inFraghdr)] else []) ++
        segItems IPPROTO_DSTOPTS (hdrStarts gc.ptr (activeHdrs g.dstopt)) = chainOf idata g := by
    rw [hptrc, ptr1, ptr0]
    simp [chainOf]
  have hplaced : [] ++ List.zip (hdrStarts g0.ptr (activeHdrs g.hbhopt)) (activeHdrs g.hbhopt) ++
        List.zip (hdrStarts ga.ptr (activeHdrs g.dstoptu)) (activeHdrs g.dstoptu) ++
        List.zip (hdrStarts gc.ptr (activeHdrs g.dstopt)) (activeHdrs g.dstopt) =
      placedHdrs idata g := by
    rw [hptrc, ptr1, ptr0]
    simp only [placedHdrs, List.nil_append]
    rw [zip_hdrStarts_append, zip_hdrStarts_append, totalLen_append]
    simp [Nat.add_assoc]
  rw [hitems, hplaced] at inv4
  have keep : ∀ l, FrozenLoc idata.fragh_f gd l →
      FrozenLoc idata.fragh_f g1 l ∧ loadNh g1 l = loadNh gd l := by
    intro l hl
    obtain ⟨l1, l2, l3⟩ := hl
    refine ⟨⟨by rw [n1]; exact l1, ?_, l3⟩, ?_⟩
    · intro off ho
      have := l2 off ho
      simp only [sizeof_nd_neighbor_solicit] at n6
      omega
    · rw [← storeNh_load_other gd IPPROTO_ICMPV6 l l1]
      cases l with
      | inBuffer off => exact n3 off (l2 off rfl)
      | inFraghdr => simp only [loadNh]; rw [n2]
  have hend : loadNh g1 (endOf (NhPtr.inBuffer (idata.linkhsize + 6)) (chainOf idata g)) =
      IPPROTO_ICMPV6 := by
    rw [← inv4.pend, ← storeNh_load_pending gd IPPROTO_ICMPV6 (by decide)]
    cases hq : gd.prev_nh with
    | inBuffer q => exact n3 q (inv4.wf q hq)
    | inFraghdr => simp only [loadNh]; rw [n2]
  refine ⟨ChainFrom_of_open idata.fragh_f g1 _ _ _
      (OpenFz_transport _ _ gd g1 keep _ _ inv4.links) hend, ?_, ?_, n5⟩
  · intro x hx k hk1 hk2
    obtain ⟨a, b, c⟩ := inv4.held x hx k hk1 hk2
    rw [n3 _ b]
    have := storeNh_load_other gd IPPROTO_ICMPV6 (NhPtr.inBuffer (x.1 + k)) (fun hc => c hc.symm)
    simp only [loadNh] at this
    rw [this, a]
  · rw [n4, ptr4, hptrc, totalLen_append, totalLen_append]
    omega

theorem chainOf_protos (idata : IfaceData) (g : Globals) :
    (chainOf idata g).map Prod.fst =
      List.replicate (activeHdrs g.hbhopt).length IPPROTO_HOPOPTS ++
      List.replicate (activeHdrs g.dstoptu).length IPPROTO_DSTOPTS ++
      (if idata.fragh_f then [IPPROTO_FRAGMENT] else []) ++
      List.replicate (activeHdrs g.dstopt).length IPPROTO_DSTOPTS := by
  simp only [chainOf, List.map_append, segItems_protos, hdrStarts_length]
  cases idata.fragh_f <;> simp

theorem init_packet_data_next_header_chain (idata : IfaceData) (g g1 : Globals)
    (h : init_packet_data idata g = .ok g1) (hpos : HdrLensPositive g) :
    ChainFrom g1 (NhPtr.inBuffer (idata.linkhsize + 6)) (chainOf idata g) 58 ∧
      (chainOf idata g).map Prod.fst =
        List.replicate (activeHdrs g.hbhopt).length 0 ++
        List.replicate (activeHdrs g.dstoptu).length 60 ++
        (if idata.fragh_f then [44] else []) ++
        List.replicate (activeHdrs g.dstopt).length 60 ∧
      g1.ns = idata.linkhsize + 40 +
        totalLen (activeHdrs g.hbhopt ++ activeHdrs g.dstoptu ++ activeHdrs g.dstopt) ∧
      g1.buffer g1.ns = 135 := by
  obtain ⟨c1, _, c3, c4⟩ := init_packet_data_chain idata g g1 h hpos
  exact ⟨c1, chainOf_protos idata g, c3, c4⟩

theorem oneOfEach_positive : HdrLensPositive oneOfEach := by
  refine ⟨?_, ?_, ?_⟩ <;>
  · intro e he
    simp only [activeHdrs, oneOfEach, if_true, List.mem_singleton] at he
    subst he
    decide

theorem oneOfEach_isOk : isOk (init_packet_data ethFrag oneOfEach) = true := by decide

theorem init_packet_data_next_header_chain_witness :
    HdrLensPositive oneOfEach ∧
    ∃ g1, init_packet_data ethFrag oneOfEach = .ok g1 ∧
      ChainFrom g1 (NhPtr.inBuffer (ethFrag.linkhsize + 6)) (chainOf ethFrag oneOfEach) 58 ∧
      (chainOf ethFrag oneOfEach).map Prod.fst =
        List.replicate (activeHdrs oneOfEach.hbhopt).length 0 ++
        List.replicate (activeHdrs oneOfEach.dstoptu).length 60 ++
        (if ethFrag.fragh_f then [44] else []) ++
        List.replicate (activeHdrs oneOfEach.dstopt).length 60 ∧
      g1.ns = ethFrag.linkhsize + 40 +
        totalLen (activeHdrs oneOfEach.hbhopt ++ activeHdrs oneOfEach.dstoptu ++
          activeHdrs oneOfEach.dstopt) ∧
      g1.buffer g1.ns = 135 := by
  cases h : init_packet_data ethFrag oneOfEach with
  | error e =>
    have := oneOfEach_isOk
    rw [h] at this
    cases this
  | ok g1 =>
    exact ⟨oneOfEach_positive, g1, rfl,
      init_packet_data_next_header_chain ethFrag oneOfEach g1 h oneOfEach_positive⟩

/-- C3 (as amended).  With every configured header recorded with a length that
is not zero: walking the next-header links from the IPv6 header of the
template built by init_packet_data reads the protocol numbers of the Hop-by-Hop
headers, then of the unfragmentable Destination Options headers, then of the
Fragment header if fragmentation is enabled, then of the fragmentable
Destination Options headers, and finally 58 (ICMPv6); the headers lie in the
template in that order, each class in configuration order, every header with
the bytes of its configured blob after its next-header byte. -/
theorem init_packet_data_walk (idata : IfaceData) (g g1 : Globals)
    (h : init_packet_data idata g = .ok g1) (hpos : HdrLensPositive g) :
    walkProtos g1 (NhPtr.inBuffer (idata.linkhsize + 6)) (chainOf idata g) =
        List.replicate (activeHdrs g.hbhopt).length 0 ++
        List.replicate (activeHdrs g.dstoptu).length 60 ++
        (if idata.fragh_f then [44] else []) ++
        List.replicate (activeHdrs g.dstopt).length 60 ++ [58] ∧
      (∀ x ∈ placedHdrs idata g, ∀ k, 1 ≤ k → k < x.2.len →
        g1.buffer (x.1 + k) = x.2.mem k) := by
  obtain ⟨c1, c2, _, _⟩ := init_packet_data_chain idata g g1 h hpos
  refine ⟨?_, c2⟩
  rw [walkProtos_of_chain g1 _ _ _ c1, chainOf_protos]
  rfl

theorem init_packet_data_walk_witness :
    HdrLensPositive oneOfEach ∧
    ∃ g1, init_packet_data ethFrag oneOfEach = .ok g1 ∧
      walkProtos g1 (NhPtr.inBuffer (ethFrag.linkhsize + 6)) (chainOf ethFrag oneOfEach) =
        List.replicate (activeHdrs oneOfEach.hbhopt).length 0 ++
        List.replicate (activeHdrs oneOfEach.dstoptu).length 60 ++
        (if ethFrag.fragh_f then [44] else []) ++
        List.replicate (activeHdrs oneOfEach.dstopt).length 60 ++ [58] ∧
      (∀ x ∈ placedHdrs ethFrag oneOfEach, ∀ k, 1 ≤ k → k < x.2.len →
        g1.buffer (x.1 + k) = x.2.mem k) := by
  cases h : init_packet_data ethFrag oneOfEach with
  | error e =>
    have := oneOfEach_isOk
    rw [h] at this
    cases this
  | ok g1 =>
    exact ⟨oneOfEach_positive, g1, rfl,
      init_packet_data_walk ethFrag oneOfEach g1 h oneOfEach_positive⟩

theorem oneDstOpt_positive : HdrLensPositive oneDstOpt := by
  refine ⟨?_, ?_, ?_⟩ <;>
  · intro e he
    simp [activeHdrs, oneDstOpt, plainGlobals] at he
    try (subst he; decide)

theorem oneDstOpt_isOk : isOk (init_packet_data ethFrag oneDstOpt) = true := by decide
/-! ## The fragment loop -/

theorem land_fff8 (x : Nat) : x &&& 0xfff8 = x % 65536 / 8 * 8 := by
  apply Nat.eq_of_testBit_eq
  intro i
  rw [Nat.testBit_and]
  have h1 : x % 65536 / 8 * 8 = 2 ^ 3 * ((x % 2 ^ 16) >>> 3) := by
    rw [Nat.shiftRight_eq_div_pow]; norm_num [Nat.mul_comm]
  rw [h1, Nat.testBit_mul_pow_two, Nat.testBit_shiftRight, Nat.testBit_mod_two_pow]
  by_cases h3 : 3 ≤ i
  · by_cases h16 : i < 16
    · have : Nat.testBit 0xfff8 i = true := by
        interval_cases i <;> decide
      have e : 3 + (i - 3) = i := by omega
      simp [this, h3, h16, e]
    · have : Nat.testBit 0xfff8 i = false := by
        apply Nat.testBit_lt_two_pow
        calc 0xfff8 < 2 ^ 16 := by norm_num
          _ ≤ 2 ^ i := Nat.pow_le_pow_right (by norm_num) (by omega)
      simp [this, h3]
      intro h; omega
  · have : Nat.testBit 0xfff8 i = false := by
      interval_cases i <;> decide
    simp [this, h3]

theorem lor_low_bits (a b : Nat) (hb : b < 8) : (a / 8 * 8) ||| b = a / 8 * 8 + b := by
  have h := @Nat.mul_add_lt_is_or 3 b (by simpa using hb) (a / 8)
  rw [Nat.mul_comm] at h
  simpa using h.symm

theorem roundFragSize_eq (nfrags : Nat) : roundFragSize nfrags = (nfrags + 7) % 65536 / 8 * 8 := by
  unfold roundFragSize IP6F_OFF_MASK_HOST U32
  rw [land_fff8]
  omega

theorem offlgValue_eq (off : Nat) (more : Bool) :
    offlgValue off more = off % 65536 / 8 * 8 + (if more then 1 else 0) := by
  unfold offlgValue IP6F_OFF_MASK_HOST
  rw [land_fff8]
  have h : off % 65536 % 65536 / 8 * 8 = off % 65536 / 8 * 8 := by omega
  rw [h]
  exact lor_low_bits _ _ (by cases more <;> simp)

theorem fragLoop_succ (lh : Nat) (buf : Mem) (fp pe fh sof nf fuel ptr : Nat) (more : Bool)
    (fb : Mem) :
    fragLoop lh buf fp pe fh sof nf (fuel + 1) ptr more fb =
      if ptr < pe ∧ more = true then
        match fragLoop lh buf fp pe fh sof nf fuel
            (ptr + (if pe - ptr ≤ nf then pe - ptr else roundFragSize nf))
            (!decide (pe - ptr ≤ nf))
            (pokeU16be
              (pokeU16be
                (memcpy fb sof buf ptr (if pe - ptr ≤ nf then pe - ptr else roundFragSize nf))
                (fh + 2) (offlgValue (ptr - fp) (!decide (pe - ptr ≤ nf))))
              (lh + 4)
              ((sof + (if pe - ptr ≤ nf then pe - ptr else roundFragSize nf) -
                MIN_IPV6_HLEN - lh) % 65536)) with
        | .error e => .error e
        | .ok (fs, fbEnd, ptrEnd) =>
          .ok ({ data := pokeU16be
                  (pokeU16be
                    (memcpy fb sof buf ptr (if pe - ptr ≤ nf then pe - ptr else roundFragSize nf))
                    (fh + 2) (offlgValue (ptr - fp) (!decide (pe - ptr ≤ nf))))
                  (lh + 4)
                  ((sof + (if pe - ptr ≤ nf then pe - ptr else roundFragSize nf) -
                    MIN_IPV6_HLEN - lh) % 65536),
                 len := sof + (if pe - ptr ≤ nf then pe - ptr else roundFragSize nf) } :: fs,
               fbEnd, ptrEnd)
      else .ok ([], fb, ptr) := by
  simp only [fragLoop, decide_eq_true_eq]

theorem fragLoop_spec (lh : Nat) (buf : Mem) (fp pe fh sof nf : Nat) :
    ∀ (fuel ptr : Nat) (more : Bool) (fb : Mem) (frames : List Frame) (fbEnd : Mem) (ptrEnd : Nat),
      fragLoop lh buf fp pe fh sof nf fuel ptr more fb = .ok (frames, fbEnd, ptrEnd) →
      FragsSpec lh buf fp pe fh sof nf ptr more fb frames := by
  intro fuel
  induction fuel with
  | zero =>
    intro ptr more fb frames fbEnd ptrEnd h
    simp only [fragLoop] at h
    split at h
    · cases h
    · rename_i hc
      simp only [Except.ok.injEq, Prod.mk.injEq] at h
      obtain ⟨h1, _, _⟩ := h
      subst h1
      exact hc
  | succ n ih =>
    intro ptr more fb frames fbEnd ptrEnd h
    rw [fragLoop_succ] at h
    split at h
    · rename_i hc
      split at h
      · cases h
      · rename_i fs fbE ptrE hrec
        simp only [Except.ok.injEq, Prod.mk.injEq] at h
        obtain ⟨h1, _, _⟩ := h
        subst h1
        exact ⟨hc, rfl, ih _ _ _ _ _ _ hrec⟩
    · rename_i hc
      simp only [Except.ok.injEq, Prod.mk.injEq] at h
      obtain ⟨h1, _, _⟩ := h
      subst h1
      exact hc

theorem fragLoop_done (lh : Nat) (buf : Mem) (fp pe fh sof nf fuel ptr : Nat) (fb : Mem) :
    fragLoop lh buf fp pe fh sof nf fuel ptr false fb = .ok ([], fb, ptr) := by
  cases fuel <;> simp [fragLoop]

theorem roundFragSize_pos (nf : Nat) (h8 : 8 ≤ nf) (hlt : nf + 7 < 65536) :
    8 ≤ roundFragSize nf ∧ nf ≤ roundFragSize nf ∧ roundFragSize nf < nf + 8 ∧
      roundFragSize nf % 8 = 0 := by
  rw [roundFragSize_eq]
  omega

theorem fragLoop_returns (lh : Nat) (buf : Mem) (fp pe fh sof nf : Nat) (h8 : 8 ≤ nf) :
    ∀ (fuel ptr : Nat) (fb : Mem), pe - ptr ≤ 65528 → pe - ptr < fuel →
      ∃ r, fragLoop lh buf fp pe fh sof nf fuel ptr true fb = .ok r := by
  intro fuel
  induction fuel with
  | zero => intro ptr fb _ h; omega
  | succ n ih =>
    intro ptr fb hS hfuel
    rw [fragLoop_succ]
    by_cases hc : ptr < pe
    · rw [if_pos ⟨hc, rfl⟩]
      by_cases hl : pe - ptr ≤ nf
      · simp only [hl, decide_True, Bool.not_true, if_true, fragLoop_done]
        exact ⟨_, rfl⟩
      · have hr := roundFragSize_pos nf h8 (by omega)
        simp only [hl, decide_False, Bool.not_false, if_false]
        obtain ⟨r, hr2⟩ := ih (ptr + roundFragSize nf)
          (pokeU16be (pokeU16be (memcpy fb sof buf ptr (roundFragSize nf)) (fh + 2)
            (offlgValue (ptr - fp) true)) (lh + 4)
            ((sof + roundFragSize nf - MIN_IPV6_HLEN - lh) % 65536))
          (by omega) (by omega)
        rw [hr2]
        exact ⟨_, rfl⟩
    · have : ¬ (ptr < pe ∧ true = true) := fun h => hc h.1
      rw [if_neg this]
      exact ⟨_, rfl⟩

theorem FragsSpec_cons (lh : Nat) (buf : Mem) (fp pe fh sof nf ptr : Nat) (more : Bool) (fb : Mem)
    (f : Frame) (rest : List Frame) :
    FragsSpec lh buf fp pe fh sof nf ptr more fb (f :: rest) ↔
      (ptr < pe ∧ more = true) ∧
      f = roundFrame lh buf fp fh sof ptr
            (if pe - ptr ≤ nf then pe - ptr else roundFragSize nf) (!decide (pe - ptr ≤ nf)) fb ∧
      FragsSpec lh buf fp pe fh sof nf
        (ptr + (if pe - ptr ≤ nf then pe - ptr else roundFragSize nf))
        (!decide (pe - ptr ≤ nf)) f.data rest := Iff.rfl

theorem FragsSpec_false (lh : Nat) (buf : Mem) (fp pe fh sof nf ptr : Nat) (fb : Mem)
    (frames : List Frame) (h : FragsSpec lh buf fp pe fh sof nf ptr false fb frames) :
    frames = [] := by
  cases frames with
  | nil => rfl
  | cons f rest =>
    rw [FragsSpec_cons] at h
    exact absurd h.1.2 (by decide)

theorem fragment_path_ok (FBS : Nat) (idata : IfaceData) (g : Globals) (ident : Nat)
    (frames : List Frame) (g1 : Globals)
    (h : fragment_path FBS idata g ident = .ok (frames, g1)) :
    g.fragpart + FRAG_HDR_SIZE ≤ FBS ∧
      FragsSpec idata.linkhsize g.buffer g.fragpart g.ptr g.fragpart (g.fragpart + FRAG_HDR_SIZE)
        (clipNfrags FBS g) g.fragpart true (fragStart g ident) frames ∧
      g1.nfrags = clipNfrags FBS g := by
  unfold fragment_path at h
  simp only at h
  split at h
  · cases h
  · rename_i hchk
    split at h
    · cases h
    · rename_i fs fbE ptrE hrec
      simp only [Except.ok.injEq, Prod.mk.injEq] at h
      obtain ⟨h1, h2⟩ := h
      subst h1
      subst h2
      exact ⟨by omega, fragLoop_spec _ _ _ _ _ _ _ _ _ _ _ _ _ _ hrec, rfl⟩

theorem fragment_path_returns (FBS : Nat) (idata : IfaceData) (g : Globals) (ident : Nat)
    (hroom : g.fragpart + FRAG_HDR_SIZE ≤ FBS) (h8 : 8 ≤ g.nfrags)
    (hS : g.ptr - g.fragpart ≤ 65528) :
    ∃ frames g1, fragment_path FBS idata g ident = .ok (frames, g1) := by
  have hclip : 8 ≤ clipNfrags FBS g := by
    unfold clipNfrags
    simp only [FRAG_HDR_SIZE] at hroom
    split <;> omega
  obtain ⟨r, hr⟩ := fragLoop_returns idata.linkhsize g.buffer g.fragpart g.ptr g.fragpart
    (g.fragpart + FRAG_HDR_SIZE) (clipNfrags FBS g) hclip (g.ptr - g.fragpart + 1) g.fragpart
    (fragStart g ident) hS (by omega)
  obtain ⟨fs, fbE, ptrE⟩ := r
  refine ⟨fs, { g with fragbuffer := fbE, nfrags := clipNfrags FBS g, ptr := ptrE }, ?_⟩
  unfold fragment_path
  simp only
  rw [if_neg (by omega)]
  have hr2 := hr
  unfold clipNfrags fragStart at hr2
  rw [hr2]
  rfl

theorem roundFrame_len (lh : Nat) (buf : Mem) (fp fh sof ptr fs : Nat) (m : Bool) (fb : Mem) :
    (roundFrame lh buf fp fh sof ptr fs m fb).len = sof + fs := rfl

theorem roundFrame_stable (lh : Nat) (buf : Mem) (fp fh ptr fs : Nat) (m : Bool) (fb : Mem)
    (i : Nat)
    (hi : (i < fh + 2 ∧ i ≠ lh + 4 ∧ i ≠ lh + 5) ∨ (fh + 4 ≤ i ∧ i < fh + 8 ∧ lh + 6 ≤ fh)) :
    (roundFrame lh buf fp fh (fh + 8) ptr fs m fb).data i = fb i := by
  have a1 : i ≠ lh + 4 + 1 := by omega
  have a2 : i ≠ lh + 4 := by omega
  have a3 : i ≠ fh + 2 + 1 := by omega
  have a4 : i ≠ fh + 2 := by omega
  have a5 : ¬ (fh + 8 ≤ i ∧ i < fh + 8 + fs) := by omega
  simp [roundFrame, pokeU16be, poke, memcpy, a1, a2, a3, a4, a5]

theorem roundFrame_chunk_byte (lh : Nat) (buf : Mem) (fp fh ptr fs : Nat) (m : Bool) (fb : Mem)
    (hv6 : lh + 6 ≤ fh) (j : Nat) (hj : j < fs) :
    (roundFrame lh buf fp fh (fh + 8) ptr fs m fb).data (fh + 8 + j) = buf (ptr + j) := by
  have a1 : fh + 8 + j ≠ lh + 4 + 1 := by omega
  have a2 : fh + 8 + j ≠ lh + 4 := by omega
  have a3 : fh + 8 + j ≠ fh + 2 + 1 := by omega
  have a4 : fh + 8 + j ≠ fh + 2 := by omega
  have a5 : fh + 8 ≤ fh + 8 + j ∧ fh + 8 + j < fh + 8 + fs := by omega
  simp [roundFrame, pokeU16be, poke, memcpy, a1, a2, a3, a4]
  intro h; omega

theorem roundFrame_offlg (lh : Nat) (buf : Mem) (fp fh ptr fs : Nat) (m : Bool) (fb : Mem)
    (hv6 : lh + 6 ≤ fh) :
    (roundFrame lh buf fp fh (fh + 8) ptr fs m fb).offlg fh =
      (ptr - fp) % 65536 / 8 * 8 + (if m then 1 else 0) := by
  have a1 : fh + 2 ≠ lh + 4 + 1 := by omega
  have a2 : fh + 2 ≠ lh + 4 := by omega
  have a3 : fh + 3 ≠ lh + 4 + 1 := by omega
  have a4 : fh + 3 ≠ lh + 4 := by omega
  have a5 : fh + 2 ≠ fh + 2 + 1 := by omega
  have a6 : fh + 3 = fh + 2 + 1 := by omega
  have hv := offlgValue_eq (ptr - fp) m
  have hb : (if m then 1 else 0 : Nat) ≤ 1 := by cases m <;> simp
  simp only [Frame.offlg, roundFrame, pokeU16be, poke, a1, a2, a3, a4, a5, if_false]
  rw [a6]
  simp only [if_true, if_neg a5]
  rw [hv]
  omega

/-! ## The fragment path: offsets, chunks, shared prefix -/

theorem readBytes_append (m : Mem) (off a b : Nat) :
    readBytes m off (a + b) = readBytes m off a ++ readBytes m (off + a) b := by
  simp [readBytes, List.range_add, List.map_append, List.map_map, Function.comp_def, Nat.add_assoc]

theorem readBytes_congr (m1 m2 : Mem) (o1 o2 n : Nat) (h : ∀ j, j < n → m1 (o1 + j) = m2 (o2 + j)) :
    readBytes m1 o1 n = readBytes m2 o2 n := by
  unfold readBytes
  apply List.map_congr_left
  intro j hj
  exact h j (List.mem_range.mp hj)

theorem roundFrame_chunkLen (lh : Nat) (buf : Mem) (fp fh ptr fs : Nat) (m : Bool) (fb : Mem) :
    (roundFrame lh buf fp fh (fh + FRAG_HDR_SIZE) ptr fs m fb).chunkLen fh = fs := by
  simp [Frame.chunkLen, roundFrame]

theorem roundFrame_chunk (lh : Nat) (buf : Mem) (fp fh ptr fs : Nat) (m : Bool) (fb : Mem)
    (hv6 : lh + 6 ≤ fh) :
    (roundFrame lh buf fp fh (fh + FRAG_HDR_SIZE) ptr fs m fb).chunk fh = readBytes buf ptr fs := by
  have hl : (roundFrame lh buf fp fh (fh + FRAG_HDR_SIZE) ptr fs m fb).len -
      (fh + FRAG_HDR_SIZE) = fs := by simp [roundFrame]
  unfold Frame.chunk
  rw [hl]
  apply readBytes_congr
  intro j hj
  exact roundFrame_chunk_byte lh buf fp fh ptr fs m fb hv6 j hj

theorem FragsSpec_offsets (lh : Nat) (buf : Mem) (fp pe nf : Nat) (hv6 : lh + 6 ≤ fp)
    (h8 : 8 ≤ nf) (hS : pe - fp ≤ 65528) :
    ∀ (frames : List Frame) (ptr : Nat) (fb : Mem), fp ≤ ptr → 8 ∣ ptr - fp →
      FragsSpec lh buf fp pe fp (fp + FRAG_HDR_SIZE) nf ptr true fb frames →
      OffsetsFrom fp (ptr - fp) frames := by
  intro frames
  induction frames with
  | nil => intro _ _ _ _ _; trivial
  | cons f rest ih =>
    intro ptr fb hle hdvd h
    rw [FragsSpec_cons] at h
    obtain ⟨⟨hlt, _⟩, hf, hrest⟩ := h
    have hoff : f.fragOffset fp = ptr - fp := by
      rw [hf]
      unfold Frame.fragOffset
      have := roundFrame_offlg lh buf fp fp ptr
        (if pe - ptr ≤ nf then pe - ptr else roundFragSize nf) (!decide (pe - ptr ≤ nf)) fb hv6
      simp only [FRAG_HDR_SIZE]
      rw [this]
      have hb : (if (!decide (pe - ptr ≤ nf)) = true then 1 else 0 : Nat) ≤ 1 := by
        split <;> omega
      omega
    have hlen : f.chunkLen fp = (if pe - ptr ≤ nf then pe - ptr else roundFragSize nf) := by
      rw [hf]; exact roundFrame_chunkLen _ _ _ _ _ _ _ _
    by_cases hl : pe - ptr ≤ nf
    · simp only [hl, if_true, decide_True, Bool.not_true] at hrest hlen
      have hnil := FragsSpec_false _ _ _ _ _ _ _ _ _ _ hrest
      subst hnil
      exact ⟨hoff, hdvd, by omega, trivial⟩
    · simp only [hl, if_false, decide_False, Bool.not_false] at hrest hlen
      have hr := roundFragSize_pos nf h8 (by omega)
      have hnext := ih (ptr + roundFragSize nf) f.data (by omega) (by omega) hrest
      refine ⟨hoff, hdvd, by omega, ?_⟩
      rw [hlen]
      have : ptr - fp + roundFragSize nf = ptr + roundFragSize nf - fp := by omega
      rw [this]
      exact hnext

theorem OffsetsFrom_lower (fh : Nat) :
    ∀ (frames : List Frame) (o : Nat), OffsetsFrom fh o frames →
      ∀ f ∈ frames, o ≤ f.fragOffset fh ∧ 8 ∣ f.fragOffset fh := by
  intro frames
  induction frames with
  | nil => intro _ _ f hf; cases hf
  | cons x rest ih =>
    intro o h f hf
    obtain ⟨h1, h2, h3, h4⟩ := h
    rcases List.mem_cons.mp hf with hx | hx
    · subst hx
      rw [h1]; exact ⟨Nat.le_refl _, h2⟩
    · obtain ⟨a, b⟩ := ih _ h4 f hx
      exact ⟨by omega, b⟩

theorem OffsetsFrom_pairwise (fh : Nat) :
    ∀ (frames : List Frame) (o : Nat), OffsetsFrom fh o frames →
      List.Pairwise (fun a b => a < b) (frames.map (fun f => f.fragOffset fh)) := by
  intro frames
  induction frames with
  | nil => intro _ _; exact List.Pairwise.nil
  | cons x rest ih =>
    intro o h
    obtain ⟨h1, h2, h3, h4⟩ := h
    rw [List.map_cons, List.pairwise_cons]
    refine ⟨?_, ih _ h4⟩
    intro b hb
    obtain ⟨f, hf, rfl⟩ := List.mem_map.mp hb
    have := (OffsetsFrom_lower fh rest _ h4 f hf).1
    omega

theorem FragsSpec_chunks (lh : Nat) (buf : Mem) (fp pe nf : Nat) (hv6 : lh + 6 ≤ fp)
    (h8 : 8 ≤ nf) :
    ∀ (frames : List Frame) (ptr : Nat) (fb : Mem), pe - ptr ≤ 65528 → (pe - ptr) % 8 = 0 →
      FragsSpec lh buf fp pe fp (fp + FRAG_HDR_SIZE) nf ptr true fb frames →
      (frames.map (fun f => f.chunk fp)).flatten = readBytes buf ptr (pe - ptr) := by
  intro frames
  induction frames with
  | nil =>
    intro ptr fb _ _ h
    have hz : pe - ptr = 0 := by
      have : ¬ (ptr < pe ∧ true = true) := h
      simp only [and_true] at this
      omega
    rw [hz]
    rfl
  | cons f rest ih =>
    intro ptr fb hS hm h
    rw [FragsSpec_cons] at h
    obtain ⟨⟨hlt, _⟩, hf, hrest⟩ := h
    have hchunk : f.chunk fp =
        readBytes buf ptr (if pe - ptr ≤ nf then pe - ptr else roundFragSize nf) := by
      rw [hf]; exact roundFrame_chunk _ _ _ _ _ _ _ _ hv6
    rw [List.map_cons, List.flatten_cons, hchunk]
    by_cases hl : pe - ptr ≤ nf
    · simp only [hl, if_true, decide_True, Bool.not_true] at hrest ⊢
      have hnil := FragsSpec_false _ _ _ _ _ _ _ _ _ _ hrest
      subst hnil
      simp
    · simp only [hl, if_false, decide_False, Bool.not_false] at hrest ⊢
      have hr := roundFragSize_pos nf h8 (by omega)
      rw [ih (ptr + roundFragSize nf) f.data (by omega) (by omega) hrest]
      have hsplit : pe - ptr = roundFragSize nf + (pe - (ptr + roundFragSize nf)) := by omega
      conv_rhs => rw [hsplit]
      rw [readBytes_append]

theorem FragsSpec_chunkLen_le (lh : Nat) (buf : Mem) (fp pe fh nf : Nat) :
    ∀ (frames : List Frame) (ptr : Nat) (more : Bool) (fb : Mem),
      FragsSpec lh buf fp pe fh (fh + FRAG_HDR_SIZE) nf ptr more fb frames →
      ∀ f ∈ frames, f.chunkLen fh ≤ (nf + 7) / 8 * 8 ∧ (nf % 8 = 0 → f.chunkLen fh ≤ nf) := by
  intro frames
  induction frames with
  | nil => intro _ _ _ _ f hf; cases hf
  | cons x rest ih =>
    intro ptr more fb h f hf
    rw [FragsSpec_cons] at h
    obtain ⟨_, hx, hrest⟩ := h
    rcases List.mem_cons.mp hf with he | he
    · subst he
      rw [hx, roundFrame_chunkLen, roundFragSize_eq]
      split <;> omega
    · exact ih _ _ _ hrest f he

theorem FragsSpec_stable (lh : Nat) (buf : Mem) (fp pe fh nf : Nat) :
    ∀ (frames : List Frame) (ptr : Nat) (more : Bool) (fb : Mem),
      FragsSpec lh buf fp pe fh (fh + FRAG_HDR_SIZE) nf ptr more fb frames →
      ∀ f ∈ frames, fh + FRAG_HDR_SIZE ≤ f.len ∧
        ∀ i, ((i < fh + 2 ∧ i ≠ lh + 4 ∧ i ≠ lh + 5) ∨ (fh + 4 ≤ i ∧ i < fh + 8 ∧ lh + 6 ≤ fh)) →
          f.data i = fb i := by
  intro frames
  induction frames with
  | nil => intro _ _ _ _ f hf; cases hf
  | cons x rest ih =>
    intro ptr more fb h f hf
    rw [FragsSpec_cons] at h
    obtain ⟨_, hx, hrest⟩ := h
    have hxs : ∀ i, ((i < fh + 2 ∧ i ≠ lh + 4 ∧ i ≠ lh + 5) ∨
        (fh + 4 ≤ i ∧ i < fh + 8 ∧ lh + 6 ≤ fh)) → x.data i = fb i := by
      intro i hi
      rw [hx]
      exact roundFrame_stable lh buf fp fh ptr _ _ fb i hi
    rcases List.mem_cons.mp hf with he | he
    · subst he
      refine ⟨?_, hxs⟩
      rw [hx, roundFrame_len]
      omega
    · obtain ⟨a, b⟩ := ih _ _ _ hrest f he
      exact ⟨a, fun i hi => (b i hi).trans (hxs i hi)⟩

theorem fragStart_prefix (g : Globals) (ident i : Nat) (hi : i < g.fragpart) :
    fragStart g ident i = g.buffer i := by
  have a1 : ¬ (g.fragpart + 4 ≤ i ∧ i < g.fragpart + 4 + 4) := by omega
  have a2 : ¬ (g.fragpart ≤ i ∧ i < g.fragpart + FRAG_HDR_SIZE) := by omega
  have a3 : 0 ≤ i ∧ i < 0 + g.fragpart := by omega
  simp [fragStart, pokeBytes, memcpy, a1, a2, hi]

theorem fragStart_ident (g : Globals) (ident : Nat) :
    readBytes (fragStart g ident) (g.fragpart + 4) 4 = identBytes ident := by
  simp [readBytes, List.range_succ, fragStart, pokeBytes, identBytes]

/-- C4.  For every fragment size `nfrags >= 8` and every fragmentable part of
at most 65528 bytes (what the 16-bit offset field can address) lying behind the
IPv6 header, the fragment path of send_packet returns, and the offsets written
into successive fragments start at 0, are multiples of 8, strictly increase,
and each equals the number of payload bytes carried by the earlier fragments. -/
theorem fragment_offsets (FBS : Nat) (idata : IfaceData) (g : Globals) (ident : Nat)
    (hv6 : idata.linkhsize + MIN_IPV6_HLEN ≤ g.fragpart)
    (hroom : g.fragpart + FRAG_HDR_SIZE ≤ FBS) (h8 : 8 ≤ g.nfrags)
    (hS : g.ptr - g.fragpart ≤ 65528) :
    ∃ frames g1, fragment_path FBS idata g ident = .ok (frames, g1) ∧
      OffsetsFrom g.fragpart 0 frames ∧
      List.Pairwise (fun a b => a < b) (frames.map (fun f => f.fragOffset g.fragpart)) ∧
      ∀ f ∈ frames, 8 ∣ f.fragOffset g.fragpart := by
  obtain ⟨frames, g1, h⟩ := fragment_path_returns FBS idata g ident hroom h8 hS
  obtain ⟨_, hspec, _⟩ := fragment_path_ok FBS idata g ident frames g1 h
  have hclip : 8 ≤ clipNfrags FBS g := by
    unfold clipNfrags
    simp only [FRAG_HDR_SIZE] at hroom
    split <;> omega
  simp only [MIN_IPV6_HLEN] at hv6
  have hoff := FragsSpec_offsets idata.linkhsize g.buffer g.fragpart g.ptr (clipNfrags FBS g)
    (by omega) hclip hS frames g.fragpart (fragStart g ident) (Nat.le_refl _) (by simp) hspec
  rw [Nat.sub_self] at hoff
  exact ⟨frames, g1, h, hoff, OffsetsFrom_pairwise _ _ _ hoff,
    fun f hf => (OffsetsFrom_lower _ _ _ hoff f hf).2⟩

theorem fragment_offsets_witness :
    (ethFrag.linkhsize + MIN_IPV6_HLEN ≤ (templ ethFrag (sllaGlobals 8)).fragpart ∧
      (templ ethFrag (sllaGlobals 8)).fragpart + FRAG_HDR_SIZE ≤ demoFragBufferSize ∧
      8 ≤ (templ ethFrag (sllaGlobals 8)).nfrags ∧
      (templ ethFrag (sllaGlobals 8)).ptr - (templ ethFrag (sllaGlobals 8)).fragpart ≤ 65528) ∧
    ∃ frames g1,
      fragment_path demoFragBufferSize ethFrag (templ ethFrag (sllaGlobals 8)) 7 = .ok (frames, g1) ∧
      OffsetsFrom (templ ethFrag (sllaGlobals 8)).fragpart 0 frames ∧
      List.Pairwise (fun a b => a < b)
        (frames.map (fun f => f.fragOffset (templ ethFrag (sllaGlobals 8)).fragpart)) ∧
      ∀ f ∈ frames, 8 ∣ f.fragOffset (templ ethFrag (sllaGlobals 8)).fragpart :=
  ⟨⟨by decide, by decide, by decide, by decide⟩,
   fragment_offsets demoFragBufferSize ethFrag (templ ethFrag (sllaGlobals 8)) 7
     (by decide) (by decide) (by decide) (by decide)⟩

/-- C6.  For every fragment size `nfrags >= 8` and every fragmentable part whose
size is a multiple of 8 (as headers, the 24-byte NS header and 8-byte options
make it) of at most 65528 bytes, the fragment path returns and the chunks
carried by the emitted fragments, concatenated in emission (offset) order, are
exactly the bytes of the fragmentable part of the packet. -/
theorem fragment_chunks_reassemble (FBS : Nat) (idata : IfaceData) (g : Globals) (ident : Nat)
    (hv6 : idata.linkhsize + MIN_IPV6_HLEN ≤ g.fragpart)
    (hroom : g.fragpart + FRAG_HDR_SIZE ≤ FBS) (h8 : 8 ≤ g.nfrags)
    (hS : g.ptr - g.fragpart ≤ 65528) (hmul : (g.ptr - g.fragpart) % 8 = 0) :
    ∃ frames g1, fragment_path FBS idata g ident = .ok (frames, g1) ∧
      (frames.map (fun f => f.chunk g.fragpart)).flatten =
        readBytes g.buffer g.fragpart (g.ptr - g.fragpart) := by
  obtain ⟨frames, g1, h⟩ := fragment_path_returns FBS idata g ident hroom h8 hS
  obtain ⟨_, hspec, _⟩ := fragment_path_ok FBS idata g ident frames g1 h
  have hclip : 8 ≤ clipNfrags FBS g := by
    unfold clipNfrags
    simp only [FRAG_HDR_SIZE] at hroom
    split <;> omega
  simp only [MIN_IPV6_HLEN] at hv6
  exact ⟨frames, g1, h,
    FragsSpec_chunks idata.linkhsize g.buffer g.fragpart g.ptr (clipNfrags FBS g) (by omega) hclip
      frames g.fragpart (fragStart g ident) hS hmul hspec⟩

theorem fragment_chunks_reassemble_witness :
    (ethFrag.linkhsize + MIN_IPV6_HLEN ≤ (templ ethFrag (sllaGlobals 9)).fragpart ∧
      (templ ethFrag (sllaGlobals 9)).fragpart + FRAG_HDR_SIZE ≤ demoFragBufferSize ∧
      8 ≤ (templ ethFrag (sllaGlobals 9)).nfrags ∧
      (templ ethFrag (sllaGlobals 9)).ptr - (templ ethFrag (sllaGlobals 9)).fragpart ≤ 65528 ∧
      ((templ ethFrag (sllaGlobals 9)).ptr - (templ ethFrag (sllaGlobals 9)).fragpart) % 8 = 0) ∧
    ∃ frames g1,
      fragment_path demoFragBufferSize ethFrag (templ ethFrag (sllaGlobals 9)) 7 = .ok (frames, g1) ∧
      (frames.map (fun f => f.chunk (templ ethFrag (sllaGlobals 9)).fragpart)).flatten =
        readBytes (templ ethFrag (sllaGlobals 9)).buffer (templ ethFrag (sllaGlobals 9)).fragpart
          ((templ ethFrag (sllaGlobals 9)).ptr - (templ ethFrag (sllaGlobals 9)).fragpart) :=
  ⟨⟨by decide, by decide, by decide, by decide, by decide⟩,
   fragment_chunks_reassemble demoFragBufferSize ethFrag (templ ethFrag (sllaGlobals 9)) 7
     (by decide) (by decide) (by decide) (by decide) (by decide)⟩

/-- C8 (as amended).  Every fragment emitted by the fragment path carries a
chunk no larger than `nfrags` rounded up to the next multiple of 8 (the loop
sends `(nfrags + 7) & 0xfff8` bytes in every fragment but the last); the chunk
is no larger than `nfrags` itself when `nfrags` is a multiple of 8. -/
theorem fragment_chunk_bound (FBS : Nat) (idata : IfaceData) (g : Globals) (ident : Nat)
    (frames : List Frame) (g1 : Globals)
    (h : fragment_path FBS idata g ident = .ok (frames, g1)) :
    ∀ f ∈ frames, f.chunkLen g.fragpart ≤ (g.nfrags + 7) / 8 * 8 ∧
      (g.nfrags % 8 = 0 → f.chunkLen g.fragpart ≤ g.nfrags) := by
  obtain ⟨hroom, hspec, _⟩ := fragment_path_ok FBS idata g ident frames g1 h
  intro f hf
  obtain ⟨a, b⟩ := FragsSpec_chunkLen_le idata.linkhsize g.buffer g.fragpart g.ptr g.fragpart
    (clipNfrags FBS g) frames g.fragpart true (fragStart g ident) hspec f hf
  have hclip : clipNfrags FBS g ≤ g.nfrags := by
    unfold clipNfrags; split <;> omega
  have hsame : g.nfrags % 8 = 0 → f.chunkLen g.fragpart ≤ g.nfrags := by
    intro hm
    by_cases hc : clipNfrags FBS g = g.nfrags
    · rw [hc] at b; exact b hm
    · omega
  exact ⟨by omega, hsame⟩

theorem fragment_chunk_bound_witness :
    ∃ frames g1,
      fragment_path demoFragBufferSize ethFrag (templ ethFrag (sllaGlobals 16)) 7 =
        .ok (frames, g1) ∧
      ∀ f ∈ frames,
        f.chunkLen (templ ethFrag (sllaGlobals 16)).fragpart ≤
          ((templ ethFrag (sllaGlobals 16)).nfrags + 7) / 8 * 8 ∧
        ((templ ethFrag (sllaGlobals 16)).nfrags % 8 = 0 →
          f.chunkLen (templ ethFrag (sllaGlobals 16)).fragpart ≤
            (templ ethFrag (sllaGlobals 16)).nfrags) := by
  obtain ⟨frames, g1, h⟩ := fragment_path_returns demoFragBufferSize ethFrag
    (templ ethFrag (sllaGlobals 16)) 7 (by decide) (by decide) (by decide)
  exact ⟨frames, g1, h,
    fragment_chunk_bound demoFragBufferSize ethFrag (templ ethFrag (sllaGlobals 16)) 7 frames g1 h⟩

/-- C8 as stated fails for `-y 12` and a plain Neighbor Solicitation (24 bytes
of fragmentable part): the first fragment carries 16 bytes, more than the
configured 12. -/
theorem fragment_chunk_exceeds_nfrags :
    isOk (init_packet_data ethFrag (plainGlobals 12)) = true ∧
    (templ ethFrag (plainGlobals 12)).nfrags = 12 ∧
    pathSummary (templ ethFrag (plainGlobals 12)).fragpart
      (fragment_path demoFragBufferSize ethFrag (templ ethFrag (plainGlobals 12)) 7) =
        some [(0, true, 16, 78), (16, false, 8, 70)] ∧
    ¬ (16 ≤ (templ ethFrag (plainGlobals 12)).nfrags) := by
  refine ⟨by decide, by decide, by decide, by decide⟩

/-- C5 (failing input).  With `-y 9` and one link-layer address option the
fragmentable part has 32 bytes; the loop emits two fragments of 16 bytes at
offsets 0 and 16, and both carry the more-fragments flag: the final fragment
does not have the flag clear. -/
theorem fragment_final_more_flag_set :
    isOk (init_packet_data ethFrag (sllaGlobals 9)) = true ∧
    (templ ethFrag (sllaGlobals 9)).ptr - (templ ethFrag (sllaGlobals 9)).fragpart = 32 ∧
    pathSummary (templ ethFrag (sllaGlobals 9)).fragpart
      (fragment_path demoFragBufferSize ethFrag (templ ethFrag (sllaGlobals 9)) 7) =
        some [(0, true, 16, 78), (16, true, 16, 78)] := by
  refine ⟨by decide, by decide, by decide⟩

/-- C7 (failing input).  On an interface with MTU 1500 (and no larger packet
size allowed), `-u 1432 -y 1452` is accepted by init_packet_data
(40 + 8 + 1452 = 1500 and the packet has 1496 bytes), yet the fragment that
is sent carries 1456 bytes: its frame has 1518 bytes, an IPv6 packet of 1504
bytes. -/
theorem fragment_exceeds_mtu :
    isOk (init_packet_data ethFragTight bigDstOpt) = true ∧
    ethFragTight.mtu = 1500 ∧
    (templ ethFragTight bigDstOpt).nfrags = 1452 ∧
    pathSummary (templ ethFragTight bigDstOpt).fragpart
      (fragment_path demoFragBufferSize ethFragTight (templ ethFragTight bigDstOpt) 7) =
        some [(0, true, 1456, 1518)] ∧
    1518 - ethFragTight.linkhsize > ethFragTight.mtu := by
  refine ⟨by decide, by decide, by decide, by decide, by decide⟩

/-- C9.  All fragments emitted for one datagram start with the bytes of the
original packet's link header, IPv6 header and unfragmentable extension headers
(everything before the Fragment Header) except for the two bytes of the IPv6
payload-length field, and all carry the same identification value, the one
drawn for the datagram. -/
theorem fragments_share_prefix_and_ident (FBS : Nat) (idata : IfaceData) (g : Globals)
    (ident : Nat) (frames : List Frame) (g1 : Globals)
    (hv6 : idata.linkhsize + MIN_IPV6_HLEN ≤ g.fragpart)
    (h : fragment_path FBS idata g ident = .ok (frames, g1)) :
    ∀ f ∈ frames,
      g.fragpart + FRAG_HDR_SIZE ≤ f.len ∧
      (∀ i, i < g.fragpart → i ≠ idata.linkhsize + 4 → i ≠ idata.linkhsize + 5 →
        f.data i = g.buffer i) ∧
      f.ident g.fragpart = identBytes ident := by
  obtain ⟨_, hspec, _⟩ := fragment_path_ok FBS idata g ident frames g1 h
  simp only [MIN_IPV6_HLEN] at hv6
  intro f hf
  obtain ⟨a, b⟩ := FragsSpec_stable idata.linkhsize g.buffer g.fragpart g.ptr g.fragpart
    (clipNfrags FBS g) frames g.fragpart true (fragStart g ident) hspec f hf
  refine ⟨a, ?_, ?_⟩
  · intro i hi h4 h5
    rw [b i (Or.inl ⟨by omega, h4, h5⟩)]
    exact fragStart_prefix g ident i hi
  · rw [← fragStart_ident g ident]
    unfold Frame.ident
    apply readBytes_congr
    intro j hj
    exact b _ (Or.inr ⟨by omega, by omega, by omega⟩)

theorem fragments_share_prefix_and_ident_witness :
    ethFrag.linkhsize + MIN_IPV6_HLEN ≤ (templ ethFrag oneOfEach).fragpart ∧
    ∃ frames g1,
      fragment_path demoFragBufferSize ethFrag (templ ethFrag oneOfEach) 7 = .ok (frames, g1) ∧
      ∀ f ∈ frames,
        (templ ethFrag oneOfEach).fragpart + FRAG_HDR_SIZE ≤ f.len ∧
        (∀ i, i < (templ ethFrag oneOfEach).fragpart → i ≠ ethFrag.linkhsize + 4 →
          i ≠ ethFrag.linkhsize + 5 → f.data i = (templ ethFrag oneOfEach).buffer i) ∧
        f.ident (templ ethFrag oneOfEach).fragpart = identBytes 7 := by
  obtain ⟨frames, g1, h⟩ := fragment_path_returns demoFragBufferSize ethFrag
    (templ ethFrag oneOfEach) 7 (by decide) (by decide) (by decide)
  exact ⟨by decide, frames, g1, h,
    fragments_share_prefix_and_ident demoFragBufferSize ethFrag (templ ethFrag oneOfEach) 7
      frames g1 (by decide) h⟩

/-! ## Listen mode: block filters -/

theorem match_ether_nonempty (l : List (List Nat)) (a : List Nat) (h : match_ether l a = true) :
    l.length ≠ 0 := by
  cases l with
  | nil => simp [match_ether] at h
  | cons x xs => simp

theorem match_ipv6_nonempty (l : List (List Nat × Nat)) (a : List Nat)
    (h : match_ipv6 l a = true) : l.length ≠ 0 := by
  cases l with
  | nil => simp [match_ipv6] at h
  | cons x xs => simp

/-- C10 (as amended).  For every filter set and every captured NS frame: if the
frame matches an entry of an IPv6 block list (source, destination or target),
or, on an Ethernet interface that is not loopback, an entry of a link-layer
block list (link source or link destination), the frame is rejected and no
reply is sent, whatever the accept lists contain. -/
theorem listen_filter_block (idata : IfaceData) (flt : Filters) (pktdata : Mem)
    (hns : isNS idata pktdata = true)
    (hmatch :
      (linkFiltersApply idata = true ∧
        (match_ether flt.blocklinksrc (pktEtherSrc pktdata) = true ∨
         match_ether flt.blocklinkdst (pktEtherDst pktdata) = true)) ∨
      match_ipv6 flt.blocksrc (pktIp6Src idata pktdata) = true ∨
      match_ipv6 flt.blockdst (pktIp6Dst idata pktdata) = true ∨
      match_ipv6 flt.blocktarget (pktTarget idata pktdata) = true) :
    listen_filter idata flt pktdata = Verdict.blocked := by
  unfold listen_filter
  have h0 : ¬ (isNS idata pktdata = false) := by simp [hns]
  rw [if_neg h0]
  by_cases c1 : linkFiltersApply idata = true ∧ flt.blocklinksrc.length ≠ 0 ∧
      match_ether flt.blocklinksrc (pktEtherSrc pktdata) = true
  · rw [if_pos c1]
  rw [if_neg c1]
  by_cases c2 : linkFiltersApply idata = true ∧ flt.blocklinkdst.length ≠ 0 ∧
      match_ether flt.blocklinkdst (pktEtherDst pktdata) = true
  · rw [if_pos c2]
  rw [if_neg c2]
  by_cases c3 : flt.blocksrc.length ≠ 0 ∧ match_ipv6 flt.blocksrc (pktIp6Src idata pktdata) = true
  · rw [if_pos c3]
  rw [if_neg c3]
  by_cases c4 : flt.blockdst.length ≠ 0 ∧ match_ipv6 flt.blockdst (pktIp6Dst idata pktdata) = true
  · rw [if_pos c4]
  rw [if_neg c4]
  by_cases c5 : flt.blocktarget.length ≠ 0 ∧
      match_ipv6 flt.blocktarget (pktTarget idata pktdata) = true
  · rw [if_pos c5]
  exfalso
  rcases hmatch with ⟨hl, hm | hm⟩ | hm | hm | hm
  · exact c1 ⟨hl, match_ether_nonempty _ _ hm, hm⟩
  · exact c2 ⟨hl, match_ether_nonempty _ _ hm, hm⟩
  · exact c3 ⟨match_ipv6_nonempty _ _ hm, hm⟩
  · exact c4 ⟨match_ipv6_nonempty _ _ hm, hm⟩
  · exact c5 ⟨match_ipv6_nonempty _ _ hm, hm⟩

theorem listen_filter_block_witness :
    (isNS ethFrag zeroNS = true ∧
      ((linkFiltersApply ethFrag = true ∧
        (match_ether blockZeroLinkSrc.blocklinksrc (pktEtherSrc zeroNS) = true ∨
         match_ether blockZeroLinkSrc.blocklinkdst (pktEtherDst zeroNS) = true)) ∨
      match_ipv6 blockZeroLinkSrc.blocksrc (pktIp6Src ethFrag zeroNS) = true ∨
      match_ipv6 blockZeroLinkSrc.blockdst (pktIp6Dst ethFrag zeroNS) = true ∨
      match_ipv6 blockZeroLinkSrc.blocktarget (pktTarget ethFrag zeroNS) = true)) ∧
    listen_filter ethFrag blockZeroLinkSrc zeroNS = Verdict.blocked :=
  ⟨⟨by decide, Or.inl ⟨by decide, Or.inl (by decide)⟩⟩,
   listen_filter_block ethFrag blockZeroLinkSrc zeroNS (by decide)
     (Or.inl ⟨by decide, Or.inl (by decide)⟩)⟩

/-- C10 as stated fails on an Ethernet-type loopback interface: a captured NS
whose link-layer source 00:00:00:00:00:00 is an entry of the link-source block
list is accepted, because link-layer filters are skipped on loopback. -/
theorem listen_filter_link_block_skipped_on_loopback :
    isNS loopbackEth zeroNS = true ∧
    match_ether blockZeroLinkSrc.blocklinksrc (pktEtherSrc zeroNS) = true ∧
    listen_filter loopbackEth blockZeroLinkSrc zeroNS = Verdict.accepted := by
  refine ⟨by decide, by decide, by decide⟩

/-! ## Listen mode: accept filters and the link-layer gate -/

theorem noFilters_flag : AcceptFlagInv noFilters := by
  simp [AcceptFlagInv, NoAcceptFilters, noFilters]

theorem ipv6FilterEntry_ok (addr : Option (List Nat)) (len : Option Nat) (p : List Nat × Nat)
    (h : ipv6FilterEntry addr len = .ok p) :
    ∃ a, addr = some a ∧ p.2 ≤ 128 ∧ p.1 = sanitize_ipv6_prefix a p.2 ∧
      (len = none → p.2 = 128) ∧ (∀ n, len = some n → p.2 = n) := by
  unfold ipv6FilterEntry at h
  cases addr with
  | none => cases h
  | some a =>
    simp only at h
    split at h
    · cases h
    · rename_i hl
      simp only [Except.ok.injEq] at h
      subst h
      refine ⟨a, rfl, by simp only; omega, rfl, ?_, ?_⟩
      · intro hn; subst hn; rfl
      · intro n hn; subst hn; rfl

theorem filter_option_flag (lim : FilterLimits) (flt flt1 : Filters) (o : FilterOpt)
    (inv : AcceptFlagInv flt) (h : filter_option lim flt o = .ok flt1) : AcceptFlagInv flt1 := by
  unfold AcceptFlagInv NoAcceptFilters at inv ⊢
  cases o <;> simp only [filter_option] at h <;> split at h <;> first
    | simp only [reduceCtorEq] at h
    | (split at h <;> first
        | simp only [reduceCtorEq] at h
        | (simp only [Except.ok.injEq] at h
           subst h
           dsimp only
           first
             | exact inv
             | simp))

theorem filter_options_flag (lim : FilterLimits) :
    ∀ (opts : List FilterOpt) (flt flt1 : Filters), AcceptFlagInv flt →
      filter_options lim opts flt = .ok flt1 → AcceptFlagInv flt1 := by
  intro opts
  induction opts with
  | nil =>
    intro flt flt1 inv h
    simp only [filter_options, Except.ok.injEq] at h
    subst h
    exact inv
  | cons o rest ih =>
    intro flt flt1 inv h
    simp only [filter_options] at h
    split at h
    · cases h
    · rename_i flt2 h2
      exact ih flt2 flt1 (filter_option_flag lim flt flt2 o inv h2) h

theorem acceptedFlag_iff (idata : IfaceData) (flt : Filters) (pktdata : Mem) :
    acceptedFlag idata flt pktdata = true ↔
      (linkFiltersApply idata = true ∧
        (match_ether flt.acceptlinksrc (pktEtherSrc pktdata) = true ∨
         match_ether flt.acceptlinkdst (pktEtherDst pktdata) = true)) ∨
      match_ipv6 flt.acceptsrc (pktIp6Src idata pktdata) = true ∨
      match_ipv6 flt.acceptdst (pktIp6Dst idata pktdata) = true ∨
      match_ipv6 flt.accepttarget (pktTarget idata pktdata) = true := by
  have e1 := match_ether_nonempty flt.acceptlinksrc (pktEtherSrc pktdata)
  have e2 := match_ether_nonempty flt.acceptlinkdst (pktEtherDst pktdata)
  have e3 := match_ipv6_nonempty flt.acceptsrc (pktIp6Src idata pktdata)
  have e4 := match_ipv6_nonempty flt.acceptdst (pktIp6Dst idata pktdata)
  have e5 := match_ipv6_nonempty flt.accepttarget (pktTarget idata pktdata)
  unfold acceptedFlag
  simp only
  cases hg : linkFiltersApply idata <;>
  cases h1 : match_ether flt.acceptlinksrc (pktEtherSrc pktdata) <;>
  cases h2 : match_ether flt.acceptlinkdst (pktEtherDst pktdata) <;>
  cases h3 : match_ipv6 flt.acceptsrc (pktIp6Src idata pktdata) <;>
  cases h4 : match_ipv6 flt.acceptdst (pktIp6Dst idata pktdata) <;>
  cases h5 : match_ipv6 flt.accepttarget (pktTarget idata pktdata) <;>
  simp_all

theorem listen_filter_unblocked (idata : IfaceData) (flt : Filters) (pktdata : Mem)
    (hns : isNS idata pktdata = true) (hnb : MatchesNoBlock idata flt pktdata) :
    listen_filter idata flt pktdata =
      if flt.acceptfilters_f = true ∧ acceptedFlag idata flt pktdata = false then Verdict.blocked
      else Verdict.accepted := by
  obtain ⟨b1, b2, b3, b4, b5⟩ := hnb
  unfold listen_filter
  simp [hns, b1, b2, b3, b4, b5]

/-- C11 (as amended).  For every filter set that the filter options build and
every captured NS frame that matches no block-list entry, the frame is accepted
(a reply is sent) if and only if no accept filter of any kind is configured, or
the frame matches an IPv6 accept filter (source, destination or target), or the
interface is Ethernet and not loopback and the frame matches a link-layer
accept filter (link source or link destination). -/
theorem listen_filter_accept (lim : FilterLimits) (opts : List FilterOpt) (flt : Filters)
    (idata : IfaceData) (pktdata : Mem)
    (hopts : filter_options lim opts noFilters = .ok flt)
    (hns : isNS idata pktdata = true) (hnb : MatchesNoBlock idata flt pktdata) :
    listen_filter idata flt pktdata = Verdict.accepted ↔
      NoAcceptFilters flt ∨
      (linkFiltersApply idata = true ∧
        (match_ether flt.acceptlinksrc (pktEtherSrc pktdata) = true ∨
         match_ether flt.acceptlinkdst (pktEtherDst pktdata) = true)) ∨
      match_ipv6 flt.acceptsrc (pktIp6Src idata pktdata) = true ∨
      match_ipv6 flt.acceptdst (pktIp6Dst idata pktdata) = true ∨
      match_ipv6 flt.accepttarget (pktTarget idata pktdata) = true := by
  have hflag := filter_options_flag lim opts noFilters flt noFilters_flag hopts
  unfold AcceptFlagInv at hflag
  rw [listen_filter_unblocked idata flt pktdata hns hnb, ← acceptedFlag_iff]
  by_cases hn : NoAcceptFilters flt
  · have hf : ¬ flt.acceptfilters_f = true := fun h => (hflag.mp h) hn
    simp [hf, hn]
  · have hf : flt.acceptfilters_f = true := hflag.mpr hn
    cases ha : acceptedFlag idata flt pktdata <;> simp [hf, hn]

theorem listen_filter_accept_witness :
    (filter_options demoFilterLimits [FilterOpt.B (some [0, 0, 0, 0, 0, 0])] noFilters =
        .ok acceptZeroLinkSrc ∧
      isNS ethFrag zeroNS = true ∧ MatchesNoBlock ethFrag acceptZeroLinkSrc zeroNS) ∧
    (listen_filter ethFrag acceptZeroLinkSrc zeroNS = Verdict.accepted ↔
      NoAcceptFilters acceptZeroLinkSrc ∨
      (linkFiltersApply ethFrag = true ∧
        (match_ether acceptZeroLinkSrc.acceptlinksrc (pktEtherSrc zeroNS) = true ∨
         match_ether acceptZeroLinkSrc.acceptlinkdst (pktEtherDst zeroNS) = true)) ∨
      match_ipv6 acceptZeroLinkSrc.acceptsrc (pktIp6Src ethFrag zeroNS) = true ∨
      match_ipv6 acceptZeroLinkSrc.acceptdst (pktIp6Dst ethFrag zeroNS) = true ∨
      match_ipv6 acceptZeroLinkSrc.accepttarget (pktTarget ethFrag zeroNS) = true) :=
  ⟨⟨rfl, by decide, by unfold MatchesNoBlock; decide⟩,
   listen_filter_accept demoFilterLimits [FilterOpt.B (some [0, 0, 0, 0, 0, 0])]
     acceptZeroLinkSrc ethFrag zeroNS rfl (by decide) (by unfold MatchesNoBlock; decide)⟩

/-- C11 as stated fails on an Ethernet-type loopback interface with
`-B 00:00:00:00:00:00`: a captured NS that matches no block entry and whose
link-layer source is the configured accept entry is rejected, because the accept
flag is set while link-layer filters are skipped. -/
theorem listen_filter_link_accept_skipped_on_loopback :
    filter_options demoFilterLimits [FilterOpt.B (some [0, 0, 0, 0, 0, 0])] noFilters =
      .ok acceptZeroLinkSrc ∧
    isNS loopbackEth zeroNS = true ∧ MatchesNoBlock loopbackEth acceptZeroLinkSrc zeroNS ∧
    match_ether acceptZeroLinkSrc.acceptlinksrc (pktEtherSrc zeroNS) = true ∧
    listen_filter loopbackEth acceptZeroLinkSrc zeroNS = Verdict.blocked :=
  ⟨rfl, by decide, by unfold MatchesNoBlock; decide, by decide, by decide⟩

theorem readBytes_agree (m1 m2 : Mem) (off n lo : Nat) (hlo : lo ≤ off)
    (h : ∀ i, lo ≤ i → m1 i = m2 i) : readBytes m1 off n = readBytes m2 off n :=
  readBytes_congr m1 m2 off off n (fun j _ => h (off + j) (by omega))

/-! ## The send loops: general facts -/

theorem isOk_elim {α : Type} (r : Except Stop α) (h : isOk r = true) : ∃ v, r = .ok v := by
  cases r with
  | ok v => exact ⟨v, rfl⟩
  | error e => cases h

theorem doWhile_succ {σ : Type} (body : Nat → σ → Except Stop (List Sent × σ)) (limit fuel i : Nat)
    (s : σ) :
    doWhile body limit (fuel + 1) i s =
      match body i s with
      | .error e => .error e
      | .ok (out, s1) =>
        if (i + 1) % U32 < limit then
          match doWhile body limit fuel ((i + 1) % U32) s1 with
          | .error e => .error e
          | .ok (out2, s2) => .ok (out ++ out2, s2)
        else .ok (out, s1) := rfl

theorem doWhile_once {σ : Type} (body : Nat → σ → Except Stop (List Sent × σ)) (limit fuel i : Nat)
    (s : σ) (h : ¬ (i + 1) % U32 < limit) : doWhile body limit (fuel + 1) i s = body i s := by
  rw [doWhile_succ]
  cases hb : body i s with
  | error e => rfl
  | ok r =>
    obtain ⟨out, s1⟩ := r
    simp only [if_neg h]

theorem doWhile_forall {σ : Type} (body : Nat → σ → Except Stop (List Sent × σ)) (limit : Nat)
    (Inv : σ → Prop) (P : Sent → Prop)
    (hbody : ∀ i s out s1, Inv s → body i s = .ok (out, s1) → (∀ x ∈ out, P x) ∧ Inv s1) :
    ∀ fuel i s out s1, Inv s → doWhile body limit fuel i s = .ok (out, s1) →
      (∀ x ∈ out, P x) ∧ Inv s1 := by
  intro fuel
  induction fuel with
  | zero => intro i s out s1 _ h; cases h
  | succ fuel ih =>
    intro i s out s1 hinv h
    rw [doWhile_succ] at h
    cases hb : body i s with
    | error e => rw [hb] at h; cases h
    | ok r =>
      obtain ⟨o1, t1⟩ := r
      rw [hb] at h
      obtain ⟨hP1, hI1⟩ := hbody i s o1 t1 hinv hb
      simp only at h
      split at h
      · cases hr : doWhile body limit fuel ((i + 1) % U32) t1 with
        | error e => rw [hr] at h; cases h
        | ok r2 =>
          obtain ⟨o2, t2⟩ := r2
          rw [hr] at h
          simp only [Except.ok.injEq, Prod.mk.injEq] at h
          obtain ⟨ho, hs⟩ := h
          subst ho; subst hs
          obtain ⟨hP2, hI2⟩ := ih _ t1 o2 t2 hI1 hr
          refine ⟨?_, hI2⟩
          intro x hx
          rcases List.mem_append.mp hx with hx | hx
          · exact hP1 x hx
          · exact hP2 x hx
      · simp only [Except.ok.injEq, Prod.mk.injEq] at h
        obtain ⟨ho, hs⟩ := h
        subst ho; subst hs
        exact ⟨hP1, hI1⟩

theorem linkLoop_succ (cks : List Nat → List Nat → List Nat → Nat → Nat) (orc : Oracle) (FBS : Nat)
    (idata : IfaceData) (sources targets fuel linkaddrs : Nat) (st : SendSt) :
    linkLoop cks orc FBS idata sources targets (fuel + 1) linkaddrs st =
      match linkRound cks orc FBS idata sources targets linkaddrs st with
      | .error e => .error e
      | .ok ((out, st1), linkaddrs1, newdata) =>
        if linkaddrs1 < st1.g.linkaddr.length ∧ newdata = true then
          match linkLoop cks orc FBS idata sources targets fuel linkaddrs1 st1 with
          | .error e => .error e
          | .ok (out2, st2) => .ok (out ++ out2, st2)
        else .ok (out, st1) := rfl

theorem linkLoop_forall (cks : List Nat → List Nat → List Nat → Nat → Nat) (orc : Oracle)
    (FBS : Nat) (idata : IfaceData) (sources targets : Nat) (Inv : SendSt → Prop) (P : Sent → Prop)
    (hround : ∀ la s out s1 la1 nd, Inv s →
      linkRound cks orc FBS idata sources targets la s = .ok ((out, s1), la1, nd) →
      (∀ x ∈ out, P x) ∧ Inv s1) :
    ∀ fuel la s out s1, Inv s →
      linkLoop cks orc FBS idata sources targets fuel la s = .ok (out, s1) →
      (∀ x ∈ out, P x) ∧ Inv s1 := by
  intro fuel
  induction fuel with
  | zero => intro la s out s1 _ h; cases h
  | succ fuel ih =>
    intro la s out s1 hinv h
    rw [linkLoop_succ] at h
    cases hb : linkRound cks orc FBS idata sources targets la s with
    | error e => rw [hb] at h; cases h
    | ok r =>
      obtain ⟨⟨o1, t1⟩, la1, nd⟩ := r
      rw [hb] at h
      obtain ⟨hP1, hI1⟩ := hround la s o1 t1 la1 nd hinv hb
      simp only at h
      split at h
      · cases hr : linkLoop cks orc FBS idata sources targets fuel la1 t1 with
        | error e => rw [hr] at h; cases h
        | ok r2 =>
          obtain ⟨o2, t2⟩ := r2
          rw [hr] at h
          simp only [Except.ok.injEq, Prod.mk.injEq] at h
          obtain ⟨ho, hs⟩ := h
          subst ho; subst hs
          obtain ⟨hP2, hI2⟩ := ih la1 t1 o2 t2 hI1 hr
          refine ⟨?_, hI2⟩
          intro x hx
          rcases List.mem_append.mp hx with hx | hx
          · exact hP1 x hx
          · exact hP2 x hx
      · simp only [Except.ok.injEq, Prod.mk.injEq] at h
        obtain ⟨ho, hs⟩ := h
        subst ho; subst hs
        exact ⟨hP1, hI1⟩


theorem fillOptions_effect (idata : IfaceData) :
    ∀ (l : List (List Nat)) (g : Globals) (la : Nat) (nd : Bool),
      (fillOptions idata l g la nd).1.ns = g.ns ∧
      (fillOptions idata l g la nd).1.fragpart = g.fragpart ∧
      (fillOptions idata l g la nd).1.startofprefixes = g.startofprefixes ∧
      (fillOptions idata l g la nd).1.linkaddr = g.linkaddr ∧
      g.ptr ≤ (fillOptions idata l g la nd).1.ptr ∧
      ((fillOptions idata l g la nd).1.sllaopt = g.sllaopt ∨
        g.ptr ≤ (fillOptions idata l g la nd).1.sllaopt) ∧
      ∀ i, i < g.ptr → (fillOptions idata l g la nd).1.buffer i = g.buffer i := by
  intro l
  induction l with
  | nil => intro g la nd; simp [fillOptions]
  | cons a rest ih =>
    intro g la nd
    unfold fillOptions
    split
    · obtain ⟨h1, h2, h3, h4, h5, h6, h7⟩ := ih
        { g with buffer := pokeBytes (poke (poke g.buffer g.ptr ND_OPT_SOURCE_LINKADDR) (g.ptr + 1)
                    SLLA_OPT_LEN) (g.ptr + 2) ETH_ALEN a,
                 sllaopt := g.ptr, ptr := g.ptr + sizeof_nd_opt_slla }
        ((la + 1) % U32) true
      dsimp only at h1 h2 h3 h4 h5 h6 h7 ⊢
      refine ⟨h1, h2, h3, h4, by omega, ?_, ?_⟩
      · rcases h6 with h6 | h6
        · exact Or.inr (by omega)
        · exact Or.inr (by omega)
      · intro i hi
        rw [h7 i (by omega)]
        have a1 : ¬ (g.ptr + 2 ≤ i ∧ i < g.ptr + 2 + ETH_ALEN) := by omega
        have a2 : i ≠ g.ptr + 1 := by omega
        have a3 : i ≠ g.ptr := by omega
        simp [pokeBytes, poke, a1, a2, a3]
    · simp

theorem fragment_path_globals (FBS : Nat) (idata : IfaceData) (g : Globals) (ident : Nat)
    (frames : List Frame) (g1 : Globals)
    (h : fragment_path FBS idata g ident = .ok (frames, g1)) :
    ∃ fb nf p, g1 = { g with fragbuffer := fb, nfrags := nf, ptr := p } := by
  unfold fragment_path at h
  simp only at h
  split at h
  · cases h
  · split at h
    · cases h
    · simp only [Except.ok.injEq, Prod.mk.injEq] at h
      exact ⟨_, _, _, h.2.symm⟩

theorem sendDatagram_ok (cks : List Nat → List Nat → List Nat → Nat → Nat) (orc : Oracle)
    (FBS : Nat) (idata : IfaceData) (sources targets : Nat) (st : SendSt) (out : List Sent)
    (s1 : SendSt) (h : sendDatagram cks orc FBS idata sources targets st = .ok (out, s1)) :
    ∃ x, out = [x] ∧ x.datagram = { data := storeChecksum cks idata st.g, len := st.g.ptr } ∧
      x.sources = sources ∧ x.targets = targets ∧
      ((idata.fragh_f = false ∧
        x.frames = [{ data := pokeU16be (storeChecksum cks idata st.g) (idata.linkhsize + 4)
                        ((st.g.ptr - idata.linkhsize - MIN_IPV6_HLEN) % 65536),
                      len := st.g.ptr }] ∧
        s1 = { st with g := { st.g with
                 buffer := pokeU16be (storeChecksum cks idata st.g) (idata.linkhsize + 4)
                   ((st.g.ptr - idata.linkhsize - MIN_IPV6_HLEN) % 65536) } }) ∨
       (idata.fragh_f = true ∧ ∃ g1,
        fragment_path FBS idata { st.g with buffer := storeChecksum cks idata st.g }
          (orc.ident st.nident) = .ok (x.frames, g1) ∧
        s1 = { st with g := g1, nident := st.nident + 1 })) := by
  unfold sendDatagram at h
  simp only at h
  split at h
  · rename_i hf
    simp only [Except.ok.injEq, Prod.mk.injEq] at h
    obtain ⟨ho, hs⟩ := h
    subst ho; subst hs
    exact ⟨_, rfl, rfl, rfl, rfl, Or.inl ⟨hf, rfl, rfl⟩⟩
  · rename_i hf
    split at h
    · cases h
    · rename_i frames g1 hfp
      simp only [Except.ok.injEq, Prod.mk.injEq] at h
      obtain ⟨ho, hs⟩ := h
      subst ho; subst hs
      exact ⟨_, rfl, rfl, rfl, rfl, Or.inr ⟨by simpa using hf, g1, hfp, rfl⟩⟩

theorem linkRound_ok (cks : List Nat → List Nat → List Nat → Nat → Nat) (orc : Oracle)
    (FBS : Nat) (idata : IfaceData) (sources targets la : Nat) (st : SendSt) (out : List Sent)
    (s1 : SendSt) (la1 : Nat) (nd : Bool)
    (h : linkRound cks orc FBS idata sources targets la st = .ok ((out, s1), la1, nd)) :
    sendDatagram cks orc FBS idata sources targets
      { st with g := (fillOptions idata (st.g.linkaddr.drop la)
          { st.g with ptr := st.g.startofprefixes } la false).1 } = .ok (out, s1) := by
  unfold linkRound at h
  simp only at h
  split at h
  · cases h
  · rename_i res hres
    simp only [Except.ok.injEq, Prod.mk.injEq] at h
    rw [hres, h.1]


theorem targetBody_forall (cks : List Nat → List Nat → List Nat → Nat → Nat) (orc : Oracle)
    (FBS : Nat) (idata : IfaceData) (fl : FloodVars) (rt : Bool) (sources : Nat)
    (Inv : SendSt → Prop) (P : Sent → Prop)
    (hround : ∀ targets la s out s1 la1 nd, Inv s →
      linkRound cks orc FBS idata sources targets la s = .ok ((out, s1), la1, nd) →
      (∀ x ∈ out, P x) ∧ Inv s1)
    (hrt : rt = true → ∀ s, Inv s → Inv (randomizeTarget orc fl s)) :
    ∀ targets s out s1, Inv s →
      targetBody cks orc FBS idata fl rt sources targets s = .ok (out, s1) →
      (∀ x ∈ out, P x) ∧ Inv s1 := by
  intro targets s out s1 hinv h
  unfold targetBody at h
  simp only at h
  have hi : Inv (if rt = true then randomizeTarget orc fl s else s) := by
    split
    · rename_i hc
      exact hrt hc s hinv
    · exact hinv
  exact linkLoop_forall cks orc FBS idata sources targets Inv P (hround targets) _ _ _ out s1 hi h

theorem send_packet_forall (cks : List Nat → List Nat → List Nat → Nat → Nat) (orc : Oracle)
    (FBS : Nat) (idata : IfaceData) (fl : FloodVars) (Inv : SendSt → Prop) (P : Sent → Prop)
    (hround : ∀ sources targets la s out s1 la1 nd, Inv s →
      linkRound cks orc FBS idata sources targets la s = .ok ((out, s1), la1, nd) →
      (∀ x ∈ out, P x) ∧ Inv s1)
    (hrt : fl.floodt_f = true → ∀ s, Inv s → Inv (randomizeTarget orc fl s))
    (hsrc : ∀ s, Inv s → Inv (floodSource orc idata fl s))
    (st : SendSt) (out : List Sent) (st1 : SendSt) (hinv : Inv st)
    (h : send_packet cks orc FBS idata fl st = .ok (out, st1)) :
    (∀ x ∈ out, P x) ∧ Inv st1 := by
  unfold send_packet at h
  refine doWhile_forall _ _ Inv P ?_ _ _ _ out st1 hinv h
  intro i s o s1 hi hb
  unfold sourceBody at hb
  exact doWhile_forall _ _ Inv P
    (targetBody_forall cks orc FBS idata fl fl.floodt_f i Inv P (hround i) hrt)
    _ _ _ o s1 (hsrc s hi) hb

theorem send_packet_to_ns_forall (cks : List Nat → List Nat → List Nat → Nat → Nat)
    (orc : Oracle) (an : AllNodes) (FBS : Nat) (idata : IfaceData) (fl : FloodVars)
    (Inv : SendSt → Prop) (P : Sent → Prop)
    (hround : ∀ sources targets la s out s1 la1 nd, Inv s →
      linkRound cks orc FBS idata sources targets la s = .ok ((out, s1), la1, nd) →
      (∀ x ∈ out, P x) ∧ Inv s1)
    (hsrc : ∀ s, Inv s → Inv (floodSourceNS orc idata fl false s))
    (pkt : Mem) (st : SendSt) (out : List Sent) (st1 : SendSt)
    (hinv : Inv (replyAddressing an idata fl pkt st).1)
    (h : send_packet_to_ns cks orc an FBS idata fl (some pkt) st = .ok (out, st1)) :
    (∀ x ∈ out, P x) ∧ Inv st1 := by
  unfold send_packet_to_ns at h
  simp only [Option.isNone_some] at h
  refine doWhile_forall _ _ Inv P ?_ _ _ _ out st1 hinv h
  intro i s o s1 hi hb
  unfold sourceBodyNS at hb
  refine doWhile_forall _ _ Inv P
    (targetBody_forall cks orc FBS idata fl false i Inv P (hround i) ?_)
    _ _ _ o s1 (hsrc s hi) hb
  intro hc
  cases hc

theorem storeChecksum_other (cks : List Nat → List Nat → List Nat → Nat → Nat) (idata : IfaceData)
    (g : Globals) (i : Nat) (h2 : i ≠ g.ns + 2) (h3 : i ≠ g.ns + 3) :
    storeChecksum cks idata g i = g.buffer i := by
  have h3b : i ≠ g.ns + 2 + 1 := h3
  simp [storeChecksum, pokeU16be, poke, h2, h3b]

theorem pokeU16be_other (m : Mem) (off v i : Nat) (h0 : i ≠ off) (h1 : i ≠ off + 1) :
    pokeU16be m off v i = m i := by
  simp [pokeU16be, poke, h0, h1]

theorem Kept_refl (idata : IfaceData) (rs rt : Bool) (s0 : SendSt)
    (hlay : Layout idata s0.g) : Kept idata rs rt s0 s0 :=
  ⟨rfl, rfl, rfl, rfl, hlay.2.2.2, fun _ _ => rfl⟩

theorem sendDatagram_kept (cks : List Nat → List Nat → List Nat → Nat → Nat) (orc : Oracle)
    (FBS : Nat) (idata : IfaceData) (rs rt : Bool) (s0 : SendSt) (sources targets : Nat)
    (s : SendSt) (out : List Sent) (s1 : SendSt) (hk : Kept idata rs rt s0 s)
    (h : sendDatagram cks orc FBS idata sources targets s = .ok (out, s1)) :
    (∀ x ∈ out, SentKeeps idata rs rt s0 x) ∧ Kept idata rs rt s0 s1 := by
  obtain ⟨k1, k2, k3, k4, k5, k6⟩ := hk
  obtain ⟨x, hx, hd, _, _, hcase⟩ := sendDatagram_ok cks orc FBS idata sources targets s out s1 h
  subst hx
  have hck : ∀ i, Untouched idata s0.g rs rt i → storeChecksum cks idata s.g i = s0.g.buffer i := by
    intro i hu
    rw [storeChecksum_other cks idata s.g i (by rw [k1]; exact hu.2.2.1)
      (by rw [k1]; exact hu.2.2.2.1)]
    exact k6 i hu
  rcases hcase with ⟨hf, hfr, hs1⟩ | ⟨hf, g1, hfp, hs1⟩
  · have hfr2 : ∀ i, Untouched idata s0.g rs rt i →
        pokeU16be (storeChecksum cks idata s.g) (idata.linkhsize + 4)
          ((s.g.ptr - idata.linkhsize - MIN_IPV6_HLEN) % 65536) i = s0.g.buffer i := by
      intro i hu
      rw [pokeU16be_other _ _ _ _ hu.1 hu.2.1]
      exact hck i hu
    refine ⟨?_, ?_⟩
    · intro y hy
      rw [List.mem_singleton] at hy
      subst hy
      refine ⟨?_, ?_⟩
      · intro i hu
        rw [hd]
        exact hck i hu
      · intro f hfm i hu _
        rw [hfr, List.mem_singleton] at hfm
        subst hfm
        exact hfr2 i hu
    · subst hs1
      exact ⟨k1, k2, k3, k4, k5, hfr2⟩
  · obtain ⟨_, hspec, _⟩ := fragment_path_ok FBS idata _ _ _ _ hfp
    obtain ⟨fb, nf, p, hg1⟩ := fragment_path_globals FBS idata _ _ _ _ hfp
    refine ⟨?_, ?_⟩
    · intro y hy
      rw [List.mem_singleton] at hy
      subst hy
      refine ⟨?_, ?_⟩
      · intro i hu
        rw [hd]
        exact hck i hu
      · intro f hfm i hu hlt
        rcases hlt with hlt | hlt
        · rw [hf] at hlt; cases hlt
        · obtain ⟨_, b⟩ := FragsSpec_stable _ _ _ _ _ _ _ _ _ _ hspec f hfm
          dsimp only at b
          rw [b i (Or.inl ⟨by rw [k2]; omega, hu.1, hu.2.1⟩)]
          rw [ fragStart_prefix _ _ i (by dsimp only; rw [k2]; exact hlt)]
          exact hck i hu
    · subst hs1
      subst hg1
      exact ⟨k1, k2, k3, k4, k5, hck⟩

theorem linkRound_kept (cks : List Nat → List Nat → List Nat → Nat → Nat) (orc : Oracle)
    (FBS : Nat) (idata : IfaceData) (rs rt : Bool) (s0 : SendSt) (hlay : Layout idata s0.g)
    (sources targets la : Nat) (s : SendSt) (out : List Sent) (s1 : SendSt) (la1 : Nat) (nd : Bool)
    (hk : Kept idata rs rt s0 s)
    (h : linkRound cks orc FBS idata sources targets la s = .ok ((out, s1), la1, nd)) :
    (∀ x ∈ out, SentKeeps idata rs rt s0 x) ∧ Kept idata rs rt s0 s1 := by
  have h1 := linkRound_ok cks orc FBS idata sources targets la s out s1 la1 nd h
  refine sendDatagram_kept cks orc FBS idata rs rt s0 sources targets _ out s1 ?_ h1
  obtain ⟨k1, k2, k3, k4, k5, k6⟩ := hk
  obtain ⟨e1, e2, e3, _, _, e6, e7⟩ := fillOptions_effect idata (s.g.linkaddr.drop la)
    { s.g with ptr := s.g.startofprefixes } la false
  dsimp only at e1 e2 e3 e6 e7
  obtain ⟨_, _, l3, _⟩ := hlay
  refine ⟨by rw [← k1]; exact e1, by rw [← k2]; exact e2, by rw [← k3]; exact e3, k4, ?_, ?_⟩
  · rcases e6 with e6 | e6
    · dsimp only; rw [e6]; exact k5
    · dsimp only; omega
  · intro i hu
    dsimp only
    rw [e7 i (by have := hu.2.2.2.2.1; omega)]
    exact k6 i hu


theorem pokeBytes_in (m : Mem) (off n : Nat) (l : List Nat) (i : Nat)
    (h : off ≤ i ∧ i < off + n) : pokeBytes m off n l i = l.getD (i - off) 0 % 256 := by
  simp [pokeBytes, h]

theorem pokeBytes_out (m : Mem) (off n : Nat) (l : List Nat) (i : Nat)
    (h : ¬ (off ≤ i ∧ i < off + n)) : pokeBytes m off n l i = m i := by
  simp only [pokeBytes, if_neg h]

theorem memcpy_in (dst : Mem) (doff : Nat) (src : Mem) (soff n i : Nat)
    (h : doff ≤ i ∧ i < doff + n) : memcpy dst doff src soff n i = src (soff + (i - doff)) := by
  simp [memcpy, h]

theorem memcpy_out (dst : Mem) (doff : Nat) (src : Mem) (soff n i : Nat)
    (h : ¬ (doff ≤ i ∧ i < doff + n)) : memcpy dst doff src soff n i = dst i := by
  simp only [memcpy, if_neg h]

theorem readBytes_of_bytes (m : Mem) (off n : Nat) (l : List Nat) (hl : IsBytes n l)
    (h : ∀ j, j < n → m (off + j) = l.getD j 0 % 256) : readBytes m off n = l := by
  obtain ⟨hlen, hb⟩ := hl
  apply List.ext_getElem
  · simp [readBytes, hlen]
  · intro j h1 h2
    have hj : j < n := by simpa [readBytes] using h1
    simp only [readBytes, List.getElem_map, List.getElem_range]
    rw [h j hj, List.getD_eq_getElem l 0 h2]
    exact Nat.mod_eq_of_lt (hb _ (List.getElem_mem h2))

theorem randomizeSrc_kept (orc : Oracle) (idata : IfaceData) (rs rt : Bool) (s0 s : SendSt)
    (hr : rs = true) (hk : Kept idata rs rt s0 s) :
    Kept idata rs rt s0 (randomizeSrc orc idata s) := by
  obtain ⟨k1, k2, k3, k4, k5, k6⟩ := hk
  refine ⟨k1, k2, k3, k4, k5, ?_⟩
  intro i hu
  have := (hu.2.2.2.2.2.1 hr).1
  simp only [randomizeSrc]
  rw [pokeBytes_out _ _ _ _ _ (by omega)]
  exact k6 i hu

theorem randomizeEtherSrc_kept (orc : Oracle) (idata : IfaceData) (rs rt : Bool) (s0 s : SendSt)
    (hr : rs = true) (hk : Kept idata rs rt s0 s) :
    Kept idata rs rt s0 (randomizeEtherSrc orc s) := by
  obtain ⟨k1, k2, k3, k4, k5, k6⟩ := hk
  refine ⟨k1, k2, k3, k4, k5, ?_⟩
  intro i hu
  have := (hu.2.2.2.2.2.1 hr).2
  simp only [randomizeEtherSrc, ETH_ALEN]
  rw [pokeBytes_out _ _ _ _ _ (by omega)]
  exact k6 i hu

theorem mirrorEtherSrc_kept (idata : IfaceData) (rs rt : Bool) (s0 s : SendSt)
    (hk : Kept idata rs rt s0 s) : Kept idata rs rt s0 (mirrorEtherSrc s) := by
  obtain ⟨k1, k2, k3, k4, k5, k6⟩ := hk
  refine ⟨k1, k2, k3, k4, k5, ?_⟩
  intro i hu
  have hlt := hu.2.2.2.2.1
  simp only [mirrorEtherSrc, ETH_ALEN]
  rw [memcpy_out _ _ _ _ _ _ (by omega)]
  exact k6 i hu

theorem floodSourceNS_kept (orc : Oracle) (idata : IfaceData) (fl : FloodVars) (rs rt : Bool)
    (s0 s : SendSt)
    (hrs : fl.floods_f = true → s0.multicastdst_f = true → rs = true)
    (hk : Kept idata rs rt s0 s) : Kept idata rs rt s0 (floodSourceNS orc idata fl false s) := by
  unfold floodSourceNS
  split
  · rename_i hc
    have hr : rs = true := by
      obtain ⟨hf, hm⟩ := hc
      rcases hm with hm | hm
      · cases hm
      · exact hrs hf (by rw [← hk.2.2.2.1]; exact hm)
    have h1 := randomizeSrc_kept orc idata rs rt s0 s hr hk
    have h2 : Kept idata rs rt s0 (if idata.hsrcaddr_f = false then
        randomizeEtherSrc orc (randomizeSrc orc idata s) else randomizeSrc orc idata s) := by
      split
      · exact randomizeEtherSrc_kept orc idata rs rt s0 _ hr h1
      · exact h1
    dsimp only
    generalize (if idata.hsrcaddr_f = false then
        randomizeEtherSrc orc (randomizeSrc orc idata s) else randomizeSrc orc idata s) = s2
      at h2 ⊢
    split
    · exact mirrorEtherSrc_kept idata rs rt s0 _ h2
    · exact h2
  · exact hk

theorem send_packet_to_ns_kept (cks : List Nat → List Nat → List Nat → Nat → Nat)
    (orc : Oracle) (an : AllNodes) (FBS : Nat) (idata : IfaceData) (fl : FloodVars) (rs : Bool)
    (pkt : Mem) (st : SendSt) (out : List Sent) (st1 : SendSt) (hlay : Layout idata st.g)
    (hrs : fl.floods_f = true → (replyAddressing an idata fl pkt st).1.multicastdst_f = true →
      rs = true)
    (h : send_packet_to_ns cks orc an FBS idata fl (some pkt) st = .ok (out, st1)) :
    ∀ x ∈ out, SentKeeps idata rs false (replyAddressing an idata fl pkt st).1 x := by
  have hlay0 : Layout idata (replyAddressing an idata fl pkt st).1.g := hlay
  exact (send_packet_to_ns_forall cks orc an FBS idata fl
    (Kept idata rs false (replyAddressing an idata fl pkt st).1)
    (SentKeeps idata rs false (replyAddressing an idata fl pkt st).1)
    (fun sources targets la s o s1 la1 nd hk hr =>
      linkRound_kept cks orc FBS idata rs false _ hlay0 sources targets la s o s1 la1 nd hk hr)
    (fun s hk => floodSourceNS_kept orc idata fl rs false _ s hrs hk)
    pkt st out st1 (Kept_refl idata rs false _ hlay0) h).1


theorem replyDst_other (an : AllNodes) (idata : IfaceData) (pkt b : Mem) (i : Nat)
    (h1 : ¬ (idata.linkhsize + 24 ≤ i ∧ i < idata.linkhsize + 24 + 16)) (h2 : 6 ≤ i) :
    replyDst an idata pkt b i = b i := by
  have h3 : ¬ (0 ≤ i ∧ i < 0 + ETH_ALEN) := by simp only [ETH_ALEN]; omega
  unfold replyDst
  split
  · rw [pokeBytes_out _ _ _ _ _ h3, pokeBytes_out _ _ _ _ _ h1]
  · rw [memcpy_out _ _ _ _ _ _ h3, memcpy_out _ _ _ _ _ _ h1]

theorem replyDst_ip6 (an : AllNodes) (idata : IfaceData) (pkt b : Mem) (j : Nat) (hj : j < 16) :
    replyDst an idata pkt b (idata.linkhsize + 24 + j) =
      if IN6_IS_ADDR_UNSPECIFIED (pktIp6Src idata pkt) = true
      then an.ALL_NODES_MULTICAST_ADDR.getD j 0 % 256 else pkt (idata.linkhsize + 8 + j) := by
  have h3 : ¬ (0 ≤ idata.linkhsize + 24 + j ∧ idata.linkhsize + 24 + j < 0 + ETH_ALEN) := by
    simp only [ETH_ALEN]; omega
  have h1 : idata.linkhsize + 24 ≤ idata.linkhsize + 24 + j ∧
      idata.linkhsize + 24 + j < idata.linkhsize + 24 + 16 := by omega
  unfold replyDst
  split
  · rw [pokeBytes_out _ _ _ _ _ h3, pokeBytes_in _ _ _ _ _ h1]
    simp
  · rw [memcpy_out _ _ _ _ _ _ h3, memcpy_in _ _ _ _ _ _ h1]
    simp

theorem replyDst_ether (an : AllNodes) (idata : IfaceData) (pkt b : Mem) (j : Nat) (hj : j < 6) :
    replyDst an idata pkt b (0 + j) =
      if IN6_IS_ADDR_UNSPECIFIED (pktIp6Src idata pkt) = true
      then an.ETHER_ALLNODES_LINK_ADDR.getD j 0 % 256 else pkt (6 + j) := by
  have h3 : 0 ≤ 0 + j ∧ 0 + j < 0 + ETH_ALEN := by simp only [ETH_ALEN]; omega
  unfold replyDst
  split
  · rw [pokeBytes_in _ _ _ _ _ h3]
    simp
  · rw [memcpy_in _ _ _ _ _ _ h3]
    simp

theorem replySrc_other (idata : IfaceData) (fl : FloodVars) (pkt b : Mem) (i : Nat)
    (h1 : ¬ (idata.linkhsize + 8 ≤ i ∧ i < idata.linkhsize + 8 + 16))
    (h2 : ¬ (6 ≤ i ∧ i < 6 + ETH_ALEN)) :
    (replySrc idata fl pkt b).1 i = b i := by
  unfold replySrc
  split
  · dsimp only
    rw [pokeBytes_out _ _ _ _ _ h2]
    split
    · rw [memcpy_out _ _ _ _ _ _ h1]
    · rw [pokeBytes_out _ _ _ _ _ h1]
  · dsimp only
    rw [memcpy_out _ _ _ _ _ _ h2, memcpy_out _ _ _ _ _ _ h1]

theorem replySrc_ip6 (idata : IfaceData) (fl : FloodVars) (pkt b : Mem) (j : Nat) (hj : j < 16)
    (hlh : 12 ≤ idata.linkhsize) :
    (replySrc idata fl pkt b).1 (idata.linkhsize + 8 + j) =
      if IN6_IS_ADDR_MULTICAST (pktIp6Dst idata pkt) = true then
        if idata.srcaddr_f = false ∧ IN6_IS_ADDR_LINKLOCAL (pktTarget idata pkt) = true
        then pkt (idata.linkhsize + MIN_IPV6_HLEN + 8 + j)
        else idata.srcaddr.getD j 0 % 256
      else pkt (idata.linkhsize + 24 + j) := by
  have h2 : ¬ (6 ≤ idata.linkhsize + 8 + j ∧ idata.linkhsize + 8 + j < 6 + ETH_ALEN) := by
    simp only [ETH_ALEN]; omega
  have h1 : idata.linkhsize + 8 ≤ idata.linkhsize + 8 + j ∧
      idata.linkhsize + 8 + j < idata.linkhsize + 8 + 16 := by omega
  unfold replySrc
  split
  · dsimp only
    rw [pokeBytes_out _ _ _ _ _ h2]
    split
    · rw [memcpy_in _ _ _ _ _ _ h1]
      simp
    · rw [pokeBytes_in _ _ _ _ _ h1]
      simp
  · dsimp only
    rw [memcpy_out _ _ _ _ _ _ h2, memcpy_in _ _ _ _ _ _ h1]
    simp

theorem replySrc_ether (idata : IfaceData) (fl : FloodVars) (pkt b : Mem) (j : Nat) (hj : j < 6) :
    (replySrc idata fl pkt b).1 (6 + j) =
      if IN6_IS_ADDR_MULTICAST (pktIp6Dst idata pkt) = true
      then idata.hsrcaddr.getD j 0 % 256 else pkt (0 + j) := by
  have h2 : 6 ≤ 6 + j ∧ 6 + j < 6 + ETH_ALEN := by simp only [ETH_ALEN]; omega
  unfold replySrc
  split
  · dsimp only
    rw [pokeBytes_in _ _ _ _ _ h2]
    simp
  · dsimp only
    rw [memcpy_in _ _ _ _ _ _ h2]
    simp

theorem replySrc_flag (idata : IfaceData) (fl : FloodVars) (pkt b : Mem) :
    (replySrc idata fl pkt b).2.2 = IN6_IS_ADDR_MULTICAST (pktIp6Dst idata pkt) ∧
    (replySrc idata fl pkt b).2.1 =
      if IN6_IS_ADDR_MULTICAST (pktIp6Dst idata pkt) = true then 0 else fl.nsources := by
  unfold replySrc
  split
  · rename_i h
    simp [h]
  · rename_i h
    simp [h]


theorem emitted_ok (r : Except Stop (List Sent × SendSt)) (h : isOk r = true) :
    ∃ s, r = .ok (emitted r, s) := by
  cases r with
  | ok v => exact ⟨v.2, rfl⟩
  | error e => cases h

theorem replyAddressing_low (an : AllNodes) (idata : IfaceData) (fl : FloodVars) (pkt : Mem)
    (st : SendSt) (i : Nat) (hi : i < st.g.ns + 8) :
    (replyAddressing an idata fl pkt st).1.g.buffer i =
      (replySrc idata fl pkt (replyDst an idata pkt st.g.buffer)).1 i := by
  show memcpy _ (st.g.ns + 8) pkt _ 16 i = _
  rw [memcpy_out _ _ _ _ _ _ (by omega)]

theorem replyAddressing_target (an : AllNodes) (idata : IfaceData) (fl : FloodVars) (pkt : Mem)
    (st : SendSt) (j : Nat) (hj : j < 16) :
    (replyAddressing an idata fl pkt st).1.g.buffer (st.g.ns + 8 + j) =
      pkt (idata.linkhsize + MIN_IPV6_HLEN + 8 + j) := by
  show memcpy _ (st.g.ns + 8) pkt _ 16 (st.g.ns + 8 + j) = _
  rw [memcpy_in _ _ _ _ _ _ (by omega)]
  simp

theorem send_packet_to_ns_frames (cks : List Nat → List Nat → List Nat → Nat → Nat)
    (orc : Oracle) (an : AllNodes) (FBS : Nat) (idata : IfaceData) (fl : FloodVars)
    (pkt : Mem) (st : SendSt) (out : List Sent) (st1 : SendSt) (hlay : Layout idata st.g)
    (hlh : 12 ≤ idata.linkhsize)
    (h : send_packet_to_ns cks orc an FBS idata fl (some pkt) st = .ok (out, st1)) :
    ∀ x ∈ out, ∀ f ∈ x.frames,
      (∀ i, (i < 6 ∨ (idata.linkhsize + 24 ≤ i ∧ i < idata.linkhsize + 40)) →
        f.data i = replyDst an idata pkt st.g.buffer i) ∧
      ((fl.floods_f = false ∨ IN6_IS_ADDR_MULTICAST (pktIp6Dst idata pkt) = false) →
        ∀ i, ((6 ≤ i ∧ i < 12) ∨ (idata.linkhsize + 8 ≤ i ∧ i < idata.linkhsize + 24)) →
          f.data i = (replySrc idata fl pkt (replyDst an idata pkt st.g.buffer)).1 i) := by
  obtain ⟨l1, l2, l3, l4⟩ := hlay
  simp only [MIN_IPV6_HLEN, sizeof_nd_neighbor_solicit] at l1 l3 l4
  have hns : (replyAddressing an idata fl pkt st).1.g.ns = st.g.ns := rfl
  have hfp : (replyAddressing an idata fl pkt st).1.g.fragpart = st.g.fragpart := rfl
  intro x hx f hf
  refine ⟨?_, ?_⟩
  · intro i hi
    have hk := send_packet_to_ns_kept cks orc an FBS idata fl true pkt st out st1
      ⟨l1, l2, l3, l4⟩ (fun _ _ => rfl) h x hx
    have hu : Untouched idata (replyAddressing an idata fl pkt st).1.g true false i := by
      refine ⟨by omega, by omega, by rw [hns]; omega, by rw [hns]; omega,
        by rw [hns]; simp only [sizeof_nd_neighbor_solicit]; omega, ?_, ?_⟩
      · intro _; exact ⟨by omega, by omega⟩
      · intro hc; cases hc
    rw [hk.2 f hf i hu (Or.inr (by rw [hfp]; omega)),
      replyAddressing_low an idata fl pkt st i (by omega)]
    apply replySrc_other
    · omega
    · simp only [ETH_ALEN]; omega
  · intro hcond i hi
    have hk := send_packet_to_ns_kept cks orc an FBS idata fl false pkt st out st1
      ⟨l1, l2, l3, l4⟩ (by
        intro hf hm
        have hflag : (replyAddressing an idata fl pkt st).1.multicastdst_f =
            IN6_IS_ADDR_MULTICAST (pktIp6Dst idata pkt) :=
          (replySrc_flag idata fl pkt (replyDst an idata pkt st.g.buffer)).1
        rw [hflag] at hm
        rcases hcond with hc | hc
        · rw [hc] at hf; cases hf
        · rw [hc] at hm; cases hm) h x hx
    have hu : Untouched idata (replyAddressing an idata fl pkt st).1.g false false i := by
      refine ⟨by omega, by omega, by rw [hns]; omega, by rw [hns]; omega,
        by rw [hns]; simp only [sizeof_nd_neighbor_solicit]; omega, ?_, ?_⟩
      · intro hc; cases hc
      · intro hc; cases hc
    rw [hk.2 f hf i hu (Or.inr (by rw [hfp]; omega)),
      replyAddressing_low an idata fl pkt st i (by omega)]

/-- C16.  In send_packet_to_ns, for every received Neighbor Solicitation, on a
link whose header holds the two Ethernet addresses, every frame of the reply
(every fragment, when the reply is fragmented) has these destinations: when the
IPv6 source of the solicitation is the unspecified address, the IPv6
destination is the all-nodes multicast address and the Ethernet destination the
all-nodes link address; otherwise the IPv6 destination is the IPv6 source of
the solicitation and the Ethernet destination its Ethernet source. -/
theorem send_packet_to_ns_destination (cks : List Nat → List Nat → List Nat → Nat → Nat)
    (orc : Oracle) (an : AllNodes) (FBS : Nat) (idata : IfaceData) (fl : FloodVars)
    (pkt : Mem) (st : SendSt) (out : List Sent) (st1 : SendSt) (hlay : Layout idata st.g)
    (hlh : 12 ≤ idata.linkhsize)
    (hall : IsBytes 16 an.ALL_NODES_MULTICAST_ADDR) (heth : IsBytes 6 an.ETHER_ALLNODES_LINK_ADDR)
    (h : send_packet_to_ns cks orc an FBS idata fl (some pkt) st = .ok (out, st1)) :
    ∀ x ∈ out, ∀ f ∈ x.frames,
      (IN6_IS_ADDR_UNSPECIFIED (pktIp6Src idata pkt) = true →
        readBytes f.data (idata.linkhsize + 24) 16 = an.ALL_NODES_MULTICAST_ADDR ∧
        readBytes f.data 0 ETH_ALEN = an.ETHER_ALLNODES_LINK_ADDR) ∧
      (IN6_IS_ADDR_UNSPECIFIED (pktIp6Src idata pkt) = false →
        readBytes f.data (idata.linkhsize + 24) 16 = pktIp6Src idata pkt ∧
        readBytes f.data 0 ETH_ALEN = pktEtherSrc pkt) := by
  intro x hx f hf
  obtain ⟨hd, _⟩ := send_packet_to_ns_frames cks orc an FBS idata fl pkt st out st1 hlay hlh h
    x hx f hf
  refine ⟨?_, ?_⟩
  · intro hu
    refine ⟨?_, ?_⟩
    · apply readBytes_of_bytes _ _ _ _ hall
      intro j hj
      rw [hd _ (Or.inr (by omega)), replyDst_ip6 an idata pkt _ j hj, if_pos hu]
    · apply readBytes_of_bytes _ _ _ _ heth
      intro j hj
      have hj6 : j < 6 := hj
      rw [hd _ (Or.inl (by omega)), replyDst_ether an idata pkt _ j hj6, if_pos hu]
  · intro hu
    have hu2 : ¬ IN6_IS_ADDR_UNSPECIFIED (pktIp6Src idata pkt) = true := by
      rw [hu]; decide
    refine ⟨?_, ?_⟩
    · unfold pktIp6Src
      apply readBytes_congr
      intro j hj
      rw [hd _ (Or.inr (by omega)), replyDst_ip6 an idata pkt _ j hj, if_neg hu2]
    · unfold pktEtherSrc
      apply readBytes_congr
      intro j hj
      have hj6 : j < 6 := hj
      rw [hd _ (Or.inl (by omega)), replyDst_ether an idata pkt _ j hj6, if_neg hu2]


theorem send_packet_to_ns_destination_witness :
    Layout ethFrag (templ ethFrag (sllaGlobals 16)) ∧ 12 ≤ ethFrag.linkhsize ∧
    IsBytes 16 demoAllNodes.ALL_NODES_MULTICAST_ADDR ∧
    IsBytes 6 demoAllNodes.ETHER_ALLNODES_LINK_ADDR ∧
    (emitted fragReply).length = 6 ∧
    ∀ x ∈ emitted fragReply, ∀ f ∈ x.frames,
      readBytes f.data 38 16 = [0xff, 0x02, 0, 0, 0, 0, 0, 0, 0, 0, 0, 0, 0, 0, 0, 1] ∧
      readBytes f.data 0 6 = [0x33, 0x33, 0, 0, 0, 1] := by
  obtain ⟨s1, h⟩ := emitted_ok fragReply (by decide)
  have hl : Layout ethFrag (templ ethFrag (sllaGlobals 16)) := by unfold Layout; decide
  have h16 : IsBytes 16 demoAllNodes.ALL_NODES_MULTICAST_ADDR := by unfold IsBytes; decide
  have h6 : IsBytes 6 demoAllNodes.ETHER_ALLNODES_LINK_ADDR := by unfold IsBytes; decide
  have hw := send_packet_to_ns_destination demoCks demoOracle demoAllNodes demoFragBufferSize
    ethFrag flood32 solicitDad (startSt (templ ethFrag (sllaGlobals 16))) (emitted fragReply) s1
    hl (by decide) h16 h6 h
  exact ⟨hl, by decide, h16, h6, by decide, fun x hx f hf => (hw x hx f hf).1 (by decide)⟩

/-- C17.  In send_packet_to_ns, for every received Neighbor Solicitation whose
IPv6 destination is multicast, with source flooding disabled and on a link whose
header holds the two Ethernet addresses, every frame of the reply has as IPv6
source the configured source address when one was configured, and otherwise the
target of the solicitation when that target is link-local; its Ethernet source
is the configured link-layer source; and when the IPv6 source of the
solicitation is the unspecified address the frame goes to the all-nodes
multicast address and link address. -/
theorem send_packet_to_ns_multicast_source (cks : List Nat → List Nat → List Nat → Nat → Nat)
    (orc : Oracle) (an : AllNodes) (FBS : Nat) (idata : IfaceData) (fl : FloodVars)
    (pkt : Mem) (st : SendSt) (out : List Sent) (st1 : SendSt) (hlay : Layout idata st.g)
    (hlh : 12 ≤ idata.linkhsize)
    (hsrc : IsBytes 16 idata.srcaddr) (hhsrc : IsBytes 6 idata.hsrcaddr)
    (hall : IsBytes 16 an.ALL_NODES_MULTICAST_ADDR) (heth : IsBytes 6 an.ETHER_ALLNODES_LINK_ADDR)
    (hm : IN6_IS_ADDR_MULTICAST (pktIp6Dst idata pkt) = true) (hfl : fl.floods_f = false)
    (h : send_packet_to_ns cks orc an FBS idata fl (some pkt) st = .ok (out, st1)) :
    ∀ x ∈ out, ∀ f ∈ x.frames,
      (idata.srcaddr_f = true → readBytes f.data (idata.linkhsize + 8) 16 = idata.srcaddr) ∧
      (idata.srcaddr_f = false → IN6_IS_ADDR_LINKLOCAL (pktTarget idata pkt) = true →
        readBytes f.data (idata.linkhsize + 8) 16 = pktTarget idata pkt) ∧
      readBytes f.data 6 ETH_ALEN = idata.hsrcaddr ∧
      (IN6_IS_ADDR_UNSPECIFIED (pktIp6Src idata pkt) = true →
        readBytes f.data (idata.linkhsize + 24) 16 = an.ALL_NODES_MULTICAST_ADDR ∧
        readBytes f.data 0 ETH_ALEN = an.ETHER_ALLNODES_LINK_ADDR) := by
  intro x hx f hf
  obtain ⟨hd, hs⟩ := send_packet_to_ns_frames cks orc an FBS idata fl pkt st out st1 hlay hlh h
    x hx f hf
  have hs := hs (Or.inl hfl)
  refine ⟨?_, ?_, ?_, ?_⟩
  · intro hc
    apply readBytes_of_bytes _ _ _ _ hsrc
    intro j hj
    have hne : ¬ (idata.srcaddr_f = false ∧
        IN6_IS_ADDR_LINKLOCAL (pktTarget idata pkt) = true) := by
      rw [hc]; intro hx; cases hx.1
    rw [hs _ (Or.inr (by omega)), replySrc_ip6 idata fl pkt _ j hj hlh, if_pos hm, if_neg hne]
  · intro hc hll
    unfold pktTarget
    apply readBytes_congr
    intro j hj
    rw [hs _ (Or.inr (by omega)), replySrc_ip6 idata fl pkt _ j hj hlh, if_pos hm,
      if_pos ⟨hc, hll⟩]
  · apply readBytes_of_bytes _ _ _ _ hhsrc
    intro j hj
    have hj6 : j < 6 := hj
    rw [hs _ (Or.inl (by omega)), replySrc_ether idata fl pkt _ j hj6, if_pos hm]
  · intro hu
    refine ⟨?_, ?_⟩
    · apply readBytes_of_bytes _ _ _ _ hall
      intro j hj
      rw [hd _ (Or.inr (by omega)), replyDst_ip6 an idata pkt _ j hj, if_pos hu]
    · apply readBytes_of_bytes _ _ _ _ heth
      intro j hj
      have hj6 : j < 6 := hj
      rw [hd _ (Or.inl (by omega)), replyDst_ether an idata pkt _ j hj6, if_pos hu]

theorem send_packet_to_ns_multicast_source_witness :
    Layout ethPlain (templ ethPlain (plainGlobals 8)) ∧ 12 ≤ ethPlain.linkhsize ∧
    IsBytes 16 ethPlain.srcaddr ∧ IsBytes 6 ethPlain.hsrcaddr ∧
    IsBytes 16 demoAllNodes.ALL_NODES_MULTICAST_ADDR ∧
    IsBytes 6 demoAllNodes.ETHER_ALLNODES_LINK_ADDR ∧
    IN6_IS_ADDR_MULTICAST (pktIp6Dst ethPlain solicitDad) = true ∧ listenVars.floods_f = false ∧
    IN6_IS_ADDR_UNSPECIFIED (pktIp6Src ethPlain solicitDad) = true ∧
    pktTarget ethPlain solicitDad = [0xfe, 0x80, 0, 0, 0, 0, 0, 0, 0, 0, 0, 0, 0, 0, 0, 1] ∧
    ethPlain.srcaddr_f = false ∧
    (emitted dadReply).length = 1 ∧
    ∀ x ∈ emitted dadReply, ∀ f ∈ x.frames,
      readBytes f.data 22 16 = [0xfe, 0x80, 0, 0, 0, 0, 0, 0, 0, 0, 0, 0, 0, 0, 0, 1] ∧
      readBytes f.data 6 6 = [2, 0, 0, 0, 0, 1] ∧
      readBytes f.data 38 16 = [0xff, 0x02, 0, 0, 0, 0, 0, 0, 0, 0, 0, 0, 0, 0, 0, 1] ∧
      readBytes f.data 0 6 = [0x33, 0x33, 0, 0, 0, 1] := by
  obtain ⟨s1, h⟩ := emitted_ok dadReply (by decide)
  have hl : Layout ethPlain (templ ethPlain (plainGlobals 8)) := by unfold Layout; decide
  have h1 : IsBytes 16 ethPlain.srcaddr := by unfold IsBytes; decide
  have h2 : IsBytes 6 ethPlain.hsrcaddr := by unfold IsBytes; decide
  have h16 : IsBytes 16 demoAllNodes.ALL_NODES_MULTICAST_ADDR := by unfold IsBytes; decide
  have h6 : IsBytes 6 demoAllNodes.ETHER_ALLNODES_LINK_ADDR := by unfold IsBytes; decide
  have hw := send_packet_to_ns_multicast_source demoCks demoOracle demoAllNodes
    demoFragBufferSize ethPlain listenVars solicitDad (startSt (templ ethPlain (plainGlobals 8)))
    (emitted dadReply) s1 hl (by decide) h1 h2 h16 h6 (by decide) (by decide) h
  refine ⟨hl, by decide, h1, h2, h16, h6, by decide, by decide, by decide, by decide, by decide,
    by decide, ?_⟩
  intro x hx f hf
  obtain ⟨_, a2, a3, a4⟩ := hw x hx f hf
  exact ⟨a2 (by decide) (by decide), a3, (a4 (by decide)).1, (a4 (by decide)).2⟩


theorem ChecksumOk_intro (cks : List Nat → List Nat → List Nat → Nat → Nat) (lh ns len : Nat)
    (m b1 : Mem) (hns : lh + 40 ≤ ns)
    (hb1 : ∀ i, lh + 8 ≤ i → i ≠ ns + 2 → i ≠ ns + 3 → m i = b1 i)
    (hz2 : b1 (ns + 2) = 0) (hz3 : b1 (ns + 3) = 0)
    (h2 : m (ns + 2) = in_chksum cks b1 lh ns (len - ns) IPPROTO_ICMPV6 / 256 % 256)
    (h3 : m (ns + 3) = in_chksum cks b1 lh ns (len - ns) IPPROTO_ICMPV6 % 256) :
    ChecksumOk cks lh ns { data := m, len := len } := by
  have e1 : readBytes m (lh + 8) 16 = readBytes b1 (lh + 8) 16 :=
    readBytes_congr _ _ _ _ _ (fun j hj => hb1 _ (by omega) (by omega) (by omega))
  have e2 : readBytes m (lh + 24) 16 = readBytes b1 (lh + 24) 16 :=
    readBytes_congr _ _ _ _ _ (fun j hj => hb1 _ (by omega) (by omega) (by omega))
  have e3 : readBytes (pokeU16be m (ns + 2) 0) ns (len - ns) = readBytes b1 ns (len - ns) := by
    apply readBytes_congr
    intro j _
    by_cases c2 : ns + j = ns + 2
    · rw [c2, hz2]; simp [pokeU16be, poke]
    · by_cases c3 : ns + j = ns + 3
      · rw [c3, hz3]; simp [pokeU16be, poke]
      · rw [pokeU16be_other _ _ _ _ c2 c3]
        exact hb1 _ (by omega) c2 c3
  unfold ChecksumOk
  dsimp only
  rw [e1, e2, e3]
  exact ⟨h2, h3⟩

theorem sendDatagram_checked (cks : List Nat → List Nat → List Nat → Nat → Nat) (orc : Oracle)
    (FBS : Nat) (idata : IfaceData) (ns fp sources targets : Nat) (s : SendSt) (out : List Sent)
    (s1 : SendSt) (hns : idata.linkhsize + 40 ≤ ns) (hi : s.g.ns = ns ∧ s.g.fragpart = fp)
    (h : sendDatagram cks orc FBS idata sources targets s = .ok (out, s1)) :
    (∀ x ∈ out, SentChecked cks FBS idata ns fp x) ∧ (s1.g.ns = ns ∧ s1.g.fragpart = fp) := by
  obtain ⟨i1, i2⟩ := hi
  obtain ⟨x, hx, hd, _, _, hcase⟩ := sendDatagram_ok cks orc FBS idata sources targets s out s1 h
  subst hx
  have hck : ChecksumOk cks idata.linkhsize ns x.datagram := by
    rw [hd]
    apply ChecksumOk_intro cks idata.linkhsize ns s.g.ptr _ (pokeU16be s.g.buffer (ns + 2) 0) hns
    · intro i _ c2 c3
      rw [storeChecksum_other cks idata s.g i (by rw [i1]; exact c2) (by rw [i1]; exact c3)]
      rw [pokeU16be_other _ _ _ _ c2 c3]
    · simp [pokeU16be, poke]
    · simp [pokeU16be, poke]
    · simp [storeChecksum, pokeU16be, poke, i1]
    · simp [storeChecksum, pokeU16be, poke, i1]
  rcases hcase with ⟨hf, hfr, hs1⟩ | ⟨hf, g1, hfp, hs1⟩
  · refine ⟨?_, ?_⟩
    · intro y hy
      rw [List.mem_singleton] at hy
      subst hy
      refine ⟨hck, ?_, ?_⟩
      · intro _
        refine ⟨_, hfr, by rw [hd], ?_, ?_⟩
        · intro i c4 c5
          rw [hd]
          exact pokeU16be_other _ _ _ _ c4 c5
        · apply ChecksumOk_intro cks idata.linkhsize ns s.g.ptr _
            (pokeU16be s.g.buffer (ns + 2) 0) hns
          · intro i c8 c2 c3
            rw [pokeU16be_other _ _ _ _ (by omega) (by omega),
              storeChecksum_other cks idata s.g i (by rw [i1]; exact c2) (by rw [i1]; exact c3),
              pokeU16be_other _ _ _ _ c2 c3]
          · simp [pokeU16be, poke]
          · simp [pokeU16be, poke]
          · rw [pokeU16be_other _ _ _ _ (by omega) (by omega)]
            simp [storeChecksum, pokeU16be, poke, i1]
          · rw [pokeU16be_other _ _ _ _ (by omega) (by omega)]
            simp [storeChecksum, pokeU16be, poke, i1]
      · intro hc
        rw [hf] at hc; cases hc
    · subst hs1
      exact ⟨i1, i2⟩
  · obtain ⟨fb, nf, p, hg1⟩ := fragment_path_globals FBS idata _ _ _ _ hfp
    refine ⟨?_, ?_⟩
    · intro y hy
      rw [List.mem_singleton] at hy
      subst hy
      refine ⟨hck, ?_, ?_⟩
      · intro hc
        rw [hf] at hc; cases hc
      · intro _
        exact ⟨{ s.g with buffer := storeChecksum cks idata s.g }, orc.ident s.nident, g1,
          by rw [hd], by rw [hd], i2, hfp⟩
    · subst hs1
      subst hg1
      exact ⟨i1, i2⟩

theorem linkRound_checked (cks : List Nat → List Nat → List Nat → Nat → Nat) (orc : Oracle)
    (FBS : Nat) (idata : IfaceData) (ns fp : Nat) (hns : idata.linkhsize + 40 ≤ ns)
    (sources targets la : Nat) (s : SendSt) (out : List Sent) (s1 : SendSt) (la1 : Nat) (nd : Bool)
    (hi : s.g.ns = ns ∧ s.g.fragpart = fp)
    (h : linkRound cks orc FBS idata sources targets la s = .ok ((out, s1), la1, nd)) :
    (∀ x ∈ out, SentChecked cks FBS idata ns fp x) ∧ (s1.g.ns = ns ∧ s1.g.fragpart = fp) := by
  have h1 := linkRound_ok cks orc FBS idata sources targets la s out s1 la1 nd h
  refine sendDatagram_checked cks orc FBS idata ns fp sources targets _ out s1 hns ?_ h1
  obtain ⟨e1, e2, _⟩ := fillOptions_effect idata (s.g.linkaddr.drop la)
    { s.g with ptr := s.g.startofprefixes } la false
  dsimp only at e1 e2 ⊢
  exact ⟨by rw [e1]; exact hi.1, by rw [e2]; exact hi.2⟩

theorem floodSource_ptrs (orc : Oracle) (idata : IfaceData) (fl : FloodVars) (s : SendSt) :
    (floodSource orc idata fl s).g.ns = s.g.ns ∧
    (floodSource orc idata fl s).g.fragpart = s.g.fragpart := by
  unfold floodSource
  split
  · dsimp only
    split
    · split <;> exact ⟨rfl, rfl⟩
    · exact ⟨rfl, rfl⟩
  · exact ⟨rfl, rfl⟩

theorem floodSourceNS_ptrs (orc : Oracle) (idata : IfaceData) (fl : FloodVars) (pn : Bool)
    (s : SendSt) :
    (floodSourceNS orc idata fl pn s).g.ns = s.g.ns ∧
    (floodSourceNS orc idata fl pn s).g.fragpart = s.g.fragpart := by
  unfold floodSourceNS
  split
  · dsimp only
    have h2 : (if idata.hsrcaddr_f = false then randomizeEtherSrc orc (randomizeSrc orc idata s)
        else randomizeSrc orc idata s).g.ns = s.g.ns ∧
        (if idata.hsrcaddr_f = false then randomizeEtherSrc orc (randomizeSrc orc idata s)
        else randomizeSrc orc idata s).g.fragpart = s.g.fragpart := by
      split <;> exact ⟨rfl, rfl⟩
    generalize (if idata.hsrcaddr_f = false then randomizeEtherSrc orc (randomizeSrc orc idata s)
        else randomizeSrc orc idata s) = s2 at h2 ⊢
    split
    · exact h2
    · exact h2
  · exact ⟨rfl, rfl⟩

theorem send_packet_checked (cks : List Nat → List Nat → List Nat → Nat → Nat) (orc : Oracle)
    (FBS : Nat) (idata : IfaceData) (fl : FloodVars) (st : SendSt) (out : List Sent)
    (st1 : SendSt) (hns : idata.linkhsize + 40 ≤ st.g.ns)
    (h : send_packet cks orc FBS idata fl st = .ok (out, st1)) :
    ∀ x ∈ out, SentChecked cks FBS idata st.g.ns st.g.fragpart x :=
  (send_packet_forall cks orc FBS idata fl
    (fun s => s.g.ns = st.g.ns ∧ s.g.fragpart = st.g.fragpart)
    (SentChecked cks FBS idata st.g.ns st.g.fragpart)
    (fun sources targets la s o s1 la1 nd hi hr =>
      linkRound_checked cks orc FBS idata _ _ hns sources targets la s o s1 la1 nd hi hr)
    (fun _ _ hi => hi)
    (fun s hi => by
      obtain ⟨a, b⟩ := floodSource_ptrs orc idata fl s
      exact ⟨by rw [a]; exact hi.1, by rw [b]; exact hi.2⟩)
    st out st1 ⟨rfl, rfl⟩ h).1

theorem send_packet_to_ns_checked (cks : List Nat → List Nat → List Nat → Nat → Nat)
    (orc : Oracle) (an : AllNodes) (FBS : Nat) (idata : IfaceData) (fl : FloodVars) (pkt : Mem)
    (st : SendSt) (out : List Sent) (st1 : SendSt) (hns : idata.linkhsize + 40 ≤ st.g.ns)
    (h : send_packet_to_ns cks orc an FBS idata fl (some pkt) st = .ok (out, st1)) :
    ∀ x ∈ out, SentChecked cks FBS idata st.g.ns st.g.fragpart x :=
  (send_packet_to_ns_forall cks orc an FBS idata fl
    (fun s => s.g.ns = st.g.ns ∧ s.g.fragpart = st.g.fragpart)
    (SentChecked cks FBS idata st.g.ns st.g.fragpart)
    (fun sources targets la s o s1 la1 nd hi hr =>
      linkRound_checked cks orc FBS idata _ _ hns sources targets la s o s1 la1 nd hi hr)
    (fun s hi => by
      obtain ⟨a, b⟩ := floodSourceNS_ptrs orc idata fl false s
      exact ⟨by rw [a]; exact hi.1, by rw [b]; exact hi.2⟩)
    pkt st out st1 ⟨rfl, rfl⟩ h).1


/-- C15.  For every datagram that send_packet hands to the link, with the
Neighbor Solicitation header behind the IPv6 header: the checksum field holds
the value of the checksum function for the source address, the destination
address and the bytes from the start of the Neighbor Solicitation header to the
end of the datagram (the end of the last option) with the checksum field set to
zero, all taken from the datagram as it is sent, hence after every change of
the iteration.  Without fragmentation the injected frame is that datagram with
only the two payload-length bytes changed, and satisfies the same equation; with
fragmentation the injected frames are the fragments cut from that datagram. -/
theorem send_packet_checksum (cks : List Nat → List Nat → List Nat → Nat → Nat) (orc : Oracle)
    (FBS : Nat) (idata : IfaceData) (fl : FloodVars) (st : SendSt) (out : List Sent)
    (st1 : SendSt) (hns : idata.linkhsize + MIN_IPV6_HLEN ≤ st.g.ns)
    (h : send_packet cks orc FBS idata fl st = .ok (out, st1)) :
    ∀ x ∈ out,
      ChecksumOk cks idata.linkhsize st.g.ns x.datagram ∧
      (idata.fragh_f = false → ∃ f, x.frames = [f] ∧ f.len = x.datagram.len ∧
        (∀ i, i ≠ idata.linkhsize + 4 → i ≠ idata.linkhsize + 5 →
          f.data i = x.datagram.data i) ∧
        ChecksumOk cks idata.linkhsize st.g.ns f) ∧
      (idata.fragh_f = true → FragmentsOf FBS idata st.g.fragpart x) :=
  send_packet_checked cks orc FBS idata fl st out st1 hns h

theorem send_packet_checksum_witness :
    ethPlain.linkhsize + MIN_IPV6_HLEN ≤ (startSt (templ ethPlain (sllaGlobals 8))).g.ns ∧
    (emitted floodRun).length = 6 ∧
    ∀ x ∈ emitted floodRun,
      ChecksumOk demoCks 14 54 x.datagram ∧
      ∃ f, x.frames = [f] ∧ f.len = x.datagram.len ∧ ChecksumOk demoCks 14 54 f := by
  obtain ⟨s1, h⟩ := emitted_ok floodRun (by decide)
  have hw := send_packet_checksum demoCks demoOracle demoFragBufferSize
    { ethPlain with hsrcaddr_f := false, srcpreflen := 64 } flood32
    (startSt (templ ethPlain (sllaGlobals 8))) (emitted floodRun) s1 (by decide) h
  refine ⟨by decide, by decide, ?_⟩
  intro x hx
  obtain ⟨a, b, _⟩ := hw x hx
  obtain ⟨f, b1, b2, _, b4⟩ := b rfl
  exact ⟨a, f, b1, b2, b4⟩

/-- C20.  In listen mode a captured frame whose IPv6 next header is not ICMPv6,
or whose ICMPv6 type is not Neighbor Solicitation (135), or whose ICMPv6 code is
not 0, is discarded whatever the filters are, nothing is sent and no variable
changes; a frame for which the loop body does anything else than that passes
the three tests. -/
theorem listen_step_non_solicitation (cks : List Nat → List Nat → List Nat → Nat → Nat)
    (orc : Oracle) (an : AllNodes) (FBS : Nat) (idata : IfaceData) (fl : FloodVars)
    (pktdata : Mem) (st : SendSt) :
    ((pktdata (idata.linkhsize + 6) ≠ IPPROTO_ICMPV6 ∨
      pktdata (idata.linkhsize + MIN_IPV6_HLEN) ≠ ND_NEIGHBOR_SOLICIT ∨
      pktdata (idata.linkhsize + MIN_IPV6_HLEN + 1) ≠ 0) →
      ∀ flt, listen_filter idata flt pktdata = Verdict.discarded ∧
        listen_step cks orc an FBS idata fl flt pktdata st = .ok ([], st)) ∧
    (∀ flt, listen_step cks orc an FBS idata fl flt pktdata st ≠ .ok ([], st) →
      pktdata (idata.linkhsize + 6) = IPPROTO_ICMPV6 ∧
      pktdata (idata.linkhsize + MIN_IPV6_HLEN) = ND_NEIGHBOR_SOLICIT ∧
      pktdata (idata.linkhsize + MIN_IPV6_HLEN + 1) = 0) := by
  have key : isNS idata pktdata = false → ∀ flt,
      listen_filter idata flt pktdata = Verdict.discarded ∧
      listen_step cks orc an FBS idata fl flt pktdata st = .ok ([], st) := by
    intro hn flt
    have hv : listen_filter idata flt pktdata = Verdict.discarded := by
      unfold listen_filter
      rw [if_pos hn]
    exact ⟨hv, by unfold listen_step; rw [hv]⟩
  refine ⟨?_, ?_⟩
  · intro hbad
    apply key
    unfold isNS
    rcases hbad with hb | hb | hb <;> simp [hb]
  · intro flt hne
    by_cases hn : isNS idata pktdata = true
    · unfold isNS at hn
      simpa [and_assoc] using hn
    · exact absurd (key (by simpa using hn) flt).2 hne

theorem listen_step_non_solicitation_witness :
    udpFrame (ethPlain.linkhsize + 6) ≠ IPPROTO_ICMPV6 ∧
    ∀ flt, listen_filter ethPlain flt udpFrame = Verdict.discarded ∧
      listen_step demoCks demoOracle demoAllNodes demoFragBufferSize ethPlain listenVars flt
        udpFrame (startSt (templ ethPlain (plainGlobals 8))) =
        .ok ([], startSt (templ ethPlain (plainGlobals 8))) :=
  ⟨by decide, (listen_step_non_solicitation demoCks demoOracle demoAllNodes demoFragBufferSize
    ethPlain listenVars udpFrame (startSt (templ ethPlain (plainGlobals 8)))).1
    (Or.inl (by decide))⟩


/-! ## The send loops: how often they run -/

theorem doWhile_run {σ : Type} (body : Nat → σ → Except Stop (List Sent × σ)) (limit : Nat)
    (Inv : σ → Prop) (lbl : Nat → List (Nat × Nat)) (hlim : limit < U32)
    (hbody : ∀ i s, Inv s → ∃ out s1, body i s = .ok (out, s1) ∧ out.map Sent.label = lbl i ∧
      (∀ x ∈ out, x.frames.length = 1) ∧ Inv s1) :
    ∀ n i fuel s, Inv s → i + n + 1 = limit → n < fuel →
      ∃ out s1, doWhile body limit fuel i s = .ok (out, s1) ∧
        out.map Sent.label = ((List.range' i (n + 1)).map lbl).flatten ∧
        (∀ x ∈ out, x.frames.length = 1) ∧ Inv s1 := by
  intro n
  induction n with
  | zero =>
    intro i fuel s hinv hi hfuel
    obtain ⟨fuel, rfl⟩ : ∃ k, fuel = k + 1 := ⟨fuel - 1, by omega⟩
    obtain ⟨out, s1, hb, hl, hf, hi1⟩ := hbody i s hinv
    have hmod : (i + 1) % U32 = i + 1 := Nat.mod_eq_of_lt (by omega)
    rw [doWhile_once body limit fuel i s (by rw [hmod]; omega)]
    exact ⟨out, s1, hb, by simp [hl], hf, hi1⟩
  | succ n ih =>
    intro i fuel s hinv hi hfuel
    obtain ⟨fuel, rfl⟩ : ∃ k, fuel = k + 1 := ⟨fuel - 1, by omega⟩
    obtain ⟨o1, t1, hb, hl, hf, hi1⟩ := hbody i s hinv
    have hmod : (i + 1) % U32 = i + 1 := Nat.mod_eq_of_lt (by omega)
    obtain ⟨o2, t2, hr, hl2, hf2, hi2⟩ := ih (i + 1) fuel t1 hi1 (by omega) (by omega)
    refine ⟨o1 ++ o2, t2, ?_, ?_, ?_, hi2⟩
    · rw [doWhile_succ, hb]
      simp only [hmod]
      rw [if_pos (by omega), hr]
    · rw [List.map_append, hl, hl2, List.range'_succ i (n + 1)]
      simp
    · intro x hx
      rcases List.mem_append.mp hx with hx | hx
      · exact hf x hx
      · exact hf2 x hx

theorem linkLoop_single (cks : List Nat → List Nat → List Nat → Nat → Nat) (orc : Oracle)
    (FBS : Nat) (idata : IfaceData) (sources targets fuel la : Nat) (s : SendSt)
    (hdrop : s.g.linkaddr.drop la = []) :
    linkLoop cks orc FBS idata sources targets (fuel + 1) la s =
      sendDatagram cks orc FBS idata sources targets
        { s with g := { s.g with ptr := s.g.startofprefixes } } := by
  rw [linkLoop_succ]
  unfold linkRound
  simp only [hdrop, fillOptions]
  cases sendDatagram cks orc FBS idata sources targets
      { s with g := { s.g with ptr := s.g.startofprefixes } } with
  | error e => rfl
  | ok r =>
    obtain ⟨out, s1⟩ := r
    simp

theorem targetBody_single (cks : List Nat → List Nat → List Nat → Nat → Nat) (orc : Oracle)
    (FBS : Nat) (idata : IfaceData) (fl : FloodVars) (rt : Bool) (sources targets : Nat)
    (s : SendSt) (hla : s.g.linkaddr.length ≤ 1) :
    targetBody cks orc FBS idata fl rt sources targets s =
      sendDatagram cks orc FBS idata sources targets
        { (if rt = true then randomizeTarget orc fl s else s) with
          g := { (if rt = true then randomizeTarget orc fl s else s).g with
                 ptr := (if rt = true then randomizeTarget orc fl s else s).g.startofprefixes } } := by
  have hl : (if rt = true then randomizeTarget orc fl s else s).g.linkaddr = s.g.linkaddr := by
    split <;> rfl
  unfold targetBody
  dsimp only
  generalize (if rt = true then randomizeTarget orc fl s else s) = s2 at hl ⊢
  apply linkLoop_single
  rw [hl]
  rcases Nat.lt_or_ge s.g.linkaddr.length 1 with h0 | h1
  · have hnil : s.g.linkaddr = [] := List.length_eq_zero.mp (by omega)
    simp [hnil]
  · have h1' : s.g.linkaddr.length = 1 := by omega
    rw [if_pos h1']
    apply List.drop_eq_nil_of_le
    omega

theorem sendDatagram_plain (cks : List Nat → List Nat → List Nat → Nat → Nat) (orc : Oracle)
    (FBS : Nat) (idata : IfaceData) (sources targets : Nat) (s : SendSt)
    (hf : idata.fragh_f = false) :
    sendDatagram cks orc FBS idata sources targets s =
      .ok ([{ datagram := { data := storeChecksum cks idata s.g, len := s.g.ptr },
              frames := [{ data := pokeU16be (storeChecksum cks idata s.g) (idata.linkhsize + 4)
                             ((s.g.ptr - idata.linkhsize - MIN_IPV6_HLEN) % 65536),
                           len := s.g.ptr }],
              sources := sources, targets := targets }],
           { s with g := { s.g with
               buffer := pokeU16be (storeChecksum cks idata s.g) (idata.linkhsize + 4)
                 ((s.g.ptr - idata.linkhsize - MIN_IPV6_HLEN) % 65536) } }) := by
  unfold sendDatagram
  simp only [hf, if_true]
  rfl

theorem targetBody_run (cks : List Nat → List Nat → List Nat → Nat → Nat) (orc : Oracle)
    (FBS : Nat) (idata : IfaceData) (fl : FloodVars) (rt : Bool) (sources targets : Nat)
    (s : SendSt) (hf : idata.fragh_f = false) (hla : s.g.linkaddr.length ≤ 1) :
    ∃ out s1, targetBody cks orc FBS idata fl rt sources targets s = .ok (out, s1) ∧
      out.map Sent.label = [(sources, targets)] ∧ (∀ x ∈ out, x.frames.length = 1) ∧
      s1.g.linkaddr.length ≤ 1 := by
  rw [targetBody_single cks orc FBS idata fl rt sources targets s hla, sendDatagram_plain _ _ _ _ _ _ _ hf]
  refine ⟨_, _, rfl, rfl, ?_, ?_⟩
  · intro x hx
    rw [List.mem_singleton] at hx
    subst hx
    rfl
  · dsimp only
    split <;> exact hla

theorem floodSource_linkaddr (orc : Oracle) (idata : IfaceData) (fl : FloodVars) (s : SendSt) :
    (floodSource orc idata fl s).g.linkaddr = s.g.linkaddr := by
  unfold floodSource
  split
  · dsimp only
    split
    · split <;> rfl
    · rfl
  · rfl

theorem flatten_map_single {α β : Type} (f : α → β) (l : List α) :
    (l.map (fun a => [f a])).flatten = l.map f := by
  induction l with
  | nil => rfl
  | cons a rest ih => simp [ih]

theorem sourceBody_run (cks : List Nat → List Nat → List Nat → Nat → Nat) (orc : Oracle)
    (FBS : Nat) (idata : IfaceData) (fl : FloodVars) (sources : Nat) (s : SendSt)
    (hf : idata.fragh_f = false) (hnt : 1 ≤ fl.ntargets) (hu : fl.ntargets < U32)
    (hla : s.g.linkaddr.length ≤ 1) :
    ∃ out s1, sourceBody cks orc FBS idata fl sources s = .ok (out, s1) ∧
      out.map Sent.label = (List.range fl.ntargets).map (fun t => (sources, t)) ∧
      (∀ x ∈ out, x.frames.length = 1) ∧ s1.g.linkaddr.length ≤ 1 := by
  unfold sourceBody
  obtain ⟨out, s1, h, hl, hfr, hi⟩ := doWhile_run
    (targetBody cks orc FBS idata fl fl.floodt_f sources) fl.ntargets
    (fun s => s.g.linkaddr.length ≤ 1) (fun t => [(sources, t)]) hu
    (fun i s hi => targetBody_run cks orc FBS idata fl fl.floodt_f sources i s hf hi)
    (fl.ntargets - 1) 0 (fl.ntargets + 1) (floodSource orc idata fl s)
    (by show (floodSource orc idata fl s).g.linkaddr.length ≤ 1
        rw [floodSource_linkaddr]; exact hla) (by omega) (by omega)
  refine ⟨out, s1, h, ?_, hfr, hi⟩
  rw [hl, flatten_map_single, List.range_eq_range']
  congr 2
  omega

theorem send_packet_run (cks : List Nat → List Nat → List Nat → Nat → Nat) (orc : Oracle)
    (FBS : Nat) (idata : IfaceData) (fl : FloodVars) (st : SendSt)
    (hf : idata.fragh_f = false) (hla : st.g.linkaddr.length ≤ 1)
    (hns : 1 ≤ fl.nsources) (hnt : 1 ≤ fl.ntargets)
    (hu1 : fl.nsources < U32) (hu2 : fl.ntargets < U32) :
    ∃ out st1, send_packet cks orc FBS idata fl st = .ok (out, st1) ∧
      out.map Sent.label = visitOrder fl.nsources fl.ntargets ∧
      (∀ x ∈ out, x.frames.length = 1) := by
  unfold send_packet
  obtain ⟨out, s1, h, hl, hfr, _⟩ := doWhile_run (sourceBody cks orc FBS idata fl) fl.nsources
    (fun s => s.g.linkaddr.length ≤ 1)
    (fun s => (List.range fl.ntargets).map (fun t => (s, t))) hu1
    (fun i s hi => sourceBody_run cks orc FBS idata fl i s hf hnt hu2 hi)
    (fl.nsources - 1) 0 (fl.nsources + 1) st hla (by omega) (by omega)
  refine ⟨out, s1, h, ?_, hfr⟩
  rw [hl]
  unfold visitOrder
  rw [List.range_eq_range' fl.nsources]
  congr 3
  omega

theorem frames_length_of_single (out : List Sent) (h : ∀ x ∈ out, x.frames.length = 1) :
    (out.map Sent.frames).flatten.length = out.length := by
  induction out with
  | nil => rfl
  | cons x rest ih =>
    simp only [List.map_cons, List.flatten_cons, List.length_append, List.length_cons]
    rw [ih (fun y hy => h y (List.mem_cons_of_mem _ hy)), h x (List.mem_cons_self _ _)]
    omega

theorem visitOrder_length (ns nt : Nat) : (visitOrder ns nt).length = ns * nt := by
  unfold visitOrder
  induction ns with
  | zero => simp
  | succ n ih =>
    rw [List.range_succ, List.map_append, List.flatten_append, List.length_append, ih]
    simp [Nat.succ_mul]

/-- C13.  In attack mode without fragmentation and with at most one link-layer
address option, for all counts `1 <= nsources` and `1 <= ntargets` (values of
an `unsigned int`), one call of send_packet returns, injects exactly one frame
per datagram and `nsources * ntargets` frames in all, and visits the pairs
(source, target) with the sources in the outer loop and the targets in the
inner loop. -/
theorem send_packet_count (cks : List Nat → List Nat → List Nat → Nat → Nat) (orc : Oracle)
    (FBS : Nat) (idata : IfaceData) (fl : FloodVars) (st : SendSt)
    (hf : idata.fragh_f = false) (hla : st.g.linkaddr.length ≤ 1)
    (hns : 1 ≤ fl.nsources) (hnt : 1 ≤ fl.ntargets)
    (hu1 : fl.nsources < U32) (hu2 : fl.ntargets < U32) :
    ∃ out st1, send_packet cks orc FBS idata fl st = .ok (out, st1) ∧
      (out.map Sent.frames).flatten.length = fl.nsources * fl.ntargets ∧
      (∀ x ∈ out, x.frames.length = 1) ∧
      out.map Sent.label = visitOrder fl.nsources fl.ntargets := by
  obtain ⟨out, st1, h, hl, hfr⟩ := send_packet_run cks orc FBS idata fl st hf hla hns hnt hu1 hu2
  refine ⟨out, st1, h, ?_, hfr, hl⟩
  rw [frames_length_of_single out hfr, ← List.length_map out Sent.label, hl, visitOrder_length]

theorem send_packet_count_witness :
    ∃ out st1, floodRun = .ok (out, st1) ∧
      (out.map Sent.frames).flatten.length = 6 ∧
      (∀ x ∈ out, x.frames.length = 1) ∧
      out.map Sent.label = [(0, 0), (0, 1), (1, 0), (1, 1), (2, 0), (2, 1)] :=
  send_packet_count demoCks demoOracle demoFragBufferSize
    { ethPlain with hsrcaddr_f := false, srcpreflen := 64 } flood32
    (startSt (templ ethPlain (sllaGlobals 8))) rfl (by decide) (by decide) (by decide)
    (by decide) (by decide)


theorem init_packet_data_plain (idata : IfaceData) (g : Globals)
    (h1 : activeHdrs g.hbhopt = []) (h2 : activeHdrs g.dstoptu = [])
    (h3 : activeHdrs g.dstopt = []) (hfrag : idata.fragh_f = false) (hla : g.linkaddr = [])
    (hmax : MIN_IPV6_HLEN + sizeof_nd_neighbor_solicit ≤ idata.max_packet_size) :
    ∃ g1, init_packet_data idata g = .ok g1 ∧
      g1.ns = idata.linkhsize + 40 ∧ g1.startofprefixes = idata.linkhsize + 64 ∧
      g1.linkaddr = [] ∧
      g1.buffer (idata.linkhsize + 6) = IPPROTO_ICMPV6 ∧
      g1.buffer (idata.linkhsize + 40) = ND_NEIGHBOR_SOLICIT ∧
      g1.buffer (idata.linkhsize + 41) = 0 ∧
      ∀ j, j < 16 → g1.buffer (idata.linkhsize + 48 + j) = g.targetaddr.getD j 0 % 256 := by
  have e0 : (initIPv6Header idata g).hbhopt = g.hbhopt := rfl
  have e1 : (initIPv6Header idata g).dstoptu = g.dstoptu := rfl
  have e2 : (initIPv6Header idata g).dstopt = g.dstopt := rfl
  have hno : ¬ (idata.linkhsize + MIN_IPV6_HLEN + sizeof_nd_neighbor_solicit >
      idata.linkhsize + idata.max_packet_size) := by omega
  have hnl : ¬ ((initIPv6Header idata g).sllopt_f = true ∧ g.linkaddr.length = 1) := by
    rw [hla]; intro hc; cases hc.2
  apply Exists.intro
  apply And.intro
  case left =>
    unfold init_packet_data
    simp only [e0, e1, e2, h1, h2, h3, appendHdrs, initFragHdr, hfrag, Bool.false_eq_true,
      if_false]
    unfold initNS
    simp only [storeNh, initIPv6Header]
    rw [if_neg hno, if_neg (by simpa [initIPv6Header] using hnl)]
  case right =>
    simp only [MIN_IPV6_HLEN, sizeof_nd_neighbor_solicit, IPPROTO_ICMPV6, ND_NEIGHBOR_SOLICIT]
    refine ⟨trivial, trivial, hla, ?_, ?_, ?_, ?_⟩
    · simp [pokeBytes, poke, memset]
    · simp [pokeBytes, poke, memset]
    · simp [pokeBytes, poke, memset]
    · intro j hj
      have a1 : idata.linkhsize + 40 + 8 ≤ idata.linkhsize + 48 + j ∧
          idata.linkhsize + 48 + j < idata.linkhsize + 40 + 8 + 16 := by omega
      rw [pokeBytes_in _ _ _ _ _ a1]
      congr 2
      omega

theorem send_packet_plain (cks : List Nat → List Nat → List Nat → Nat → Nat) (orc : Oracle)
    (FBS : Nat) (idata : IfaceData) (fl : FloodVars) (st : SendSt)
    (hfs : fl.floods_f = false) (hft : fl.floodt_f = false)
    (hns : fl.nsources = 1) (hnt : fl.ntargets = 1) (hla : st.g.linkaddr.length ≤ 1) :
    send_packet cks orc FBS idata fl st =
      sendDatagram cks orc FBS idata 0 0
        { st with g := { st.g with ptr := st.g.startofprefixes } } := by
  have hfl : floodSource orc idata fl st = st := by
    unfold floodSource
    rw [if_neg (by rw [hfs]; decide)]
  unfold send_packet
  rw [hns, doWhile_once _ _ _ _ _ (by decide)]
  unfold sourceBody
  rw [hnt, doWhile_once _ _ _ _ _ (by decide), hfl,
    targetBody_single cks orc FBS idata fl fl.floodt_f 0 0 st hla]
  simp only [hft, Bool.false_eq_true, if_false]

/-- C14.  With a configured target address (16 bytes), no flooding, no
extension headers, no fragmentation, no link-layer address option and a largest
packet size that admits the 64-byte packet, init_packet_data followed by one
send_packet injects exactly one frame: its IPv6 next header is 58, its ICMPv6
type 135 and code 0, its target field holds the configured target address, its
IPv6 payload length is 24 and its length is the link header size + 40 + 24. -/
theorem init_packet_data_send_packet_plain (cks : List Nat → List Nat → List Nat → Nat → Nat)
    (orc : Oracle) (FBS : Nat) (idata : IfaceData) (fl : FloodVars) (g : Globals)
    (htarget : IsBytes 16 g.targetaddr)
    (hfs : fl.floods_f = false) (hft : fl.floodt_f = false)
    (hns : fl.nsources = 1) (hnt : fl.ntargets = 1)
    (h1 : activeHdrs g.hbhopt = []) (h2 : activeHdrs g.dstoptu = [])
    (h3 : activeHdrs g.dstopt = []) (hfrag : idata.fragh_f = false) (hla : g.linkaddr = [])
    (hmax : MIN_IPV6_HLEN + sizeof_nd_neighbor_solicit ≤ idata.max_packet_size) :
    ∃ g1 x f st1, init_packet_data idata g = .ok g1 ∧
      send_packet cks orc FBS idata fl (startSt g1) = .ok ([x], st1) ∧ x.frames = [f] ∧
      f.data (idata.linkhsize + 6) = 58 ∧
      f.data (idata.linkhsize + MIN_IPV6_HLEN) = 135 ∧
      f.data (idata.linkhsize + MIN_IPV6_HLEN + 1) = 0 ∧
      readBytes f.data (idata.linkhsize + MIN_IPV6_HLEN + 8) 16 = g.targetaddr ∧
      f.plen idata.linkhsize = 24 ∧
      f.len = idata.linkhsize + 40 + 24 := by
  obtain ⟨g1, hinit, p1, p2, p3, p4, p5, p6, p7⟩ :=
    init_packet_data_plain idata g h1 h2 h3 hfrag hla hmax
  have hrun := send_packet_plain cks orc FBS idata fl (startSt g1) hfs hft hns hnt
    (by show g1.linkaddr.length ≤ 1; rw [p3]; decide)
  rw [sendDatagram_plain _ _ _ _ _ _ _ hfrag] at hrun
  have hbyte : ∀ i, i ≠ idata.linkhsize + 4 → i ≠ idata.linkhsize + 5 →
      i ≠ idata.linkhsize + 42 → i ≠ idata.linkhsize + 43 →
      pokeU16be (storeChecksum cks idata { g1 with ptr := g1.startofprefixes })
        (idata.linkhsize + 4) ((g1.startofprefixes - idata.linkhsize - MIN_IPV6_HLEN) % 65536) i =
        g1.buffer i := by
    intro i c4 c5 c2 c3
    rw [pokeU16be_other _ _ _ _ c4 c5,
      storeChecksum_other cks idata _ i (by show i ≠ g1.ns + 2; rw [p1]; omega)
        (by show i ≠ g1.ns + 3; rw [p1]; omega)]
  have e48 : idata.linkhsize + MIN_IPV6_HLEN + 8 = idata.linkhsize + 48 := by
    simp only [MIN_IPV6_HLEN]
  rw [e48]
  refine ⟨g1, _, _, _, hinit, hrun, rfl, ?_, ?_, ?_, ?_, ?_, ?_⟩
  · exact (hbyte (idata.linkhsize + 6) (by omega) (by omega) (by omega) (by omega)).trans p4
  · exact (hbyte (idata.linkhsize + 40) (by omega) (by omega) (by omega) (by omega)).trans p5
  · exact (hbyte (idata.linkhsize + 41) (by omega) (by omega) (by omega) (by omega)).trans p6
  · apply readBytes_of_bytes _ _ _ _ htarget
    intro j hj
    exact (hbyte (idata.linkhsize + 48 + j) (by omega) (by omega) (by omega) (by omega)).trans
      (p7 j hj)
  · show pokeU16be _ (idata.linkhsize + 4)
        ((g1.startofprefixes - idata.linkhsize - MIN_IPV6_HLEN) % 65536) (idata.linkhsize + 4) * 256 +
      pokeU16be _ (idata.linkhsize + 4)
        ((g1.startofprefixes - idata.linkhsize - MIN_IPV6_HLEN) % 65536) (idata.linkhsize + 5) = 24
    have e : (g1.startofprefixes - idata.linkhsize - MIN_IPV6_HLEN) % 65536 = 24 := by
      rw [p2]; simp only [MIN_IPV6_HLEN]; omega
    rw [e]
    simp [pokeU16be, poke]
  · exact p2

theorem init_packet_data_send_packet_plain_witness :
    IsBytes 16 (plainGlobals 8).targetaddr ∧
    ∃ g1 x f st1, init_packet_data ethPlain (plainGlobals 8) = .ok g1 ∧
      send_packet demoCks demoOracle demoFragBufferSize ethPlain noFlood (startSt g1) =
        .ok ([x], st1) ∧ x.frames = [f] ∧
      f.data 20 = 58 ∧ f.data 54 = 135 ∧ f.data 55 = 0 ∧
      readBytes f.data 62 16 = [0xfe, 0x80, 0, 0, 0, 0, 0, 0, 0, 0, 0, 0, 0, 0, 0, 1] ∧
      f.plen 14 = 24 ∧ f.len = 78 :=
  ⟨by unfold IsBytes; decide,
   init_packet_data_send_packet_plain demoCks demoOracle demoFragBufferSize ethPlain noFlood
    (plainGlobals 8) (by unfold IsBytes; decide) rfl rfl rfl rfl rfl rfl rfl rfl rfl (by decide)⟩


theorem floodSourceNS_linkaddr (orc : Oracle) (idata : IfaceData) (fl : FloodVars) (pn : Bool)
    (s : SendSt) : (floodSourceNS orc idata fl pn s).g.linkaddr = s.g.linkaddr := by
  unfold floodSourceNS
  split
  · dsimp only
    have h2 : (if idata.hsrcaddr_f = false then randomizeEtherSrc orc (randomizeSrc orc idata s)
        else randomizeSrc orc idata s).g.linkaddr = s.g.linkaddr := by
      split <;> rfl
    generalize (if idata.hsrcaddr_f = false then randomizeEtherSrc orc (randomizeSrc orc idata s)
        else randomizeSrc orc idata s) = s2 at h2 ⊢
    split
    · exact h2
    · exact h2
  · rfl

theorem sourceBodyNS_run (cks : List Nat → List Nat → List Nat → Nat → Nat) (orc : Oracle)
    (FBS : Nat) (idata : IfaceData) (fl : FloodVars) (pn : Bool) (sources : Nat) (s : SendSt)
    (hf : idata.fragh_f = false) (hu : fl.ntargets < U32) (hla : s.g.linkaddr.length ≤ 1) :
    ∃ out s1, sourceBodyNS cks orc FBS idata fl pn sources s = .ok (out, s1) ∧
      out.map Sent.label = (List.range (max 1 fl.ntargets)).map (fun t => (sources, t)) ∧
      (∀ x ∈ out, x.frames.length = 1) ∧ s1.g.linkaddr.length ≤ 1 := by
  have hla2 : (floodSourceNS orc idata fl pn s).g.linkaddr.length ≤ 1 := by
    rw [floodSourceNS_linkaddr]; exact hla
  unfold sourceBodyNS
  rcases Nat.eq_zero_or_pos fl.ntargets with h0 | hpos
  · rw [h0, doWhile_once _ _ _ _ _ (by decide)]
    obtain ⟨out, s1, h, hl, hfr, hi⟩ := targetBody_run cks orc FBS idata fl false sources 0
      (floodSourceNS orc idata fl pn s) hf hla2
    exact ⟨out, s1, h, by rw [hl]; rfl, hfr, hi⟩
  · obtain ⟨out, s1, h, hl, hfr, hi⟩ := doWhile_run
      (targetBody cks orc FBS idata fl false sources) fl.ntargets
      (fun s => s.g.linkaddr.length ≤ 1) (fun t => [(sources, t)]) hu
      (fun i s hi => targetBody_run cks orc FBS idata fl false sources i s hf hi)
      (fl.ntargets - 1) 0 (fl.ntargets + 1) (floodSourceNS orc idata fl pn s)
      hla2 (by omega) (by omega)
    refine ⟨out, s1, h, ?_, hfr, hi⟩
    rw [hl, flatten_map_single, List.range_eq_range']
    congr 2
    omega

theorem send_packet_to_ns_unicast_once (cks : List Nat → List Nat → List Nat → Nat → Nat)
    (orc : Oracle) (an : AllNodes) (FBS : Nat) (idata : IfaceData) (fl : FloodVars) (pkt : Mem)
    (st : SendSt) (hm : IN6_IS_ADDR_MULTICAST (pktIp6Dst idata pkt) = false)
    (hu : fl.nsources + 1 < U32) :
    send_packet_to_ns cks orc an FBS idata fl (some pkt) st =
      sourceBodyNS cks orc FBS idata fl false fl.nsources (replyAddressing an idata fl pkt st).1 := by
  have hstart : (replyAddressing an idata fl pkt st).2 = fl.nsources := by
    have := (replySrc_flag idata fl pkt (replyDst an idata pkt st.g.buffer)).2
    rw [hm] at this
    exact this
  unfold send_packet_to_ns
  simp only [Option.isNone_some]
  rw [hstart, doWhile_once _ _ _ _ _ (by rw [Nat.mod_eq_of_lt hu]; omega)]

theorem unicast_reply_wrap_general (cks : List Nat → List Nat → List Nat → Nat → Nat)
    (orc : Oracle) (an : AllNodes) (FBS : Nat) (idata : IfaceData) (fl : FloodVars) (pkt : Mem)
    (st : SendSt) (hm : IN6_IS_ADDR_MULTICAST (pktIp6Dst idata pkt) = false)
    (hmax : fl.nsources + 1 = U32) (hnt : fl.ntargets = 0)
    (hf : idata.fragh_f = false) (hla : st.g.linkaddr.length ≤ 1) :
    ∃ out st1, send_packet_to_ns cks orc an FBS idata fl (some pkt) st = .ok (out, st1) ∧
      out.map Sent.sources = fl.nsources :: List.range fl.nsources := by
  have hpos : 0 < fl.nsources := by unfold U32 at hmax; omega
  have hlt : fl.nsources < U32 := by omega
  have hstart : (replyAddressing an idata fl pkt st).2 = fl.nsources := by
    have := (replySrc_flag idata fl pkt (replyDst an idata pkt st.g.buffer)).2
    rw [hm] at this
    exact this
  have hbody : ∀ i s, s.g.linkaddr.length ≤ 1 →
      ∃ out s1, sourceBodyNS cks orc FBS idata fl false i s = .ok (out, s1) ∧
        out.map Sent.label = [(i, 0)] ∧
        (∀ x ∈ out, x.frames.length = 1) ∧ s1.g.linkaddr.length ≤ 1 := by
    intro i s hi
    obtain ⟨out, s1, h, hl, hfr, hi1⟩ := sourceBodyNS_run cks orc FBS idata fl false i s hf
      (by rw [hnt]; decide) hi
    refine ⟨out, s1, h, ?_, hfr, hi1⟩
    rw [hl, hnt]
    rfl
  obtain ⟨o1, t1, hb1, hl1, _, hi1⟩ := hbody fl.nsources (replyAddressing an idata fl pkt st).1 hla
  obtain ⟨o2, t2, hr, hl2, _, _⟩ := doWhile_run (sourceBodyNS cks orc FBS idata fl false)
    fl.nsources (fun s => s.g.linkaddr.length ≤ 1) (fun s => [(s, 0)]) hlt hbody
    (fl.nsources - 1) 0 fl.nsources t1 hi1 (by omega) (by omega)
  have hn : fl.nsources - 1 + 1 = fl.nsources := by omega
  rw [hn] at hl2
  refine ⟨o1 ++ o2, t2, ?_, ?_⟩
  · unfold send_packet_to_ns
    simp only [Option.isNone_some]
    rw [hstart, doWhile_succ, hb1]
    simp only [hmax, Nat.mod_self]
    rw [if_pos hpos, hr]
  · have hlab : (o1 ++ o2).map Sent.label =
        (fl.nsources, 0) :: (List.range fl.nsources).map (fun s => (s, 0)) := by
      rw [List.map_append, hl1, hl2, flatten_map_single, List.range_eq_range']
      rfl
    have h := congrArg (List.map Prod.fst) hlab
    simp only [List.map_map, List.map_cons] at h
    have e1 : (Prod.fst ∘ Sent.label) = Sent.sources := rfl
    have e2 : (Prod.fst ∘ fun (s : Nat) => (s, 0)) = id := rfl
    rw [e1, e2, List.map_id] at h
    exact h

/-- C18 (failing input).  A responder started with `-F -1` holds 4294967295 in
the `unsigned int nsources`.  For a Neighbor Solicitation whose IPv6 destination
is not multicast, send_packet_to_ns sets `sources = nsources`; `sources++`
wraps to 0, which is below `nsources`, and the source loop goes on: the call
returns after 4294967296 iterations of the source loop, one datagram each, not
after one. -/
theorem send_packet_to_ns_unicast_wraps :
    IN6_IS_ADDR_MULTICAST (pktIp6Dst ethPlain solicitUnicast) = false ∧
    ∃ out st1, wrapReply = .ok (out, st1) ∧
      out.map Sent.sources = floodMax.nsources :: List.range floodMax.nsources ∧
      out.length = 4294967296 := by
  have hm : IN6_IS_ADDR_MULTICAST (pktIp6Dst ethPlain solicitUnicast) = false := by decide
  obtain ⟨out, st1, h, hs⟩ := unicast_reply_wrap_general demoCks demoOracle demoAllNodes
    demoFragBufferSize ethPlain floodMax solicitUnicast (startSt (templ ethPlain (plainGlobals 8)))
    hm (by decide) rfl rfl (by decide)
  refine ⟨hm, out, st1, h, hs, ?_⟩
  have hlen := congrArg List.length hs
  rw [List.length_map, List.length_cons, List.length_range] at hlen
  exact hlen

theorem appendHdrs_ptr (proto limit : Nat) :
    ∀ (hs : List ExtHdr) (g g1 : Globals), appendHdrs proto limit hs g = .ok g1 →
      g.ptr ≤ g1.ptr ∧ g1.fragpart = g.fragpart := by
  intro hs
  induction hs with
  | nil =>
    intro g g1 h
    simp only [appendHdrs, Except.ok.injEq] at h
    subst h
    exact ⟨Nat.le_refl _, rfl⟩
  | cons e rest ih =>
    intro g g1 h
    rw [appendHdrs_cons] at h
    split at h
    · cases h
    · obtain ⟨a, b⟩ := ih (stepHdr proto e g) g1 h
      have hp : (stepHdr proto e g).ptr = g.ptr + e.len := rfl
      have hf : (stepHdr proto e g).fragpart = g.fragpart := (storeNh_config g proto).2.2.2.2.2.2.2.2.2
      exact ⟨by omega, by rw [b, hf]⟩

theorem init_packet_data_layout (idata : IfaceData) (g g1 : Globals)
    (h : init_packet_data idata g = .ok g1) : Layout idata g1 := by
  unfold init_packet_data at h
  simp only at h
  have p0 : (initIPv6Header idata g).ptr = idata.linkhsize + MIN_IPV6_HLEN := rfl
  generalize initIPv6Header idata g = g0 at h p0
  cases h1 : appendHdrs IPPROTO_HOPOPTS (idata.linkhsize + idata.mtu) (activeHdrs g0.hbhopt) g0 with
  | error e => rw [h1] at h; cases h
  | ok ga =>
    rw [h1] at h
    simp only at h
    obtain ⟨a1, _⟩ := appendHdrs_ptr _ _ _ _ _ h1
    cases h2 : appendHdrs IPPROTO_DSTOPTS (idata.linkhsize + idata.mtu) (activeHdrs ga.dstoptu) ga with
    | error e => rw [h2] at h; cases h
    | ok gb =>
      rw [h2] at h
      simp only at h
      obtain ⟨b1, _⟩ := appendHdrs_ptr _ _ _ _ _ h2
      cases h3 : initFragHdr idata { gb with fragpart := gb.ptr } with
      | error e => rw [h3] at h; cases h
      | ok gc =>
        rw [h3] at h
        simp only at h
        have c1 : gc.ptr = gb.ptr ∧ gc.fragpart = gb.ptr := by
          unfold initFragHdr at h3
          split at h3
          · split at h3
            · cases h3
            · simp only [Except.ok.injEq] at h3
              subst h3
              refine ⟨?_, ?_⟩
              · show (storeNh _ _).ptr = _
                rw [storeNh_ptr]
              · show (storeNh _ _).fragpart = _
                exact (storeNh_config _ _).2.2.2.2.2.2.2.2.2
          · simp only [Except.ok.injEq] at h3
            subst h3
            exact ⟨rfl, rfl⟩
        cases h4 : appendHdrs IPPROTO_DSTOPTS (idata.linkhsize + idata.max_packet_size)
            (activeHdrs gc.dstopt) gc with
        | error e => rw [h4] at h; cases h
        | ok gd =>
          rw [h4] at h
          simp only at h
          obtain ⟨d1, d2⟩ := appendHdrs_ptr _ _ _ _ _ h4
          have e1 : (storeNh gd IPPROTO_ICMPV6).ptr = gd.ptr := storeNh_ptr _ _
          have e2 : (storeNh gd IPPROTO_ICMPV6).fragpart = gd.fragpart :=
            (storeNh_config _ _).2.2.2.2.2.2.2.2.2
          unfold initNS at h
          simp only at h
          generalize storeNh gd IPPROTO_ICMPV6 = s at h e1 e2
          unfold Layout
          split at h
          · cases h
          · split at h
            · split at h
              · simp only [Except.ok.injEq] at h
                subst h
                dsimp only
                simp only [sizeof_nd_neighbor_solicit, sizeof_nd_opt_slla]
                omega
              · cases h
            · simp only [Except.ok.injEq] at h
              subst h
              dsimp only
              simp only [sizeof_nd_neighbor_solicit]
              omega


theorem send_packet_to_ns_layout (cks : List Nat → List Nat → List Nat → Nat → Nat)
    (orc : Oracle) (an : AllNodes) (FBS : Nat) (idata : IfaceData) (fl : FloodVars) (pkt : Mem)
    (st : SendSt) (out : List Sent) (st1 : SendSt) (hlay : Layout idata st.g)
    (h : send_packet_to_ns cks orc an FBS idata fl (some pkt) st = .ok (out, st1)) :
    Layout idata st1.g := by
  have hlay0 : Layout idata (replyAddressing an idata fl pkt st).1.g := hlay
  obtain ⟨k1, k2, k3, _, k5, _⟩ := (send_packet_to_ns_forall cks orc an FBS idata fl
    (Kept idata true false (replyAddressing an idata fl pkt st).1)
    (SentKeeps idata true false (replyAddressing an idata fl pkt st).1)
    (fun sources targets la s o s1 la1 nd hk hr =>
      linkRound_kept cks orc FBS idata true false _ hlay0 sources targets la s o s1 la1 nd hk hr)
    (fun s hk => floodSourceNS_kept orc idata fl true false _ s (fun _ _ => rfl) hk)
    pkt st out st1 (Kept_refl idata true false _ hlay0) h).2
  obtain ⟨l1, l2, l3, _⟩ := hlay
  have e1 : (replyAddressing an idata fl pkt st).1.g.ns = st.g.ns := rfl
  have e2 : (replyAddressing an idata fl pkt st).1.g.fragpart = st.g.fragpart := rfl
  have e3 : (replyAddressing an idata fl pkt st).1.g.startofprefixes = st.g.startofprefixes := rfl
  rw [e1] at k1 k5
  rw [e2] at k2
  rw [e3] at k3
  exact ⟨by rw [k2]; exact l1, by rw [k1, k2]; exact l2, by rw [k1, k3]; exact l3,
    by rw [k1]; exact k5⟩

/-! ## Filter options: what the IPv6 filter tables hold -/

theorem ipv6FilterEntry_too_long (addr : Option (List Nat)) (n : Nat) (h : 128 < n) :
    ipv6FilterEntry addr (some n) = .error .exitFailure := by
  unfold ipv6FilterEntry
  cases addr with
  | none => rfl
  | some a => simp only [if_pos h]

theorem ipv6FilterEntry_sanitized (addr : Option (List Nat)) (len : Option Nat)
    (p : List Nat × Nat) (h : ipv6FilterEntry addr len = .ok p) : EntrySanitized p := by
  obtain ⟨a, _, h1, h2, _⟩ := ipv6FilterEntry_ok addr len p h
  exact ⟨h1, a, h2⟩

theorem mem_snoc_sanitized (l : List (List Nat × Nat)) (p : List Nat × Nat)
    (hl : ∀ q ∈ l, EntrySanitized q) (hp : EntrySanitized p) :
    ∀ q ∈ l ++ [p], EntrySanitized q := by
  intro q hq
  rcases List.mem_append.mp hq with h | h
  · exact hl q h
  · rw [List.mem_singleton] at h
    rw [h]
    exact hp

theorem filter_option_sanitized (lim : FilterLimits) (flt flt1 : Filters) (o : FilterOpt)
    (inv : IPv6EntriesSanitized flt) (h : filter_option lim flt o = .ok flt1) :
    IPv6EntriesSanitized flt1 := by
  obtain ⟨i1, i2, i3, i4, i5, i6⟩ := inv
  cases o <;> simp only [filter_option] at h <;> split at h <;> first
    | simp only [reduceCtorEq] at h
    | (split at h <;> first
        | simp only [reduceCtorEq] at h
        | (rename_i hp
           simp only [Except.ok.injEq] at h
           subst h
           first
             | exact ⟨mem_snoc_sanitized _ _ i1 (ipv6FilterEntry_sanitized _ _ _ hp), i2, i3, i4, i5, i6⟩
             | exact ⟨i1, mem_snoc_sanitized _ _ i2 (ipv6FilterEntry_sanitized _ _ _ hp), i3, i4, i5, i6⟩
             | exact ⟨i1, i2, mem_snoc_sanitized _ _ i3 (ipv6FilterEntry_sanitized _ _ _ hp), i4, i5, i6⟩
             | exact ⟨i1, i2, i3, mem_snoc_sanitized _ _ i4 (ipv6FilterEntry_sanitized _ _ _ hp), i5, i6⟩
             | exact ⟨i1, i2, i3, i4, mem_snoc_sanitized _ _ i5 (ipv6FilterEntry_sanitized _ _ _ hp), i6⟩
             | exact ⟨i1, i2, i3, i4, i5, mem_snoc_sanitized _ _ i6 (ipv6FilterEntry_sanitized _ _ _ hp)⟩
             | exact ⟨i1, i2, i3, i4, i5, i6⟩))

theorem filter_options_sanitized (lim : FilterLimits) :
    ∀ (opts : List FilterOpt) (flt flt1 : Filters), IPv6EntriesSanitized flt →
      filter_options lim opts flt = .ok flt1 → IPv6EntriesSanitized flt1 := by
  intro opts
  induction opts with
  | nil =>
    intro flt flt1 inv h
    simp only [filter_options, Except.ok.injEq] at h
    subst h
    exact inv
  | cons o rest ih =>
    intro flt flt1 inv h
    simp only [filter_options] at h
    split at h
    · cases h
    · rename_i flt2 h2
      exact ih flt2 flt1 (filter_option_sanitized lim flt flt2 o inv h2) h

theorem noFilters_sanitized : IPv6EntriesSanitized noFilters := by
  refine ⟨?_, ?_, ?_, ?_, ?_, ?_⟩ <;> intro p hp <;> cases hp

/-- C27.  For each of the options `-j`, `-k`, `-b`, `-g`, `-w`, `-W`: a length
above 128 is a fatal error; when the option stores an entry, the entry is
appended to the option's list (the count grows) as the parsed address sanitized
to the stored length, that length is at most 128, it is 128 when the argument
has no `/len` part and the given length otherwise; hence after any sequence of
filter options every entry of the six IPv6 filter lists is sanitized with a
length of at most 128. -/
theorem filter_option_ipv6_entry (lim : FilterLimits) (flt : Filters) (o : FilterOpt)
    (sel : Filters → List (List Nat × Nat)) (addr : Option (List Nat)) (len : Option Nat)
    (ho : o.ipv6Target = some (sel, addr, len)) :
    (∀ n, len = some n → 128 < n → filter_option lim flt o = .error .exitFailure) ∧
    (∀ flt1, filter_option lim flt o = .ok flt1 →
      ∃ a l, addr = some a ∧ l ≤ 128 ∧ (len = none → l = 128) ∧ (∀ n, len = some n → l = n) ∧
        sel flt1 = sel flt ++ [( sanitize_ipv6_prefix a l, l)]) ∧
    (∀ opts flt1, filter_options lim opts noFilters = .ok flt1 → IPv6EntriesSanitized flt1) := by
  refine ⟨?_, ?_, fun opts flt1 h =>
    filter_options_sanitized lim opts noFilters flt1 noFilters_sanitized h⟩
  · intro n hn hbig
    subst hn
    cases o <;> simp only [FilterOpt.ipv6Target, Option.some.injEq, Prod.mk.injEq,
      reduceCtorEq] at ho <;> obtain ⟨_, ha, hl⟩ := ho <;> subst ha <;> subst hl <;>
      simp only [filter_option, ipv6FilterEntry_too_long _ n hbig] <;> split <;> rfl
  · intro flt1 h
    cases o <;> simp only [FilterOpt.ipv6Target, Option.some.injEq, Prod.mk.injEq,
      reduceCtorEq] at ho <;> obtain ⟨hs, ha, hl⟩ := ho <;> subst hs <;> subst ha <;> subst hl <;>
      simp only [filter_option] at h <;> split at h <;> first
      | simp only [reduceCtorEq] at h
      | (split at h <;> first
          | simp only [reduceCtorEq] at h
          | (rename_i p hp
             simp only [Except.ok.injEq] at h
             subst h
             obtain ⟨a, e1, e2, e3, e4, e5⟩ := ipv6FilterEntry_ok _ _ p hp
             refine ⟨a, p.2, e1, e2, e4, e5, ?_⟩
             rw [← e3]))

theorem filter_option_ipv6_entry_witness :
    (FilterOpt.j (some [0x20, 0x01, 0x0d, 0xb8, 1, 2, 3, 4, 5, 6, 7, 8, 9, 10, 11, 12])
      (some 32)).ipv6Target =
      some (Filters.blocksrc,
        some [0x20, 0x01, 0x0d, 0xb8, 1, 2, 3, 4, 5, 6, 7, 8, 9, 10, 11, 12], some 32) ∧
    ∃ flt1, filter_option demoFilterLimits noFilters
        (FilterOpt.j (some [0x20, 0x01, 0x0d, 0xb8, 1, 2, 3, 4, 5, 6, 7, 8, 9, 10, 11, 12])
          (some 32)) = .ok flt1 ∧
      flt1.blocksrc = [([0x20, 0x01, 0x0d, 0xb8, 0, 0, 0, 0, 0, 0, 0, 0, 0, 0, 0, 0], 32)] ∧
      ∃ a l, some [0x20, 0x01, 0x0d, 0xb8, 1, 2, 3, 4, 5, 6, 7, 8, 9, 10, 11, 12] = some a ∧
        l ≤ 128 ∧ (∀ n, some 32 = some n → l = n) ∧
        flt1.blocksrc = noFilters.blocksrc ++ [( sanitize_ipv6_prefix a l, l)] := by
  refine ⟨rfl, _, rfl, by decide, ?_⟩
  obtain ⟨a, l, e1, e2, _, e4, e5⟩ := (filter_option_ipv6_entry demoFilterLimits noFilters
    (FilterOpt.j (some [0x20, 0x01, 0x0d, 0xb8, 1, 2, 3, 4, 5, 6, 7, 8, 9, 10, 11, 12]) (some 32))
    Filters.blocksrc _ _ rfl).2.1 _ rfl
  exact ⟨a, l, e1, e2, e4, e5⟩


/-! ## Extension header options: limits and padding -/

theorem ext_hdr_option_full (max : Nat) (junk : Mem) (c : HdrClass) (L : Int)
    (h : c.hdrs.length ≥ max) : ext_hdr_option max junk c L = .error .exitFailure := by
  unfold ext_hdr_option
  rw [if_pos h]

theorem ext_hdr_option_short (max : Nat) (junk : Mem) (c : HdrClass) (L : Int)
    (h : toUInt L < 8) : ext_hdr_option max junk c L = .error .exitFailure := by
  unfold ext_hdr_option
  split
  · rfl
  · simp only [if_pos h]

theorem ext_hdr_option_grows (max : Nat) (junk : Mem) (c c1 : HdrClass) (L : Int)
    (h : ext_hdr_option max junk c L = .ok c1) :
    c.hdrs.length < max ∧ 8 ≤ toUInt L ∧ ∃ e, c1 = { hdrs := c.hdrs ++ [e], flag := true } := by
  have h1 : c.hdrs.length < max := by
    by_contra hc
    rw [ext_hdr_option_full max junk c L (by omega)] at h
    cases h
  have h2 : 8 ≤ toUInt L := by
    by_contra hc
    rw [ext_hdr_option_short max junk c L (by omega)] at h
    cases h
  obtain ⟨m, hm⟩ := ext_hdr_option_returns max junk c L h1 h2
  rw [hm] at h
  simp only [Except.ok.injEq] at h
  exact ⟨h1, h2, _, h.symm⟩

theorem ext_option_within (lim : ExtLimits) (junk : Mem) (g g1 : Globals) (o : ExtOpt)
    (inv : WithinExtLimits lim g) (h : ext_option lim junk g o = .ok g1) :
    WithinExtLimits lim g1 := by
  obtain ⟨i1, i2, i3⟩ := inv
  cases o with
  | u n =>
    simp only [ext_option] at h
    split at h
    · cases h
    · rename_i c hc
      simp only [Except.ok.injEq] at h
      subst h
      obtain ⟨a, _, e, he⟩ := ext_hdr_option_grows _ _ _ _ _ hc
      subst he
      exact ⟨by simp only [List.length_append, List.length_singleton]; omega, i2, i3⟩
  | U n =>
    simp only [ext_option] at h
    split at h
    · cases h
    · rename_i c hc
      simp only [Except.ok.injEq] at h
      subst h
      obtain ⟨a, _, e, he⟩ := ext_hdr_option_grows _ _ _ _ _ hc
      subst he
      exact ⟨i1, by simp only [List.length_append, List.length_singleton]; omega, i3⟩
  | H n =>
    simp only [ext_option] at h
    split at h
    · cases h
    · rename_i c hc
      simp only [Except.ok.injEq] at h
      subst h
      obtain ⟨a, _, e, he⟩ := ext_hdr_option_grows _ _ _ _ _ hc
      subst he
      exact ⟨i1, i2, by simp only [List.length_append, List.length_singleton]; omega⟩

theorem ext_options_within (lim : ExtLimits) (junk : Nat → Mem) :
    ∀ (opts : List ExtOpt) (k : Nat) (g g1 : Globals), WithinExtLimits lim g →
      ext_options lim junk opts k g = .ok g1 → WithinExtLimits lim g1 := by
  intro opts
  induction opts with
  | nil =>
    intro k g g1 inv h
    simp only [ext_options, Except.ok.injEq] at h
    subst h
    exact inv
  | cons o rest ih =>
    intro k g g1 inv h
    simp only [ext_options] at h
    split at h
    · cases h
    · rename_i g2 h2
      exact ih (k + 1) g2 g1 (ext_option_within lim (junk k) g g2 o inv h2) h

theorem padLoopSizes_spec (fuel : Nat) : ∀ (m : Mem) (p e : Nat), e - p ≤ fuel → p ≤ e →
    ∃ ps m1, padLoopSizes fuel m p e = .ok (ps, m1, e) ∧ padLoop fuel m p e = .ok m1 ∧
      (∀ x ∈ ps, 1 ≤ x ∧ x ≤ 257) ∧ (∀ x ∈ ps.dropLast, x = 257) ∧ ps.sum = e - p ∧
      FitsRemaining (e - p) ps := by
  induction fuel with
  | zero =>
    intro m p e h hle
    have hn : ¬ p < e := by omega
    have hpe : p = e := by omega
    subst hpe
    refine ⟨[], m, by simp [padLoopSizes], by simp [padLoop], ?_, ?_, by simp, trivial⟩
    · intro x hx; cases hx
    · intro x hx; cases hx
  | succ n ih =>
    intro m p e h hle
    by_cases hlt : p < e
    · obtain ⟨m1, hm1⟩ := insert_pad_opt_fits m p e (if e - p > 257 then 257 else e - p)
        (by split <;> omega) (by split <;> omega) (by split <;> omega)
      obtain ⟨ps, m2, h1, h2, h3, h4, h5, h6⟩ :=
        ih m1 (p + (if e - p > 257 then 257 else e - p)) e (by split <;> omega)
          (by split <;> omega)
      refine ⟨(if e - p > 257 then 257 else e - p) :: ps, m2, ?_, ?_, ?_, ?_, ?_, ?_⟩
      · simp only [padLoopSizes, if_pos hlt, hm1, h1]
      · simp only [padLoop, if_pos hlt, hm1]
        exact h2
      · intro x hx
        rcases List.mem_cons.mp hx with hx | hx
        · subst hx; split <;> omega
        · exact h3 x hx
      · intro x hx
        cases ps with
        | nil => simp at hx
        | cons q qs =>
          rw [List.dropLast_cons₂] at hx
          rcases List.mem_cons.mp hx with hx | hx
          · subst hx
            by_cases hbig : e - p > 257
            · rw [if_pos hbig]
            · rw [if_neg hbig] at h5
              have hq := (h3 q (List.mem_cons_self _ _)).1
              simp only [List.sum_cons] at h5
              omega
          · exact h4 x hx
      · rw [List.sum_cons, h5]
        split <;> omega
      · refine ⟨by split <;> omega, ?_⟩
        have he : e - p - (if e - p > 257 then 257 else e - p) =
            e - (p + (if e - p > 257 then 257 else e - p)) := by split <;> omega
        rw [he]
        exact h6
    · have hpe : p = e := by omega
      subst hpe
      refine ⟨[], m, by simp [padLoopSizes], by simp [padLoop], ?_, ?_, by simp, trivial⟩
      · intro x hx; cases hx
      · intro x hx; cases hx

/-- C23.  For every blob length `hdrlen >= 8` (in particular every multiple of
8), the padding loop returns, having asked `insert_pad_opt` for sizes
`p1..pk` with `1 <= pi <= 257`, every one but the last equal to 257, each no
larger than the space remaining when it is asked for, and with sum
`hdrlen - 2`; the write cursor ends at the end of the blob. -/
theorem padLoop_sizes (hdrlen : Nat) (junk : Mem) (h8 : 8 ≤ hdrlen) :
    ∃ ps m, padLoopSizes hdrlen junk 2 hdrlen = .ok (ps, m, hdrlen) ∧
      padLoop hdrlen junk 2 hdrlen = .ok m ∧
      (∀ x ∈ ps, 1 ≤ x ∧ x ≤ 257) ∧ (∀ x ∈ ps.dropLast, x = 257) ∧
      ps.sum = hdrlen - 2 ∧ FitsRemaining (hdrlen - 2) ps :=
  padLoopSizes_spec hdrlen junk 2 hdrlen (by omega) (by omega)

theorem padLoop_sizes_witness :
    (8 : Nat) ≤ 520 ∧
    ∃ m, padLoopSizes 520 (fun _ => 0) 2 520 = .ok ([257, 257, 4], m, 520) ∧
      padLoop 520 (fun _ => 0) 2 520 = .ok m := by
  obtain ⟨ps, m, h1, h2, _⟩ := padLoop_sizes 520 (fun _ => 0) (by decide)
  have hps : ps = [257, 257, 4] := by
    have h3 : (match padLoopSizes 520 (fun _ => 0) 2 520 with
      | .ok r => r.1 | .error _ => []) = [257, 257, 4] := by decide
    rw [h1] at h3
    exact h3
  subst hps
  exact ⟨by decide, m, h1, h2⟩


/-! ## init_packet_data: size checks -/

theorem appendHdrs_simple (proto limit : Nat) :
    ∀ (hs : List ExtHdr) (g g1 : Globals), appendHdrs proto limit hs g = .ok g1 →
      g1.ptr = g.ptr + totalLen hs ∧ (g.ptr ≤ limit → g1.ptr ≤ limit) ∧ SameConfig g g1 := by
  intro hs
  induction hs with
  | nil =>
    intro g g1 h
    simp only [appendHdrs, Except.ok.injEq] at h
    subst h
    exact ⟨by simp [totalLen], fun h => h, SameConfig.refl g⟩
  | cons e rest ih =>
    intro g g1 h
    rw [appendHdrs_cons] at h
    split at h
    · cases h
    · rename_i hfit
      obtain ⟨a, b, c⟩ := ih (stepHdr proto e g) g1 h
      have hp : (stepHdr proto e g).ptr = g.ptr + e.len := rfl
      refine ⟨?_, ?_, SameConfig.trans (stepHdr_config proto e g) c⟩
      · rw [a, hp]
        simp [totalLen]
        omega
      · intro _
        exact b (by rw [hp]; omega)

theorem init_packet_data_bounds (idata : IfaceData) (g g1 : Globals)
    (h : init_packet_data idata g = .ok g1) :
    g1.fragpart = idata.linkhsize + MIN_IPV6_HLEN +
      totalLen (activeHdrs g.hbhopt ++ activeHdrs g.dstoptu) ∧
    (MIN_IPV6_HLEN ≤ idata.mtu → g1.fragpart ≤ idata.linkhsize + idata.mtu) ∧
    (idata.fragh_f = true →
      g1.fragpart + FRAG_HDR_SIZE + g1.nfrags ≤ idata.linkhsize + idata.mtu) ∧
    g1.startofprefixes ≤ idata.linkhsize + idata.max_packet_size ∧ g1.nfrags = g.nfrags := by
  unfold init_packet_data at h
  simp only at h
  have p0 : (initIPv6Header idata g).ptr = idata.linkhsize + MIN_IPV6_HLEN := rfl
  have c0 : SameConfig g (initIPv6Header idata g) := by simp [SameConfig, initIPv6Header]
  generalize initIPv6Header idata g = g0 at h p0 c0
  cases h1 : appendHdrs IPPROTO_HOPOPTS (idata.linkhsize + idata.mtu) (activeHdrs g0.hbhopt) g0 with
  | error e => rw [h1] at h; cases h
  | ok ga =>
    rw [h1] at h
    simp only at h
    obtain ⟨a1, a2, a3⟩ := appendHdrs_simple _ _ _ _ _ h1
    cases h2 : appendHdrs IPPROTO_DSTOPTS (idata.linkhsize + idata.mtu) (activeHdrs ga.dstoptu) ga with
    | error e => rw [h2] at h; cases h
    | ok gb =>
      rw [h2] at h
      simp only at h
      obtain ⟨b1, b2, b3⟩ := appendHdrs_simple _ _ _ _ _ h2
      cases h3 : initFragHdr idata { gb with fragpart := gb.ptr } with
      | error e => rw [h3] at h; cases h
      | ok gc =>
        rw [h3] at h
        simp only at h
        have c1 : gc.ptr = gb.ptr ∧ gc.fragpart = gb.ptr ∧ gc.nfrags = gb.nfrags ∧
            gc.dstopt = gb.dstopt ∧
            (idata.fragh_f = true →
              gb.ptr + FRAG_HDR_SIZE + gb.nfrags ≤ idata.linkhsize + idata.mtu) := by
          unfold initFragHdr at h3
          split at h3
          · rename_i hf
            split at h3
            · cases h3
            · rename_i hchk
              simp only [Except.ok.injEq] at h3
              subst h3
              have hcfg := storeNh_config
                { { gb with fragpart := gb.ptr } with
                  fraghdr := memset gb.fraghdr 0 0 FRAG_HDR_SIZE } IPPROTO_FRAGMENT
              obtain ⟨_, _, k3, k4, _, _, _, _, _, k10⟩ := hcfg
              refine ⟨?_, k10, k4, k3, ?_⟩
              · show (storeNh _ _).ptr = _
                rw [storeNh_ptr]
              · intro _
                dsimp only at hchk
                omega
          · rename_i hf
            simp only [Except.ok.injEq] at h3
            subst h3
            refine ⟨rfl, rfl, rfl, rfl, ?_⟩
            intro hc
            exact absurd hc hf
        obtain ⟨c1a, c1b, c1c, c1d, c1e⟩ := c1
        cases h4 : appendHdrs IPPROTO_DSTOPTS (idata.linkhsize + idata.max_packet_size)
            (activeHdrs gc.dstopt) gc with
        | error e => rw [h4] at h; cases h
        | ok gd =>
          rw [h4] at h
          simp only at h
          obtain ⟨d1, d2, d3⟩ := appendHdrs_simple _ _ _ _ _ h4
          obtain ⟨_, _, _, _, _, _, e7, e8, e9⟩ := initNS_effect idata gd g1 h
          obtain ⟨q1, q2, q3, q4, _, _, _, _, _, _⟩ := c0
          obtain ⟨_, r2, _, r4, _, _, _, _, _, _⟩ := a3
          obtain ⟨_, _, _, s4, _, _, _, _, _, _⟩ := b3
          obtain ⟨_, _, _, t4, _, _, _, _, _, t10⟩ := d3
          obtain ⟨_, _, _, u4, _, _, _, _, _, u10⟩ := e9
          have hfp : g1.fragpart = gb.ptr := by rw [u10, t10, c1b]
          have hnf : g1.nfrags = gb.nfrags := by rw [u4, t4, c1c]
          refine ⟨?_, ?_, ?_, ?_, ?_⟩
          · rw [hfp, b1, a1, p0, totalLen_append, r2, q2, q1]
            omega
          · intro hm
            rw [hfp]
            exact b2 (a2 (by rw [p0]; omega))
          · intro hf
            rw [hfp, hnf]
            exact c1e hf
          · rw [e7]; exact e8
          · rw [hnf, s4, r4, q4]

/-- C24.  Whenever init_packet_data returns normally, on an interface whose MTU
admits an IPv6 header: the IPv6 header plus all Hop-by-Hop and unfragmentable
Destination Options headers (everything before `fragpart`) occupy at most MTU
bytes; with fragmentation enabled that part plus an 8-byte Fragment Header plus
`nfrags` bytes is at most MTU; and the template up to `startofprefixes`, counted
from the IPv6 header, is at most `max_packet_size` bytes. -/
theorem init_packet_data_sizes (idata : IfaceData) (g g1 : Globals)
    (hmtu : MIN_IPV6_HLEN ≤ idata.mtu) (h : init_packet_data idata g = .ok g1) :
    MIN_IPV6_HLEN + totalLen (activeHdrs g.hbhopt ++ activeHdrs g.dstoptu) ≤ idata.mtu ∧
    g1.fragpart - idata.linkhsize =
      MIN_IPV6_HLEN + totalLen (activeHdrs g.hbhopt ++ activeHdrs g.dstoptu) ∧
    (idata.fragh_f = true →
      g1.fragpart - idata.linkhsize + FRAG_HDR_SIZE + g.nfrags ≤ idata.mtu) ∧
    g1.startofprefixes - idata.linkhsize ≤ idata.max_packet_size := by
  obtain ⟨b1, b2, b3, b4, b5⟩ := init_packet_data_bounds idata g g1 h
  have b2 := b2 hmtu
  refine ⟨by omega, by omega, ?_, by omega⟩
  intro hf
  have := b3 hf
  rw [b5] at this
  omega

theorem init_packet_data_sizes_witness :
    MIN_IPV6_HLEN ≤ ethFrag.mtu ∧
    init_packet_data ethFrag oneOfEach = .ok (templ ethFrag oneOfEach) ∧
    MIN_IPV6_HLEN + totalLen (activeHdrs oneOfEach.hbhopt ++ activeHdrs oneOfEach.dstoptu) ≤
      ethFrag.mtu ∧
    (templ ethFrag oneOfEach).fragpart - ethFrag.linkhsize = 56 ∧
    (templ ethFrag oneOfEach).fragpart - ethFrag.linkhsize + FRAG_HDR_SIZE + oneOfEach.nfrags ≤
      ethFrag.mtu ∧
    (templ ethFrag oneOfEach).startofprefixes - ethFrag.linkhsize ≤ ethFrag.max_packet_size := by
  have hinit : init_packet_data ethFrag oneOfEach = .ok (templ ethFrag oneOfEach) := by
    obtain ⟨g1, hg⟩ := isOk_elim (init_packet_data ethFrag oneOfEach) oneOfEach_isOk
    have : templ ethFrag oneOfEach = g1 := by unfold templ; rw [hg]
    rw [this]; exact hg
  obtain ⟨a, b, c, d⟩ := init_packet_data_sizes ethFrag oneOfEach _ (by decide) hinit
  exact ⟨by decide, hinit, a, by rw [b]; decide, c rfl, d⟩


/-! ## The fragment loop with a fragment size that is a multiple of 8 -/

theorem roundFrame_moreFrag (lh : Nat) (buf : Mem) (fp fh ptr fs : Nat) (m : Bool) (fb : Mem)
    (hv6 : lh + 6 ≤ fh) :
    (roundFrame lh buf fp fh (fh + FRAG_HDR_SIZE) ptr fs m fb).moreFrag fh = m := by
  have h := roundFrame_offlg lh buf fp fh ptr fs m fb hv6
  unfold Frame.moreFrag
  cases m with
  | false =>
    apply decide_eq_false
    simp only [FRAG_HDR_SIZE]
    simp only [Bool.false_eq_true, if_false] at h
    omega
  | true =>
    apply decide_eq_true
    simp only [FRAG_HDR_SIZE]
    simp only [if_true] at h
    omega

theorem FragsSpec_count (lh : Nat) (buf : Mem) (fp pe nf : Nat) (hv6 : lh + 6 ≤ fp)
    (h8 : 8 ≤ nf) (hd : nf % 8 = 0) :
    ∀ (frames : List Frame) (ptr : Nat) (fb : Mem), ptr < pe → pe - ptr ≤ 65528 →
      FragsSpec lh buf fp pe fp (fp + FRAG_HDR_SIZE) nf ptr true fb frames →
      frames.length = (pe - ptr + nf - 1) / nf ∧
      ∀ i f, frames[i]? = some f →
        (i + 1 < frames.length → f.chunkLen fp = nf ∧ f.moreFrag fp = true) ∧
        (i + 1 = frames.length → f.chunkLen fp = pe - ptr - i * nf ∧ f.moreFrag fp = false) := by
  intro frames
  induction frames with
  | nil =>
    intro ptr fb hlt _ h
    exact absurd ⟨hlt, rfl⟩ h
  | cons x rest ih =>
    intro ptr fb hlt hS h
    rw [FragsSpec_cons] at h
    obtain ⟨_, hx, hrest⟩ := h
    by_cases hlast : pe - ptr ≤ nf
    · rw [if_pos hlast] at hx hrest
      have hdec : (!decide (pe - ptr ≤ nf)) = false := by simp [hlast]
      rw [hdec] at hx hrest
      have hnil := FragsSpec_false _ _ _ _ _ _ _ _ _ _ hrest
      subst hnil
      have hlen : (pe - ptr + nf - 1) / nf = 1 := by
        apply Nat.div_eq_of_lt_le <;> omega
      refine ⟨by rw [hlen]; rfl, ?_⟩
      intro i f hf
      cases i with
      | zero =>
        simp only [List.getElem?_cons_zero, Option.some.injEq] at hf
        subst hf
        refine ⟨fun hc => absurd hc (by simp), fun _ => ?_⟩
        rw [hx]
        exact ⟨by rw [roundFrame_chunkLen]; omega, roundFrame_moreFrag _ _ _ _ _ _ _ _ hv6⟩
      | succ j => simp at hf
    · rw [if_neg hlast] at hx hrest
      have hdec : (!decide (pe - ptr ≤ nf)) = true := by simp [hlast]
      rw [hdec] at hx hrest
      have hrs : roundFragSize nf = nf := by
        rw [roundFragSize_eq]; omega
      rw [hrs] at hx hrest
      obtain ⟨hl, hel⟩ := ih (ptr + nf) x.data (by omega) (by omega) hrest
      have hdiv : (pe - ptr + nf - 1) / nf = (pe - (ptr + nf) + nf - 1) / nf + 1 := by
        have e1 : pe - ptr + nf - 1 = (pe - (ptr + nf) + nf - 1) + nf := by omega
        rw [e1, Nat.add_div_right _ (by omega)]
      have hpos : 1 ≤ (pe - (ptr + nf) + nf - 1) / nf := by
        apply (Nat.le_div_iff_mul_le (by omega)).mpr
        omega
      refine ⟨by rw [List.length_cons, hl, hdiv], ?_⟩
      intro i f hf
      cases i with
      | zero =>
        simp only [List.getElem?_cons_zero, Option.some.injEq] at hf
        subst hf
        refine ⟨fun _ => ?_, fun hc => ?_⟩
        · rw [hx]
          exact ⟨roundFrame_chunkLen _ _ _ _ _ _ _ _, roundFrame_moreFrag _ _ _ _ _ _ _ _ hv6⟩
        · rw [List.length_cons, hl] at hc
          omega
      | succ j =>
        simp only [List.getElem?_cons_succ] at hf
        obtain ⟨e1, e2⟩ := hel j f hf
        refine ⟨fun hc => e1 (by rw [List.length_cons] at hc; omega), fun hc => ?_⟩
        obtain ⟨c1, c2⟩ := e2 (by rw [List.length_cons] at hc; omega)
        refine ⟨?_, c2⟩
        rw [c1, Nat.succ_mul]
        omega

/-- C30.  When the fragment size `nfrags` is a multiple of 8 and at least 8 and
fits `fragbuffer` behind the unfragmentable part and the Fragment Header, a
fragmentable part of `S` bytes, `0 < S <= 65528`, lying behind the IPv6 header
is emitted by the fragment path as exactly `ceil(S / nfrags)` fragments: every
fragment but the last carries `nfrags` bytes with the more-fragments flag set,
and the last carries the remaining `S - (k - 1) * nfrags` bytes with the flag
clear. -/
theorem fragment_count (FBS : Nat) (idata : IfaceData) (g : Globals) (ident : Nat)
    (hv6 : idata.linkhsize + MIN_IPV6_HLEN ≤ g.fragpart)
    (hroom : g.fragpart + FRAG_HDR_SIZE + g.nfrags ≤ FBS)
    (h8 : 8 ≤ g.nfrags) (hd : g.nfrags % 8 = 0)
    (hpos : g.fragpart < g.ptr) (hS : g.ptr - g.fragpart ≤ 65528) :
    ∃ frames g1, fragment_path FBS idata g ident = .ok (frames, g1) ∧
      frames.length = (g.ptr - g.fragpart + g.nfrags - 1) / g.nfrags ∧
      ∀ i f, frames[i]? = some f →
        (i + 1 < frames.length →
          f.chunkLen g.fragpart = g.nfrags ∧ f.moreFrag g.fragpart = true) ∧
        (i + 1 = frames.length →
          f.chunkLen g.fragpart = g.ptr - g.fragpart - i * g.nfrags ∧
          f.moreFrag g.fragpart = false) := by
  simp only [FRAG_HDR_SIZE, MIN_IPV6_HLEN] at hroom hv6
  obtain ⟨frames, g1, h⟩ := fragment_path_returns FBS idata g ident
    (by simp only [FRAG_HDR_SIZE]; omega) h8 hS
  obtain ⟨_, hspec, _⟩ := fragment_path_ok FBS idata g ident frames g1 h
  have hclip : clipNfrags FBS g = g.nfrags := by
    unfold clipNfrags
    rw [if_neg (by omega)]
  rw [hclip] at hspec
  exact ⟨frames, g1, h, FragsSpec_count idata.linkhsize g.buffer g.fragpart g.ptr g.nfrags
    (by omega) h8 hd frames g.fragpart (fragStart g ident) hpos hS hspec⟩

theorem fragment_count_witness :
    (ethFrag.linkhsize + MIN_IPV6_HLEN ≤ (templ ethFrag (sllaGlobals 24)).fragpart ∧
     (templ ethFrag (sllaGlobals 24)).fragpart + FRAG_HDR_SIZE +
       (templ ethFrag (sllaGlobals 24)).nfrags ≤ demoFragBufferSize ∧
     8 ≤ (templ ethFrag (sllaGlobals 24)).nfrags ∧
     (templ ethFrag (sllaGlobals 24)).nfrags % 8 = 0 ∧
     (templ ethFrag (sllaGlobals 24)).fragpart < (templ ethFrag (sllaGlobals 24)).ptr ∧
     (templ ethFrag (sllaGlobals 24)).ptr - (templ ethFrag (sllaGlobals 24)).fragpart ≤ 65528) ∧
    ∃ frames g1,
      fragment_path demoFragBufferSize ethFrag (templ ethFrag (sllaGlobals 24)) 7 =
        .ok (frames, g1) ∧
      frames.length = 2 ∧
      ∀ i f, frames[i]? = some f →
        (i + 1 < frames.length →
          f.chunkLen (templ ethFrag (sllaGlobals 24)).fragpart = 24 ∧
          f.moreFrag (templ ethFrag (sllaGlobals 24)).fragpart = true) ∧
        (i + 1 = frames.length →
          f.chunkLen (templ ethFrag (sllaGlobals 24)).fragpart = 32 - i * 24 ∧
          f.moreFrag (templ ethFrag (sllaGlobals 24)).fragpart = false) :=
  ⟨⟨by decide, by decide, by decide, by decide, by decide, by decide⟩,
   fragment_count demoFragBufferSize ethFrag (templ ethFrag (sllaGlobals 24)) 7
     (by decide) (by decide) (by decide) (by decide) (by decide) (by decide)⟩


/-! ## The payload-length field of injected frames -/

theorem floodSource_g (orc : Oracle) (idata : IfaceData) (fl : FloodVars) (s : SendSt) :
    ∃ b, (floodSource orc idata fl s).g = { s.g with buffer := b } := by
  unfold floodSource
  split
  · dsimp only
    split
    · split
      · exact ⟨_, rfl⟩
      · exact ⟨_, rfl⟩
    · exact ⟨_, rfl⟩
  · exact ⟨s.g.buffer, rfl⟩

theorem floodSourceNS_g (orc : Oracle) (idata : IfaceData) (fl : FloodVars) (pn : Bool)
    (s : SendSt) : ∃ b, (floodSourceNS orc idata fl pn s).g = { s.g with buffer := b } := by
  unfold floodSourceNS
  split
  · dsimp only
    have h2 : ∃ b, (if idata.hsrcaddr_f = false then
        randomizeEtherSrc orc (randomizeSrc orc idata s) else randomizeSrc orc idata s).g =
        { s.g with buffer := b } := by
      split
      · exact ⟨_, rfl⟩
      · exact ⟨_, rfl⟩
    generalize (if idata.hsrcaddr_f = false then randomizeEtherSrc orc (randomizeSrc orc idata s)
        else randomizeSrc orc idata s) = s2 at h2 ⊢
    obtain ⟨b, hb⟩ := h2
    split
    · refine ⟨memcpy b (s.g.sllaopt + 2) b 6 ETH_ALEN, ?_⟩
      show ({ s2.g with buffer := memcpy s2.g.buffer (s2.g.sllaopt + 2) s2.g.buffer 6 ETH_ALEN } :
        Globals) = _
      rw [hb]
    · exact ⟨b, hb⟩
  · exact ⟨s.g.buffer, rfl⟩

theorem fillOptions_bound (idata : IfaceData) :
    ∀ (l : List (List Nat)) (g : Globals) (la : Nat) (nd : Bool),
      (fillOptions idata l g la nd).1.nfrags = g.nfrags ∧
      (idata.linkhsize ≤ g.ptr → g.ptr ≤ idata.linkhsize + idata.max_packet_size →
        (fillOptions idata l g la nd).1.ptr ≤ idata.linkhsize + idata.max_packet_size) := by
  intro l
  induction l with
  | nil => intro g la nd; simp [fillOptions]
  | cons a rest ih =>
    intro g la nd
    unfold fillOptions
    split
    · rename_i hfit
      obtain ⟨h1, h2⟩ := ih
        { g with buffer := pokeBytes (poke (poke g.buffer g.ptr ND_OPT_SOURCE_LINKADDR) (g.ptr + 1)
                    SLLA_OPT_LEN) (g.ptr + 2) ETH_ALEN a,
                 sllaopt := g.ptr, ptr := g.ptr + sizeof_nd_opt_slla }
        ((la + 1) % U32) true
      dsimp only at h1 h2 ⊢
      refine ⟨h1, ?_⟩
      intro hlo _
      exact h2 (by omega) (by omega)
    · exact ⟨rfl, fun _ h => h⟩

theorem plen_of_pokeU16be (m : Mem) (lh v : Nat) (hv : v < 65536) :
    pokeU16be m (lh + 4) v (lh + 4) * 256 + pokeU16be m (lh + 4) v (lh + 5) = v := by
  have a : lh + 4 ≠ lh + 4 + 1 := by omega
  have b : lh + 5 = lh + 4 + 1 := by omega
  simp only [pokeU16be, poke, if_neg a]
  rw [b]
  simp only [if_true]
  omega

theorem roundFrame_plen (lh : Nat) (buf : Mem) (fp fh sof ptr fs : Nat) (m : Bool) (fb : Mem) :
    (roundFrame lh buf fp fh sof ptr fs m fb).plen lh = (sof + fs - MIN_IPV6_HLEN - lh) % 65536 := by
  unfold Frame.plen roundFrame
  exact plen_of_pokeU16be _ lh _ (Nat.mod_lt _ (by decide))

theorem FragsSpec_plen (lh : Nat) (buf : Mem) (fp pe fh nf : Nat) (hv6 : lh + 40 ≤ fh)
    (hb : fh + 8 + nf + 7 - 40 - lh < 65536) :
    ∀ (frames : List Frame) (ptr : Nat) (more : Bool) (fb : Mem),
      FragsSpec lh buf fp pe fh (fh + FRAG_HDR_SIZE) nf ptr more fb frames →
      ∀ f ∈ frames, f.plen lh = fh - lh - 40 + 8 + f.chunkLen fh ∧
        f.len = lh + 40 + f.plen lh := by
  intro frames
  induction frames with
  | nil => intro _ _ _ _ f hf; cases hf
  | cons x rest ih =>
    intro ptr more fb h f hf
    rw [FragsSpec_cons] at h
    obtain ⟨_, hx, hrest⟩ := h
    rcases List.mem_cons.mp hf with he | he
    · subst he
      have hfs : (if pe - ptr ≤ nf then pe - ptr else roundFragSize nf) ≤ nf + 7 := by
        split
        · omega
        · rw [roundFragSize_eq]; omega
      generalize (if pe - ptr ≤ nf then pe - ptr else roundFragSize nf) = fs at hx hfs
      rw [hx, roundFrame_plen, roundFrame_chunkLen, roundFrame_len]
      simp only [FRAG_HDR_SIZE, MIN_IPV6_HLEN]
      rw [Nat.mod_eq_of_lt (by omega)]
      omega
    · exact ih _ _ _ hrest f he

theorem sendDatagram_plen (cks : List Nat → List Nat → List Nat → Nat → Nat) (orc : Oracle)
    (FBS : Nat) (idata : IfaceData) (fp nf sources targets : Nat) (s : SendSt) (out : List Sent)
    (s1 : SendSt) (hfp : idata.linkhsize + 40 ≤ fp) (hmax : idata.max_packet_size ≤ 65575)
    (hfrag : idata.fragh_f = true → fp + 8 + nf + 7 - 40 - idata.linkhsize < 65536)
    (hi : s.g.fragpart = fp ∧ s.g.nfrags ≤ nf)
    (hptr : idata.linkhsize + 40 ≤ s.g.ptr ∧
      s.g.ptr ≤ idata.linkhsize + idata.max_packet_size)
    (h : sendDatagram cks orc FBS idata sources targets s = .ok (out, s1)) :
    (∀ x ∈ out, ∀ f ∈ x.frames,
      (idata.fragh_f = false →
        f.plen idata.linkhsize = f.len - idata.linkhsize - 40 ∧
        f.len = idata.linkhsize + 40 + f.plen idata.linkhsize ∧ f.len = x.datagram.len) ∧
      (idata.fragh_f = true →
        f.plen idata.linkhsize = fp - idata.linkhsize - 40 + 8 + f.chunkLen fp ∧
        f.len = idata.linkhsize + 40 + f.plen idata.linkhsize)) ∧
    (s1.g.fragpart = fp ∧ s1.g.nfrags ≤ nf ∧ s1.g.startofprefixes = s.g.startofprefixes) := by
  obtain ⟨i1, i2⟩ := hi
  subst i1
  obtain ⟨x, hx, hd, _, _, hcase⟩ := sendDatagram_ok cks orc FBS idata sources targets s out s1 h
  subst hx
  rcases hcase with ⟨hf, hfr, hs1⟩ | ⟨hf, g1, hfpath, hs1⟩
  · refine ⟨?_, ?_⟩
    · intro y hy f hfm
      rw [List.mem_singleton] at hy
      subst hy
      rw [hfr, List.mem_singleton] at hfm
      subst hfm
      refine ⟨fun _ => ?_, fun hc => ?_⟩
      · have hv : (s.g.ptr - idata.linkhsize - MIN_IPV6_HLEN) % 65536 =
            s.g.ptr - idata.linkhsize - 40 := by
          simp only [MIN_IPV6_HLEN]
          exact Nat.mod_eq_of_lt (by omega)
        have hp : Frame.plen
            { data := pokeU16be (storeChecksum cks idata s.g) (idata.linkhsize + 4)
                ((s.g.ptr - idata.linkhsize - MIN_IPV6_HLEN) % 65536), len := s.g.ptr }
            idata.linkhsize = s.g.ptr - idata.linkhsize - 40 := by
          unfold Frame.plen
          dsimp only
          rw [plen_of_pokeU16be _ _ _ (Nat.mod_lt _ (by decide)), hv]
        rw [hp, hd]
        dsimp only
        omega
      · rw [hf] at hc; cases hc
    · subst hs1
      exact ⟨rfl, i2, rfl⟩
  · obtain ⟨_, hspec, hnf⟩ := fragment_path_ok FBS idata _ _ _ _ hfpath
    obtain ⟨fb, nf1, p, hg1⟩ := fragment_path_globals FBS idata _ _ _ _ hfpath
    have hclip : clipNfrags FBS { s.g with buffer := storeChecksum cks idata s.g } ≤ nf := by
      unfold clipNfrags
      dsimp only
      split <;> omega
    refine ⟨?_, ?_⟩
    · intro y hy f hfm
      rw [List.mem_singleton] at hy
      subst hy
      refine ⟨fun hc => ?_, fun _ => ?_⟩
      · rw [hf] at hc; cases hc
      · dsimp only at hspec hclip
        exact FragsSpec_plen idata.linkhsize _ _ _ s.g.fragpart _ hfp
          (by have := hfrag hf; omega) _ _ _ _ hspec f hfm
    · subst hs1
      refine ⟨?_, ?_, ?_⟩
      · rw [hg1]
      · show g1.nfrags ≤ nf
        rw [hnf]; exact hclip
      · rw [hg1]

theorem linkRound_plen (cks : List Nat → List Nat → List Nat → Nat → Nat) (orc : Oracle)
    (FBS : Nat) (idata : IfaceData) (fp nf sop : Nat)
    (hfp : idata.linkhsize + 40 ≤ fp) (hsop : idata.linkhsize + 40 ≤ sop)
    (hsopmax : sop ≤ idata.linkhsize + idata.max_packet_size)
    (hmax : idata.max_packet_size ≤ 65575)
    (hfrag : idata.fragh_f = true → fp + 8 + nf + 7 - 40 - idata.linkhsize < 65536)
    (sources targets la : Nat) (s : SendSt) (out : List Sent) (s1 : SendSt) (la1 : Nat) (nd : Bool)
    (hi : s.g.fragpart = fp ∧ s.g.nfrags ≤ nf ∧ s.g.startofprefixes = sop)
    (h : linkRound cks orc FBS idata sources targets la s = .ok ((out, s1), la1, nd)) :
    (∀ x ∈ out, ∀ f ∈ x.frames,
      (idata.fragh_f = false →
        f.plen idata.linkhsize = f.len - idata.linkhsize - 40 ∧
        f.len = idata.linkhsize + 40 + f.plen idata.linkhsize ∧ f.len = x.datagram.len) ∧
      (idata.fragh_f = true →
        f.plen idata.linkhsize = fp - idata.linkhsize - 40 + 8 + f.chunkLen fp ∧
        f.len = idata.linkhsize + 40 + f.plen idata.linkhsize)) ∧
    (s1.g.fragpart = fp ∧ s1.g.nfrags ≤ nf ∧ s1.g.startofprefixes = sop) := by
  obtain ⟨i1, i2, i3⟩ := hi
  have hsd := linkRound_ok cks orc FBS idata sources targets la s out s1 la1 nd h
  have q1 : ({ s.g with ptr := s.g.startofprefixes } : Globals).fragpart = fp := i1
  have q2 : ({ s.g with ptr := s.g.startofprefixes } : Globals).nfrags ≤ nf := i2
  have q3 : ({ s.g with ptr := s.g.startofprefixes } : Globals).startofprefixes = sop := i3
  have q4 : ({ s.g with ptr := s.g.startofprefixes } : Globals).ptr = sop := i3
  generalize ({ s.g with ptr := s.g.startofprefixes } : Globals) = g0 at hsd q1 q2 q3 q4
  obtain ⟨_, e2, e3, _, e5, _, _⟩ := fillOptions_effect idata (s.g.linkaddr.drop la) g0 la false
  obtain ⟨b1, b2⟩ := fillOptions_bound idata (s.g.linkaddr.drop la) g0 la false
  generalize fillOptions idata (s.g.linkaddr.drop la) g0 la false = F at hsd e2 e3 e5 b1 b2
  have hr := sendDatagram_plen cks orc FBS idata fp nf sources targets { s with g := F.1 } out s1
    hfp hmax hfrag
    ⟨by show F.1.fragpart = fp; omega, by show F.1.nfrags ≤ nf; omega⟩
    ⟨by show _ ≤ F.1.ptr; omega, by show F.1.ptr ≤ _; exact b2 (by omega) (by omega)⟩ hsd
  refine ⟨hr.1, hr.2.1, hr.2.2.1, ?_⟩
  rw [hr.2.2.2]
  show F.1.startofprefixes = sop
  omega

/-- C29.  Every frame that send_packet or send_packet_to_ns injects from a
template as init_packet_data leaves it (the pointers in order, the options
starting within `max_packet_size`, which is at most 65575, and with
fragmentation the unfragmentable part, the Fragment Header and `nfrags` bytes
within an MTU of at most 65568) has a consistent payload-length field: its
length is link header + 40 + payload length; without fragmentation the field is
the number of bytes of the datagram behind the 40-byte IPv6 header, and with
fragmentation it is the length of the unfragmentable extension headers + 8 +
the length of the chunk the fragment carries. -/
theorem send_packet_payload_length (cks : List Nat → List Nat → List Nat → Nat → Nat)
    (orc : Oracle) (an : AllNodes) (FBS : Nat) (idata : IfaceData) (fl : FloodVars) (st : SendSt)
    (hlay : Layout idata st.g)
    (hsop : st.g.startofprefixes ≤ idata.linkhsize + idata.max_packet_size)
    (hmax : idata.max_packet_size ≤ 65575)
    (hfrag : idata.fragh_f = true →
      st.g.fragpart + FRAG_HDR_SIZE + st.g.nfrags ≤ idata.linkhsize + idata.mtu)
    (hmtu : idata.mtu ≤ 65568) (r : Except Stop (List Sent × SendSt))
    (hr : r = send_packet cks orc FBS idata fl st ∨
      ∃ pkt, r = send_packet_to_ns cks orc an FBS idata fl (some pkt) st) :
    ∀ out st1, r = .ok (out, st1) → ∀ x ∈ out, ∀ f ∈ x.frames,
      f.len = idata.linkhsize + 40 + f.plen idata.linkhsize ∧
      (idata.fragh_f = false →
        f.len = x.datagram.len ∧ f.plen idata.linkhsize = x.datagram.len - idata.linkhsize - 40) ∧
      (idata.fragh_f = true →
        f.plen idata.linkhsize =
          st.g.fragpart - idata.linkhsize - 40 + 8 + f.chunkLen st.g.fragpart) := by
  intro out st1 h x hx f hf
  obtain ⟨l1, l2, l3, _⟩ := hlay
  simp only [MIN_IPV6_HLEN, sizeof_nd_neighbor_solicit] at l1 l3
  have hfrag2 : idata.fragh_f = true →
      st.g.fragpart + 8 + st.g.nfrags + 7 - 40 - idata.linkhsize < 65536 := by
    intro hc
    have := hfrag hc
    simp only [FRAG_HDR_SIZE] at this
    omega
  have hround := linkRound_plen cks orc FBS idata st.g.fragpart st.g.nfrags st.g.startofprefixes
    l1 (by omega) hsop hmax hfrag2
  have key : ∀ y ∈ out, ∀ f ∈ y.frames,
      (idata.fragh_f = false →
        f.plen idata.linkhsize = f.len - idata.linkhsize - 40 ∧
        f.len = idata.linkhsize + 40 + f.plen idata.linkhsize ∧ f.len = y.datagram.len) ∧
      (idata.fragh_f = true →
        f.plen idata.linkhsize =
          st.g.fragpart - idata.linkhsize - 40 + 8 + f.chunkLen st.g.fragpart ∧
        f.len = idata.linkhsize + 40 + f.plen idata.linkhsize) := by
    rcases hr with hr | ⟨pkt, hr⟩
    · rw [hr] at h
      refine (send_packet_forall cks orc FBS idata fl
        (fun s => s.g.fragpart = st.g.fragpart ∧ s.g.nfrags ≤ st.g.nfrags ∧
          s.g.startofprefixes = st.g.startofprefixes) _ hround ?_ ?_ st out st1
        ⟨rfl, Nat.le_refl _, rfl⟩ h).1
      · intro _ s hs
        exact hs
      · intro s hs
        obtain ⟨b, hb⟩ := floodSource_g orc idata fl s
        rw [hb]
        exact hs
    · rw [hr] at h
      refine (send_packet_to_ns_forall cks orc an FBS idata fl
        (fun s => s.g.fragpart = st.g.fragpart ∧ s.g.nfrags ≤ st.g.nfrags ∧
          s.g.startofprefixes = st.g.startofprefixes) _ hround ?_ pkt st out st1
        ⟨rfl, Nat.le_refl _, rfl⟩ h).1
      intro s hs
      obtain ⟨b, hb⟩ := floodSourceNS_g orc idata fl false s
      rw [hb]
      exact hs
  obtain ⟨k1, k2⟩ := key x hx f hf
  cases hc : idata.fragh_f with
  | false =>
    obtain ⟨a1, a2, a3⟩ := k1 hc
    refine ⟨a2, fun _ => ⟨a3, ?_⟩, fun hh => (by cases hh)⟩
    rw [a1, a3]
  | true =>
    obtain ⟨a1, a2⟩ := k2 hc
    exact ⟨a2, fun hh => (by cases hh), fun _ => a1⟩

theorem send_packet_payload_length_witness :
    Layout ethFrag (startSt (templ ethFrag (sllaGlobals 16))).g ∧
    (emitted fragReply).length = 6 ∧
    ∀ x ∈ emitted fragReply, ∀ f ∈ x.frames,
      f.len = 14 + 40 + f.plen 14 ∧ f.plen 14 = 54 - 14 - 40 + 8 + f.chunkLen 54 := by
  obtain ⟨s1, h⟩ := emitted_ok fragReply (by decide)
  have hl : Layout ethFrag (startSt (templ ethFrag (sllaGlobals 16))).g := by
    unfold Layout; decide
  have hw := send_packet_payload_length demoCks demoOracle demoAllNodes demoFragBufferSize
    ethFrag flood32 (startSt (templ ethFrag (sllaGlobals 16))) hl (by decide)
    (by decide) (by decide) (by decide) fragReply (Or.inr ⟨solicitDad, rfl⟩)
    (emitted fragReply) s1 h
  refine ⟨hl, by decide, ?_⟩
  intro x hx f hf
  obtain ⟨a, _, c⟩ := hw x hx f hf
  exact ⟨a, c rfl⟩


/-! ## The unfragmentable Destination Options header without fragmentation -/

theorem attackConfig_keeps (orc : Oracle) (an : AllNodes) (mv : MainVars) (c : Config) :
    (attackConfig orc an mv c).idata.fragh_f = c.idata.fragh_f ∧
    (attackConfig orc an mv c).idata.hsrcaddr_f = c.idata.hsrcaddr_f ∧
    (attackConfig orc an mv c).idata.type = c.idata.type ∧
    (attackConfig orc an mv c).idata.loopback = c.idata.loopback ∧
    (attackConfig orc an mv c).idata.linkhsize = c.idata.linkhsize ∧
    (attackConfig orc an mv c).fl.floods_f = c.fl.floods_f ∧
    (attackConfig orc an mv c).st.g.dstoptu = c.st.g.dstoptu ∧
    (attackConfig orc an mv c).st.g.sllopt_f = c.st.g.sllopt_f ∧
    (attackConfig orc an mv c).st.g.sllopta_f = c.st.g.sllopta_f := by
  have k1 : ∀ c, (srcDefault orc c).idata.fragh_f = c.idata.fragh_f ∧
      (srcDefault orc c).idata.hsrcaddr_f = c.idata.hsrcaddr_f ∧
      (srcDefault orc c).idata.type = c.idata.type ∧
      (srcDefault orc c).idata.loopback = c.idata.loopback ∧
      (srcDefault orc c).idata.linkhsize = c.idata.linkhsize ∧
      (srcDefault orc c).fl.floods_f = c.fl.floods_f ∧
      (srcDefault orc c).st.g.dstoptu = c.st.g.dstoptu ∧
      (srcDefault orc c).st.g.sllopt_f = c.st.g.sllopt_f ∧
      (srcDefault orc c).st.g.sllopta_f = c.st.g.sllopta_f := by
    intro c; unfold srcDefault; split <;> exact ⟨rfl, rfl, rfl, rfl, rfl, rfl, rfl, rfl, rfl⟩
  have k2 : ∀ c, (floodSrcDefault orc mv c).idata.fragh_f = c.idata.fragh_f ∧
      (floodSrcDefault orc mv c).idata.hsrcaddr_f = c.idata.hsrcaddr_f ∧
      (floodSrcDefault orc mv c).idata.type = c.idata.type ∧
      (floodSrcDefault orc mv c).idata.loopback = c.idata.loopback ∧
      (floodSrcDefault orc mv c).idata.linkhsize = c.idata.linkhsize ∧
      (floodSrcDefault orc mv c).fl.floods_f = c.fl.floods_f ∧
      (floodSrcDefault orc mv c).st.g.dstoptu = c.st.g.dstoptu ∧
      (floodSrcDefault orc mv c).st.g.sllopt_f = c.st.g.sllopt_f ∧
      (floodSrcDefault orc mv c).st.g.sllopta_f = c.st.g.sllopta_f := by
    intro c; unfold floodSrcDefault; split <;> exact ⟨rfl, rfl, rfl, rfl, rfl, rfl, rfl, rfl, rfl⟩
  have k3 : ∀ c, (targetDefault orc mv c).idata.fragh_f = c.idata.fragh_f ∧
      (targetDefault orc mv c).idata.hsrcaddr_f = c.idata.hsrcaddr_f ∧
      (targetDefault orc mv c).idata.type = c.idata.type ∧
      (targetDefault orc mv c).idata.loopback = c.idata.loopback ∧
      (targetDefault orc mv c).idata.linkhsize = c.idata.linkhsize ∧
      (targetDefault orc mv c).fl.floods_f = c.fl.floods_f ∧
      (targetDefault orc mv c).st.g.dstoptu = c.st.g.dstoptu ∧
      (targetDefault orc mv c).st.g.sllopt_f = c.st.g.sllopt_f ∧
      (targetDefault orc mv c).st.g.sllopta_f = c.st.g.sllopta_f := by
    intro c; unfold targetDefault; dsimp only
    split <;> split <;> exact ⟨rfl, rfl, rfl, rfl, rfl, rfl, rfl, rfl, rfl⟩
  have k4 : ∀ c, (dstDefault an mv c).idata.fragh_f = c.idata.fragh_f ∧
      (dstDefault an mv c).idata.hsrcaddr_f = c.idata.hsrcaddr_f ∧
      (dstDefault an mv c).idata.type = c.idata.type ∧
      (dstDefault an mv c).idata.loopback = c.idata.loopback ∧
      (dstDefault an mv c).idata.linkhsize = c.idata.linkhsize ∧
      (dstDefault an mv c).fl.floods_f = c.fl.floods_f ∧
      (dstDefault an mv c).st.g.dstoptu = c.st.g.dstoptu ∧
      (dstDefault an mv c).st.g.sllopt_f = c.st.g.sllopt_f ∧
      (dstDefault an mv c).st.g.sllopta_f = c.st.g.sllopta_f := by
    intro c; unfold dstDefault; split <;> exact ⟨rfl, rfl, rfl, rfl, rfl, rfl, rfl, rfl, rfl⟩
  have k5 : ∀ c, (etherSrcDefault orc c).idata.fragh_f = c.idata.fragh_f ∧
      (etherSrcDefault orc c).idata.hsrcaddr_f = c.idata.hsrcaddr_f ∧
      (etherSrcDefault orc c).idata.type = c.idata.type ∧
      (etherSrcDefault orc c).idata.loopback = c.idata.loopback ∧
      (etherSrcDefault orc c).idata.linkhsize = c.idata.linkhsize ∧
      (etherSrcDefault orc c).fl.floods_f = c.fl.floods_f ∧
      (etherSrcDefault orc c).st.g.dstoptu = c.st.g.dstoptu ∧
      (etherSrcDefault orc c).st.g.sllopt_f = c.st.g.sllopt_f ∧
      (etherSrcDefault orc c).st.g.sllopta_f = c.st.g.sllopta_f := by
    intro c; unfold etherSrcDefault; split <;> exact ⟨rfl, rfl, rfl, rfl, rfl, rfl, rfl, rfl, rfl⟩
  have k6 : ∀ c, (sllaDefault c).idata.fragh_f = c.idata.fragh_f ∧
      (sllaDefault c).idata.hsrcaddr_f = c.idata.hsrcaddr_f ∧
      (sllaDefault c).idata.type = c.idata.type ∧
      (sllaDefault c).idata.loopback = c.idata.loopback ∧
      (sllaDefault c).idata.linkhsize = c.idata.linkhsize ∧
      (sllaDefault c).fl.floods_f = c.fl.floods_f ∧
      (sllaDefault c).st.g.dstoptu = c.st.g.dstoptu ∧
      (sllaDefault c).st.g.sllopt_f = c.st.g.sllopt_f ∧
      (sllaDefault c).st.g.sllopta_f = c.st.g.sllopta_f := by
    intro c; unfold sllaDefault; split <;> exact ⟨rfl, rfl, rfl, rfl, rfl, rfl, rfl, rfl, rfl⟩
  have k7 : ∀ c, (etherDstDefault an mv c).idata.fragh_f = c.idata.fragh_f ∧
      (etherDstDefault an mv c).idata.hsrcaddr_f = c.idata.hsrcaddr_f ∧
      (etherDstDefault an mv c).idata.type = c.idata.type ∧
      (etherDstDefault an mv c).idata.loopback = c.idata.loopback ∧
      (etherDstDefault an mv c).idata.linkhsize = c.idata.linkhsize ∧
      (etherDstDefault an mv c).fl.floods_f = c.fl.floods_f ∧
      (etherDstDefault an mv c).st.g.dstoptu = c.st.g.dstoptu ∧
      (etherDstDefault an mv c).st.g.sllopt_f = c.st.g.sllopt_f ∧
      (etherDstDefault an mv c).st.g.sllopta_f = c.st.g.sllopta_f := by
    intro c; unfold etherDstDefault; dsimp only
    split <;> split <;> exact ⟨rfl, rfl, rfl, rfl, rfl, rfl, rfl, rfl, rfl⟩
  unfold attackConfig
  obtain ⟨a1, a2, a3, a4, a5, a6, a7, a8, a9⟩ := k1 c
  generalize srcDefault orc c = c1 at a1 a2 a3 a4 a5 a6 a7 a8 a9 ⊢
  obtain ⟨b1, b2, b3, b4, b5, b6, b7, b8, b9⟩ := k2 c1
  generalize floodSrcDefault orc mv c1 = c2 at b1 b2 b3 b4 b5 b6 b7 b8 b9 ⊢
  obtain ⟨d1, d2, d3, d4, d5, d6, d7, d8, d9⟩ := k3 c2
  generalize targetDefault orc mv c2 = c3 at d1 d2 d3 d4 d5 d6 d7 d8 d9 ⊢
  obtain ⟨e1, e2, e3, e4, e5, e6, e7, e8, e9⟩ := k4 c3
  generalize dstDefault an mv c3 = c4 at e1 e2 e3 e4 e5 e6 e7 e8 e9 ⊢
  obtain ⟨f1, f2, f3, f4, f5, f6, f7, f8, f9⟩ := k5 c4
  generalize etherSrcDefault orc c4 = c5 at f1 f2 f3 f4 f5 f6 f7 f8 f9 ⊢
  obtain ⟨g1, g2, g3, g4, g5, g6, g7, g8, g9⟩ := k6 c5
  generalize sllaDefault c5 = c6 at g1 g2 g3 g4 g5 g6 g7 g8 g9 ⊢
  obtain ⟨i1, i2, i3, i4, i5, i6, i7, i8, i9⟩ := k7 c6
  generalize etherDstDefault an mv c6 = c7 at i1 i2 i3 i4 i5 i6 i7 i8 i9 ⊢
  exact ⟨by rw [i1, g1, f1, e1, d1, b1, a1], by rw [i2, g2, f2, e2, d2, b2, a2],
    by rw [i3, g3, f3, e3, d3, b3, a3], by rw [i4, g4, f4, e4, d4, b4, a4],
    by rw [i5, g5, f5, e5, d5, b5, a5], by rw [i6, g6, f6, e6, d6, b6, a6],
    by rw [i7, g7, f7, e7, d7, b7, a7], by rw [i8, g8, f8, e8, d8, b8, a8],
    by rw [i9, g9, f9, e9, d9, b9, a9]⟩

theorem attack_defaults_fragh (env : MainEnv) (orc : Oracle) (an : AllNodes) (mv : MainVars)
    (c : Config) (hf : c.idata.fragh_f = false) (hu : c.st.g.dstoptu.flag = true) :
    attack_defaults env orc an mv c = .error .exitFailure := by
  unfold attack_defaults
  split
  · rfl
  split
  · rfl
  split
  · rfl
  split
  · rfl
  obtain ⟨k1, _, _, _, _, _, k7, _, _⟩ := attackConfig_keeps orc an mv c
  rw [if_pos ⟨by rw [k1]; exact hf, by rw [k7]; exact hu⟩]

theorem main_setup_attack_unfragmentable (env : MainEnv) (orc : Oracle) (an : AllNodes)
    (mv : MainVars) (c : Config)
    (hl : mv.listen_f = false) (hf : c.idata.fragh_f = false) (hu : c.st.g.dstoptu.flag = true) :
    main_setup env orc an mv c = .error .exitFailure := by
  unfold main_setup
  split
  · rfl
  split
  · rfl
  rw [if_neg (by rw [hl]; decide)]
  exact attack_defaults_fragh env orc an mv c hf hu

/-- C21 (failing input).  With `-U 8` and no `-y`, in attack mode main stops with a failure
status before init_packet_data is called, but in listen mode (`-i eth0 -L -U 8`)
nothing tests the combination: main reaches init_packet_data, which builds the
template with the 8-byte Destination Options header between the IPv6 header
(next header 60) and the Neighbor Solicitation (type 135 at offset 62), and no
Fragment Header. -/
theorem main_listen_builds_unfragmentable_without_fragmentation :
    ethPlain.fragh_f = false ∧ oneDstOptU.dstoptu.flag = true ∧
    main_setup rootEnv demoOracle demoAllNodes attackMode
      { idata := ethPlain, fl := listenVars, st := startSt oneDstOptU } = .error .exitFailure ∧
    (match main_template rootEnv demoOracle demoAllNodes listenMode
        { idata := ethPlain, fl := listenVars, st := startSt oneDstOptU } with
      | .ok c =>
        some (c.st.g.fragpart, c.st.g.ns, c.st.g.startofprefixes, c.st.g.buffer 20,
          c.st.g.buffer 54, c.st.g.buffer 62)
      | .error _ => none) = some (62, 62, 86, 60, 58, 135) := by
  refine ⟨rfl, rfl, ?_, ?_⟩
  · exact main_setup_attack_unfragmentable _ _ _ _ _ rfl rfl rfl
  · decide


/-! ## The link header and the single option that init_packet_data writes -/

theorem init_packet_data_stages (idata : IfaceData) (g g1 : Globals)
    (h : init_packet_data idata g = .ok g1) :
    ∃ ga gb gc gd,
      appendHdrs IPPROTO_HOPOPTS (idata.linkhsize + idata.mtu)
        (activeHdrs (initIPv6Header idata g).hbhopt) (initIPv6Header idata g) = .ok ga ∧
      appendHdrs IPPROTO_DSTOPTS (idata.linkhsize + idata.mtu) (activeHdrs ga.dstoptu) ga = .ok gb ∧
      initFragHdr idata { gb with fragpart := gb.ptr } = .ok gc ∧
      appendHdrs IPPROTO_DSTOPTS (idata.linkhsize + idata.max_packet_size)
        (activeHdrs gc.dstopt) gc = .ok gd ∧
      initNS idata gd = .ok g1 := by
  unfold init_packet_data at h
  simp only at h
  generalize initIPv6Header idata g = g0 at h ⊢
  cases h1 : appendHdrs IPPROTO_HOPOPTS (idata.linkhsize + idata.mtu) (activeHdrs g0.hbhopt) g0 with
  | error e => rw [h1] at h; cases h
  | ok ga =>
    rw [h1] at h
    simp only at h
    cases h2 : appendHdrs IPPROTO_DSTOPTS (idata.linkhsize + idata.mtu) (activeHdrs ga.dstoptu) ga with
    | error e => rw [h2] at h; cases h
    | ok gb =>
      rw [h2] at h
      simp only at h
      cases h3 : initFragHdr idata { gb with fragpart := gb.ptr } with
      | error e => rw [h3] at h; cases h
      | ok gc =>
        rw [h3] at h
        simp only at h
        cases h4 : appendHdrs IPPROTO_DSTOPTS (idata.linkhsize + idata.max_packet_size)
            (activeHdrs gc.dstopt) gc with
        | error e => rw [h4] at h; cases h
        | ok gd =>
          rw [h4] at h
          simp only at h
          exact ⟨ga, gb, gc, gd, rfl, h2, h3, h4, h⟩

theorem storeNh_low (lh : Nat) (g : Globals) (v : Nat)
    (hp : ∀ off, g.prev_nh = NhPtr.inBuffer off → lh ≤ off) :
    ∀ i, i < lh → (storeNh g v).buffer i = g.buffer i := by
  intro i hi
  unfold storeNh
  cases hq : g.prev_nh with
  | inBuffer off =>
    have := hp off hq
    simp only [poke]
    rw [if_neg (by omega)]
  | inFraghdr => rfl

theorem appendHdrs_low (lh proto limit : Nat) :
    ∀ (hs : List ExtHdr) (g g1 : Globals), appendHdrs proto limit hs g = .ok g1 →
      lh ≤ g.ptr → (∀ off, g.prev_nh = NhPtr.inBuffer off → lh ≤ off) →
      lh ≤ g1.ptr ∧ (∀ off, g1.prev_nh = NhPtr.inBuffer off → lh ≤ off) ∧
      ∀ i, i < lh → g1.buffer i = g.buffer i := by
  intro hs
  induction hs with
  | nil =>
    intro g g1 h hptr hp
    simp only [appendHdrs, Except.ok.injEq] at h
    subst h
    exact ⟨hptr, hp, fun _ _ => rfl⟩
  | cons e rest ih =>
    intro g g1 h hptr hp
    rw [appendHdrs_cons] at h
    split at h
    · cases h
    · have hs1 : (stepHdr proto e g).ptr = g.ptr + e.len := rfl
      have hs2 : (stepHdr proto e g).prev_nh = NhPtr.inBuffer g.ptr := rfl
      have hs3 : ∀ i, i < lh → (stepHdr proto e g).buffer i = g.buffer i := by
        intro i hi
        show memcpy (storeNh g proto).buffer g.ptr e.mem 0 e.len i = _
        rw [memcpy_out _ _ _ _ _ _ (by omega)]
        exact storeNh_low lh g proto hp i hi
      obtain ⟨a, b, c⟩ := ih (stepHdr proto e g) g1 h (by rw [hs1]; omega)
        (by intro off ho; rw [hs2] at ho; injection ho with ho; omega)
      exact ⟨a, b, fun i hi => (c i hi).trans (hs3 i hi)⟩

theorem initFragHdr_low (lh : Nat) (idata : IfaceData) (g g1 : Globals)
    (h : initFragHdr idata g = .ok g1)
    (hptr : lh ≤ g.ptr) (hp : ∀ off, g.prev_nh = NhPtr.inBuffer off → lh ≤ off) :
    lh ≤ g1.ptr ∧ (∀ off, g1.prev_nh = NhPtr.inBuffer off → lh ≤ off) ∧
    (∀ i, i < lh → g1.buffer i = g.buffer i) ∧ SameConfig g g1 := by
  unfold initFragHdr at h
  split at h
  · split at h
    · cases h
    · simp only [Except.ok.injEq] at h
      subst h
      refine ⟨?_, ?_, ?_, ?_⟩
      · show lh ≤ (storeNh _ _).ptr
        rw [storeNh_ptr]; exact hptr
      · intro off ho
        cases ho
      · intro i hi
        exact storeNh_low lh
          { g with fraghdr := memset g.fraghdr 0 0 FRAG_HDR_SIZE } IPPROTO_FRAGMENT hp i hi
      · exact storeNh_config
          { g with fraghdr := memset g.fraghdr 0 0 FRAG_HDR_SIZE } IPPROTO_FRAGMENT
  · simp only [Except.ok.injEq] at h
    subst h
    exact ⟨hptr, hp, fun _ _ => rfl, SameConfig.refl g⟩

theorem initNS_slla (idata : IfaceData) (g g1 : Globals) (a : List Nat)
    (h : initNS idata g = .ok g1) (he : g.sllopt_f = true) (hla : g.linkaddr = [a]) :
    g1.ns = g.ptr ∧ g1.sllaopt = g.ptr + 24 ∧ g1.startofprefixes = g.ptr + 32 ∧
    g1.buffer (g.ptr + 24) = 1 ∧ g1.buffer (g.ptr + 25) = 1 ∧
    ∀ j, j < 6 → g1.buffer (g.ptr + 26 + j) = a.getD j 0 % 256 := by
  unfold initNS at h
  have hptr := storeNh_ptr g IPPROTO_ICMPV6
  obtain ⟨_, _, _, _, _, c6, c7, _, _, _⟩ := storeNh_config g IPPROTO_ICMPV6
  generalize storeNh g IPPROTO_ICMPV6 = s at h hptr c6 c7
  simp only at h
  split at h
  · cases h
  · rw [if_pos ⟨by rw [c7]; exact he, by rw [c6, hla]; rfl⟩] at h
    split at h
    · simp only [Except.ok.injEq] at h
      subst h
      dsimp only
      simp only [sizeof_nd_neighbor_solicit, sizeof_nd_opt_slla, ND_OPT_SOURCE_LINKADDR,
        SLLA_OPT_LEN, ETH_ALEN]
      rw [hptr, c6, hla]
      refine ⟨rfl, rfl, rfl, ?_, ?_, ?_⟩
      · rw [pokeBytes_out _ _ _ _ _ (by omega)]
        simp only [poke]
        rw [if_neg (by omega)]
        simp
      · rw [pokeBytes_out _ _ _ _ _ (by omega)]
        simp [poke]
      · intro j hj
        rw [pokeBytes_in _ _ _ _ _ ⟨by omega, by omega⟩]
        have e : g.ptr + 26 + j - (g.ptr + 24 + 2) = j := by omega
        rw [e]
        rfl
    · cases h


theorem initLinkHeader_src (idata : IfaceData) (b : Mem) (ht : idata.type = DLT_EN10MB)
    (hl : idata.loopback = false) :
    ∀ j, j < 6 → initLinkHeader idata b (6 + j) = idata.hsrcaddr.getD j 0 % 256 := by
  intro j hj
  unfold initLinkHeader
  rw [if_pos ht, hl]
  simp only [Bool.not_false, if_true, ETH_ALEN]
  rw [pokeBytes_out _ _ _ _ _ (by omega), pokeBytes_in _ _ _ _ _ ⟨by omega, by omega⟩]
  have e : 6 + j - 6 = j := by omega
  rw [e]

theorem init_packet_data_slla (idata : IfaceData) (g g1 : Globals) (a : List Nat)
    (h : init_packet_data idata g = .ok g1) (he : g.sllopt_f = true) (hla : g.linkaddr = [a]) :
    g1.sllaopt = g1.ns + 24 ∧ g1.startofprefixes = g1.ns + 32 ∧
    g1.buffer (g1.ns + 24) = 1 ∧ g1.buffer (g1.ns + 25) = 1 ∧
    (∀ j, j < 6 → g1.buffer (g1.ns + 26 + j) = a.getD j 0 % 256) ∧
    (∀ i, i < idata.linkhsize → g1.buffer i = initLinkHeader idata g.buffer i) ∧
    g1.linkaddr = [a] ∧ g1.sllopt_f = true ∧ g1.sllopta_f = g.sllopta_f := by
  obtain ⟨ga, gb, gc, gd, h1, h2, h3, h4, h5⟩ := init_packet_data_stages idata g g1 h
  have p0 : (initIPv6Header idata g).ptr = idata.linkhsize + MIN_IPV6_HLEN := rfl
  have n0 : (initIPv6Header idata g).prev_nh = NhPtr.inBuffer (idata.linkhsize + 6) := rfl
  have c0 : SameConfig g (initIPv6Header idata g) := by simp [SameConfig, initIPv6Header]
  have b0 : ∀ i, i < idata.linkhsize →
      (initIPv6Header idata g).buffer i = initLinkHeader idata g.buffer i := by
    intro i hi
    show pokeBytes (pokeBytes (poke (poke (memset _ _ 0 4) _ 0x60) _ _) _ 16 _) _ 16 _ i = _
    rw [pokeBytes_out _ _ _ _ _ (by omega), pokeBytes_out _ _ _ _ _ (by omega)]
    simp only [poke, memset]
    rw [if_neg (by omega), if_neg (by omega), if_neg (by omega)]
  generalize initIPv6Header idata g = g0 at h1 p0 n0 c0 b0
  obtain ⟨a1, a2, a3⟩ := appendHdrs_low idata.linkhsize _ _ _ _ _ h1 (by omega)
    (by intro off ho; rw [n0] at ho; injection ho with ho; omega)
  obtain ⟨b1, b2, b3⟩ := appendHdrs_low idata.linkhsize _ _ _ _ _ h2 a1 a2
  obtain ⟨d1, d2, d3, d4⟩ := initFragHdr_low idata.linkhsize idata _ _ h3 b1 b2
  obtain ⟨e1, e2, e3⟩ := appendHdrs_low idata.linkhsize _ _ _ _ _ h4 d1 d2
  have ca := (appendHdrs_simple _ _ _ _ _ h1).2.2
  have cb := (appendHdrs_simple _ _ _ _ _ h2).2.2
  have cd := (appendHdrs_simple _ _ _ _ _ h4).2.2
  obtain ⟨_, _, f3, f4, _, _, _, _, f9⟩ := initNS_effect idata gd g1 h5
  have hla_d : gd.linkaddr = [a] := by
    rw [cd.2.2.2.2.2.1, d4.2.2.2.2.2.1]
    show gb.linkaddr = _
    rw [cb.2.2.2.2.2.1, ca.2.2.2.2.2.1, c0.2.2.2.2.2.1, hla]
  have he_d : gd.sllopt_f = true := by
    rw [cd.2.2.2.2.2.2.1, d4.2.2.2.2.2.2.1]
    show gb.sllopt_f = _
    rw [cb.2.2.2.2.2.2.1, ca.2.2.2.2.2.2.1, c0.2.2.2.2.2.2.1, he]
  have ha_d : gd.sllopta_f = g.sllopta_f := by
    rw [cd.2.2.2.2.2.2.2.1, d4.2.2.2.2.2.2.2.1]
    show gb.sllopta_f = _
    rw [cb.2.2.2.2.2.2.2.1, ca.2.2.2.2.2.2.2.1, c0.2.2.2.2.2.2.2.1]
  obtain ⟨s1, s2, s3, s4, s5, s6⟩ := initNS_slla idata gd g1 a h5 he_d hla_d
  refine ⟨by rw [s2, s1], by rw [s3, s1], by rw [s1]; exact s4, by rw [s1]; exact s5,
    by rw [s1]; exact s6, ?_, ?_, ?_, ?_⟩
  · intro i hi
    rw [f3 i (by omega), storeNh_low idata.linkhsize gd _ e2 i hi, e3 i hi, d3 i hi]
    show gb.buffer i = _
    rw [b3 i hi, a3 i hi, b0 i hi]
  · rw [f9.2.2.2.2.2.1, hla_d]
  · rw [f9.2.2.2.2.2.2.1, he_d]
  · rw [f9.2.2.2.2.2.2.2.1, ha_d]

theorem attackConfig_flood (orc : Oracle) (an : AllNodes) (mv : MainVars) (c : Config)
    (hfl : c.fl.floods_f = true) (he : c.st.g.sllopt_f = true) (hE : c.st.g.sllopta_f = false) :
    (attackConfig orc an mv c).idata.hsrcaddr = c.idata.hsrcaddr ∧
    (attackConfig orc an mv c).st.g.linkaddr =
      setFirstLinkaddr c.idata.hsrcaddr c.st.g.linkaddr := by
  have k1 : ∀ c, (srcDefault orc c).idata.hsrcaddr = c.idata.hsrcaddr ∧
      (srcDefault orc c).st.g.linkaddr = c.st.g.linkaddr ∧
      (srcDefault orc c).fl.floods_f = c.fl.floods_f ∧
      (srcDefault orc c).st.g.sllopt_f = c.st.g.sllopt_f ∧
      (srcDefault orc c).st.g.sllopta_f = c.st.g.sllopta_f := by
    intro c; unfold srcDefault; split <;> exact ⟨rfl, rfl, rfl, rfl, rfl⟩
  have k2 : ∀ c, (floodSrcDefault orc mv c).idata.hsrcaddr = c.idata.hsrcaddr ∧
      (floodSrcDefault orc mv c).st.g.linkaddr = c.st.g.linkaddr ∧
      (floodSrcDefault orc mv c).fl.floods_f = c.fl.floods_f ∧
      (floodSrcDefault orc mv c).st.g.sllopt_f = c.st.g.sllopt_f ∧
      (floodSrcDefault orc mv c).st.g.sllopta_f = c.st.g.sllopta_f := by
    intro c; unfold floodSrcDefault; split <;> exact ⟨rfl, rfl, rfl, rfl, rfl⟩
  have k3 : ∀ c, (targetDefault orc mv c).idata.hsrcaddr = c.idata.hsrcaddr ∧
      (targetDefault orc mv c).st.g.linkaddr = c.st.g.linkaddr ∧
      (targetDefault orc mv c).fl.floods_f = c.fl.floods_f ∧
      (targetDefault orc mv c).st.g.sllopt_f = c.st.g.sllopt_f ∧
      (targetDefault orc mv c).st.g.sllopta_f = c.st.g.sllopta_f := by
    intro c; unfold targetDefault; dsimp only
    split <;> split <;> exact ⟨rfl, rfl, rfl, rfl, rfl⟩
  have k4 : ∀ c, (dstDefault an mv c).idata.hsrcaddr = c.idata.hsrcaddr ∧
      (dstDefault an mv c).st.g.linkaddr = c.st.g.linkaddr ∧
      (dstDefault an mv c).fl.floods_f = c.fl.floods_f ∧
      (dstDefault an mv c).st.g.sllopt_f = c.st.g.sllopt_f ∧
      (dstDefault an mv c).st.g.sllopta_f = c.st.g.sllopta_f := by
    intro c; unfold dstDefault; split <;> exact ⟨rfl, rfl, rfl, rfl, rfl⟩
  have k5 : ∀ c, c.fl.floods_f = true →
      (etherSrcDefault orc c).idata.hsrcaddr = c.idata.hsrcaddr ∧
      (etherSrcDefault orc c).st.g.linkaddr = c.st.g.linkaddr ∧
      (etherSrcDefault orc c).fl.floods_f = c.fl.floods_f ∧
      (etherSrcDefault orc c).st.g.sllopt_f = c.st.g.sllopt_f ∧
      (etherSrcDefault orc c).st.g.sllopta_f = c.st.g.sllopta_f := by
    intro c hc; unfold etherSrcDefault
    rw [if_neg (by rw [hc]; intro hh; cases hh.2)]
    exact ⟨rfl, rfl, rfl, rfl, rfl⟩
  have k6 : ∀ c, c.st.g.sllopt_f = true → c.st.g.sllopta_f = false →
      (sllaDefault c).idata.hsrcaddr = c.idata.hsrcaddr ∧
      (sllaDefault c).st.g.linkaddr = setFirstLinkaddr c.idata.hsrcaddr c.st.g.linkaddr := by
    intro c h1 h2; unfold sllaDefault
    rw [if_pos ⟨h1, h2⟩]
    exact ⟨rfl, rfl⟩
  have k7 : ∀ c, (etherDstDefault an mv c).idata.hsrcaddr = c.idata.hsrcaddr ∧
      (etherDstDefault an mv c).st.g.linkaddr = c.st.g.linkaddr := by
    intro c; unfold etherDstDefault; dsimp only
    split <;> split <;> exact ⟨rfl, rfl⟩
  unfold attackConfig
  obtain ⟨a1, a2, a3, a4, a5⟩ := k1 c
  generalize srcDefault orc c = c1 at a1 a2 a3 a4 a5 ⊢
  obtain ⟨b1, b2, b3, b4, b5⟩ := k2 c1
  generalize floodSrcDefault orc mv c1 = c2 at b1 b2 b3 b4 b5 ⊢
  obtain ⟨d1, d2, d3, d4, d5⟩ := k3 c2
  generalize targetDefault orc mv c2 = c3 at d1 d2 d3 d4 d5 ⊢
  obtain ⟨e1, e2, e3, e4, e5⟩ := k4 c3
  generalize dstDefault an mv c3 = c4 at e1 e2 e3 e4 e5 ⊢
  obtain ⟨f1, f2, f3, f4, f5⟩ := k5 c4 (by rw [e3, d3, b3, a3]; exact hfl)
  generalize etherSrcDefault orc c4 = c5 at f1 f2 f3 f4 f5 ⊢
  obtain ⟨g1, g2⟩ := k6 c5 (by rw [f4, e4, d4, b4, a4]; exact he)
    (by rw [f5, e5, d5, b5, a5]; exact hE)
  generalize sllaDefault c5 = c6 at g1 g2 ⊢
  obtain ⟨i1, i2⟩ := k7 c6
  generalize etherDstDefault an mv c6 = c7 at i1 i2 ⊢
  exact ⟨by rw [i1, g1, f1, e1, d1, b1, a1],
    by rw [i2, g2, f1, e1, d1, b1, a1, f2, e2, d2, b2, a2]⟩


/-! ## The default link-layer address option under source flooding -/

theorem floodSource_mirror (orc : Oracle) (idata : IfaceData) (fl : FloodVars) (s : SendSt)
    (ns0 : Nat) (hlh : 12 ≤ idata.linkhsize) (hns : idata.linkhsize + 40 ≤ ns0)
    (hfl : fl.floods_f = true) (hs : SllaState ns0 s.g)
    (hm : idata.hsrcaddr_f = true → MirrorsEtherSrc ns0 s.g.buffer) :
    SllaState ns0 (floodSource orc idata fl s).g ∧
      MirrorsEtherSrc ns0 (floodSource orc idata fl s).g.buffer := by
  obtain ⟨h1, h2, h3, h4, h5, h6, h7, h8⟩ := hs
  have hb : ∀ i, ¬ (idata.linkhsize + 8 ≤ i ∧ i < idata.linkhsize + 8 + 16) →
      (randomizeSrc orc idata s).g.buffer i = s.g.buffer i :=
    fun i hi => pokeBytes_out _ _ _ _ _ hi
  unfold floodSource
  rw [if_pos hfl]
  dsimp only
  by_cases hh : idata.hsrcaddr_f = false
  · rw [if_pos hh]
    have c : (randomizeEtherSrc orc (randomizeSrc orc idata s)).g.sllopt_f = true ∧
        (randomizeEtherSrc orc (randomizeSrc orc idata s)).g.sllopta_f = false := ⟨h5, h6⟩
    rw [if_pos c]
    have he : ∀ i, ¬ (6 ≤ i ∧ i < 6 + ETH_ALEN) →
        ¬ (idata.linkhsize + 8 ≤ i ∧ i < idata.linkhsize + 8 + 16) →
        (randomizeEtherSrc orc (randomizeSrc orc idata s)).g.buffer i = s.g.buffer i := by
      intro i hi hi2
      exact (pokeBytes_out _ _ _ _ _ hi).trans (hb i hi2)
    have hf : (randomizeEtherSrc orc (randomizeSrc orc idata s)).g.ns = ns0 ∧
        (randomizeEtherSrc orc (randomizeSrc orc idata s)).g.startofprefixes = ns0 + 32 ∧
        (randomizeEtherSrc orc (randomizeSrc orc idata s)).g.sllaopt = ns0 + 24 ∧
        (randomizeEtherSrc orc (randomizeSrc orc idata s)).g.linkaddr.length = 1 :=
      ⟨h1, h2, h3, h4⟩
    generalize randomizeEtherSrc orc (randomizeSrc orc idata s) = s2 at he hf c
    obtain ⟨f1, f2, f3, f4⟩ := hf
    have hmb : (mirrorEtherSrc s2).g.buffer =
        memcpy s2.g.buffer (ns0 + 24 + 2) s2.g.buffer 6 ETH_ALEN := by
      show memcpy s2.g.buffer (s2.g.sllaopt + 2) s2.g.buffer 6 ETH_ALEN = _
      rw [f3]
    simp only [ETH_ALEN] at he hmb
    refine ⟨⟨f1, f2, f3, f4, c.1, c.2, ?_, ?_⟩, ?_⟩
    · rw [hmb, memcpy_out _ _ _ _ _ _ (by omega), he _ (by omega) (by omega)]; exact h7
    · rw [hmb, memcpy_out _ _ _ _ _ _ (by omega), he _ (by omega) (by omega)]; exact h8
    · intro j hj
      rw [hmb, memcpy_in _ _ _ _ _ _ ⟨by omega, by omega⟩, memcpy_out _ _ _ _ _ _ (by omega)]
      have e : ns0 + 26 + j - (ns0 + 24 + 2) = j := by omega
      rw [e]
  · rw [if_neg hh]
    have hh1 : idata.hsrcaddr_f = true := by simpa using hh
    refine ⟨⟨h1, h2, h3, h4, h5, h6, ?_, ?_⟩, ?_⟩
    · rw [hb _ (by omega)]; exact h7
    · rw [hb _ (by omega)]; exact h8
    · intro j hj
      rw [hb _ (by omega), hb _ (by omega)]
      exact hm hh1 j hj

theorem sendDatagram_mirror (cks : List Nat → List Nat → List Nat → Nat → Nat) (orc : Oracle)
    (FBS : Nat) (idata : IfaceData) (sources targets : Nat) (s : SendSt) (out : List Sent)
    (s1 : SendSt) (ns0 : Nat) (hlh : 12 ≤ idata.linkhsize) (hns : idata.linkhsize + 40 ≤ ns0)
    (hs : SllaState ns0 s.g) (hm : MirrorsEtherSrc ns0 s.g.buffer) (hp : s.g.ptr = ns0 + 32)
    (h : sendDatagram cks orc FBS idata sources targets s = .ok (out, s1)) :
    (∀ x ∈ out, OneSllaOfEtherSrc ns0 x.datagram) ∧
      SllaState ns0 s1.g ∧ MirrorsEtherSrc ns0 s1.g.buffer := by
  obtain ⟨h1, h2, h3, h4, h5, h6, h7, h8⟩ := hs
  obtain ⟨x, hx, hd, _, _, hcase⟩ := sendDatagram_ok cks orc FBS idata sources targets s out s1 h
  subst hx
  have hc : ∀ i, i ≠ ns0 + 2 → i ≠ ns0 + 3 → storeChecksum cks idata s.g i = s.g.buffer i := by
    intro i a b
    exact storeChecksum_other cks idata s.g i (by rw [h1]; exact a) (by rw [h1]; exact b)
  have hc7 : storeChecksum cks idata s.g (ns0 + 24) = ND_OPT_SOURCE_LINKADDR := by
    rw [hc _ (by omega) (by omega)]; exact h7
  have hc8 : storeChecksum cks idata s.g (ns0 + 25) = SLLA_OPT_LEN := by
    rw [hc _ (by omega) (by omega)]; exact h8
  have hcm : MirrorsEtherSrc ns0 (storeChecksum cks idata s.g) := by
    intro j hj
    rw [hc _ (by omega) (by omega), hc _ (by omega) (by omega)]
    exact hm j hj
  refine ⟨?_, ?_⟩
  · intro y hy
    rw [List.mem_singleton] at hy
    subst hy
    rw [hd]
    refine ⟨?_, hc7, hc8, ?_⟩
    · show s.g.ptr = _
      rw [hp]
      simp only [sizeof_nd_neighbor_solicit, sizeof_nd_opt_slla]
    · exact readBytes_congr _ _ _ _ _ (fun j hj => hcm j hj)
  · rcases hcase with ⟨hf, hfr, hs1⟩ | ⟨hf, g1, hfp, hs1⟩
    · subst hs1
      have hq : ∀ i, i ≠ idata.linkhsize + 4 → i ≠ idata.linkhsize + 5 →
          pokeU16be (storeChecksum cks idata s.g) (idata.linkhsize + 4)
            ((s.g.ptr - idata.linkhsize - MIN_IPV6_HLEN) % 65536) i =
          storeChecksum cks idata s.g i := fun i a b => pokeU16be_other _ _ _ _ a b
      refine ⟨⟨h1, h2, h3, h4, h5, h6, ?_, ?_⟩, ?_⟩
      · show pokeU16be _ _ _ _ = _
        rw [hq _ (by omega) (by omega)]; exact hc7
      · show pokeU16be _ _ _ _ = _
        rw [hq _ (by omega) (by omega)]; exact hc8
      · intro j hj
        show pokeU16be _ _ _ _ = pokeU16be _ _ _ _
        rw [hq _ (by omega) (by omega), hq _ (by omega) (by omega)]
        exact hcm j hj
    · subst hs1
      obtain ⟨fb, nf, p, hg1⟩ := fragment_path_globals FBS idata _ _ _ _ hfp
      show SllaState ns0 g1 ∧ MirrorsEtherSrc ns0 g1.buffer
      rw [hg1]
      exact ⟨⟨h1, h2, h3, h4, h5, h6, hc7, hc8⟩, hcm⟩

theorem targetBody_mirror (cks : List Nat → List Nat → List Nat → Nat → Nat) (orc : Oracle)
    (FBS : Nat) (idata : IfaceData) (fl : FloodVars) (rt : Bool) (sources targets : Nat)
    (s : SendSt) (out : List Sent) (s1 : SendSt) (ns0 : Nat) (hlh : 12 ≤ idata.linkhsize)
    (hns : idata.linkhsize + 40 ≤ ns0)
    (hi : SllaState ns0 s.g ∧ MirrorsEtherSrc ns0 s.g.buffer)
    (h : targetBody cks orc FBS idata fl rt sources targets s = .ok (out, s1)) :
    (∀ x ∈ out, OneSllaOfEtherSrc ns0 x.datagram) ∧
      SllaState ns0 s1.g ∧ MirrorsEtherSrc ns0 s1.g.buffer := by
  obtain ⟨hs, hm⟩ := hi
  rw [targetBody_single cks orc FBS idata fl rt sources targets s (by rw [hs.2.2.2.1])] at h
  have h2 : SllaState ns0 (if rt = true then randomizeTarget orc fl s else s).g ∧
      MirrorsEtherSrc ns0 (if rt = true then randomizeTarget orc fl s else s).g.buffer := by
    split
    · obtain ⟨h1, h2, h3, h4, h5, h6, h7, h8⟩ := hs
      have hb : ∀ i, ¬ (ns0 + 8 ≤ i ∧ i < ns0 + 8 + 16) →
          (randomizeTarget orc fl s).g.buffer i = s.g.buffer i := by
        intro i hi
        show pokeBytes s.g.buffer (s.g.ns + 8) 16 _ i = _
        rw [h1]
        exact pokeBytes_out _ _ _ _ _ hi
      refine ⟨⟨h1, h2, h3, h4, h5, h6, ?_, ?_⟩, ?_⟩
      · rw [hb _ (by omega)]; exact h7
      · rw [hb _ (by omega)]; exact h8
      · intro j hj
        rw [hb _ (by omega), hb _ (by omega)]
        exact hm j hj
    · exact ⟨hs, hm⟩
  generalize (if rt = true then randomizeTarget orc fl s else s) = s2 at h h2
  obtain ⟨hs2, hm2⟩ := h2
  exact sendDatagram_mirror cks orc FBS idata sources targets
    { s2 with g := { s2.g with ptr := s2.g.startofprefixes } } out s1 ns0 hlh hns
    hs2 hm2 hs2.2.1 h

theorem send_packet_mirror (cks : List Nat → List Nat → List Nat → Nat → Nat) (orc : Oracle)
    (FBS : Nat) (idata : IfaceData) (fl : FloodVars) (st : SendSt) (out : List Sent)
    (st1 : SendSt) (ns0 : Nat) (hlh : 12 ≤ idata.linkhsize) (hns : idata.linkhsize + 40 ≤ ns0)
    (hfl : fl.floods_f = true) (hs : SllaState ns0 st.g)
    (hm : idata.hsrcaddr_f = true → MirrorsEtherSrc ns0 st.g.buffer)
    (h : send_packet cks orc FBS idata fl st = .ok (out, st1)) :
    ∀ x ∈ out, OneSllaOfEtherSrc ns0 x.datagram := by
  unfold send_packet at h
  refine (doWhile_forall _ _
    (fun s => SllaState ns0 s.g ∧ (idata.hsrcaddr_f = true → MirrorsEtherSrc ns0 s.g.buffer))
    (fun x => OneSllaOfEtherSrc ns0 x.datagram) ?_ _ _ _ out st1 ⟨hs, hm⟩ h).1
  intro i s o s1 hi hb
  unfold sourceBody at hb
  obtain ⟨r1, r2, r3⟩ := doWhile_forall _ _
    (fun s => SllaState ns0 s.g ∧ MirrorsEtherSrc ns0 s.g.buffer)
    (fun x => OneSllaOfEtherSrc ns0 x.datagram)
    (fun t s o s1 hi hb =>
      targetBody_mirror cks orc FBS idata fl fl.floodt_f i t s o s1 ns0 hlh hns hi hb)
    _ _ _ o s1 (floodSource_mirror orc idata fl s ns0 hlh hns hfl hi.1 hi.2) hb
  exact ⟨r1, r2, fun _ => r3⟩


theorem main_template_attack (env : MainEnv) (orc : Oracle) (an : AllNodes) (mv : MainVars)
    (c c1 : Config) (hl : mv.listen_f = false) (h : main_template env orc an mv c = .ok c1) :
    ∃ g1, init_packet_data (attackConfig orc an mv c).idata (attackConfig orc an mv c).st.g =
        .ok g1 ∧
      c1 = { attackConfig orc an mv c with st := { (attackConfig orc an mv c).st with g := g1 } } := by
  unfold main_template at h
  cases hs : main_setup env orc an mv c with
  | error e => rw [hs] at h; cases h
  | ok c0 =>
    rw [hs] at h
    simp only at h
    have hc0 : c0 = attackConfig orc an mv c := by
      unfold main_setup at hs
      split at hs
      · cases hs
      split at hs
      · cases hs
      rw [if_neg (by rw [hl]; decide)] at hs
      unfold attack_defaults at hs
      split at hs
      · cases hs
      split at hs
      · cases hs
      split at hs
      · cases hs
      split at hs
      · cases hs
      split at hs
      · cases hs
      simp only [Except.ok.injEq] at hs
      exact hs.symm
    subst hc0
    cases hi : init_packet_data (attackConfig orc an mv c).idata (attackConfig orc an mv c).st.g with
    | error e => rw [hi] at h; cases h
    | ok g1 =>
      rw [hi] at h
      simp only [Except.ok.injEq] at h
      exact ⟨g1, rfl, h.symm⟩

/-- C26 (as amended).  In attack mode with source flooding and a link-layer address option
without an explicit value (`-e` without `-E`, hence no configured address), on
a link whose header holds an Ethernet source address, and with that address
either drawn for each source or fixed with `-S` on an Ethernet interface that
is not loopback: every datagram that the first send_packet of main sends has,
behind the Neighbor Solicitation header, exactly one option, a source
link-layer address option whose address is the Ethernet source address of the
same datagram; without fragmentation the injected frame is such a frame too,
and with fragmentation the injected frames are the fragments cut from that
datagram. -/
theorem main_attack_slla_is_ether_source (cks : List Nat → List Nat → List Nat → Nat → Nat)
    (env : MainEnv) (orc : Oracle) (an : AllNodes) (FBS : Nat) (mv : MainVars) (c : Config)
    (out : List Sent) (st1 : SendSt)
    (hl : mv.listen_f = false) (hfl : c.fl.floods_f = true)
    (he : c.st.g.sllopt_f = true) (hE : c.st.g.sllopta_f = false) (hn : c.st.g.linkaddr = [])
    (hlh : 12 ≤ c.idata.linkhsize)
    (hS : c.idata.hsrcaddr_f = true → c.idata.type = DLT_EN10MB ∧ c.idata.loopback = false)
    (h : main_attack cks env orc an FBS mv c = .ok (out, st1)) :
    ∃ c1, main_template env orc an mv c = .ok c1 ∧
      ∀ x ∈ out, OneSllaOfEtherSrc c1.st.g.ns x.datagram ∧
        (c.idata.fragh_f = false → ∃ f, x.frames = [f] ∧ OneSllaOfEtherSrc c1.st.g.ns f) ∧
        (c.idata.fragh_f = true → FragmentsOf FBS c1.idata c1.st.g.fragpart x) := by
  unfold main_attack at h
  cases ht : main_template env orc an mv c with
  | error e => rw [ht] at h; cases h
  | ok c1 =>
    rw [ht] at h
    simp only at h
    refine ⟨c1, rfl, ?_⟩
    obtain ⟨g1, hi, hc1⟩ := main_template_attack env orc an mv c c1 hl ht
    obtain ⟨k1, k2, k3, k4, k5, k6, _, k8, k9⟩ := attackConfig_keeps orc an mv c
    obtain ⟨m1, m2⟩ := attackConfig_flood orc an mv c hfl he hE
    rw [hn] at m2
    have e1 : c1.idata = (attackConfig orc an mv c).idata := by rw [hc1]
    have e2 : c1.fl = (attackConfig orc an mv c).fl := by rw [hc1]
    have e3 : c1.st.g = g1 := by rw [hc1]
    obtain ⟨s1, s2, s3, s4, s5, s6, s7, s8, s9⟩ := init_packet_data_slla _ _ g1
      c.idata.hsrcaddr hi (by rw [k8]; exact he) m2
    obtain ⟨l1, l2, _, _⟩ := init_packet_data_layout _ _ g1 hi
    simp only [MIN_IPV6_HLEN] at l1
    rw [k5] at l1 s6
    have hlh1 : 12 ≤ c1.idata.linkhsize := by rw [e1, k5]; exact hlh
    have hns1 : c1.idata.linkhsize + 40 ≤ c1.st.g.ns := by rw [e1, k5, e3]; omega
    have hstate : SllaState c1.st.g.ns c1.st.g := by
      rw [e3]
      exact ⟨rfl, s2, s1, by rw [s7]; rfl, s8, by rw [s9, k9]; exact hE, s3, s4⟩
    have hmir : c1.idata.hsrcaddr_f = true → MirrorsEtherSrc c1.st.g.ns c1.st.g.buffer := by
      intro hf j hj
      rw [e1, k2] at hf
      obtain ⟨t1, t2⟩ := hS hf
      rw [e3, s5 j hj, s6 (6 + j) (by omega),
        initLinkHeader_src _ _ (by rw [k3]; exact t1) (by rw [k4]; exact t2) j hj, m1]
    have hmain := send_packet_mirror cks orc FBS c1.idata c1.fl c1.st out st1 c1.st.g.ns
      hlh1 hns1 (by rw [e2, k6]; exact hfl) hstate hmir h
    have hchk := send_packet_checked cks orc FBS c1.idata c1.fl c1.st out st1 hns1 h
    intro x hx
    have hd := hmain x hx
    obtain ⟨_, q2, q3⟩ := hchk x hx
    refine ⟨hd, ?_, ?_⟩
    · intro hf
      obtain ⟨f, f1, f2, f3, _⟩ := q2 (by rw [e1, k1]; exact hf)
      refine ⟨f, f1, ?_⟩
      obtain ⟨d1, d2, d3, d4⟩ := hd
      refine ⟨by rw [f2]; exact d1, by rw [f3 _ (by omega) (by omega)]; exact d2,
        by rw [f3 _ (by omega) (by omega)]; exact d3, ?_⟩
      have a1 : readBytes f.data (c1.st.g.ns + 26) ETH_ALEN =
          readBytes x.datagram.data (c1.st.g.ns + 26) ETH_ALEN :=
        readBytes_congr _ _ _ _ _ (fun j _ => f3 _ (by omega) (by omega))
      have a2 : readBytes f.data 6 ETH_ALEN = readBytes x.datagram.data 6 ETH_ALEN :=
        readBytes_congr _ _ _ _ _ (fun j hj => f3 _ (by simp only [ETH_ALEN] at hj; omega)
          (by simp only [ETH_ALEN] at hj; omega))
      rw [a1, a2]
      exact d4
    · intro hf
      exact q3 (by rw [e1, k1]; exact hf)

theorem main_attack_slla_is_ether_source_witness :
    attackMode.listen_f = false ∧ floodSllaRandom.fl.floods_f = true ∧
    floodSllaRandom.st.g.sllopt_f = true ∧ floodSllaRandom.st.g.sllopta_f = false ∧
    floodSllaRandom.st.g.linkaddr = [] ∧ floodSllaRandom.idata.hsrcaddr_f = false ∧
    (emitted (main_attack demoCks rootEnv demoOracle demoAllNodes demoFragBufferSize attackMode
      floodSllaRandom)).length = 2 ∧
    ∀ x ∈ emitted (main_attack demoCks rootEnv demoOracle demoAllNodes demoFragBufferSize
        attackMode floodSllaRandom),
      ∃ f, x.frames = [f] ∧ f.len = 86 ∧ readBytes f.data 80 6 = readBytes f.data 6 6 := by
  obtain ⟨s1, h⟩ := emitted_ok (main_attack demoCks rootEnv demoOracle demoAllNodes
    demoFragBufferSize attackMode floodSllaRandom) (by decide)
  obtain ⟨c1, hc1, hw⟩ := main_attack_slla_is_ether_source demoCks rootEnv demoOracle
    demoAllNodes demoFragBufferSize attackMode floodSllaRandom _ s1 rfl rfl rfl rfl rfl
    (by decide) (fun hc => by cases hc) h
  have hns : c1.st.g.ns = 54 := by
    have : (match main_template rootEnv demoOracle demoAllNodes attackMode floodSllaRandom with
      | .ok c => some c.st.g.ns | .error _ => none) = some 54 := by decide
    rw [hc1] at this
    exact Option.some.inj this
  refine ⟨rfl, rfl, rfl, rfl, rfl, rfl, by decide, ?_⟩
  intro x hx
  obtain ⟨_, b, _⟩ := hw x hx
  obtain ⟨f, f1, f2, _, _, f5⟩ := b rfl
  rw [hns] at f2 f5
  exact ⟨f, f1, f2, f5⟩

/-- C26 as stated fails with `-i lo -t fe80::1 -F 2 -e -S 02:00:00:00:00:01`
on a loopback interface of Ethernet type: init_packet_data does not write the
Ethernet source address and send_packet leaves it alone, so each of the two frames
carries the option with the address 02:00:00:00:00:01 of `-S`, while the
Ethernet source address field of the frame is 00:00:00:00:00:00. -/
theorem main_attack_slla_differs_on_loopback :
    floodSllaLoopback.idata.hsrcaddr_f = true ∧ floodSllaLoopback.idata.loopback = true ∧
    (emitted (main_attack demoCks rootEnv demoOracle demoAllNodes demoFragBufferSize attackMode
      floodSllaLoopback)).map (fun x => x.frames.map (fun f =>
        (f.len, readBytes f.data 78 2, readBytes f.data 80 6, readBytes f.data 6 6))) =
      [[(86, [1, 1], [2, 0, 0, 0, 0, 1], [0, 0, 0, 0, 0, 0])],
       [(86, [1, 1], [2, 0, 0, 0, 0, 1], [0, 0, 0, 0, 0, 0])]] := by
  refine ⟨rfl, rfl, ?_⟩
  decide


/-! ## The responder's loop against send_packet -/

theorem doWhile_congr {σ : Type} (b1 b2 : Nat → σ → Except Stop (List Sent × σ)) (limit : Nat)
    (Inv : σ → Prop) (heq : ∀ i s, Inv s → b1 i s = b2 i s)
    (hinv : ∀ i s out s1, Inv s → b2 i s = .ok (out, s1) → Inv s1) :
    ∀ fuel i s, Inv s → doWhile b1 limit fuel i s = doWhile b2 limit fuel i s := by
  intro fuel
  induction fuel with
  | zero => intro i s _; rfl
  | succ fuel ih =>
    intro i s hi
    rw [doWhile_succ, doWhile_succ, heq i s hi]
    cases hb : b2 i s with
    | error e => rfl
    | ok r =>
      obtain ⟨out, s1⟩ := r
      dsimp only
      rw [ih _ s1 (hinv i s out s1 hi hb)]

theorem fillOptions_flags (idata : IfaceData) :
    ∀ (l : List (List Nat)) (g : Globals) (la : Nat) (nd : Bool),
      (fillOptions idata l g la nd).1.sllopt_f = g.sllopt_f ∧
      (fillOptions idata l g la nd).1.sllopta_f = g.sllopta_f := by
  intro l
  induction l with
  | nil => intro g la nd; exact ⟨rfl, rfl⟩
  | cons a rest ih =>
    intro g la nd
    unfold fillOptions
    split
    · exact ih _ _ _
    · exact ⟨rfl, rfl⟩

theorem linkRound_flags (cks : List Nat → List Nat → List Nat → Nat → Nat) (orc : Oracle)
    (FBS : Nat) (idata : IfaceData) (e a mc : Bool) (sources targets la : Nat) (s : SendSt)
    (out : List Sent) (s1 : SendSt) (la1 : Nat) (nd : Bool)
    (hi : s.multicastdst_f = mc ∧ s.g.sllopt_f = e ∧ s.g.sllopta_f = a)
    (h : linkRound cks orc FBS idata sources targets la s = .ok ((out, s1), la1, nd)) :
    (∀ x ∈ out, True) ∧ (s1.multicastdst_f = mc ∧ s1.g.sllopt_f = e ∧ s1.g.sllopta_f = a) := by
  obtain ⟨i1, i2, i3⟩ := hi
  have hsd := linkRound_ok cks orc FBS idata sources targets la s out s1 la1 nd h
  obtain ⟨f1, f2⟩ := fillOptions_flags idata (s.g.linkaddr.drop la)
    { s.g with ptr := s.g.startofprefixes } la false
  have q1 : ({ s.g with ptr := s.g.startofprefixes } : Globals).sllopt_f = e := i2
  have q2 : ({ s.g with ptr := s.g.startofprefixes } : Globals).sllopta_f = a := i3
  generalize ({ s.g with ptr := s.g.startofprefixes } : Globals) = g0 at hsd f1 f2 q1 q2
  generalize fillOptions idata (s.g.linkaddr.drop la) g0 la false = F at hsd f1 f2
  obtain ⟨x, _, _, _, _, hcase⟩ := sendDatagram_ok cks orc FBS idata sources targets _ out s1 hsd
  refine ⟨fun _ _ => trivial, ?_⟩
  rcases hcase with ⟨_, _, hs1⟩ | ⟨_, g1, hfp, hs1⟩
  · subst hs1
    exact ⟨i1, f1.trans q1, f2.trans q2⟩
  · subst hs1
    obtain ⟨fb, nf, p, hg1⟩ := fragment_path_globals FBS idata _ _ _ _ hfp
    refine ⟨i1, ?_, ?_⟩
    · show g1.sllopt_f = e
      rw [hg1]; exact f1.trans q1
    · show g1.sllopta_f = a
      rw [hg1]; exact f2.trans q2

theorem targetBody_no_target_flood (cks : List Nat → List Nat → List Nat → Nat → Nat)
    (orc : Oracle) (FBS : Nat) (idata : IfaceData) (fl fl1 : FloodVars) (sources targets : Nat)
    (s : SendSt) :
    targetBody cks orc FBS idata fl false sources targets s =
      targetBody cks orc FBS idata fl1 false sources targets s := by
  unfold targetBody
  simp only [Bool.false_eq_true, if_false]

theorem floodSourceNS_eq_floodSource (orc : Oracle) (idata : IfaceData) (fl : FloodVars)
    (s : SendSt) (hmc : s.multicastdst_f = true)
    (hp : idata.hsrcaddr_f = false ∨ fl.floods_f = false ∨
      ¬ (s.g.sllopt_f = true ∧ s.g.sllopta_f = false)) :
    floodSourceNS orc idata fl false s = floodSource orc idata { fl with floodt_f := false } s := by
  unfold floodSourceNS floodSource
  by_cases hf : fl.floods_f = true
  · rw [if_pos ⟨hf, Or.inr hmc⟩, if_pos hf]
    dsimp only
    by_cases hh : idata.hsrcaddr_f = false
    · rw [if_pos hh, if_pos hh]
    · rw [if_neg hh, if_neg hh]
      have hn : ¬ ((randomizeSrc orc idata s).g.sllopt_f = true ∧
          (randomizeSrc orc idata s).g.sllopta_f = false) := by
        rcases hp with hp | hp | hp
        · exact absurd hp hh
        · rw [hf] at hp; cases hp
        · exact hp
      rw [if_neg hn]
  · rw [if_neg (fun hc => hf hc.1), if_neg hf]

theorem floodSource_flags (orc : Oracle) (idata : IfaceData) (fl : FloodVars) (s : SendSt) :
    (floodSource orc idata fl s).multicastdst_f = s.multicastdst_f ∧
    (floodSource orc idata fl s).g.sllopt_f = s.g.sllopt_f ∧
    (floodSource orc idata fl s).g.sllopta_f = s.g.sllopta_f := by
  unfold floodSource
  split
  · dsimp only
    split
    · split <;> exact ⟨rfl, rfl, rfl⟩
    · exact ⟨rfl, rfl, rfl⟩
  · exact ⟨rfl, rfl, rfl⟩

theorem replyAddressing_multicast (an : AllNodes) (idata : IfaceData) (fl : FloodVars)
    (pkt : Mem) (st : SendSt) (hm : IN6_IS_ADDR_MULTICAST (pktIp6Dst idata pkt) = true) :
    (replyAddressing an idata fl pkt st).2 = 0 ∧
    (replyAddressing an idata fl pkt st).1.multicastdst_f = true ∧
    (replyAddressing an idata fl pkt st).1.g.sllopt_f = st.g.sllopt_f ∧
    (replyAddressing an idata fl pkt st).1.g.sllopta_f = st.g.sllopta_f ∧
    replyAddressing an idata { fl with floodt_f := false } pkt st =
      replyAddressing an idata fl pkt st := by
  unfold replyAddressing replySrc
  simp only [hm, if_true]
  exact ⟨trivial, trivial, trivial, trivial, trivial⟩

/-- C28 as stated fails with `-F 3 -T 2`: the responder of the specification,
which hands the template to send_packet as it stands, draws a new target for
each of the six datagrams, while send_packet_to_ns replies six times with the
target fe80::1 of the received solicitation: the frames differ. -/
theorem send_packet_to_ns_keeps_target_under_target_flooding :
    IN6_IS_ADDR_MULTICAST (pktIp6Dst ethPlain solicitDad) = true ∧
    targetsOf 54 (send_packet_to_ns demoCks demoOracle demoAllNodes demoFragBufferSize ethPlain
      flood32 (some solicitDad) (startSt (templ ethPlain (plainGlobals 8)))) =
      List.replicate 6 [[0xfe, 0x80, 0, 0, 0, 0, 0, 0, 0, 0, 0, 0, 0, 0, 0, 1]] ∧
    targetsOf 54 (send_packet_to_ns_spec demoCks demoOracle demoAllNodes demoFragBufferSize
      ethPlain flood32 solicitDad (startSt (templ ethPlain (plainGlobals 8)))) =
      [[[0xfe, 0x80, 0, 0, 0, 0, 0, 0, 2, 2, 2, 2, 2, 2, 2, 2]],
       [[0xfe, 0x80, 0, 0, 0, 0, 0, 0, 3, 3, 3, 3, 3, 3, 3, 3]],
       [[0xfe, 0x80, 0, 0, 0, 0, 0, 0, 5, 5, 5, 5, 5, 5, 5, 5]],
       [[0xfe, 0x80, 0, 0, 0, 0, 0, 0, 6, 6, 6, 6, 6, 6, 6, 6]],
       [[0xfe, 0x80, 0, 0, 0, 0, 0, 0, 8, 8, 8, 8, 8, 8, 8, 8]],
       [[0xfe, 0x80, 0, 0, 0, 0, 0, 0, 9, 9, 9, 9, 9, 9, 9, 9]]] ∧
    send_packet_to_ns demoCks demoOracle demoAllNodes demoFragBufferSize ethPlain flood32
      (some solicitDad) (startSt (templ ethPlain (plainGlobals 8))) ≠
    send_packet_to_ns_spec demoCks demoOracle demoAllNodes demoFragBufferSize ethPlain flood32
      solicitDad (startSt (templ ethPlain (plainGlobals 8))) := by
  have h1 : targetsOf 54 (send_packet_to_ns demoCks demoOracle demoAllNodes demoFragBufferSize
      ethPlain flood32 (some solicitDad) (startSt (templ ethPlain (plainGlobals 8)))) =
      List.replicate 6 [[0xfe, 0x80, 0, 0, 0, 0, 0, 0, 0, 0, 0, 0, 0, 0, 0, 1]] := by decide
  have h2 : targetsOf 54 (send_packet_to_ns_spec demoCks demoOracle demoAllNodes
      demoFragBufferSize ethPlain flood32 solicitDad (startSt (templ ethPlain (plainGlobals 8)))) =
      [[[0xfe, 0x80, 0, 0, 0, 0, 0, 0, 2, 2, 2, 2, 2, 2, 2, 2]],
       [[0xfe, 0x80, 0, 0, 0, 0, 0, 0, 3, 3, 3, 3, 3, 3, 3, 3]],
       [[0xfe, 0x80, 0, 0, 0, 0, 0, 0, 5, 5, 5, 5, 5, 5, 5, 5]],
       [[0xfe, 0x80, 0, 0, 0, 0, 0, 0, 6, 6, 6, 6, 6, 6, 6, 6]],
       [[0xfe, 0x80, 0, 0, 0, 0, 0, 0, 8, 8, 8, 8, 8, 8, 8, 8]],
       [[0xfe, 0x80, 0, 0, 0, 0, 0, 0, 9, 9, 9, 9, 9, 9, 9, 9]]] := by decide
  refine ⟨by decide, h1, h2, ?_⟩
  intro hc
  rw [hc, h2] at h1
  exact absurd h1 (by decide)


/-! ## Several link-layer address options spread over successive packets -/

theorem optionsAt_succ (m : Mem) (off k : Nat) :
    optionsAt m off (k + 1) = readBytes m off 8 :: optionsAt m (off + 8) k := by
  unfold optionsAt
  rw [List.range_succ_eq_map, List.map_cons, List.map_map]
  congr 1
  apply List.map_congr_left
  intro j _
  show readBytes m (off + 8 * (j + 1)) 8 = readBytes m (off + 8 + 8 * j) 8
  congr 1
  omega

theorem optionsAt_congr (m1 m2 : Mem) (off k : Nat)
    (h : ∀ i, off ≤ i → i < off + 8 * k → m1 i = m2 i) :
    optionsAt m1 off k = optionsAt m2 off k := by
  unfold optionsAt
  apply List.map_congr_left
  intro j hj
  have hj2 := List.mem_range.mp hj
  exact readBytes_congr _ _ _ _ _ (fun t ht => h _ (by omega) (by omega))

theorem readBytes_slla (b : Mem) (p : Nat) (a : List Nat) (ha : IsBytes 6 a) :
    readBytes (pokeBytes (poke (poke b p ND_OPT_SOURCE_LINKADDR) (p + 1) SLLA_OPT_LEN) (p + 2)
      ETH_ALEN a) p 8 = sllaOption a := by
  have e : (8 : Nat) = 2 + 6 := rfl
  rw [e, readBytes_append]
  unfold sllaOption
  congr 1
  · simp [readBytes, List.range_succ, pokeBytes, poke, ETH_ALEN, ND_OPT_SOURCE_LINKADDR,
      SLLA_OPT_LEN]
  · apply readBytes_of_bytes _ _ _ _ ha
    intro j hj
    simp only [ETH_ALEN]
    rw [pokeBytes_in _ _ _ _ _ ⟨by omega, by omega⟩]
    have e2 : p + 2 + j - (p + 2) = j := by omega
    rw [e2]

theorem fillOptions_options (idata : IfaceData) :
    ∀ (l : List (List Nat)) (g : Globals) (la : Nat) (nd : Bool),
      idata.linkhsize ≤ g.ptr → (∀ a ∈ l, IsBytes 6 a) →
      ∃ m, m ≤ l.length ∧ (fillOptions idata l g la nd).1.ptr = g.ptr + 8 * m ∧
        (m < l.length → idata.max_packet_size < g.ptr + 8 * m + 8 - idata.linkhsize) ∧
        (l ≠ [] → g.ptr + 8 ≤ idata.linkhsize + idata.max_packet_size → 0 < m) ∧
        (g.ptr ≤ idata.linkhsize + idata.max_packet_size →
          g.ptr + 8 * m ≤ idata.linkhsize + idata.max_packet_size) ∧
        (la + m < U32 → (fillOptions idata l g la nd).2.1 = la + m) ∧
        (0 < m → (fillOptions idata l g la nd).2.2 = true) ∧
        optionsAt (fillOptions idata l g la nd).1.buffer g.ptr m = (l.take m).map sllaOption := by
  intro l
  induction l with
  | nil =>
    intro g la nd _ _
    exact ⟨0, Nat.le_refl _, rfl, fun h => absurd h (by simp), fun h => absurd rfl h,
      fun h => h, fun _ => rfl, fun h => absurd h (by omega), rfl⟩
  | cons a rest ih =>
    intro g la nd hlh hb
    unfold fillOptions
    simp only [sizeof_nd_opt_slla]
    split
    · rename_i hfit
      have hg1 : ({ g with
          buffer := pokeBytes (poke (poke g.buffer g.ptr ND_OPT_SOURCE_LINKADDR) (g.ptr + 1)
            SLLA_OPT_LEN) (g.ptr + 2) ETH_ALEN a,
          sllaopt := g.ptr, ptr := g.ptr + 8 } : Globals).ptr = g.ptr + 8 := rfl
      have hb1 : ({ g with
          buffer := pokeBytes (poke (poke g.buffer g.ptr ND_OPT_SOURCE_LINKADDR) (g.ptr + 1)
            SLLA_OPT_LEN) (g.ptr + 2) ETH_ALEN a,
          sllaopt := g.ptr, ptr := g.ptr + 8 } : Globals).buffer =
          pokeBytes (poke (poke g.buffer g.ptr ND_OPT_SOURCE_LINKADDR) (g.ptr + 1)
            SLLA_OPT_LEN) (g.ptr + 2) ETH_ALEN a := rfl
      generalize ({ g with
          buffer := pokeBytes (poke (poke g.buffer g.ptr ND_OPT_SOURCE_LINKADDR) (g.ptr + 1)
            SLLA_OPT_LEN) (g.ptr + 2) ETH_ALEN a,
          sllaopt := g.ptr, ptr := g.ptr + 8 } : Globals) = g1 at hg1 hb1
      obtain ⟨m, i1, i2, i3, i4, i5, i6, i7, i8⟩ := ih g1 ((la + 1) % U32) true (by omega)
        (fun x hx => hb x (List.mem_cons_of_mem _ hx))
      obtain ⟨_, _, _, _, _, _, e7⟩ := fillOptions_effect idata rest g1 ((la + 1) % U32) true
      refine ⟨m + 1, by simp only [List.length_cons]; omega, by rw [i2, hg1]; omega, ?_, ?_, ?_,
        ?_, fun _ => ?_, ?_⟩
      · intro hm
        simp only [List.length_cons] at hm
        have := i3 (by omega)
        rw [hg1] at this
        omega
      · intro _ _
        omega
      · intro _
        have := i5 (by rw [hg1]; omega)
        rw [hg1] at this
        omega
      · intro hlt
        have e : (la + 1) % U32 = la + 1 := Nat.mod_eq_of_lt (by omega)
        rw [e] at i6 ⊢
        rw [i6 (by omega)]
        omega
      · rcases Nat.eq_zero_or_pos m with h0 | hpos
        · subst h0
          have hr : rest = [] ∨ ¬ (g1.ptr + 8 ≤ idata.linkhsize + idata.max_packet_size) := by
            rcases rest with _ | ⟨b, r2⟩
            · exact Or.inl rfl
            · refine Or.inr (fun hc => ?_)
              have := i4 (by simp) hc
              omega
          rcases hr with hr | hr
          · subst hr
            rfl
          · cases rest with
            | nil => rfl
            | cons b r2 =>
              unfold fillOptions
              simp only [sizeof_nd_opt_slla]
              rw [if_neg (by omega)]
        · exact i7 hpos
      · rw [optionsAt_succ, List.take_succ_cons, List.map_cons]
        congr 1
        · rw [readBytes_congr _ g1.buffer g.ptr g.ptr 8
            (fun j hj => e7 (g.ptr + j) (by rw [hg1]; omega)), hb1]
          exact readBytes_slla g.buffer g.ptr a (hb a (List.mem_cons_self _ _))
        · rw [← hg1]
          exact i8
    · rename_i hfit
      refine ⟨0, Nat.zero_le _, rfl, fun _ => by omega, fun _ h => by omega, fun h => h,
        fun _ => rfl, fun h => absurd h (by omega), rfl⟩

theorem sendDatagram_frag (cks : List Nat → List Nat → List Nat → Nat → Nat) (orc : Oracle)
    (FBS : Nat) (idata : IfaceData) (sources targets : Nat) (s : SendSt)
    (hf : idata.fragh_f = true) :
    sendDatagram cks orc FBS idata sources targets s =
      match fragment_path FBS idata { s.g with buffer := storeChecksum cks idata s.g }
          (orc.ident s.nident) with
      | .error e => .error e
      | .ok (frames, g1) =>
        .ok ([{ datagram := { data := storeChecksum cks idata s.g, len := s.g.ptr },
                frames := frames, sources := sources, targets := targets }],
             { s with g := g1, nident := s.nident + 1 }) := by
  unfold sendDatagram
  simp only [hf, Bool.true_eq_false, if_false]
  rfl

theorem sendDatagram_returns (cks : List Nat → List Nat → List Nat → Nat → Nat) (orc : Oracle)
    (FBS : Nat) (idata : IfaceData) (sources targets : Nat) (s : SendSt)
    (hf : idata.fragh_f = true →
      s.g.fragpart + FRAG_HDR_SIZE ≤ FBS ∧ 8 ≤ s.g.nfrags ∧ s.g.ptr - s.g.fragpart ≤ 65528) :
    ∃ out s1, sendDatagram cks orc FBS idata sources targets s = .ok (out, s1) := by
  cases hc : idata.fragh_f with
  | false => exact ⟨_, _, sendDatagram_plain cks orc FBS idata sources targets s hc⟩
  | true =>
    obtain ⟨a, b, c⟩ := hf hc
    obtain ⟨frames, g1, hr⟩ := fragment_path_returns FBS idata
      { s.g with buffer := storeChecksum cks idata s.g } (orc.ident s.nident) a b c
    rw [sendDatagram_frag cks orc FBS idata sources targets s hc, hr]
    exact ⟨_, _, rfl⟩

theorem linkRound_eq (cks : List Nat → List Nat → List Nat → Nat → Nat) (orc : Oracle)
    (FBS : Nat) (idata : IfaceData) (sources targets la : Nat) (s : SendSt) :
    linkRound cks orc FBS idata sources targets la s =
      match sendDatagram cks orc FBS idata sources targets
          { s with g := (fillOptions idata (s.g.linkaddr.drop la)
              { s.g with ptr := s.g.startofprefixes } la false).1 } with
      | .error e => .error e
      | .ok res => .ok (res,
          (fillOptions idata (s.g.linkaddr.drop la)
            { s.g with ptr := s.g.startofprefixes } la false).2.1,
          (fillOptions idata (s.g.linkaddr.drop la)
            { s.g with ptr := s.g.startofprefixes } la false).2.2) := rfl

theorem linkRound_options (cks : List Nat → List Nat → List Nat → Nat → Nat) (orc : Oracle)
    (FBS : Nat) (idata : IfaceData) (L : List (List Nat)) (sop ns fp : Nat)
    (hL : ∀ a ∈ L, IsBytes 6 a) (hlen : L.length < U32)
    (hfp : idata.linkhsize + 40 ≤ fp) (hns : fp ≤ ns) (hsop : ns + 24 ≤ sop)
    (hroom : sop + 8 ≤ idata.linkhsize + idata.max_packet_size)
    (hfrag : idata.fragh_f = true →
      fp + FRAG_HDR_SIZE ≤ FBS ∧ idata.linkhsize + idata.max_packet_size ≤ fp + 65528)
    (sources targets la : Nat) (s : SendSt) (hla : la < L.length)
    (hi : LinkInv idata L sop ns fp s) :
    ∃ x s1 m, linkRound cks orc FBS idata sources targets la s = .ok (([x], s1), la + m, true) ∧
      0 < m ∧ la + m ≤ L.length ∧
      optionsOf sop x.datagram = ((L.drop la).take m).map sllaOption ∧
      x.datagram.len = sop + 8 * m ∧ x.datagram.len ≤ idata.linkhsize + idata.max_packet_size ∧
      (la + m < L.length → m = (idata.linkhsize + idata.max_packet_size - sop) / 8) ∧
      LinkInv idata L sop ns fp s1 := by
  obtain ⟨i1, i2, i3, i4, i5⟩ := hi
  rw [linkRound_eq]
  have q0 : ({ s.g with ptr := s.g.startofprefixes } : Globals).ptr = sop := i2
  have q1 : ({ s.g with ptr := s.g.startofprefixes } : Globals).ns = ns := i3
  have q2 : ({ s.g with ptr := s.g.startofprefixes } : Globals).fragpart = fp := i4
  have q3 : ({ s.g with ptr := s.g.startofprefixes } : Globals).nfrags = s.g.nfrags := rfl
  have q4 : ({ s.g with ptr := s.g.startofprefixes } : Globals).linkaddr = L := i1
  have q5 : ({ s.g with ptr := s.g.startofprefixes } : Globals).startofprefixes = sop := i2
  generalize ({ s.g with ptr := s.g.startofprefixes } : Globals) = g0 at q0 q1 q2 q3 q4 q5 ⊢
  rw [i1]
  obtain ⟨m, m1, m2, m3, m4, m5, m6, m7, m8⟩ := fillOptions_options idata (L.drop la) g0 la false
    (by omega) (fun a ha => hL a (List.mem_of_mem_drop ha))
  obtain ⟨e1, e2, e3, e4, _, _, _⟩ := fillOptions_effect idata (L.drop la) g0 la false
  obtain ⟨b1, _⟩ := fillOptions_bound idata (L.drop la) g0 la false
  have hdl : (L.drop la).length = L.length - la := List.length_drop la L
  have hne : L.drop la ≠ [] := by
    intro hc
    rw [hc] at hdl
    simp only [List.length_nil] at hdl
    omega
  have mpos : 0 < m := m4 hne (by rw [q0]; exact hroom)
  rw [q0] at m2 m3 m5 m8
  have m5 := m5 (by omega)
  rw [m6 (by omega), m7 mpos]
  generalize fillOptions idata (L.drop la) g0 la false = F at m2 m8 e1 e2 e3 e4 b1 ⊢
  obtain ⟨out, s1, hsd⟩ := sendDatagram_returns cks orc FBS idata sources targets
    { s with g := F.1 } (by
      intro hc
      obtain ⟨a, b⟩ := hfrag hc
      refine ⟨?_, ?_, ?_⟩
      · show F.1.fragpart + _ ≤ _
        rw [e2, q2]; exact a
      · show 8 ≤ F.1.nfrags
        rw [b1, q3]; exact i5 hc
      · show F.1.ptr - F.1.fragpart ≤ _
        rw [e2, q2, m2]; omega)
  rw [hsd]
  obtain ⟨x, hx, hd, _, _, hcase⟩ := sendDatagram_ok cks orc FBS idata sources targets _ out s1 hsd
  subst hx
  refine ⟨x, s1, m, rfl, mpos, by omega, ?_, ?_, ?_, ?_, ?_⟩
  · rw [hd]
    unfold optionsOf
    dsimp only
    rw [m2]
    have ed : (sop + 8 * m - sop) / 8 = m := by omega
    rw [ed, ← m8]
    apply optionsAt_congr
    intro i hlo _
    exact storeChecksum_other cks idata F.1 i (by rw [e1, q1]; omega) (by rw [e1, q1]; omega)
  · rw [hd]; exact m2
  · rw [hd]
    show F.1.ptr ≤ _
    rw [m2]; exact m5
  · intro hlt
    have := m3 (by omega)
    omega
  · rcases hcase with ⟨hf, _, hs1⟩ | ⟨hf, g1, hfpath, hs1⟩
    · subst hs1
      exact ⟨e4.trans q4, e3.trans q5, e1.trans q1, e2.trans q2,
        fun hc => by rw [hf] at hc; cases hc⟩
    · subst hs1
      obtain ⟨fb, nf, p, hg1⟩ := fragment_path_globals FBS idata _ _ _ _ hfpath
      obtain ⟨_, _, hnf⟩ := fragment_path_ok FBS idata _ _ _ _ hfpath
      obtain ⟨a, _⟩ := hfrag hf
      refine ⟨?_, ?_, ?_, ?_, ?_⟩
      · show g1.linkaddr = L
        rw [hg1]; exact e4.trans q4
      · show g1.startofprefixes = sop
        rw [hg1]; exact e3.trans q5
      · show g1.ns = ns
        rw [hg1]; exact e1.trans q1
      · show g1.fragpart = fp
        rw [hg1]; exact e2.trans q2
      · intro _
        show 8 ≤ g1.nfrags
        rw [hnf]
        unfold clipNfrags
        dsimp only
        have hn8 : 8 ≤ F.1.nfrags := by rw [b1, q3]; exact i5 hf
        have hfp2 : F.1.fragpart = fp := e2.trans q2
        simp only [FRAG_HDR_SIZE] at a
        split <;> omega

theorem linkLoop_options (cks : List Nat → List Nat → List Nat → Nat → Nat) (orc : Oracle)
    (FBS : Nat) (idata : IfaceData) (L : List (List Nat)) (sop ns fp : Nat)
    (hL : ∀ a ∈ L, IsBytes 6 a) (hlen : L.length < U32)
    (hfp : idata.linkhsize + 40 ≤ fp) (hns : fp ≤ ns) (hsop : ns + 24 ≤ sop)
    (hroom : sop + 8 ≤ idata.linkhsize + idata.max_packet_size)
    (hfrag : idata.fragh_f = true →
      fp + FRAG_HDR_SIZE ≤ FBS ∧ idata.linkhsize + idata.max_packet_size ≤ fp + 65528)
    (sources targets : Nat) :
    ∀ fuel la s, LinkInv idata L sop ns fp s → la < L.length → L.length - la ≤ fuel →
      ∃ out s1, linkLoop cks orc FBS idata sources targets fuel la s = .ok (out, s1) ∧
        out ≠ [] ∧
        (out.map (fun x => optionsOf sop x.datagram)).flatten = (L.drop la).map sllaOption ∧
        (∀ x ∈ out.dropLast,
          x.datagram.len = sop + 8 * ((idata.linkhsize + idata.max_packet_size - sop) / 8)) ∧
        (∀ x ∈ out, x.datagram.len ≤ idata.linkhsize + idata.max_packet_size) := by
  intro fuel
  induction fuel with
  | zero => intro la s _ hla hf; omega
  | succ fuel ih =>
    intro la s hi hla hf
    obtain ⟨x, s1, m, hr, mpos, mle, hopt, hxl, hxm, hfull, hi1⟩ :=
      linkRound_options cks orc FBS idata L sop ns fp hL hlen hfp hns hsop hroom hfrag
        sources targets la s hla hi
    rw [linkLoop_succ, hr]
    dsimp only
    have hl1 : s1.g.linkaddr = L := hi1.1
    by_cases hlt : la + m < L.length
    · rw [if_pos ⟨by rw [hl1]; exact hlt, rfl⟩]
      obtain ⟨out2, s2, hrec, hne, hflat, hdl, hall⟩ := ih (la + m) s1 hi1 hlt (by omega)
      rw [hrec]
      refine ⟨[x] ++ out2, s2, rfl, by simp, ?_, ?_, ?_⟩
      · rw [List.map_append, List.flatten_append, hflat]
        simp only [List.map_cons, List.map_nil, List.flatten_cons, List.flatten_nil,
          List.append_nil]
        rw [hopt, ← List.map_append]
        congr 1
        have hdd : L.drop (la + m) = (L.drop la).drop m := by
          rw [List.drop_drop]
        rw [hdd, List.take_append_drop]
      · intro y hy
        cases out2 with
        | nil => exact absurd rfl hne
        | cons z zs =>
          have hd : ([x] ++ z :: zs).dropLast = x :: (z :: zs).dropLast := rfl
          rw [hd] at hy
          rcases List.mem_cons.mp hy with he | he
          · subst he
            rw [hxl, hfull hlt]
          · exact hdl y he
      · intro y hy
        rcases List.mem_append.mp hy with he | he
        · rw [List.mem_singleton] at he
          subst he
          exact hxm
        · exact hall y he
    · rw [if_neg (fun hc => hlt (by rw [← hl1]; exact hc.1))]
      refine ⟨[x], s1, rfl, by simp, ?_, ?_, ?_⟩
      · simp only [List.map_cons, List.map_nil, List.flatten_cons, List.flatten_nil,
          List.append_nil]
        rw [hopt, List.take_of_length_le (by rw [List.length_drop]; omega)]
      · intro y hy
        cases hy
      · intro y hy
        rw [List.mem_singleton] at hy
        subst hy
        exact hxm

/-- C25.  With at least two configured link-layer addresses and room for one
8-byte option behind the Neighbor Solicitation header, one (source, target)
iteration of send_packet returns, and the options of the datagrams it sends,
concatenated in send order, are the source link-layer address options of
linkaddr[0], ..., linkaddr[nlinkaddr-1], each once and in that order; every
datagram but the last carries as many options as fit below `max_packet_size`,
and no datagram is longer than `max_packet_size`.  Without fragmentation the
injected frame has the length and the options of its datagram; with
fragmentation (a fragment size of at least 8, room for the Fragment Header in
`fragbuffer`, a fragmentable part of at most 65528 bytes) the injected frames
are the fragments cut from the datagram. -/
theorem targetBody_link_options (cks : List Nat → List Nat → List Nat → Nat → Nat)
    (orc : Oracle) (FBS : Nat) (idata : IfaceData) (fl : FloodVars) (rt : Bool)
    (sources targets : Nat) (s : SendSt)
    (h2 : 2 ≤ s.g.linkaddr.length) (hlt : s.g.linkaddr.length < U32)
    (hb : ∀ a ∈ s.g.linkaddr, IsBytes 6 a) (hlay : Layout idata s.g)
    (hroom : s.g.startofprefixes + sizeof_nd_opt_slla ≤ idata.linkhsize + idata.max_packet_size)
    (hfrag : idata.fragh_f = true →
      s.g.fragpart + FRAG_HDR_SIZE ≤ FBS ∧ 8 ≤ s.g.nfrags ∧
      idata.linkhsize + idata.max_packet_size ≤ s.g.fragpart + 65528) :
    ∃ out s1, targetBody cks orc FBS idata fl rt sources targets s = .ok (out, s1) ∧
      (out.map (fun x => optionsOf s.g.startofprefixes x.datagram)).flatten =
        s.g.linkaddr.map sllaOption ∧
      (∀ x ∈ out.dropLast, (optionsOf s.g.startofprefixes x.datagram).length =
        (idata.linkhsize + idata.max_packet_size - s.g.startofprefixes) / 8) ∧
      (∀ x ∈ out, x.datagram.len - idata.linkhsize ≤ idata.max_packet_size ∧
        (idata.fragh_f = false → ∃ f, x.frames = [f] ∧ f.len = x.datagram.len ∧
          optionsOf s.g.startofprefixes f = optionsOf s.g.startofprefixes x.datagram) ∧
        (idata.fragh_f = true → FragmentsOf FBS idata s.g.fragpart x)) := by
  obtain ⟨l1, l2, l3, l4⟩ := hlay
  simp only [MIN_IPV6_HLEN, sizeof_nd_neighbor_solicit] at l1 l3 l4
  simp only [sizeof_nd_opt_slla] at hroom
  have hinv : LinkInv idata s.g.linkaddr s.g.startofprefixes s.g.ns s.g.fragpart
      (if rt = true then randomizeTarget orc fl s else s) := by
    split
    · exact ⟨rfl, rfl, rfl, rfl, fun hc => (hfrag hc).2.1⟩
    · exact ⟨rfl, rfl, rfl, rfl, fun hc => (hfrag hc).2.1⟩
  have hchk : ∀ out s1, targetBody cks orc FBS idata fl rt sources targets s = .ok (out, s1) →
      ∀ x ∈ out, SentChecked cks FBS idata s.g.ns s.g.fragpart x := by
    intro out s1 h
    exact (targetBody_forall cks orc FBS idata fl rt sources
      (fun t => t.g.ns = s.g.ns ∧ t.g.fragpart = s.g.fragpart)
      (SentChecked cks FBS idata s.g.ns s.g.fragpart)
      (fun targets la t o t1 la1 nd hi hr =>
        linkRound_checked cks orc FBS idata _ _ (by omega) sources targets la t o t1 la1 nd hi hr)
      (fun _ t ht => ht) targets s out s1 ⟨rfl, rfl⟩ h).1
  have hev : targetBody cks orc FBS idata fl rt sources targets s =
      linkLoop cks orc FBS idata sources targets
        ((if rt = true then randomizeTarget orc fl s else s).g.linkaddr.length + 1)
        (if (if rt = true then randomizeTarget orc fl s else s).g.linkaddr.length = 1 then 1
          else 0)
        (if rt = true then randomizeTarget orc fl s else s) := rfl
  rw [hev] at hchk ⊢
  generalize (if rt = true then randomizeTarget orc fl s else s) = s2 at hinv hchk ⊢
  have hl2 : s2.g.linkaddr = s.g.linkaddr := hinv.1
  rw [hl2, if_neg (by omega)] at hchk ⊢
  obtain ⟨out, s1, hrun, _, hflat, hfull, hall⟩ :=
    linkLoop_options cks orc FBS idata s.g.linkaddr s.g.startofprefixes s.g.ns s.g.fragpart
      hb hlt l1 l2 l3 hroom (fun hc => ⟨(hfrag hc).1, (hfrag hc).2.2⟩) sources targets
      (s.g.linkaddr.length + 1) 0 s2 hinv (by omega) (by omega)
  refine ⟨out, s1, hrun, hflat, ?_, ?_⟩
  · intro x hx
    unfold optionsOf optionsAt
    rw [List.length_map, List.length_range, hfull x hx]
    omega
  · intro x hx
    obtain ⟨_, c2, c3⟩ := hchk out s1 hrun x hx
    refine ⟨by have := hall x hx; omega, ?_, c3⟩
    intro hf
    obtain ⟨f, f1, f2, f3, _⟩ := c2 hf
    refine ⟨f, f1, f2, ?_⟩
    unfold optionsOf
    rw [f2]
    apply optionsAt_congr
    intro i hi _
    exact f3 i (by omega) (by omega)

theorem targetBody_link_options_witness :
    2 ≤ (startSt (templ ethPlainTight threeLinkaddrs)).g.linkaddr.length ∧
    (startSt (templ ethPlainTight threeLinkaddrs)).g.startofprefixes = 78 ∧
    (∃ out s1, targetBody demoCks demoOracle demoFragBufferSize ethPlainTight noFlood false 0 0
        (startSt (templ ethPlainTight threeLinkaddrs)) = .ok (out, s1) ∧
      (out.map (fun x => optionsOf 78 x.datagram)).flatten =
        [[1, 1, 2, 0, 0, 0, 0, 1], [1, 1, 2, 0, 0, 0, 0, 2], [1, 1, 2, 0, 0, 0, 0, 3]] ∧
      (∀ x ∈ out.dropLast, (optionsOf 78 x.datagram).length = 2) ∧
      ∀ x ∈ out, x.datagram.len - 14 ≤ 82) ∧
    (emitted (targetBody demoCks demoOracle demoFragBufferSize ethPlainTight noFlood false 0 0
        (startSt (templ ethPlainTight threeLinkaddrs)))).map (fun x => x.datagram.len) =
      [94, 86] := by
  have hl : Layout ethPlainTight (startSt (templ ethPlainTight threeLinkaddrs)).g := by
    unfold Layout; decide
  have hb : ∀ a ∈ (startSt (templ ethPlainTight threeLinkaddrs)).g.linkaddr, IsBytes 6 a := by
    unfold IsBytes; decide
  obtain ⟨out, s1, h, a, b, c⟩ := targetBody_link_options demoCks demoOracle demoFragBufferSize
    ethPlainTight noFlood false 0 0 (startSt (templ ethPlainTight threeLinkaddrs))
    (by decide) (by decide) hb hl (by decide) (fun hc => by cases hc)
  exact ⟨by decide, by decide, ⟨out, s1, h, a, b, fun x hx => (c x hx).1⟩, by decide⟩


/-! ## Link-layer accept filters where link-layer filters do not apply -/

theorem linkFiltersApply_false (idata : IfaceData)
    (h : idata.type ≠ DLT_EN10MB ∨ idata.loopback = true) : linkFiltersApply idata = false := by
  unfold linkFiltersApply
  rcases h with h | h
  · simp [h]
  · simp [h]

theorem listen_filter_not_accepted (idata : IfaceData) (flt : Filters) (pktdata : Mem)
    (hns : isNS idata pktdata = true) (hf : flt.acceptfilters_f = true)
    (ha : acceptedFlag idata flt pktdata = false) :
    listen_filter idata flt pktdata = Verdict.blocked := by
  unfold listen_filter
  rw [if_neg (by rw [hns]; decide)]
  split
  · rfl
  split
  · rfl
  split
  · rfl
  split
  · rfl
  split
  · rfl
  rw [if_pos ⟨hf, ha⟩]

/-- C36.  On an interface that is not Ethernet or is loopback, for a filter set
that the filter options build with at least one link-layer accept filter (`-B`
or `-G`) and no IPv6 accept filter: the accept-filters flag is set, no accept
filter sets `accepted_f` whatever the frame holds, and every captured Neighbor
Solicitation is rejected: no reply is sent and no variable changes. -/
theorem listen_filter_link_accept_only (cks : List Nat → List Nat → List Nat → Nat → Nat)
    (orc : Oracle) (an : AllNodes) (FBS : Nat) (fl : FloodVars) (st : SendSt)
    (lim : FilterLimits) (opts : List FilterOpt) (flt : Filters) (idata : IfaceData)
    (pktdata : Mem) (hopts : filter_options lim opts noFilters = .ok flt)
    (hlink : flt.acceptlinksrc ≠ [] ∨ flt.acceptlinkdst ≠ [])
    (hno : flt.acceptsrc = [] ∧ flt.acceptdst = [] ∧ flt.accepttarget = [])
    (hif : idata.type ≠ DLT_EN10MB ∨ idata.loopback = true)
    (hns : isNS idata pktdata = true) :
    flt.acceptfilters_f = true ∧ acceptedFlag idata flt pktdata = false ∧
    listen_filter idata flt pktdata = Verdict.blocked ∧
    listen_step cks orc an FBS idata fl flt pktdata st = .ok ([], st) := by
  have hflag := filter_options_flag lim opts noFilters flt noFilters_flag hopts
  unfold AcceptFlagInv NoAcceptFilters at hflag
  have hf : flt.acceptfilters_f = true := by
    rw [hflag]
    intro hc
    rcases hlink with h | h
    · exact h hc.1
    · exact h hc.2.1
  have ha : acceptedFlag idata flt pktdata = false := by
    cases hacc : acceptedFlag idata flt pktdata with
    | false => rfl
    | true =>
      rw [acceptedFlag_iff, linkFiltersApply_false idata hif, hno.1, hno.2.1, hno.2.2] at hacc
      simp [match_ipv6] at hacc
  have hv := listen_filter_not_accepted idata flt pktdata hns hf ha
  exact ⟨hf, ha, hv, by unfold listen_step; rw [hv]⟩

theorem listen_filter_link_accept_only_witness :
    filter_options demoFilterLimits [FilterOpt.B (some [0, 0, 0, 0, 0, 0])] noFilters =
      .ok acceptZeroLinkSrc ∧
    loopbackEth.loopback = true ∧ isNS loopbackEth zeroNS = true ∧
    match_ether acceptZeroLinkSrc.acceptlinksrc (pktEtherSrc zeroNS) = true ∧
    listen_filter loopbackEth acceptZeroLinkSrc zeroNS = Verdict.blocked ∧
    listen_step demoCks demoOracle demoAllNodes demoFragBufferSize loopbackEth listenVars
      acceptZeroLinkSrc zeroNS (startSt (plainGlobals 8)) = .ok ([], startSt (plainGlobals 8)) := by
  have hw := listen_filter_link_accept_only demoCks demoOracle demoAllNodes demoFragBufferSize
    listenVars (startSt (plainGlobals 8)) demoFilterLimits [FilterOpt.B (some [0, 0, 0, 0, 0, 0])]
    acceptZeroLinkSrc loopbackEth zeroNS rfl (Or.inl (by decide)) ⟨rfl, rfl, rfl⟩ (Or.inr rfl)
    (by decide)
  exact ⟨rfl, rfl, by decide, by decide, hw.2.2.1, hw.2.2.2⟩


/-! ## The reply addressing of send_packet_to_ns -/

/-- C37.  In send_packet_to_ns, for a received Neighbor Solicitation whose IPv6
destination is multicast and whose target is not link-local, the reply
addressing stores `idata.srcaddr` as it stands in the IPv6 source field, also
when no source address was configured (`srcaddr_f` clear), and neither the
target nor the incoming destination; without source flooding every frame of
the reply carries it. -/
theorem send_packet_to_ns_unconfigured_source
    (cks : List Nat → List Nat → List Nat → Nat → Nat) (orc : Oracle) (an : AllNodes)
    (FBS : Nat) (idata : IfaceData) (fl : FloodVars) (pkt : Mem) (st : SendSt)
    (hlay : Layout idata st.g) (hlh : 12 ≤ idata.linkhsize) (hsrc : IsBytes 16 idata.srcaddr)
    (hm : IN6_IS_ADDR_MULTICAST (pktIp6Dst idata pkt) = true)
    (hll : IN6_IS_ADDR_LINKLOCAL (pktTarget idata pkt) = false) :
    readBytes (replyAddressing an idata fl pkt st).1.g.buffer (idata.linkhsize + 8) 16 =
      idata.srcaddr ∧
    (fl.floods_f = false → ∀ out st1,
      send_packet_to_ns cks orc an FBS idata fl (some pkt) st = .ok (out, st1) →
      ∀ x ∈ out, ∀ f ∈ x.frames, readBytes f.data (idata.linkhsize + 8) 16 = idata.srcaddr) := by
  have hne : ¬ (idata.srcaddr_f = false ∧ IN6_IS_ADDR_LINKLOCAL (pktTarget idata pkt) = true) := by
    rw [hll]; intro hx; cases hx.2
  obtain ⟨l1, l2, _, _⟩ := hlay
  simp only [MIN_IPV6_HLEN] at l1
  refine ⟨?_, ?_⟩
  · apply readBytes_of_bytes _ _ _ _ hsrc
    intro j hj
    rw [replyAddressing_low an idata fl pkt st _ (by omega),
      replySrc_ip6 idata fl pkt _ j hj hlh, if_pos hm, if_neg hne]
  · intro hfl out st1 h x hx f hf
    obtain ⟨_, hsrcs⟩ := send_packet_to_ns_frames cks orc an FBS idata fl pkt st out st1
      ⟨by simp only [MIN_IPV6_HLEN]; omega, l2, by assumption, by assumption⟩ hlh h x hx f hf
    apply readBytes_of_bytes _ _ _ _ hsrc
    intro j hj
    rw [hsrcs (Or.inl hfl) _ (Or.inr (by omega)), replySrc_ip6 idata fl pkt _ j hj hlh,
      if_pos hm, if_neg hne]

theorem send_packet_to_ns_unconfigured_source_witness :
    ethUnconfigured.srcaddr_f = false ∧
    IN6_IS_ADDR_MULTICAST (pktIp6Dst ethUnconfigured solicitGlobal) = true ∧
    IN6_IS_ADDR_LINKLOCAL (pktTarget ethUnconfigured solicitGlobal) = false ∧
    pktTarget ethUnconfigured solicitGlobal =
      [0x20, 0x01, 0x0d, 0xb8, 0, 0, 0, 0, 0, 0, 0, 0, 0, 0, 0, 1] ∧
    (emitted globalReply).length = 1 ∧
    ∀ x ∈ emitted globalReply, ∀ f ∈ x.frames,
      readBytes f.data 22 16 = [0, 0, 0, 0, 0, 0, 0, 0, 0, 0, 0, 0, 0, 0, 0, 0] := by
  obtain ⟨s1, h⟩ := emitted_ok globalReply (by decide)
  have hl : Layout ethUnconfigured (startSt (templ ethUnconfigured (plainGlobals 8))).g := by
    unfold Layout; decide
  have hb : IsBytes 16 ethUnconfigured.srcaddr := by unfold IsBytes; decide
  have hw := (send_packet_to_ns_unconfigured_source demoCks demoOracle demoAllNodes
    demoFragBufferSize ethUnconfigured listenVars solicitGlobal
    (startSt (templ ethUnconfigured (plainGlobals 8))) hl (by decide) hb (by decide)
    (by decide)).2 rfl (emitted globalReply) s1 h
  exact ⟨rfl, by decide, by decide, by decide, by decide, hw⟩

theorem replyAddressing_g (an : AllNodes) (idata : IfaceData) (fl : FloodVars) (pkt : Mem)
    (st : SendSt) :
    (replyAddressing an idata fl pkt st).1.g =
      { st.g with buffer := (replyAddressing an idata fl pkt st).1.g.buffer } ∧
    (replyAddressing an idata fl pkt st).1.nipv6 = st.nipv6 ∧
    (replyAddressing an idata fl pkt st).1.nether = st.nether ∧
    (replyAddressing an idata fl pkt st).1.nident = st.nident :=
  ⟨rfl, rfl, rfl, rfl⟩

theorem replyAddressing_other (an : AllNodes) (idata : IfaceData) (fl : FloodVars) (pkt : Mem)
    (st : SendSt) (i : Nat) (h0 : 12 ≤ i)
    (h1 : ¬ (idata.linkhsize + 8 ≤ i ∧ i < idata.linkhsize + 40))
    (h2 : ¬ (st.g.ns + 8 ≤ i ∧ i < st.g.ns + 24)) :
    (replyAddressing an idata fl pkt st).1.g.buffer i = st.g.buffer i := by
  show memcpy _ (st.g.ns + 8) pkt _ 16 i = _
  rw [memcpy_out _ _ _ _ _ _ (by omega),
    replySrc_other idata fl pkt _ i (by omega) (by simp only [ETH_ALEN]; omega),
    replyDst_other an idata pkt _ i (by omega) (by omega)]

/-- C38.  On an Ethernet interface (14-byte link header) and a template with
the pointers as init_packet_data leaves them, the reply addressing of
send_packet_to_ns changes nothing but bytes of the packet buffer, and among
those only the Ethernet destination and source (offsets 0-11), the IPv6 source
and destination (22-53) and the target field of the Neighbor Solicitation
(`ns + 8` to `ns + 23`): the Ethernet type and the first eight bytes of the
IPv6 header (version and flow, payload length, next header, hop limit), the
extension headers with their next-header bytes, the type, code, checksum and
reserved field of the Neighbor Solicitation and the options are the bytes of
the template, and so are the prepared Fragment Header and the pointers. -/
theorem replyAddressing_frame_effect (an : AllNodes) (idata : IfaceData) (fl : FloodVars)
    (pkt : Mem) (st : SendSt) (hlh : idata.linkhsize = 14) (hlay : Layout idata st.g) :
    (∀ i, (12 ≤ i ∧ i < 22) ∨ (54 ≤ i ∧ i < st.g.ns + 8) ∨ st.g.ns + 24 ≤ i →
      (replyAddressing an idata fl pkt st).1.g.buffer i = st.g.buffer i) ∧
    (replyAddressing an idata fl pkt st).1.g =
      { st.g with buffer := (replyAddressing an idata fl pkt st).1.g.buffer } ∧
    (replyAddressing an idata fl pkt st).1.g.fraghdr = st.g.fraghdr ∧
    (replyAddressing an idata fl pkt st).1.g.prev_nh = st.g.prev_nh ∧
    54 ≤ st.g.ns := by
  obtain ⟨l1, l2, _, _⟩ := hlay
  simp only [MIN_IPV6_HLEN] at l1
  refine ⟨?_, rfl, rfl, rfl, by omega⟩
  intro i hi
  exact replyAddressing_other an idata fl pkt st i (by omega) (by omega) (by omega)

theorem replyAddressing_frame_effect_witness :
    ethFrag.linkhsize = 14 ∧ (templ ethFrag oneOfEach).ns = 78 ∧
    (readBytes (replyAddressing demoAllNodes ethFrag flood32 solicitUnicast
        (startSt (templ ethFrag oneOfEach))).1.g.buffer 12 10 =
      readBytes (templ ethFrag oneOfEach).buffer 12 10) ∧
    (readBytes (replyAddressing demoAllNodes ethFrag flood32 solicitUnicast
        (startSt (templ ethFrag oneOfEach))).1.g.buffer 54 32 =
      readBytes (templ ethFrag oneOfEach).buffer 54 32) ∧
    (replyAddressing demoAllNodes ethFrag flood32 solicitUnicast
        (startSt (templ ethFrag oneOfEach))).1.g.fraghdr = (templ ethFrag oneOfEach).fraghdr := by
  have hl : Layout ethFrag (startSt (templ ethFrag oneOfEach)).g := by unfold Layout; decide
  obtain ⟨a, _, c, _, _⟩ := replyAddressing_frame_effect demoAllNodes ethFrag flood32
    solicitUnicast (startSt (templ ethFrag oneOfEach)) rfl hl
  have hns : (startSt (templ ethFrag oneOfEach)).g.ns = 78 := by decide
  rw [hns] at a
  refine ⟨rfl, by decide, ?_, ?_, c⟩
  · exact readBytes_congr _ _ _ _ _ (fun j hj => a _ (Or.inl (by omega)))
  · exact readBytes_congr _ _ _ _ _ (fun j hj => a _ (Or.inr (Or.inl (by omega))))


/-! ## The counters of the filter options against their limits -/

theorem filter_option_counts (lim : FilterLimits) (flt flt1 : Filters) (o : FilterOpt)
    (inv : FilterCounts lim flt) (h : filter_option lim flt o = .ok flt1) :
    FilterCounts lim flt1 := by
  unfold FilterCounts at inv ⊢
  obtain ⟨i1, i2, i3, i4, i5, i6, i7, i8, i9, i10⟩ := inv
  cases o <;> simp only [filter_option] at h <;> split at h <;> first
    | simp only [reduceCtorEq] at h
    | (split at h <;> first
        | simp only [reduceCtorEq] at h
        | (simp only [Except.ok.injEq] at h
           subst h
           simp only [List.length_append, List.length_singleton]
           refine ⟨?_, ?_, ?_, ?_, ?_, ?_, ?_, ?_, ?_, ?_⟩ <;> omega))

theorem filter_options_counts (lim : FilterLimits) :
    ∀ (opts : List FilterOpt) (flt flt1 : Filters), FilterCounts lim flt →
      filter_options lim opts flt = .ok flt1 → FilterCounts lim flt1 := by
  intro opts
  induction opts with
  | nil =>
    intro flt flt1 inv h
    simp only [filter_options, Except.ok.injEq] at h
    subst h
    exact inv
  | cons o rest ih =>
    intro flt flt1 inv h
    simp only [filter_options] at h
    split at h
    · cases h
    · rename_i f2 hf2
      exact ih f2 flt1 (filter_option_counts lim flt f2 o inv hf2) h

theorem filter_options_replicate (lim : FilterLimits) (o : FilterOpt) (step : Filters → Filters)
    (size : Filters → Nat) (max : Nat)
    (hstep : ∀ flt, size flt ≤ max → filter_option lim flt o = .ok (step flt))
    (hsize : ∀ flt, size (step flt) = size flt + 1) :
    ∀ n flt, size flt + n ≤ max + 1 →
      ∃ flt1, filter_options lim (List.replicate n o) flt = .ok flt1 ∧
        size flt1 = size flt + n := by
  intro n
  induction n with
  | zero => intro flt _; exact ⟨flt, rfl, rfl⟩
  | succ n ih =>
    intro flt hn
    obtain ⟨flt1, h1, h2⟩ := ih (step flt) (by rw [hsize]; omega)
    refine ⟨flt1, ?_, by rw [h2, hsize]; omega⟩
    rw [List.replicate_succ]
    simp only [filter_options]
    rw [hstep flt (by omega)]
    exact h1

/-- C32 (failing input).  Whatever the limits are, the option `-J` given
`MAX_BLOCK_LINK_SRC + 1` times is accepted every time: its test is
`nblocklinksrc > MAX_BLOCK_LINK_SRC`, so the last entry is stored at index
`MAX_BLOCK_LINK_SRC` and the counter ends at `MAX_BLOCK_LINK_SRC + 1`, above
its limit.  The same holds for `-K`, `-w`, `-b`, `-g`, `-B` and `-G`, which are
tested with `>` too.  The counters of `-j`, `-k` and `-W`, tested with `>=`,
stay within their limits, and no counter goes beyond its limit plus one. -/
theorem filter_counter_exceeds_limit (lim : FilterLimits) (a : List Nat) :
    (∃ flt, filter_options lim (List.replicate (lim.MAX_BLOCK_LINK_SRC + 1)
        (FilterOpt.J (some a))) noFilters = .ok flt ∧
      flt.blocklinksrc.length = lim.MAX_BLOCK_LINK_SRC + 1) ∧
    (∃ flt, filter_options lim (List.replicate (lim.MAX_BLOCK_LINK_DST + 1)
        (FilterOpt.K (some a))) noFilters = .ok flt ∧
      flt.blocklinkdst.length = lim.MAX_BLOCK_LINK_DST + 1) ∧
    (∃ flt, filter_options lim (List.replicate (lim.MAX_BLOCK_TARGET + 1)
        (FilterOpt.w (some a) none)) noFilters = .ok flt ∧
      flt.blocktarget.length = lim.MAX_BLOCK_TARGET + 1) ∧
    (∃ flt, filter_options lim (List.replicate (lim.MAX_ACCEPT_SRC + 1)
        (FilterOpt.b (some a) none)) noFilters = .ok flt ∧
      flt.acceptsrc.length = lim.MAX_ACCEPT_SRC + 1) ∧
    (∃ flt, filter_options lim (List.replicate (lim.MAX_ACCEPT_DST + 1)
        (FilterOpt.g (some a) none)) noFilters = .ok flt ∧
      flt.acceptdst.length = lim.MAX_ACCEPT_DST + 1) ∧
    (∃ flt, filter_options lim (List.replicate (lim.MAX_ACCEPT_LINK_SRC + 1)
        (FilterOpt.B (some a))) noFilters = .ok flt ∧
      flt.acceptlinksrc.length = lim.MAX_ACCEPT_LINK_SRC + 1) ∧
    (∃ flt, filter_options lim (List.replicate (lim.MAX_ACCEPT_LINK_DST + 1)
        (FilterOpt.G (some a))) noFilters = .ok flt ∧
      flt.acceptlinkdst.length = lim.MAX_ACCEPT_LINK_DST + 1) ∧
    (∀ opts flt, filter_options lim opts noFilters = .ok flt → FilterCounts lim flt) := by
  refine ⟨?_, ?_, ?_, ?_, ?_, ?_, ?_, ?_⟩
  · obtain ⟨flt, h1, h2⟩ := filter_options_replicate lim (FilterOpt.J (some a))
      (fun flt => { flt with blocklinksrc := flt.blocklinksrc ++ [a] })
      (fun flt => flt.blocklinksrc.length) lim.MAX_BLOCK_LINK_SRC
      (fun flt hle => by
        dsimp only at hle
        simp only [filter_option, linkFilterEntry]
        rw [if_neg (by omega)])
      (fun flt => by simp) (lim.MAX_BLOCK_LINK_SRC + 1) noFilters (by simp [noFilters])
    exact ⟨flt, h1, by rw [h2]; simp [noFilters]⟩
  · obtain ⟨flt, h1, h2⟩ := filter_options_replicate lim (FilterOpt.K (some a))
      (fun flt => { flt with blocklinkdst := flt.blocklinkdst ++ [a] })
      (fun flt => flt.blocklinkdst.length) lim.MAX_BLOCK_LINK_DST
      (fun flt hle => by
        dsimp only at hle
        simp only [filter_option, linkFilterEntry]
        rw [if_neg (by omega)])
      (fun flt => by simp) (lim.MAX_BLOCK_LINK_DST + 1) noFilters (by simp [noFilters])
    exact ⟨flt, h1, by rw [h2]; simp [noFilters]⟩
  · obtain ⟨flt, h1, h2⟩ := filter_options_replicate lim (FilterOpt.w (some a) none)
      (fun flt => { flt with blocktarget := flt.blocktarget ++ [( sanitize_ipv6_prefix a 128, 128)] })
      (fun flt => flt.blocktarget.length) lim.MAX_BLOCK_TARGET
      (fun flt hle => by
        dsimp only at hle
        simp only [filter_option, ipv6FilterEntry]
        rw [if_neg (by omega)]
        simp)
      (fun flt => by simp) (lim.MAX_BLOCK_TARGET + 1) noFilters (by simp [noFilters])
    exact ⟨flt, h1, by rw [h2]; simp [noFilters]⟩
  · obtain ⟨flt, h1, h2⟩ := filter_options_replicate lim (FilterOpt.b (some a) none)
      (fun flt => { flt with acceptsrc := flt.acceptsrc ++ [( sanitize_ipv6_prefix a 128, 128)],
                             acceptfilters_f := true })
      (fun flt => flt.acceptsrc.length) lim.MAX_ACCEPT_SRC
      (fun flt hle => by
        dsimp only at hle
        simp only [filter_option, ipv6FilterEntry]
        rw [if_neg (by omega)]
        simp)
      (fun flt => by simp) (lim.MAX_ACCEPT_SRC + 1) noFilters (by simp [noFilters])
    exact ⟨flt, h1, by rw [h2]; simp [noFilters]⟩
  · obtain ⟨flt, h1, h2⟩ := filter_options_replicate lim (FilterOpt.g (some a) none)
      (fun flt => { flt with acceptdst := flt.acceptdst ++ [( sanitize_ipv6_prefix a 128, 128)],
                             acceptfilters_f := true })
      (fun flt => flt.acceptdst.length) lim.MAX_ACCEPT_DST
      (fun flt hle => by
        dsimp only at hle
        simp only [filter_option, ipv6FilterEntry]
        rw [if_neg (by omega)]
        simp)
      (fun flt => by simp) (lim.MAX_ACCEPT_DST + 1) noFilters (by simp [noFilters])
    exact ⟨flt, h1, by rw [h2]; simp [noFilters]⟩
  · obtain ⟨flt, h1, h2⟩ := filter_options_replicate lim (FilterOpt.B (some a))
      (fun flt => { flt with acceptlinksrc := flt.acceptlinksrc ++ [a], acceptfilters_f := true })
      (fun flt => flt.acceptlinksrc.length) lim.MAX_ACCEPT_LINK_SRC
      (fun flt hle => by
        dsimp only at hle
        simp only [filter_option, linkFilterEntry]
        rw [if_neg (by omega)])
      (fun flt => by simp) (lim.MAX_ACCEPT_LINK_SRC + 1) noFilters (by simp [noFilters])
    exact ⟨flt, h1, by rw [h2]; simp [noFilters]⟩
  · obtain ⟨flt, h1, h2⟩ := filter_options_replicate lim (FilterOpt.G (some a))
      (fun flt => { flt with acceptlinkdst := flt.acceptlinkdst ++ [a], acceptfilters_f := true })
      (fun flt => flt.acceptlinkdst.length) lim.MAX_ACCEPT_LINK_DST
      (fun flt hle => by
        dsimp only at hle
        simp only [filter_option, linkFilterEntry]
        rw [if_neg (by omega)])
      (fun flt => by simp) (lim.MAX_ACCEPT_LINK_DST + 1) noFilters (by simp [noFilters])
    exact ⟨flt, h1, by rw [h2]; simp [noFilters]⟩
  · intro opts flt h
    refine filter_options_counts lim opts noFilters flt ?_ h
    simp [FilterCounts, noFilters]


/-! ## C33: the count of link-layer address options -/

theorem slla_options_replicate (a : List Nat) :
    ∀ n g, ∃ g1, slla_options (List.replicate n (SllaOpt.E (some a))) g = .ok g1 ∧
      g1.linkaddr = g.linkaddr ++ List.replicate n a ∧
      (0 < n → g1.sllopt_f = true ∧ g1.sllopta_f = true) := by
  intro n
  induction n with
  | zero => intro g; exact ⟨g, rfl, by simp, fun h => absurd h (by decide)⟩
  | succ n ih =>
    intro g
    obtain ⟨g1, h1, h2, h3⟩ := ih { g with sllopt_f := true, linkaddr := g.linkaddr ++ [a],
                                           sllopta_f := true }
    refine ⟨g1, ?_, ?_, fun _ => ?_⟩
    · rw [List.replicate_succ]
      simp only [slla_options, slla_option]
      exact h1
    · rw [h2, List.replicate_succ]
      simp
    · rcases Nat.eq_zero_or_pos n with hn | hn
      · subst hn
        simp only [List.replicate_zero, slla_options] at h1
        cases h1
        exact ⟨rfl, rfl⟩
      · exact h3 hn

/-- C33 (failing input).  Case `E` of the option loop stores at
`linkaddr[nlinkaddr]` and increments `nlinkaddr` without comparing it with
`MAX_SLLA_OPTION`: whatever the size `MAX_SLLA_OPTION` of the array is, a
command line with `MAX_SLLA_OPTION + 1` options `-E` is accepted, the last of
them is stored at index `MAX_SLLA_OPTION`, one past the end of the array, and
`nlinkaddr` ends at `MAX_SLLA_OPTION + 1`. -/
theorem slla_options_exceed_array (MAX_SLLA_OPTION : Nat) (a : List Nat) (nfrags : Nat) :
    ∃ g1, slla_options (List.replicate (MAX_SLLA_OPTION + 1) (SllaOpt.E (some a)))
        (plainGlobals nfrags) = .ok g1 ∧
      g1.linkaddr.length = MAX_SLLA_OPTION + 1 ∧
      g1.linkaddr.get? MAX_SLLA_OPTION = some a ∧
      g1.sllopt_f = true ∧ g1.sllopta_f = true := by
  obtain ⟨g1, h1, h2, h3⟩ := slla_options_replicate a (MAX_SLLA_OPTION + 1) (plainGlobals nfrags)
  refine ⟨g1, h1, ?_, ?_, (h3 (by omega)).1, (h3 (by omega)).2⟩
  · rw [h2]; simp [plainGlobals]
  · rw [h2]
    simp [plainGlobals, List.getElem?_replicate]

/-! ## The send loops: progress and termination -/

theorem fillOptions_count (idata : IfaceData) :
    ∀ (l : List (List Nat)) (g : Globals) (la : Nat) (nd : Bool),
      idata.linkhsize ≤ g.ptr →
      ∃ m, m ≤ l.length ∧ (fillOptions idata l g la nd).1.ptr = g.ptr + 8 * m ∧
        (la + m < U32 → (fillOptions idata l g la nd).2.1 = la + m) ∧
        (fillOptions idata l g la nd).2.2 = (nd || decide (0 < m)) ∧
        (0 < m → g.ptr + 8 * m ≤ idata.linkhsize + idata.max_packet_size) := by
  intro l
  induction l with
  | nil =>
    intro g la nd _
    exact ⟨0, Nat.le_refl _, rfl, fun _ => rfl, by simp [fillOptions],
      fun h => absurd h (by omega)⟩
  | cons a rest ih =>
    intro g la nd hlh
    unfold fillOptions
    simp only [sizeof_nd_opt_slla]
    split
    · rename_i hfit
      have hg1 : ({ g with
          buffer := pokeBytes (poke (poke g.buffer g.ptr ND_OPT_SOURCE_LINKADDR) (g.ptr + 1)
            SLLA_OPT_LEN) (g.ptr + 2) ETH_ALEN a,
          sllaopt := g.ptr, ptr := g.ptr + 8 } : Globals).ptr = g.ptr + 8 := rfl
      generalize ({ g with
          buffer := pokeBytes (poke (poke g.buffer g.ptr ND_OPT_SOURCE_LINKADDR) (g.ptr + 1)
            SLLA_OPT_LEN) (g.ptr + 2) ETH_ALEN a,
          sllaopt := g.ptr, ptr := g.ptr + 8 } : Globals) = g1 at hg1
      obtain ⟨m, i1, i2, i3, i4, i5⟩ := ih g1 ((la + 1) % U32) true (by omega)
      refine ⟨m + 1, by simp only [List.length_cons]; omega, by rw [i2, hg1]; omega, ?_, ?_, ?_⟩
      · intro hlt
        have e : (la + 1) % U32 = la + 1 := Nat.mod_eq_of_lt (by omega)
        rw [e] at i3 ⊢
        rw [i3 (by omega)]
        omega
      · rw [i4]; simp
      · intro _
        rcases Nat.eq_zero_or_pos m with h0 | hpos
        · subst h0; omega
        · have := i5 hpos
          rw [hg1] at this
          omega
    · exact ⟨0, Nat.zero_le _, rfl, fun _ => rfl, by simp, fun h => absurd h (by omega)⟩

theorem clipNfrags_ge (FBS : Nat) (g : Globals) (hroom : g.fragpart + FRAG_HDR_SIZE ≤ FBS)
    (h8 : 8 ≤ g.nfrags) : 8 ≤ clipNfrags FBS g := by
  unfold clipNfrags
  simp only [FRAG_HDR_SIZE] at hroom
  split <;> omega

theorem linkRound_total (cks : List Nat → List Nat → List Nat → Nat → Nat) (orc : Oracle)
    (FBS : Nat) (idata : IfaceData) (L : List (List Nat)) (sop ns fp : Nat)
    (hlen : L.length < U32)
    (hfp : idata.linkhsize + 40 ≤ fp) (hns : fp ≤ ns) (hsop : ns + 24 ≤ sop)
    (hsopmax : sop ≤ idata.linkhsize + idata.max_packet_size)
    (hfrag : idata.fragh_f = true →
      fp + FRAG_HDR_SIZE ≤ FBS ∧ idata.max_packet_size ≤ 65575 ∧ (sop - fp) % 8 = 0)
    (sources targets la : Nat) (s : SendSt) (hla : la ≤ L.length)
    (hi : LinkInv idata L sop ns fp s) :
    ∃ x s1 m, linkRound cks orc FBS idata sources targets la s =
        .ok (([x], s1), la + m, decide (0 < m)) ∧
      la + m ≤ L.length ∧ x.datagram.len = sop + 8 * m ∧
      x.datagram.len ≤ idata.linkhsize + idata.max_packet_size ∧
      x.sources = sources ∧ x.targets = targets ∧
      (idata.fragh_f = false → ∃ f, x.frames = [f] ∧ f.len = x.datagram.len) ∧
      (idata.fragh_f = true → ∃ buf nf fb, 8 ≤ nf ∧
        FragsSpec idata.linkhsize buf fp x.datagram.len fp (fp + FRAG_HDR_SIZE) nf fp true fb
          x.frames) ∧
      LinkInv idata L sop ns fp s1 := by
  obtain ⟨i1, i2, i3, i4, i5⟩ := hi
  rw [linkRound_eq]
  have q0 : ({ s.g with ptr := s.g.startofprefixes } : Globals).ptr = sop := i2
  have q1 : ({ s.g with ptr := s.g.startofprefixes } : Globals).ns = ns := i3
  have q2 : ({ s.g with ptr := s.g.startofprefixes } : Globals).fragpart = fp := i4
  have q3 : ({ s.g with ptr := s.g.startofprefixes } : Globals).nfrags = s.g.nfrags := rfl
  have q4 : ({ s.g with ptr := s.g.startofprefixes } : Globals).linkaddr = L := i1
  have q5 : ({ s.g with ptr := s.g.startofprefixes } : Globals).startofprefixes = sop := i2
  generalize ({ s.g with ptr := s.g.startofprefixes } : Globals) = g0 at q0 q1 q2 q3 q4 q5 ⊢
  rw [i1]
  obtain ⟨m, m1, m2, m3, m4, m5⟩ := fillOptions_count idata (L.drop la) g0 la false (by omega)
  obtain ⟨e1, e2, e3, e4, _, _, _⟩ := fillOptions_effect idata (L.drop la) g0 la false
  obtain ⟨b1, _⟩ := fillOptions_bound idata (L.drop la) g0 la false
  have hdl : (L.drop la).length = L.length - la := List.length_drop la L
  rw [q0] at m2 m5
  have hmax : sop + 8 * m ≤ idata.linkhsize + idata.max_packet_size := by
    rcases Nat.eq_zero_or_pos m with h0 | hpos
    · subst h0; omega
    · exact m5 hpos
  rw [m3 (by omega), m4]
  simp only [Bool.false_or]
  generalize fillOptions idata (L.drop la) g0 la false = F at m2 e1 e2 e3 e4 b1 ⊢
  obtain ⟨out, s1, hsd⟩ := sendDatagram_returns cks orc FBS idata sources targets
    { s with g := F.1 } (by
      intro hc
      obtain ⟨a, b, c⟩ := hfrag hc
      refine ⟨?_, ?_, ?_⟩
      · show F.1.fragpart + _ ≤ _
        rw [e2, q2]; exact a
      · show 8 ≤ F.1.nfrags
        rw [b1, q3]; exact i5 hc
      · show F.1.ptr - F.1.fragpart ≤ _
        rw [e2, q2, m2]; omega)
  rw [hsd]
  obtain ⟨x, hx, hd, hxs, hxt, hcase⟩ :=
    sendDatagram_ok cks orc FBS idata sources targets _ out s1 hsd
  subst hx
  have hxl : x.datagram.len = sop + 8 * m := by rw [hd]; exact m2
  refine ⟨x, s1, m, rfl, by omega, hxl, by omega, hxs, hxt, ?_, ?_, ?_⟩
  · intro hf
    rcases hcase with ⟨_, hfr, _⟩ | ⟨hf2, _⟩
    · exact ⟨_, hfr, by rw [hd]⟩
    · rw [hf] at hf2; cases hf2
  · intro hf
    rcases hcase with ⟨hf2, _⟩ | ⟨_, g1, hfpath, _⟩
    · rw [hf] at hf2; cases hf2
    · obtain ⟨p1, p2, _⟩ := fragment_path_ok FBS idata _ _ _ _ hfpath
      obtain ⟨a, _, _⟩ := hfrag hf
      have hfp2 : ({ F.1 with buffer := storeChecksum cks idata F.1 } : Globals).fragpart = fp :=
        e2.trans q2
      have hptr2 : ({ F.1 with buffer := storeChecksum cks idata F.1 } : Globals).ptr =
          x.datagram.len := by rw [hd]
      have hnf2 : ({ F.1 with buffer := storeChecksum cks idata F.1 } : Globals).nfrags =
          s.g.nfrags := b1.trans q3
      have hge := clipNfrags_ge FBS ({ F.1 with buffer := storeChecksum cks idata F.1 } : Globals)
        (by rw [hfp2]; exact a) (by rw [hnf2]; exact i5 hf)
      generalize ({ F.1 with buffer := storeChecksum cks idata F.1 } : Globals) = G
        at p2 hfp2 hptr2 hge
      rw [hfp2, hptr2] at p2
      exact ⟨_, _, _, hge, p2⟩
  · rcases hcase with ⟨hf, _, hs1⟩ | ⟨hf, g1, hfpath, hs1⟩
    · subst hs1
      exact ⟨e4.trans q4, e3.trans q5, e1.trans q1, e2.trans q2,
        fun hc => by rw [hf] at hc; cases hc⟩
    · subst hs1
      obtain ⟨fb, nf, p, hg1⟩ := fragment_path_globals FBS idata _ _ _ _ hfpath
      obtain ⟨_, _, p3⟩ := fragment_path_ok FBS idata _ _ _ _ hfpath
      obtain ⟨a, _, _⟩ := hfrag hf
      have hge := clipNfrags_ge FBS ({ F.1 with buffer := storeChecksum cks idata F.1 } : Globals)
        (by show F.1.fragpart + _ ≤ _; rw [e2, q2]; exact a)
        (by show 8 ≤ F.1.nfrags; rw [b1, q3]; exact i5 hf)
      refine ⟨?_, ?_, ?_, ?_, fun _ => ?_⟩
      · show g1.linkaddr = L
        rw [hg1]; exact e4.trans q4
      · show g1.startofprefixes = sop
        rw [hg1]; exact e3.trans q5
      · show g1.ns = ns
        rw [hg1]; exact e1.trans q1
      · show g1.fragpart = fp
        rw [hg1]; exact e2.trans q2
      · show 8 ≤ g1.nfrags
        rw [p3]; exact hge

theorem doWhile_total {σ : Type} (body : Nat → σ → Except Stop (List Sent × σ)) (limit : Nat)
    (Inv : σ → Prop) (P : Sent → Prop) (hlim : limit < U32)
    (hbody : ∀ i s, Inv s → ∃ out s1, body i s = .ok (out, s1) ∧ out ≠ [] ∧
      (∀ x ∈ out, P x) ∧ Inv s1) :
    ∀ fuel i s, Inv s → i ≤ limit → i + 1 < U32 → limit - i < fuel →
      ∃ out s1, doWhile body limit fuel i s = .ok (out, s1) ∧ out ≠ [] ∧
        (∀ x ∈ out, P x) ∧ Inv s1 := by
  intro fuel
  induction fuel with
  | zero => intro i s _ _ _ h; omega
  | succ fuel ih =>
    intro i s hinv hi hu hfuel
    obtain ⟨o1, t1, hb, hne, hp, hi1⟩ := hbody i s hinv
    have hmod : (i + 1) % U32 = i + 1 := Nat.mod_eq_of_lt hu
    by_cases hc : i + 1 < limit
    · obtain ⟨o2, t2, hr, _, hp2, hi2⟩ := ih (i + 1) t1 hi1 (by omega) (by omega) (by omega)
      refine ⟨o1 ++ o2, t2, ?_, by simp [hne], ?_, hi2⟩
      · rw [doWhile_succ, hb]
        simp only [hmod]
        rw [if_pos hc, hr]
      · intro x hx
        rcases List.mem_append.mp hx with h | h
        · exact hp x h
        · exact hp2 x h
    · rw [doWhile_once body limit fuel i s (by rw [hmod]; exact hc)]
      exact ⟨o1, t1, hb, hne, hp, hi1⟩

theorem linkLoop_total (cks : List Nat → List Nat → List Nat → Nat → Nat) (orc : Oracle)
    (FBS : Nat) (idata : IfaceData) (L : List (List Nat)) (Inv : SendSt → Prop)
    (P : Sent → Prop) (sources targets : Nat)
    (hround : ∀ la s, Inv s → la ≤ L.length →
      ∃ x s1 m, linkRound cks orc FBS idata sources targets la s =
          .ok (([x], s1), la + m, decide (0 < m)) ∧
        la + m ≤ L.length ∧ P x ∧ Inv s1)
    (hL : ∀ s, Inv s → s.g.linkaddr = L) :
    ∀ fuel la s, Inv s → la ≤ L.length → L.length - la < fuel →
      ∃ out s1, linkLoop cks orc FBS idata sources targets fuel la s = .ok (out, s1) ∧
        out ≠ [] ∧ (∀ x ∈ out, P x) ∧ Inv s1 := by
  intro fuel
  induction fuel with
  | zero => intro la s _ _ h; omega
  | succ fuel ih =>
    intro la s hinv hla hfuel
    obtain ⟨x, s1, m, hr, hm, hp, hi1⟩ := hround la s hinv hla
    rw [linkLoop_succ, hr]
    dsimp only
    rw [hL s1 hi1]
    by_cases hc : la + m < L.length ∧ decide (0 < m) = true
    · rw [if_pos hc]
      have hpos : 0 < m := of_decide_eq_true hc.2
      obtain ⟨o2, s2, hr2, _, hp2, hi2⟩ := ih (la + m) s1 hi1 hm (by omega)
      rw [hr2]
      refine ⟨[x] ++ o2, s2, rfl, by simp, ?_, hi2⟩
      intro y hy
      rcases List.mem_append.mp hy with h | h
      · rw [List.mem_singleton.mp h]; exact hp
      · exact hp2 y h
    · rw [if_neg hc]
      refine ⟨[x], s1, rfl, by simp, ?_, hi1⟩
      intro y hy
      rw [List.mem_singleton.mp hy]; exact hp

theorem send_packet_total (cks : List Nat → List Nat → List Nat → Nat → Nat) (orc : Oracle)
    (FBS : Nat) (idata : IfaceData) (fl : FloodVars) (L : List (List Nat)) (Inv : SendSt → Prop)
    (P : Sent → Prop)
    (hround : ∀ sources targets la s, Inv s → la ≤ L.length →
      ∃ x s1 m, linkRound cks orc FBS idata sources targets la s =
          .ok (([x], s1), la + m, decide (0 < m)) ∧
        la + m ≤ L.length ∧ P x ∧ Inv s1)
    (hL : ∀ s, Inv s → s.g.linkaddr = L)
    (hrt : ∀ s, Inv s → Inv (randomizeTarget orc fl s))
    (hsrc : ∀ s, Inv s → Inv (floodSource orc idata fl s))
    (hns : fl.nsources < U32) (hnt : fl.ntargets < U32)
    (st : SendSt) (hinv : Inv st) :
    ∃ out st1, send_packet cks orc FBS idata fl st = .ok (out, st1) ∧ out ≠ [] ∧
      (∀ x ∈ out, P x) ∧ Inv st1 := by
  have hU : (1 : Nat) < U32 := by unfold U32; omega
  have htarget : ∀ sources targets s, Inv s →
      ∃ out s1, targetBody cks orc FBS idata fl fl.floodt_f sources targets s = .ok (out, s1) ∧
        out ≠ [] ∧ (∀ x ∈ out, P x) ∧ Inv s1 := by
    intro sources targets s hs
    unfold targetBody
    dsimp only
    have h1 : Inv (if fl.floodt_f = true then randomizeTarget orc fl s else s) := by
      split
      · exact hrt s hs
      · exact hs
    generalize (if fl.floodt_f = true then randomizeTarget orc fl s else s) = s1 at h1
    have hl := hL s1 h1
    rw [hl]
    apply linkLoop_total cks orc FBS idata L Inv P sources targets
      (hround sources targets) hL _ _ s1 h1
    · split <;> omega
    · split <;> omega
  have hsource : ∀ sources s, Inv s →
      ∃ out s1, sourceBody cks orc FBS idata fl sources s = .ok (out, s1) ∧
        out ≠ [] ∧ (∀ x ∈ out, P x) ∧ Inv s1 := by
    intro sources s hs
    unfold sourceBody
    exact doWhile_total _ fl.ntargets Inv P hnt (fun i s hi => htarget sources i s hi)
      (fl.ntargets + 1) 0 _ (hsrc s hs) (Nat.zero_le _) hU (by omega)
  unfold send_packet
  exact doWhile_total _ fl.nsources Inv P hns (fun i s hi => hsource i s hi)
    (fl.nsources + 1) 0 st hinv (Nat.zero_le _) hU (by omega)

theorem randomizeTarget_linkInv (orc : Oracle) (idata : IfaceData) (fl : FloodVars)
    (L : List (List Nat)) (sop ns fp : Nat) (s : SendSt) (h : LinkInv idata L sop ns fp s) :
    LinkInv idata L sop ns fp (randomizeTarget orc fl s) := h

theorem floodSource_linkInv (orc : Oracle) (idata : IfaceData) (fl : FloodVars)
    (L : List (List Nat)) (sop ns fp : Nat) (s : SendSt) (h : LinkInv idata L sop ns fp s) :
    LinkInv idata L sop ns fp (floodSource orc idata fl s) := by
  obtain ⟨b, hb⟩ := floodSource_g orc idata fl s
  unfold LinkInv
  rw [hb]
  exact h

/-! ## The fragmentable part -/

theorem initFragHdr_ptr (idata : IfaceData) (g g1 : Globals) (h : initFragHdr idata g = .ok g1) :
    g1.ptr = g.ptr ∧ SameConfig g g1 := by
  have h0 := initFragHdr_low 0 idata g g1 h (Nat.zero_le _) (fun _ _ => Nat.zero_le _)
  refine ⟨?_, h0.2.2.2⟩
  unfold initFragHdr at h
  split at h
  · split at h
    · cases h
    · simp only [Except.ok.injEq] at h
      subst h
      show (storeNh _ _).ptr = _
      rw [storeNh_ptr]
  · simp only [Except.ok.injEq] at h
    subst h
    rfl

theorem initNS_sop (idata : IfaceData) (g g1 : Globals) (h : initNS idata g = .ok g1) :
    g1.startofprefixes = g1.ns + sizeof_nd_neighbor_solicit +
      (if g.sllopt_f = true ∧ g.linkaddr.length = 1 then sizeof_nd_opt_slla else 0) := by
  unfold initNS at h
  have hcfg := storeNh_config g IPPROTO_ICMPV6
  generalize storeNh g IPPROTO_ICMPV6 = s at h hcfg
  obtain ⟨_, _, _, _, _, c6, c7, _, _, _⟩ := hcfg
  rw [← c6, ← c7]
  simp only at h
  split at h
  · cases h
  · split at h
    · rename_i hc
      split at h
      · simp only [Except.ok.injEq] at h
        subst h
        rw [if_pos hc]
      · cases h
    · rename_i hc
      simp only [Except.ok.injEq] at h
      subst h
      rw [if_neg hc]
      rfl

theorem init_packet_data_fragmentable (idata : IfaceData) (g g1 : Globals)
    (h : init_packet_data idata g = .ok g1) :
    g1.ns = g1.fragpart + totalLen (activeHdrs g.dstopt) ∧
    g1.startofprefixes = g1.ns + sizeof_nd_neighbor_solicit +
      (if g.sllopt_f = true ∧ g.linkaddr.length = 1 then sizeof_nd_opt_slla else 0) ∧
    g1.linkaddr = g.linkaddr := by
  obtain ⟨ga, gb, gc, gd, h1, h2, h3, h4, h5⟩ := init_packet_data_stages idata g g1 h
  have c0 : SameConfig g (initIPv6Header idata g) := by simp [SameConfig, initIPv6Header]
  obtain ⟨_, _, ca⟩ := appendHdrs_simple _ _ _ _ _ h1
  obtain ⟨_, _, cb⟩ := appendHdrs_simple _ _ _ _ _ h2
  obtain ⟨pc, cc⟩ := initFragHdr_ptr idata _ gc h3
  obtain ⟨pd, _, cd⟩ := appendHdrs_simple _ _ _ _ _ h4
  obtain ⟨_, _, _, e4, _, _, _, _, ce⟩ := initNS_effect idata gd g1 h5
  have hsop := initNS_sop idata gd g1 h5
  obtain ⟨_, _, a3, _, _, a6, a7, _, _, _⟩ := (c0.trans ca).trans cb
  obtain ⟨_, _, b3, _, _, b6, b7, _, _, b10⟩ := cc
  obtain ⟨_, _, _, _, _, d6, d7, _, _, d10⟩ := cd
  obtain ⟨_, _, _, _, _, f6, _, _, _, f10⟩ := ce
  have hdo : gc.dstopt = g.dstopt := b3.trans a3
  have hla : gd.linkaddr = g.linkaddr := d6.trans (b6.trans a6)
  have hsl : gd.sllopt_f = g.sllopt_f := d7.trans (b7.trans a7)
  have hfp : g1.fragpart = gc.ptr := by
    rw [f10, d10, b10, pc]
  rw [hla, hsl] at hsop
  refine ⟨?_, hsop, f6.trans hla⟩
  rw [e4, pd, hfp, hdo]

theorem roundHdrlen_mult8 (n : Nat) : roundHdrlen n % 8 = 0 := by
  unfold roundHdrlen U32
  omega

theorem ext_hdr_option_mult8 (max : Nat) (junk : Mem) (c c1 : HdrClass) (L : Int)
    (hc : ∀ e ∈ c.hdrs, e.len % 8 = 0) (h : ext_hdr_option max junk c L = .ok c1) :
    ∀ e ∈ c1.hdrs, e.len % 8 = 0 := by
  obtain ⟨h1, h2, _⟩ := ext_hdr_option_grows max junk c c1 L h
  obtain ⟨m, hm⟩ := ext_hdr_option_returns max junk c L h1 h2
  rw [hm] at h
  simp only [Except.ok.injEq] at h
  subst h
  intro e he
  rcases List.mem_append.mp he with h | h
  · exact hc e h
  · rw [List.mem_singleton.mp h]
    exact roundHdrlen_mult8 _

theorem ext_option_mult8 (lim : ExtLimits) (junk : Mem) (g g1 : Globals) (o : ExtOpt)
    (inv : DstOptLensMult8 g) (h : ext_option lim junk g o = .ok g1) : DstOptLensMult8 g1 := by
  cases o with
  | u n =>
    simp only [ext_option] at h
    split at h
    · cases h
    · rename_i c hc
      simp only [Except.ok.injEq] at h
      subst h
      exact ext_hdr_option_mult8 _ _ _ _ _ inv hc
  | U n =>
    simp only [ext_option] at h
    split at h
    · cases h
    · simp only [Except.ok.injEq] at h
      subst h
      exact inv
  | H n =>
    simp only [ext_option] at h
    split at h
    · cases h
    · simp only [Except.ok.injEq] at h
      subst h
      exact inv

theorem ext_options_mult8 (lim : ExtLimits) (junk : Nat → Mem) :
    ∀ (opts : List ExtOpt) (k : Nat) (g g1 : Globals), DstOptLensMult8 g →
      ext_options lim junk opts k g = .ok g1 → DstOptLensMult8 g1 := by
  intro opts
  induction opts with
  | nil =>
    intro k g g1 inv h
    simp only [ext_options, Except.ok.injEq] at h
    subst h
    exact inv
  | cons o rest ih =>
    intro k g g1 inv h
    simp only [ext_options] at h
    split at h
    · cases h
    · rename_i g2 h2
      exact ih (k + 1) g2 g1 (ext_option_mult8 lim (junk k) g g2 o inv h2) h

theorem totalLen_mult8 : ∀ (hs : List ExtHdr), (∀ e ∈ hs, e.len % 8 = 0) → totalLen hs % 8 = 0 := by
  intro hs
  induction hs with
  | nil => intro _; rfl
  | cons e rest ih =>
    intro h
    have h1 := h e (List.mem_cons_self _ _)
    have h2 := ih (fun x hx => h x (List.mem_cons_of_mem _ hx))
    simp only [totalLen]
    omega

theorem activeHdrs_mult8 (g : Globals) (h : DstOptLensMult8 g) :
    ∀ e ∈ activeHdrs g.dstopt, e.len % 8 = 0 := by
  intro e he
  unfold activeHdrs at he
  split at he
  · exact h e he
  · cases he

theorem FragsSpec_within (lh : Nat) (buf : Mem) (fp pe nf : Nat) :
    ∀ (frames : List Frame) (ptr : Nat) (more : Bool) (fb : Mem), ptr ≤ pe →
      (pe - ptr) % 8 = 0 →
      FragsSpec lh buf fp pe fp (fp + FRAG_HDR_SIZE) nf ptr more fb frames →
      ChunksWithin (pe - ptr) (frames.map (fun f => f.chunkLen fp)) := by
  intro frames
  induction frames with
  | nil => intro _ _ _ _ _ _; exact True.intro
  | cons f rest ih =>
    intro ptr more fb hle hmod h
    rw [FragsSpec_cons] at h
    obtain ⟨⟨hlt, _⟩, hf, hrest⟩ := h
    have hc : f.chunkLen fp = (if pe - ptr ≤ nf then pe - ptr else roundFragSize nf) := by
      rw [hf]; exact roundFrame_chunkLen _ _ _ _ _ _ _ _
    have hr := roundFragSize_eq nf
    simp only [List.map_cons, ChunksWithin]
    rw [hc]
    by_cases hl : pe - ptr ≤ nf
    · rw [if_pos hl] at hrest ⊢
      refine ⟨by omega, hmod, Nat.le_refl _, ?_⟩
      have := ih (ptr + (pe - ptr)) _ _ (by omega) (by omega) hrest
      have e : pe - (ptr + (pe - ptr)) = pe - ptr - (pe - ptr) := by omega
      rw [e] at this
      exact this
    · rw [if_neg hl] at hrest ⊢
      have hcle : roundFragSize nf ≤ pe - ptr := by rw [hr]; omega
      have hc8 : roundFragSize nf % 8 = 0 := by rw [hr]; omega
      refine ⟨by omega, hmod, hcle, ?_⟩
      have := ih (ptr + roundFragSize nf) _ _ (by omega) (by omega) hrest
      have e : pe - (ptr + roundFragSize nf) = pe - ptr - roundFragSize nf := by omega
      rw [e] at this
      exact this

theorem FragsSpec_progress (lh : Nat) (buf : Mem) (fp pe nf : Nat) (hv6 : lh + 6 ≤ fp)
    (h8 : 8 ≤ nf) :
    ∀ (frames : List Frame) (ptr : Nat) (more : Bool) (fb : Mem), pe - ptr ≤ 65528 →
      FragsSpec lh buf fp pe fp (fp + FRAG_HDR_SIZE) nf ptr more fb frames →
      ∀ f ∈ frames, f.moreFrag fp = false ∨ 8 ≤ f.chunkLen fp := by
  intro frames
  induction frames with
  | nil => intro _ _ _ _ _ f hf; cases hf
  | cons f rest ih =>
    intro ptr more fb hS h x hx
    rw [FragsSpec_cons] at h
    obtain ⟨_, hf, hrest⟩ := h
    rcases List.mem_cons.mp hx with hx | hx
    · subst hx
      by_cases hl : pe - ptr ≤ nf
      · left
        rw [hf, roundFrame_moreFrag _ _ _ _ _ _ _ _ hv6]
        simp [hl]
      · right
        rw [hf, roundFrame_chunkLen, if_neg hl]
        exact (roundFragSize_pos nf h8 (by omega)).1
    · exact ih _ _ _ (by omega) hrest x hx

/-! ## C34: send_packet terminates -/

/-- C34.  send_packet returns after finitely many injections for every number
of sources and of targets that an `unsigned int` holds (in particular for
`nsources >= 1` and `ntargets >= 1`), every number of link-layer addresses
and, with fragmentation, every fragment size `nfrags >= 8`, on a template as
init_packet_data leaves it (the layout of the pointers, the options starting
within `max_packet_size`, a fragmentable part that is a multiple of 8 and a
`max_packet_size` of at most 65575, the Fragment Header fitting `fragbuffer`).
It sends at least one datagram, every datagram is injected as at least one
frame, and every round of the fragment loop either clears the more-fragments
flag or carries at least 8 bytes.  Whenever a round of the loop over the
link-layer addresses is followed by another one (`linkaddrs < nlinkaddr` and
`newdata_f` set), `linkaddrs` has grown in that round. -/
theorem send_packet_terminates (cks : List Nat → List Nat → List Nat → Nat → Nat)
    (orc : Oracle) (FBS : Nat) (idata : IfaceData) (fl : FloodVars) (st : SendSt)
    (hlay : Layout idata st.g)
    (hsop : st.g.startofprefixes ≤ idata.linkhsize + idata.max_packet_size)
    (hns : fl.nsources < U32) (hnt : fl.ntargets < U32) (hla : st.g.linkaddr.length < U32)
    (hfrag : idata.fragh_f = true →
      8 ≤ st.g.nfrags ∧ st.g.fragpart + FRAG_HDR_SIZE ≤ FBS ∧
      idata.max_packet_size ≤ 65575 ∧ (st.g.startofprefixes - st.g.fragpart) % 8 = 0) :
    (∃ out st1, send_packet cks orc FBS idata fl st = .ok (out, st1) ∧ out ≠ [] ∧
      ∀ x ∈ out, x.frames ≠ [] ∧
        (idata.fragh_f = true → ∀ f ∈ x.frames,
          f.moreFrag st.g.fragpart = false ∨ 8 ≤ f.chunkLen st.g.fragpart)) ∧
    (∀ sources targets la s out s1 la1 nd,
      LinkInv idata st.g.linkaddr st.g.startofprefixes st.g.ns st.g.fragpart s →
      la ≤ st.g.linkaddr.length →
      linkRound cks orc FBS idata sources targets la s = .ok ((out, s1), la1, nd) →
      la1 < s1.g.linkaddr.length → nd = true → la < la1) := by
  obtain ⟨l1, l2, l3, _⟩ := hlay
  simp only [MIN_IPV6_HLEN, sizeof_nd_neighbor_solicit] at l1 l3
  have hround := fun sources targets la s hla2 hi =>
    linkRound_total cks orc FBS idata st.g.linkaddr st.g.startofprefixes st.g.ns st.g.fragpart
      hla l1 l2 l3 hsop (fun hc => ⟨(hfrag hc).2.1, (hfrag hc).2.2.1, (hfrag hc).2.2.2⟩)
      sources targets la s hla2 hi
  refine ⟨?_, ?_⟩
  · suffices hsuff : ∃ out st1, send_packet cks orc FBS idata fl st = .ok (out, st1) ∧ out ≠ [] ∧
        (∀ x ∈ out, x.frames ≠ [] ∧
          (idata.fragh_f = true → ∀ f ∈ x.frames,
            f.moreFrag st.g.fragpart = false ∨ 8 ≤ f.chunkLen st.g.fragpart)) ∧
        LinkInv idata st.g.linkaddr st.g.startofprefixes st.g.ns st.g.fragpart st1 by
      obtain ⟨out, st1, a, b, c, _⟩ := hsuff
      exact ⟨out, st1, a, b, c⟩
    refine send_packet_total cks orc FBS idata fl st.g.linkaddr
      (LinkInv idata st.g.linkaddr st.g.startofprefixes st.g.ns st.g.fragpart)
      (fun x => x.frames ≠ [] ∧
        (idata.fragh_f = true → ∀ f ∈ x.frames,
          f.moreFrag st.g.fragpart = false ∨ 8 ≤ f.chunkLen st.g.fragpart))
      ?_ (fun s hs => hs.1)
      (fun s hs => randomizeTarget_linkInv orc idata fl _ _ _ _ s hs)
      (fun s hs => floodSource_linkInv orc idata fl _ _ _ _ s hs)
      hns hnt st ⟨rfl, rfl, rfl, rfl, fun hc => (hfrag hc).1⟩
    intro sources targets la s hs hla2
    obtain ⟨x, s1, m, hr, hm, hlen, hmax, _, _, hplain, hfr, hi1⟩ :=
      hround sources targets la s hla2 hs
    refine ⟨x, s1, m, hr, hm, ⟨?_, ?_⟩, hi1⟩
    · cases hc : idata.fragh_f with
      | false =>
        obtain ⟨f, hf, _⟩ := hplain hc
        rw [hf]; simp
      | true =>
        obtain ⟨buf, nf, fb, _, hspec⟩ := hfr hc
        intro he
        rw [he] at hspec
        exact hspec ⟨by omega, rfl⟩
    · intro hc f hf
      obtain ⟨buf, nf, fb, h8, hspec⟩ := hfr hc
      obtain ⟨_, _, hmps, hmod⟩ := hfrag hc
      exact FragsSpec_progress idata.linkhsize buf st.g.fragpart x.datagram.len nf (by omega) h8
        x.frames st.g.fragpart true fb (by omega) hspec f hf
  · intro sources targets la s out s1 la1 nd hs hla2 hr hlt hnd
    obtain ⟨x, s2, m, hr2, _, _, _, _, _, _, _, _⟩ := hround sources targets la s hla2 hs
    rw [hr2] at hr
    simp only [Except.ok.injEq, Prod.mk.injEq] at hr
    obtain ⟨_, h1, h2⟩ := hr
    rw [← h2] at hnd
    have := of_decide_eq_true hnd
    omega

theorem send_packet_terminates_witness :
    Layout ethFragTwoOptions (startSt (templ ethFragTwoOptions threeLinkaddrsFrag)).g ∧
    (∃ out st1, send_packet demoCks demoOracle demoFragBufferSize ethFragTwoOptions flood32
        (startSt (templ ethFragTwoOptions threeLinkaddrsFrag)) = .ok (out, st1) ∧ out ≠ [] ∧
      ∀ x ∈ out, x.frames ≠ [] ∧ ∀ f ∈ x.frames, f.moreFrag 54 = false ∨ 8 ≤ f.chunkLen 54) ∧
    (emitted (send_packet demoCks demoOracle demoFragBufferSize ethFragTwoOptions noFlood
        (startSt (templ ethFragTwoOptions threeLinkaddrsFrag)))).map
      (fun x => x.frames.map (fun f => (f.chunkLen 54, f.moreFrag 54))) =
      [[(8, true), (8, true), (8, true), (8, true), (8, false)],
       [(8, true), (8, true), (8, true), (8, false)]] := by
  have hl : Layout ethFragTwoOptions (startSt (templ ethFragTwoOptions threeLinkaddrsFrag)).g := by
    unfold Layout; decide
  obtain ⟨⟨out, st1, h, hne, hp⟩, _⟩ := send_packet_terminates demoCks demoOracle
    demoFragBufferSize ethFragTwoOptions flood32 (startSt (templ ethFragTwoOptions threeLinkaddrsFrag))
    hl (by decide) (by decide) (by decide) (by decide) (fun _ => by decide)
  exact ⟨hl, ⟨out, st1, h, hne, fun x hx => ⟨(hp x hx).1, (hp x hx).2 rfl⟩⟩, by decide⟩

/-! ## C35: no room for a link-layer address option -/

theorem doWhile_labels {σ : Type} (body : Nat → σ → Except Stop (List Sent × σ)) (limit : Nat)
    (Inv : σ → Prop) (P : Sent → Prop) (lbl : Nat → List (Nat × Nat)) (hlim : limit < U32)
    (hbody : ∀ i s, Inv s → ∃ out s1, body i s = .ok (out, s1) ∧ out.map Sent.label = lbl i ∧
      (∀ x ∈ out, P x) ∧ Inv s1) :
    ∀ n i fuel s, Inv s → i + n + 1 = limit → n < fuel →
      ∃ out s1, doWhile body limit fuel i s = .ok (out, s1) ∧
        out.map Sent.label = ((List.range' i (n + 1)).map lbl).flatten ∧
        (∀ x ∈ out, P x) ∧ Inv s1 := by
  intro n
  induction n with
  | zero =>
    intro i fuel s hinv hi hfuel
    obtain ⟨fuel, rfl⟩ : ∃ k, fuel = k + 1 := ⟨fuel - 1, by omega⟩
    obtain ⟨out, s1, hb, hl, hf, hi1⟩ := hbody i s hinv
    have hmod : (i + 1) % U32 = i + 1 := Nat.mod_eq_of_lt (by omega)
    rw [doWhile_once body limit fuel i s (by rw [hmod]; omega)]
    exact ⟨out, s1, hb, by simp [hl], hf, hi1⟩
  | succ n ih =>
    intro i fuel s hinv hi hfuel
    obtain ⟨fuel, rfl⟩ : ∃ k, fuel = k + 1 := ⟨fuel - 1, by omega⟩
    obtain ⟨o1, t1, hb, hl, hf, hi1⟩ := hbody i s hinv
    have hmod : (i + 1) % U32 = i + 1 := Nat.mod_eq_of_lt (by omega)
    obtain ⟨o2, t2, hr, hl2, hf2, hi2⟩ := ih (i + 1) fuel t1 hi1 (by omega) (by omega)
    refine ⟨o1 ++ o2, t2, ?_, ?_, ?_, hi2⟩
    · rw [doWhile_succ, hb]
      simp only [hmod]
      rw [if_pos (by omega), hr]
    · rw [List.map_append, hl, hl2, List.range'_succ i (n + 1)]
      simp
    · intro x hx
      rcases List.mem_append.mp hx with hx | hx
      · exact hf x hx
      · exact hf2 x hx

theorem targetBody_no_room (cks : List Nat → List Nat → List Nat → Nat → Nat) (orc : Oracle)
    (FBS : Nat) (idata : IfaceData) (fl : FloodVars) (rt : Bool) (L : List (List Nat))
    (sop ns fp : Nat) (h2 : 2 ≤ L.length) (hlen : L.length < U32)
    (hfp : idata.linkhsize + 40 ≤ fp) (hns : fp ≤ ns) (hsop : ns + 24 ≤ sop)
    (hsopmax : sop ≤ idata.linkhsize + idata.max_packet_size)
    (hnoroom : idata.linkhsize + idata.max_packet_size < sop + sizeof_nd_opt_slla)
    (hfrag : idata.fragh_f = true →
      fp + FRAG_HDR_SIZE ≤ FBS ∧ idata.max_packet_size ≤ 65575 ∧ (sop - fp) % 8 = 0)
    (sources targets : Nat) (s : SendSt) (hi : LinkInv idata L sop ns fp s) :
    ∃ out s1, targetBody cks orc FBS idata fl rt sources targets s = .ok (out, s1) ∧
      out.map Sent.label = [(sources, targets)] ∧
      (∀ x ∈ out, x.datagram.len = sop ∧ optionsOf sop x.datagram = [] ∧ x.frames ≠ [] ∧
        (idata.fragh_f = false → ∃ f, x.frames = [f] ∧ f.len = sop)) ∧
      LinkInv idata L sop ns fp s1 := by
  unfold targetBody
  dsimp only
  have h1 : LinkInv idata L sop ns fp (if rt = true then randomizeTarget orc fl s else s) := by
    split
    · exact randomizeTarget_linkInv orc idata fl _ _ _ _ s hi
    · exact hi
  generalize (if rt = true then randomizeTarget orc fl s else s) = s0 at h1
  have hl : s0.g.linkaddr = L := h1.1
  rw [hl, if_neg (by omega)]
  obtain ⟨x, s1, m, hr, hm, hxl, hmax, hxs, hxt, hplain, hfr, hi1⟩ :=
    linkRound_total cks orc FBS idata L sop ns fp hlen hfp hns hsop hsopmax hfrag
      sources targets 0 s0 (Nat.zero_le _) h1
  simp only [sizeof_nd_opt_slla] at hnoroom
  have hm0 : m = 0 := by omega
  subst hm0
  rw [linkLoop_succ, hr]
  dsimp only
  rw [if_neg (by simp)]
  refine ⟨[x], s1, rfl, by simp [Sent.label, hxs, hxt], ?_, hi1⟩
  intro y hy
  rw [List.mem_singleton.mp hy]
  have hxl0 : x.datagram.len = sop := by omega
  refine ⟨hxl0, by simp [optionsOf, optionsAt, hxl0], ?_, ?_⟩
  · cases hc : idata.fragh_f with
    | false =>
      obtain ⟨f, hf, _⟩ := hplain hc
      rw [hf]; simp
    | true =>
      obtain ⟨buf, nf, fb, _, hspec⟩ := hfr hc
      intro he
      rw [he] at hspec
      exact hspec ⟨by omega, rfl⟩
  · intro hc
    obtain ⟨f, hf, hfl⟩ := hplain hc
    exact ⟨f, hf, by omega⟩

/-- C35.  With two or more configured link-layer addresses, on a template whose
options would start right behind the Neighbor Solicitation header, when
`max_packet_size` leaves no room for one 8-byte option there, send_packet
returns without an error and sends exactly one datagram for each pair of a
source and a target, in the order of the loops; each datagram ends with the
Neighbor Solicitation header, so it carries no link-layer address option and
none of the configured addresses, and without fragmentation it is injected as
one frame of that length. -/
theorem send_packet_no_room_for_option (cks : List Nat → List Nat → List Nat → Nat → Nat)
    (orc : Oracle) (FBS : Nat) (idata : IfaceData) (fl : FloodVars) (st : SendSt)
    (h2 : 2 ≤ st.g.linkaddr.length) (hla : st.g.linkaddr.length < U32)
    (hlay : Layout idata st.g)
    (hstart : st.g.startofprefixes = st.g.ns + sizeof_nd_neighbor_solicit)
    (hsop : st.g.startofprefixes ≤ idata.linkhsize + idata.max_packet_size)
    (hnoroom : idata.linkhsize + idata.max_packet_size <
      st.g.startofprefixes + sizeof_nd_opt_slla)
    (hns : 1 ≤ fl.nsources ∧ fl.nsources < U32) (hnt : 1 ≤ fl.ntargets ∧ fl.ntargets < U32)
    (hfrag : idata.fragh_f = true →
      8 ≤ st.g.nfrags ∧ st.g.fragpart + FRAG_HDR_SIZE ≤ FBS ∧
      idata.max_packet_size ≤ 65575 ∧ (st.g.startofprefixes - st.g.fragpart) % 8 = 0) :
    ∃ out st1, send_packet cks orc FBS idata fl st = .ok (out, st1) ∧
      out.map Sent.label = visitOrder fl.nsources fl.ntargets ∧
      out.length = fl.nsources * fl.ntargets ∧
      ∀ x ∈ out, x.datagram.len = st.g.ns + sizeof_nd_neighbor_solicit ∧
        optionsOf (st.g.ns + sizeof_nd_neighbor_solicit) x.datagram = [] ∧ x.frames ≠ [] ∧
        (idata.fragh_f = false →
          ∃ f, x.frames = [f] ∧ f.len = st.g.ns + sizeof_nd_neighbor_solicit) := by
  obtain ⟨l1, l2, l3, _⟩ := hlay
  simp only [MIN_IPV6_HLEN, sizeof_nd_neighbor_solicit] at l1 l3
  rw [← hstart]
  have htarget := fun sources targets s hi =>
    targetBody_no_room cks orc FBS idata fl fl.floodt_f st.g.linkaddr st.g.startofprefixes
      st.g.ns st.g.fragpart h2 hla l1 l2 l3 hsop hnoroom
      (fun hc => ⟨(hfrag hc).2.1, (hfrag hc).2.2.1, (hfrag hc).2.2.2⟩) sources targets s hi
  have hsource : ∀ sources s,
      LinkInv idata st.g.linkaddr st.g.startofprefixes st.g.ns st.g.fragpart s →
      ∃ out s1, sourceBody cks orc FBS idata fl sources s = .ok (out, s1) ∧
        out.map Sent.label = (List.range fl.ntargets).map (fun t => (sources, t)) ∧
        (∀ x ∈ out, x.datagram.len = st.g.startofprefixes ∧
          optionsOf st.g.startofprefixes x.datagram = [] ∧ x.frames ≠ [] ∧
          (idata.fragh_f = false → ∃ f, x.frames = [f] ∧ f.len = st.g.startofprefixes)) ∧
        LinkInv idata st.g.linkaddr st.g.startofprefixes st.g.ns st.g.fragpart s1 := by
    intro sources s hs
    unfold sourceBody
    obtain ⟨out, s1, h, hl, hp, hi⟩ := doWhile_labels
      (targetBody cks orc FBS idata fl fl.floodt_f sources) fl.ntargets
      (LinkInv idata st.g.linkaddr st.g.startofprefixes st.g.ns st.g.fragpart) _
      (fun t => [(sources, t)]) hnt.2
      (fun i s hi => htarget sources i s hi)
      (fl.ntargets - 1) 0 (fl.ntargets + 1) (floodSource orc idata fl s)
      (floodSource_linkInv orc idata fl _ _ _ _ s hs) (by omega) (by omega)
    refine ⟨out, s1, h, ?_, hp, hi⟩
    rw [hl, flatten_map_single, List.range_eq_range']
    congr 2
    omega
  unfold send_packet
  obtain ⟨out, s1, h, hl, hp, _⟩ := doWhile_labels (sourceBody cks orc FBS idata fl) fl.nsources
    (LinkInv idata st.g.linkaddr st.g.startofprefixes st.g.ns st.g.fragpart) _
    (fun s => (List.range fl.ntargets).map (fun t => (s, t))) hns.2
    (fun i s hi => hsource i s hi)
    (fl.nsources - 1) 0 (fl.nsources + 1) st ⟨rfl, rfl, rfl, rfl, fun hc => (hfrag hc).1⟩
    (by omega) (by omega)
  have hlab : out.map Sent.label = visitOrder fl.nsources fl.ntargets := by
    rw [hl]
    unfold visitOrder
    rw [List.range_eq_range' fl.nsources]
    congr 3
    omega
  refine ⟨out, s1, h, hlab, ?_, hp⟩
  rw [← List.length_map out Sent.label, hlab, visitOrder_length]

theorem send_packet_no_room_for_option_witness :
    Layout ethPlainFull (startSt (templ ethPlainFull twoLinkaddrs)).g ∧
    (startSt (templ ethPlainFull twoLinkaddrs)).g.ns = 54 ∧
    (∃ out st1, send_packet demoCks demoOracle demoFragBufferSize ethPlainFull flood32
        (startSt (templ ethPlainFull twoLinkaddrs)) = .ok (out, st1) ∧
      out.map Sent.label = [(0, 0), (0, 1), (1, 0), (1, 1), (2, 0), (2, 1)] ∧
      out.length = 6 ∧
      ∀ x ∈ out, x.datagram.len = 78 ∧ optionsOf 78 x.datagram = [] ∧
        ∃ f, x.frames = [f] ∧ f.len = 78) ∧
    (emitted (send_packet demoCks demoOracle demoFragBufferSize ethFragFull noFlood
        (startSt (templ ethFragFull twoLinkaddrs)))).map
      (fun x => (x.datagram.len, x.frames.map (fun f => f.chunkLen 54))) =
      [(78, [8, 8, 8])] := by
  have hl : Layout ethPlainFull (startSt (templ ethPlainFull twoLinkaddrs)).g := by
    unfold Layout; decide
  obtain ⟨out, st1, h, a, b, c⟩ := send_packet_no_room_for_option demoCks demoOracle
    demoFragBufferSize ethPlainFull flood32 (startSt (templ ethPlainFull twoLinkaddrs))
    (by decide) (by decide) hl (by decide) (by decide) (by decide) (by decide) (by decide)
    (fun hc => by cases hc)
  exact ⟨hl, by decide, ⟨out, st1, h, a, b,
    fun x hx => ⟨(c x hx).1, (c x hx).2.1, (c x hx).2.2.2 rfl⟩⟩, by decide⟩

/-! ## C31: the length of the fragmentable part -/

/-- C31.  For a configuration whose fragmentable Destination Options headers
were recorded by the option `-u` (each length is then a multiple of 8), on a
template built by init_packet_data with fragmentation, send_packet returns,
and for every datagram it hands to the fragment loop the part from `fragpart`
to the end of the last option has a length that is the sum of the lengths of
the fragmentable Destination Options headers, the 24 bytes of the Neighbor
Solicitation header and 8 bytes for each option record behind it; this length
is positive and a multiple of 8.  At the start of every round of the fragment
loop the bytes not yet sent are a positive multiple of 8, and the round copies
no more bytes than those. -/
theorem send_packet_fragmentable_part (cks : List Nat → List Nat → List Nat → Nat → Nat)
    (orc : Oracle) (FBS : Nat) (idata : IfaceData) (fl : FloodVars) (lim : ExtLimits)
    (junk : Nat → Mem) (opts : List ExtOpt) (k : Nat) (g0 g g1 : Globals) (st : SendSt)
    (h0 : DstOptLensMult8 g0)
    (hopts : ext_options lim junk opts k g0 = .ok g)
    (hinit : init_packet_data idata g = .ok g1) (hst : st.g = g1)
    (hf : idata.fragh_f = true) (h8 : 8 ≤ g.nfrags)
    (hroom : g1.fragpart + FRAG_HDR_SIZE ≤ FBS) (hmax : idata.max_packet_size ≤ 65575)
    (hns : fl.nsources < U32) (hnt : fl.ntargets < U32) (hla : g.linkaddr.length < U32) :
    (∀ e ∈ activeHdrs g.dstopt, e.len % 8 = 0) ∧
    ∃ out st1, send_packet cks orc FBS idata fl st = .ok (out, st1) ∧ out ≠ [] ∧
      ∀ x ∈ out,
        x.datagram.len - g1.fragpart =
          totalLen (activeHdrs g.dstopt) + sizeof_nd_neighbor_solicit +
            sizeof_nd_opt_slla *
              ((x.datagram.len - (g1.ns + sizeof_nd_neighbor_solicit)) / sizeof_nd_opt_slla) ∧
        0 < x.datagram.len - g1.fragpart ∧ (x.datagram.len - g1.fragpart) % 8 = 0 ∧
        ChunksWithin (x.datagram.len - g1.fragpart)
          (x.frames.map (fun f => f.chunkLen g1.fragpart)) := by
  have hm8 := activeHdrs_mult8 g (ext_options_mult8 lim junk opts k g0 g h0 hopts)
  have ht8 := totalLen_mult8 _ hm8
  refine ⟨hm8, ?_⟩
  obtain ⟨l1, l2, l3, _⟩ := init_packet_data_layout idata g g1 hinit
  obtain ⟨_, _, _, hsopmax, hnf⟩ := init_packet_data_bounds idata g g1 hinit
  obtain ⟨hns1, hstart, hlin⟩ := init_packet_data_fragmentable idata g g1 hinit
  simp only [MIN_IPV6_HLEN, sizeof_nd_neighbor_solicit, sizeof_nd_opt_slla] at l1 l3 hstart ⊢
  have hc : g1.startofprefixes = g1.ns + 24 ∨ g1.startofprefixes = g1.ns + 24 + 8 := by
    rw [hstart]
    split
    · exact Or.inr rfl
    · exact Or.inl rfl
  have hmod : (g1.startofprefixes - g1.fragpart) % 8 = 0 := by omega
  subst hst
  suffices hsuff : ∃ out st1, send_packet cks orc FBS idata fl st = .ok (out, st1) ∧ out ≠ [] ∧
      (∀ x ∈ out,
        x.datagram.len - st.g.fragpart =
          totalLen (activeHdrs g.dstopt) + 24 + 8 * ((x.datagram.len - (st.g.ns + 24)) / 8) ∧
        0 < x.datagram.len - st.g.fragpart ∧ (x.datagram.len - st.g.fragpart) % 8 = 0 ∧
        ChunksWithin (x.datagram.len - st.g.fragpart)
          (x.frames.map (fun f => f.chunkLen st.g.fragpart))) ∧
      LinkInv idata st.g.linkaddr st.g.startofprefixes st.g.ns st.g.fragpart st1 by
    obtain ⟨out, st1, a, b, c, _⟩ := hsuff
    exact ⟨out, st1, a, b, c⟩
  refine send_packet_total cks orc FBS idata fl st.g.linkaddr
    (LinkInv idata st.g.linkaddr st.g.startofprefixes st.g.ns st.g.fragpart) _
    ?_ (fun s hs => hs.1)
    (fun s hs => randomizeTarget_linkInv orc idata fl _ _ _ _ s hs)
    (fun s hs => floodSource_linkInv orc idata fl _ _ _ _ s hs)
    hns hnt st ⟨rfl, rfl, rfl, rfl, fun _ => by rw [hnf]; exact h8⟩
  intro sources targets la s hs hla2
  obtain ⟨x, s1, m, hr, hm, hlen, hmx, _, _, _, hfr, hi1⟩ :=
    linkRound_total cks orc FBS idata st.g.linkaddr st.g.startofprefixes st.g.ns st.g.fragpart
      (by rw [hlin]; exact hla) l1 l2 l3 hsopmax (fun _ => ⟨hroom, hmax, hmod⟩)
      sources targets la s hla2 hs
  obtain ⟨buf, nf, fb, _, hspec⟩ := hfr hf
  refine ⟨x, s1, m, hr, hm, ⟨by omega, by omega, by omega, ?_⟩, hi1⟩
  have hw := FragsSpec_within idata.linkhsize buf st.g.fragpart x.datagram.len nf x.frames
    st.g.fragpart true fb (by omega) (by omega) hspec
  exact hw

theorem send_packet_fragmentable_part_witness :
    ext_options demoExtLimits (fun _ _ => 0) [ExtOpt.u 13] 0 threeLinkaddrsOdd = .ok withDstOpt13 ∧
    init_packet_data ethFrag98 withDstOpt13 = .ok (templ ethFrag98 withDstOpt13) ∧
    (withDstOpt13.dstopt.hdrs.map (fun e => e.len) = [16] ∧
      (templ ethFrag98 withDstOpt13).fragpart = 54 ∧ (templ ethFrag98 withDstOpt13).ns = 70) ∧
    ((∀ e ∈ activeHdrs withDstOpt13.dstopt, e.len % 8 = 0) ∧
      ∃ out st1, send_packet demoCks demoOracle demoFragBufferSize ethFrag98 noFlood
          (startSt (templ ethFrag98 withDstOpt13)) = .ok (out, st1) ∧ out ≠ [] ∧
        ∀ x ∈ out,
          x.datagram.len - 54 = 16 + 24 + 8 * ((x.datagram.len - (70 + 24)) / 8) ∧
          0 < x.datagram.len - 54 ∧ (x.datagram.len - 54) % 8 = 0 ∧
          ChunksWithin (x.datagram.len - 54) (x.frames.map (fun f => f.chunkLen 54))) ∧
    (emitted (send_packet demoCks demoOracle demoFragBufferSize ethFrag98 noFlood
        (startSt (templ ethFrag98 withDstOpt13)))).map
      (fun x => (x.datagram.len - 54, x.frames.map (fun f => f.chunkLen 54))) =
      [(56, [24, 24, 8]), (48, [24, 24])] := by
  have hopts : ext_options demoExtLimits (fun _ _ => 0) [ExtOpt.u 13] 0 threeLinkaddrsOdd =
      .ok withDstOpt13 := by
    obtain ⟨v, hv⟩ := isOk_elim
      (ext_options demoExtLimits (fun _ _ => 0) [ExtOpt.u 13] 0 threeLinkaddrsOdd) (by decide)
    unfold withDstOpt13
    rw [hv]
  have hinit : init_packet_data ethFrag98 withDstOpt13 = .ok (templ ethFrag98 withDstOpt13) := by
    obtain ⟨v, hv⟩ := isOk_elim (init_packet_data ethFrag98 withDstOpt13) (by decide)
    unfold templ
    rw [hv]
  exact ⟨hopts, hinit, by decide,
    send_packet_fragmentable_part demoCks demoOracle demoFragBufferSize ethFrag98 noFlood
      demoExtLimits (fun _ _ => 0) [ExtOpt.u 13] 0 threeLinkaddrsOdd withDstOpt13
      (templ ethFrag98 withDstOpt13) (startSt (templ ethFrag98 withDstOpt13))
      (by unfold DstOptLensMult8; decide) hopts hinit rfl rfl (by decide) (by decide) (by decide)
      (by decide) (by decide) (by decide),
    by decide⟩

/-! ## Requested lengths that are negative -/

theorem toUInt_of_nonneg (L : Int) (h0 : 0 ≤ L) (h31 : L < 2147483648) :
    (toUInt L : Int) = L := by
  unfold toUInt
  have h1 : L % 4294967296 = L := Int.emod_eq_of_lt h0 (by omega)
  rw [h1]
  exact Int.toNat_of_nonneg h0

/-- C22 (as amended).  For each extension header class, with its limit `max`,
and a requested length `L` that is not negative (`atoi` gives an `int`): a
request is rejected with a fatal error exactly when the class already holds
`max` headers or `L` is below 8; every other request appends one blob with its
length to the tables, at the index of the old count, which is below `max`, so
that the count grows by one.  After any sequence of options, of any lengths,
that starts within the limits each count is at most its limit. -/
theorem ext_hdr_option_limit (max : Nat) (junk : Mem) (c : HdrClass) (L : Int)
    (h0 : 0 ≤ L) (h31 : L < 2147483648) :
    (ext_hdr_option max junk c L = .error .exitFailure ↔ (c.hdrs.length ≥ max ∨ L < 8)) ∧
    ((c.hdrs.length < max ∧ 8 ≤ L) →
      ∃ e, ext_hdr_option max junk c L = .ok { hdrs := c.hdrs ++ [e], flag := true } ∧
        (c.hdrs ++ [e]).length = c.hdrs.length + 1 ∧
        (c.hdrs ++ [e]).get? c.hdrs.length = some e ∧ e.len = e.size) ∧
    (∀ (lim : ExtLimits) (junks : Nat → Mem) (opts : List ExtOpt) (k : Nat) (g g1 : Globals),
      WithinExtLimits lim g → ext_options lim junks opts k g = .ok g1 → WithinExtLimits lim g1) := by
  have hu := toUInt_of_nonneg L h0 h31
  have hlt : toUInt L < 8 ↔ L < 8 := by omega
  refine ⟨⟨?_, ?_⟩, ?_, fun lim junks opts k g g1 inv h =>
    ext_options_within lim junks opts k g g1 inv h⟩
  · intro h
    by_contra hc
    obtain ⟨m, hm⟩ := ext_hdr_option_returns max junk c L (by omega) (by omega)
    rw [hm] at h
    cases h
  · intro h
    rcases h with h | h
    · exact ext_hdr_option_full max junk c L h
    · exact ext_hdr_option_short max junk c L (hlt.mpr h)
  · intro h
    obtain ⟨m, hm⟩ := ext_hdr_option_returns max junk c L h.1 (by omega)
    refine ⟨_, hm, by simp, ?_, rfl⟩
    simp

theorem ext_hdr_option_limit_witness :
    ((0 : Int) ≤ 16 ∧ (16 : Int) < 2147483648) ∧
    (ext_hdr_option 4 (fun _ => 0) { hdrs := [], flag := false } 16 = .error .exitFailure ↔
      (({ hdrs := [], flag := false } : HdrClass).hdrs.length ≥ 4 ∨ (16 : Int) < 8)) ∧
    ∃ e, ext_hdr_option 4 (fun _ => 0) { hdrs := [], flag := false } 16 =
        .ok { hdrs := [] ++ [e], flag := true } ∧
      ([] ++ [e]).length = ([] : List ExtHdr).length + 1 ∧
      ([] ++ [e]).get? ([] : List ExtHdr).length = some e ∧ e.len = e.size :=
  ⟨⟨by decide, by decide⟩,
   (ext_hdr_option_limit 4 (fun _ => 0) { hdrs := [], flag := false } 16
     (by decide) (by decide)).1,
   (ext_hdr_option_limit 4 (fun _ => 0) { hdrs := [], flag := false } 16
     (by decide) (by decide)).2.1 ⟨by decide, by decide⟩⟩

/-- C22 as stated fails for `-u 4` on an empty class: the class does not hold
its maximum, yet the request is rejected with a fatal error and no count
grows.  The rejection cannot be worded as a length below 8 for every length
either: `-u -1` on an empty class is accepted (the length is compared as an
`unsigned int`) and stores a header of length 0. -/
theorem ext_hdr_option_rejects_short_length :
    ({ hdrs := [], flag := false } : HdrClass).hdrs.length < 4 ∧
    ext_hdr_option 4 (fun _ => 0) { hdrs := [], flag := false } 4 = .error .exitFailure ∧
    (-1 : Int) < 8 ∧
    ∃ e, ext_hdr_option 4 (fun _ => 0) { hdrs := [], flag := false } (-1) =
        .ok { hdrs := [e], flag := true } ∧ e.len = 0 := by
  refine ⟨by decide, ext_hdr_option_short 4 (fun _ => 0) _ 4 (by decide), by decide, ?_⟩
  obtain ⟨m, hm⟩ := ext_hdr_option_returns 4 (fun _ => 0) { hdrs := [], flag := false } (-1)
    (by decide) (by decide)
  refine ⟨_, hm, ?_⟩
  show roundHdrlen (toUInt (-1)) = 0
  decide

theorem templ_of_isOk (idata : IfaceData) (g : Globals)
    (h : isOk (init_packet_data idata g) = true) :
    init_packet_data idata g = .ok (templ idata g) := by
  obtain ⟨v, hv⟩ := isOk_elim (init_packet_data idata g) h
  unfold templ
  rw [hv]

/-- C2 (failing input).  The option `-u -1` passes the test `hdrlen < 8`, which
compares an `unsigned int`, and records a fragmentable Destination Options
header of length 0.  init_packet_data succeeds on it: the header takes no room,
so its next-header byte is the first byte of the Neighbor Solicitation header
(offset 54), and the type 135 stored there replaces the 58 written before.
Following the next-header bytes from the IPv6 header reads 60 and then 135:
the last byte of the chain is not 58. -/
theorem init_packet_data_chain_broken_by_negative_length :
    ext_options demoExtLimits (fun _ _ => 0) [ExtOpt.u (-1)] 0 (plainGlobals 8) =
      .ok dstOptMinusOne ∧
    (dstOptMinusOne.dstopt.hdrs.map (fun e => e.len) = [0] ∧
      (activeHdrs dstOptMinusOne.dstopt).length = 1) ∧
    init_packet_data ethPlain dstOptMinusOne = .ok (templ ethPlain dstOptMinusOne) ∧
    (templ ethPlain dstOptMinusOne).ns = 54 ∧
    chainOf ethPlain dstOptMinusOne = [(60, NhPtr.inBuffer 54)] ∧
    walkProtos (templ ethPlain dstOptMinusOne) (NhPtr.inBuffer (ethPlain.linkhsize + 6))
      (chainOf ethPlain dstOptMinusOne) = [60, 135] ∧
    ¬ ChainFrom (templ ethPlain dstOptMinusOne) (NhPtr.inBuffer (ethPlain.linkhsize + 6))
      (chainOf ethPlain dstOptMinusOne) 58 := by
  have hopts : ext_options demoExtLimits (fun _ _ => 0) [ExtOpt.u (-1)] 0 (plainGlobals 8) =
      .ok dstOptMinusOne := by
    obtain ⟨v, hv⟩ := isOk_elim
      (ext_options demoExtLimits (fun _ _ => 0) [ExtOpt.u (-1)] 0 (plainGlobals 8)) (by decide)
    unfold dstOptMinusOne
    rw [hv]
  have hchain : chainOf ethPlain dstOptMinusOne = [(60, NhPtr.inBuffer 54)] := by decide
  refine ⟨hopts, by decide, templ_of_isOk _ _ (by decide), by decide, hchain, by decide, ?_⟩
  rw [hchain]
  intro hc
  have h2 : loadNh (templ ethPlain dstOptMinusOne) (NhPtr.inBuffer 54) = 58 := hc.2
  have h3 : loadNh (templ ethPlain dstOptMinusOne) (NhPtr.inBuffer 54) = 135 := by decide
  rw [h3] at h2
  cases h2

/-- C3 as stated fails with fragmentation enabled and one fragmentable
Destination Options header (`-u 8 -y 8`): the walk from the IPv6 header reads
44 (Fragment), then 60 (Destination Options), then 58, so the Fragment header
comes before the configured header and not after it.  It also fails for a
header recorded with length 0, as `-H -1` leaves one: the walk reads 0 and then
135, the type of the Neighbor Solicitation header that lies at the same
offset, and not 58. -/
theorem init_packet_data_fragment_precedes_dstopt :
    (∃ g1, init_packet_data ethFrag oneDstOpt = .ok g1 ∧
      walkProtos g1 (NhPtr.inBuffer (ethFrag.linkhsize + 6)) (chainOf ethFrag oneDstOpt) =
        [44, 60, 58] ∧
      walkProtos g1 (NhPtr.inBuffer (ethFrag.linkhsize + 6)) (chainOf ethFrag oneDstOpt) ≠
        List.replicate (activeHdrs oneDstOpt.hbhopt).length 0 ++
        List.replicate (activeHdrs oneDstOpt.dstoptu).length 60 ++
        List.replicate (activeHdrs oneDstOpt.dstopt).length 60 ++
        (if ethFrag.fragh_f then [44] else []) ++ [58]) ∧
    (hbhMinusOne.hbhopt.hdrs.map (fun e => e.len) = [0] ∧
      init_packet_data ethPlain hbhMinusOne = .ok (templ ethPlain hbhMinusOne) ∧
      walkProtos (templ ethPlain hbhMinusOne) (NhPtr.inBuffer (ethPlain.linkhsize + 6))
        (chainOf ethPlain hbhMinusOne) = [0, 135] ∧
      walkProtos (templ ethPlain hbhMinusOne) (NhPtr.inBuffer (ethPlain.linkhsize + 6))
        (chainOf ethPlain hbhMinusOne) ≠
        List.replicate (activeHdrs hbhMinusOne.hbhopt).length 0 ++
        List.replicate (activeHdrs hbhMinusOne.dstoptu).length 60 ++
        (if ethPlain.fragh_f then [44] else []) ++
        List.replicate (activeHdrs hbhMinusOne.dstopt).length 60 ++ [58]) := by
  refine ⟨?_, by decide, templ_of_isOk _ _ (by decide), by decide, by decide⟩
  cases h : init_packet_data ethFrag oneDstOpt with
  | error e =>
    have := oneDstOpt_isOk
    rw [h] at this
    cases this
  | ok g1 =>
    obtain ⟨c1, _, _, _⟩ := init_packet_data_chain ethFrag oneDstOpt g1 h oneDstOpt_positive
    have hw := walkProtos_of_chain g1 _ _ _ c1
    rw [chainOf_protos] at hw
    have hv : walkProtos g1 (NhPtr.inBuffer (ethFrag.linkhsize + 6)) (chainOf ethFrag oneDstOpt) =
        [44, 60, 58] := by
      rw [hw]; decide
    refine ⟨g1, rfl, hv, ?_⟩
    rw [hv]
    decide

/-! ## The link-layer filter lists on an interface without link-layer filtering -/

theorem listen_filter_same_flag (idata : IfaceData) (flt flt1 : Filters)
    (pktdata pktdata1 : Mem)
    (hgate : linkFiltersApply idata = false)
    (hpkt : ∀ i, idata.linkhsize ≤ i → pktdata i = pktdata1 i)
    (h1 : flt1.blocksrc = flt.blocksrc) (h2 : flt1.blockdst = flt.blockdst)
    (h3 : flt1.blocktarget = flt.blocktarget) (h4 : flt1.acceptsrc = flt.acceptsrc)
    (h5 : flt1.acceptdst = flt.acceptdst) (h6 : flt1.accepttarget = flt.accepttarget)
    (h7 : flt1.acceptfilters_f = flt.acceptfilters_f) :
    listen_filter idata flt pktdata = listen_filter idata flt1 pktdata1 := by
  have e1 : isNS idata pktdata = isNS idata pktdata1 := by
    unfold isNS
    rw [hpkt _ (by omega), hpkt _ (by omega), hpkt _ (by omega)]
  have e2 : pktIp6Src idata pktdata = pktIp6Src idata pktdata1 :=
    readBytes_agree _ _ _ _ idata.linkhsize (by omega) hpkt
  have e3 : pktIp6Dst idata pktdata = pktIp6Dst idata pktdata1 :=
    readBytes_agree _ _ _ _ idata.linkhsize (by omega) hpkt
  have e4 : pktTarget idata pktdata = pktTarget idata pktdata1 :=
    readBytes_agree _ _ _ _ idata.linkhsize (by omega) hpkt
  unfold listen_filter acceptedFlag
  simp only [hgate, e1, e2, e3, e4, h1, h2, h3, h4, h5, h6, h7, Bool.false_eq_true, false_and,
    if_false]

/-- C12 (as amended).  On an interface that is not Ethernet or is loopback, the
filter decision for a frame depends neither on the frame's link header (its
link-layer source and destination addresses) nor on the entries of the four
link-layer filter lists, beyond whether a link-layer accept filter is
configured at all: two frames that agree from the IPv6 header on, judged with
two filter sets that the filter options build, that agree on the IPv6 lists and
of which both or neither hold a link-layer accept filter, get the same
verdict. -/
theorem listen_filter_ignores_link_layer (idata : IfaceData) (lim : FilterLimits)
    (opts opts1 : List FilterOpt) (flt flt1 : Filters) (pktdata pktdata1 : Mem)
    (hopts : filter_options lim opts noFilters = .ok flt)
    (hopts1 : filter_options lim opts1 noFilters = .ok flt1)
    (hgate : linkFiltersApply idata = false)
    (hpkt : ∀ i, idata.linkhsize ≤ i → pktdata i = pktdata1 i)
    (h1 : flt1.blocksrc = flt.blocksrc) (h2 : flt1.blockdst = flt.blockdst)
    (h3 : flt1.blocktarget = flt.blocktarget) (h4 : flt1.acceptsrc = flt.acceptsrc)
    (h5 : flt1.acceptdst = flt.acceptdst) (h6 : flt1.accepttarget = flt.accepttarget)
    (h7 : (flt1.acceptlinksrc = [] ∧ flt1.acceptlinkdst = []) ↔
      (flt.acceptlinksrc = [] ∧ flt.acceptlinkdst = [])) :
    listen_filter idata flt pktdata = listen_filter idata flt1 pktdata1 := by
  have i0 := filter_options_flag lim opts noFilters flt noFilters_flag hopts
  have i1 := filter_options_flag lim opts1 noFilters flt1 noFilters_flag hopts1
  unfold AcceptFlagInv NoAcceptFilters at i0 i1
  have hflag : flt1.acceptfilters_f = flt.acceptfilters_f := by
    have hiff : flt1.acceptfilters_f = true ↔ flt.acceptfilters_f = true := by
      rw [i0, i1, h4, h5, h6]
      constructor
      · intro hn hc
        exact hn ⟨(h7.mpr ⟨hc.1, hc.2.1⟩).1, (h7.mpr ⟨hc.1, hc.2.1⟩).2, hc.2.2⟩
      · intro hn hc
        exact hn ⟨(h7.mp ⟨hc.1, hc.2.1⟩).1, (h7.mp ⟨hc.1, hc.2.1⟩).2, hc.2.2⟩
    cases ha : flt1.acceptfilters_f <;> cases hb : flt.acceptfilters_f <;> simp_all
  exact listen_filter_same_flag idata flt flt1 pktdata pktdata1 hgate hpkt h1 h2 h3 h4 h5 h6 hflag

theorem listen_filter_ignores_link_layer_witness :
    (filter_options demoFilterLimits [FilterOpt.B (some [0, 0, 0, 0, 0, 0])] noFilters =
        .ok acceptZeroLinkSrc ∧
      filter_options demoFilterLimits
          [FilterOpt.G (some [0xaa, 0xaa, 0xaa, 0xaa, 0xaa, 0xaa]),
           FilterOpt.J (some [0xaa, 0xaa, 0xaa, 0xaa, 0xaa, 0xaa])] noFilters =
        .ok acceptOtherLinkDst ∧
      linkFiltersApply loopbackEth = false ∧
      (∀ i, loopbackEth.linkhsize ≤ i → zeroNS i = zeroNSOtherLink i)) ∧
    listen_filter loopbackEth acceptZeroLinkSrc zeroNS =
      listen_filter loopbackEth acceptOtherLinkDst zeroNSOtherLink ∧
    listen_filter loopbackEth acceptOtherLinkDst zeroNSOtherLink = Verdict.blocked :=
  have hp : ∀ i, loopbackEth.linkhsize ≤ i → zeroNS i = zeroNSOtherLink i := by
    intro i hi
    have h14 : 14 ≤ i := hi
    have : ¬ i < 12 := by omega
    simp [zeroNSOtherLink, this]
  ⟨⟨rfl, rfl, by decide, hp⟩,
   listen_filter_ignores_link_layer loopbackEth demoFilterLimits
     [FilterOpt.B (some [0, 0, 0, 0, 0, 0])]
     [FilterOpt.G (some [0xaa, 0xaa, 0xaa, 0xaa, 0xaa, 0xaa]),
      FilterOpt.J (some [0xaa, 0xaa, 0xaa, 0xaa, 0xaa, 0xaa])]
     acceptZeroLinkSrc acceptOtherLinkDst zeroNS zeroNSOtherLink rfl rfl (by decide) hp
     rfl rfl rfl rfl rfl rfl (by decide),
   by decide⟩

/-- C12 as stated fails on an Ethernet-type loopback interface: the same
captured Neighbor Solicitation is accepted with no filter configured and
rejected once `-B 00:00:00:00:00:00` adds one entry to a link-layer accept
list, although the two filter sets differ in nothing but that list (and the
accept-filters flag that the option sets). -/
theorem listen_filter_link_accept_entry_changes_verdict :
    filter_options demoFilterLimits [] noFilters = .ok noFilters ∧
    filter_options demoFilterLimits [FilterOpt.B (some [0, 0, 0, 0, 0, 0])] noFilters =
      .ok acceptZeroLinkSrc ∧
    linkFiltersApply loopbackEth = false ∧
    (acceptZeroLinkSrc.blocklinksrc = noFilters.blocklinksrc ∧
      acceptZeroLinkSrc.blocklinkdst = noFilters.blocklinkdst ∧
      acceptZeroLinkSrc.acceptlinkdst = noFilters.acceptlinkdst ∧
      acceptZeroLinkSrc.blocksrc = noFilters.blocksrc ∧
      acceptZeroLinkSrc.blockdst = noFilters.blockdst ∧
      acceptZeroLinkSrc.blocktarget = noFilters.blocktarget ∧
      acceptZeroLinkSrc.acceptsrc = noFilters.acceptsrc ∧
      acceptZeroLinkSrc.acceptdst = noFilters.acceptdst ∧
      acceptZeroLinkSrc.accepttarget = noFilters.accepttarget) ∧
    listen_filter loopbackEth noFilters zeroNS = Verdict.accepted ∧
    listen_filter loopbackEth acceptZeroLinkSrc zeroNS = Verdict.blocked :=
  ⟨rfl, rfl, by decide, ⟨rfl, rfl, rfl, rfl, rfl, rfl, rfl, rfl, rfl⟩, by decide, by decide⟩

/-! ## The target of the reply under fragmentation -/

theorem readBytes_drop_take (m : Mem) (off n a b : Nat) (h : a + b ≤ n) :
    ((readBytes m off n).drop a).take b = readBytes m (off + a) b := by
  have e : n = a + (b + (n - a - b)) := by omega
  rw [e, readBytes_append, readBytes_append]
  have hl : (readBytes m off a).length = a := by simp [readBytes]
  have hl2 : (readBytes m (off + a) b).length = b := by simp [readBytes]
  rw [List.drop_append_of_le_length (by omega), List.drop_of_length_le (by omega),
    List.nil_append, List.take_append_of_le_length (by omega), List.take_of_length_le (by omega)]

theorem floodSourceNS_linkInv (orc : Oracle) (idata : IfaceData) (fl : FloodVars) (pn : Bool)
    (L : List (List Nat)) (sop ns fp : Nat) (s : SendSt) (h : LinkInv idata L sop ns fp s) :
    LinkInv idata L sop ns fp (floodSourceNS orc idata fl pn s) := by
  obtain ⟨b, hb⟩ := floodSourceNS_g orc idata fl pn s
  unfold LinkInv
  rw [hb]
  exact h

theorem linkRound_chunks (cks : List Nat → List Nat → List Nat → Nat → Nat) (orc : Oracle)
    (FBS : Nat) (idata : IfaceData) (L : List (List Nat)) (sop ns fp : Nat)
    (hfp : idata.linkhsize + 40 ≤ fp) (hns : fp ≤ ns) (hsop : ns + 24 ≤ sop)
    (hsopmax : sop ≤ idata.linkhsize + idata.max_packet_size)
    (hfrag : idata.fragh_f = true → idata.max_packet_size ≤ 65575 ∧ (sop - fp) % 8 = 0)
    (sources targets la : Nat) (s : SendSt) (out : List Sent) (s1 : SendSt) (la1 : Nat)
    (nd : Bool) (hi : LinkInv idata L sop ns fp s)
    (h : linkRound cks orc FBS idata sources targets la s = .ok ((out, s1), la1, nd)) :
    (∀ x ∈ out, ns + 24 ≤ x.datagram.len ∧
      (idata.fragh_f = true →
        (x.frames.map (fun f => f.chunk fp)).flatten =
          readBytes x.datagram.data fp (x.datagram.len - fp))) ∧
    LinkInv idata L sop ns fp s1 := by
  obtain ⟨i1, i2, i3, i4, i5⟩ := hi
  have hsd := linkRound_ok cks orc FBS idata sources targets la s out s1 la1 nd h
  have q0 : ({ s.g with ptr := s.g.startofprefixes } : Globals).ptr = sop := i2
  have q1 : ({ s.g with ptr := s.g.startofprefixes } : Globals).ns = ns := i3
  have q2 : ({ s.g with ptr := s.g.startofprefixes } : Globals).fragpart = fp := i4
  have q3 : ({ s.g with ptr := s.g.startofprefixes } : Globals).nfrags = s.g.nfrags := rfl
  have q4 : ({ s.g with ptr := s.g.startofprefixes } : Globals).linkaddr = L := i1
  have q5 : ({ s.g with ptr := s.g.startofprefixes } : Globals).startofprefixes = sop := i2
  generalize ({ s.g with ptr := s.g.startofprefixes } : Globals) = g0 at q0 q1 q2 q3 q4 q5 hsd
  obtain ⟨m, _, m2, _, _, m5⟩ := fillOptions_count idata (s.g.linkaddr.drop la) g0 la false
    (by omega)
  obtain ⟨e1, e2, e3, e4, _, _, _⟩ := fillOptions_effect idata (s.g.linkaddr.drop la) g0 la false
  obtain ⟨b1, _⟩ := fillOptions_bound idata (s.g.linkaddr.drop la) g0 la false
  rw [q0] at m2 m5
  have hmax : sop + 8 * m ≤ idata.linkhsize + idata.max_packet_size := by
    rcases Nat.eq_zero_or_pos m with h0 | hpos
    · subst h0; omega
    · exact m5 hpos
  generalize fillOptions idata (s.g.linkaddr.drop la) g0 la false = F at m2 e1 e2 e3 e4 b1 hsd
  obtain ⟨x, hx, hd, _, _, hcase⟩ :=
    sendDatagram_ok cks orc FBS idata sources targets _ out s1 hsd
  subst hx
  have hxl : x.datagram.len = sop + 8 * m := by rw [hd]; exact m2
  have hxd : x.datagram.data = storeChecksum cks idata F.1 := by rw [hd]
  refine ⟨?_, ?_⟩
  · intro y hy
    rw [List.mem_singleton.mp hy]
    refine ⟨by omega, fun hf => ?_⟩
    rcases hcase with ⟨hf2, _⟩ | ⟨_, g1, hfpath, _⟩
    · rw [hf] at hf2; cases hf2
    · obtain ⟨p1, p2, _⟩ := fragment_path_ok FBS idata _ _ _ _ hfpath
      obtain ⟨hmps, hmod⟩ := hfrag hf
      have hfp2 : ({ F.1 with buffer := storeChecksum cks idata F.1 } : Globals).fragpart = fp :=
        e2.trans q2
      have hptr2 : ({ F.1 with buffer := storeChecksum cks idata F.1 } : Globals).ptr =
          x.datagram.len := by rw [hd]
      have hbuf2 : ({ F.1 with buffer := storeChecksum cks idata F.1 } : Globals).buffer =
          x.datagram.data := hxd.symm
      have hnf2 : ({ F.1 with buffer := storeChecksum cks idata F.1 } : Globals).nfrags =
          s.g.nfrags := b1.trans q3
      have hge := clipNfrags_ge FBS ({ F.1 with buffer := storeChecksum cks idata F.1 } : Globals)
        (by rw [hfp2]; rw [hfp2] at p1; exact p1) (by rw [hnf2]; exact i5 hf)
      generalize ({ F.1 with buffer := storeChecksum cks idata F.1 } : Globals) = G
        at p2 hfp2 hptr2 hbuf2 hge
      rw [hfp2, hptr2, hbuf2] at p2
      exact FragsSpec_chunks idata.linkhsize x.datagram.data fp x.datagram.len _ (by omega) hge
        x.frames fp _ (by omega) (by omega) p2
  · rcases hcase with ⟨hf, _, hs1⟩ | ⟨hf, g1, hfpath, hs1⟩
    · subst hs1
      exact ⟨e4.trans q4, e3.trans q5, e1.trans q1, e2.trans q2,
        fun hc => by rw [hf] at hc; cases hc⟩
    · subst hs1
      obtain ⟨fb, nf, p, hg1⟩ := fragment_path_globals FBS idata _ _ _ _ hfpath
      obtain ⟨p1, _, p3⟩ := fragment_path_ok FBS idata _ _ _ _ hfpath
      have hge := clipNfrags_ge FBS ({ F.1 with buffer := storeChecksum cks idata F.1 } : Globals)
        p1 (by show 8 ≤ F.1.nfrags; rw [b1, q3]; exact i5 hf)
      refine ⟨?_, ?_, ?_, ?_, fun _ => ?_⟩
      · show g1.linkaddr = L
        rw [hg1]; exact e4.trans q4
      · show g1.startofprefixes = sop
        rw [hg1]; exact e3.trans q5
      · show g1.ns = ns
        rw [hg1]; exact e1.trans q1
      · show g1.fragpart = fp
        rw [hg1]; exact e2.trans q2
      · show 8 ≤ g1.nfrags
        rw [p3]; exact hge

theorem send_packet_to_ns_chunks (cks : List Nat → List Nat → List Nat → Nat → Nat)
    (orc : Oracle) (an : AllNodes) (FBS : Nat) (idata : IfaceData) (fl : FloodVars)
    (pkt : Mem) (st : SendSt) (out : List Sent) (st1 : SendSt) (hlay : Layout idata st.g)
    (hsopmax : st.g.startofprefixes ≤ idata.linkhsize + idata.max_packet_size)
    (hfrag : idata.fragh_f = true →
      8 ≤ st.g.nfrags ∧ idata.max_packet_size ≤ 65575 ∧
      (st.g.startofprefixes - st.g.fragpart) % 8 = 0)
    (h : send_packet_to_ns cks orc an FBS idata fl (some pkt) st = .ok (out, st1)) :
    ∀ x ∈ out, st.g.ns + 24 ≤ x.datagram.len ∧
      (idata.fragh_f = true →
        (x.frames.map (fun f => f.chunk st.g.fragpart)).flatten =
          readBytes x.datagram.data st.g.fragpart (x.datagram.len - st.g.fragpart)) := by
  obtain ⟨l1, l2, l3, _⟩ := hlay
  simp only [MIN_IPV6_HLEN, sizeof_nd_neighbor_solicit] at l1 l3
  exact (send_packet_to_ns_forall cks orc an FBS idata fl
    (LinkInv idata st.g.linkaddr st.g.startofprefixes st.g.ns st.g.fragpart) _
    (fun sources targets la s o s1 la1 nd hi hr =>
      linkRound_chunks cks orc FBS idata _ _ _ _ l1 l2 l3 hsopmax
        (fun hc => ⟨(hfrag hc).2.1, (hfrag hc).2.2⟩) sources targets la s o s1 la1 nd hi hr)
    (fun s hi => floodSourceNS_linkInv orc idata fl false _ _ _ _ s hi)
    pkt st out st1 ⟨rfl, rfl, rfl, rfl, fun hc => (hfrag hc).1⟩ h).1

/-- C19 (as amended).  Every datagram that send_packet_to_ns sends in reply to
a received Neighbor Solicitation carries the target address of that
solicitation in its target field, whatever the flooding variables are (also
with target flooding and `ntargets > 1`).  Without fragmentation every
injected frame is such a datagram and carries the target in its target field.
With fragmentation the injected frames are the fragments cut from that
datagram: the payloads they carry, put together in order, are the fragmentable
part of the datagram, and hold the target at the place of the target field. -/
theorem send_packet_to_ns_target (cks : List Nat → List Nat → List Nat → Nat → Nat)
    (orc : Oracle) (an : AllNodes) (FBS : Nat) (idata : IfaceData) (fl : FloodVars)
    (pkt : Mem) (st : SendSt) (out : List Sent) (st1 : SendSt) (hlay : Layout idata st.g)
    (hsopmax : st.g.startofprefixes ≤ idata.linkhsize + idata.max_packet_size)
    (hfrag : idata.fragh_f = true →
      8 ≤ st.g.nfrags ∧ idata.max_packet_size ≤ 65575 ∧
      (st.g.startofprefixes - st.g.fragpart) % 8 = 0)
    (h : send_packet_to_ns cks orc an FBS idata fl (some pkt) st = .ok (out, st1)) :
    ∀ x ∈ out,
      readBytes x.datagram.data (st.g.ns + 8) 16 = pktTarget idata pkt ∧
      (idata.fragh_f = false →
        ∀ f ∈ x.frames, readBytes f.data (st.g.ns + 8) 16 = pktTarget idata pkt) ∧
      (idata.fragh_f = true →
        FragmentsOf FBS idata st.g.fragpart x ∧
        (x.frames.map (fun f => f.chunk st.g.fragpart)).flatten =
          readBytes x.datagram.data st.g.fragpart (x.datagram.len - st.g.fragpart) ∧
        (((x.frames.map (fun f => f.chunk st.g.fragpart)).flatten).drop
          (st.g.ns + 8 - st.g.fragpart)).take 16 = pktTarget idata pkt) := by
  intro x hx
  have hk := send_packet_to_ns_kept cks orc an FBS idata fl true pkt st out st1 hlay
    (fun _ _ => rfl) h x hx
  have hch := send_packet_to_ns_chunks cks orc an FBS idata fl pkt st out st1 hlay hsopmax
    hfrag h x hx
  obtain ⟨l1, l2, l3, l4⟩ := hlay
  simp only [MIN_IPV6_HLEN, sizeof_nd_neighbor_solicit] at l1 l3 l4
  have hck := send_packet_to_ns_checked cks orc an FBS idata fl pkt st out st1 (by omega) h x hx
  have hns : (replyAddressing an idata fl pkt st).1.g.ns = st.g.ns := rfl
  have hu : ∀ j, j < 16 →
      Untouched idata (replyAddressing an idata fl pkt st).1.g true false (st.g.ns + 8 + j) := by
    intro j hj
    refine ⟨by omega, by omega, by rw [hns]; omega, by rw [hns]; omega,
      by rw [hns]; simp only [sizeof_nd_neighbor_solicit]; omega, ?_, ?_⟩
    · intro _; exact ⟨by omega, by omega⟩
    · intro hc; cases hc
  have hdat : readBytes x.datagram.data (st.g.ns + 8) 16 = pktTarget idata pkt := by
    unfold pktTarget
    apply readBytes_congr
    intro j hj
    rw [hk.1 _ (hu j hj), replyAddressing_target an idata fl pkt st j hj]
  refine ⟨hdat, ?_, ?_⟩
  · intro hf f hfm
    unfold pktTarget
    apply readBytes_congr
    intro j hj
    rw [hk.2 f hfm _ (hu j hj) (Or.inl hf), replyAddressing_target an idata fl pkt st j hj]
  · intro hf
    have hfl := hch.2 hf
    refine ⟨hck.2.2 hf, hfl, ?_⟩
    rw [hfl, readBytes_drop_take _ _ _ _ _ (by have := hch.1; omega), ← hdat]
    congr 1
    omega

theorem send_packet_to_ns_target_witness :
    (Layout ethPlain (startSt (templ ethPlain (plainGlobals 8))).g ∧
      Layout ethFrag (startSt (templ ethFrag (sllaGlobals 16))).g) ∧
    (flood32.floodt_f = true ∧ flood32.ntargets = 2 ∧
      (templ ethPlain (plainGlobals 8)).targetaddr =
        [0xfe, 0x80, 0, 0, 0, 0, 0, 0, 0, 0, 0, 0, 0, 0, 0, 1]) ∧
    ((emitted globalFloodReply).map Sent.label = [(0, 0), (0, 1), (1, 0), (1, 1), (2, 0), (2, 1)] ∧
      ∀ x ∈ emitted globalFloodReply, ∀ f ∈ x.frames,
        readBytes f.data 62 16 = [0x20, 0x01, 0x0d, 0xb8, 0, 0, 0, 0, 0, 0, 0, 0, 0, 0, 0, 1]) ∧
    ((emitted globalFragReply).length = 1 ∧
      ∀ x ∈ emitted globalFragReply,
        readBytes x.datagram.data 62 16 =
          [0x20, 0x01, 0x0d, 0xb8, 0, 0, 0, 0, 0, 0, 0, 0, 0, 0, 0, 1] ∧
        (((x.frames.map (fun f => f.chunk 54)).flatten).drop 8).take 16 =
          [0x20, 0x01, 0x0d, 0xb8, 0, 0, 0, 0, 0, 0, 0, 0, 0, 0, 0, 1]) := by
  obtain ⟨s1, h⟩ := emitted_ok globalFloodReply (by decide)
  obtain ⟨s2, h2⟩ := emitted_ok globalFragReply (by decide)
  have hl : Layout ethPlain (startSt (templ ethPlain (plainGlobals 8))).g := by
    unfold Layout; decide
  have hl2 : Layout ethFrag (startSt (templ ethFrag (sllaGlobals 16))).g := by
    unfold Layout; decide
  have hw := send_packet_to_ns_target demoCks demoOracle demoAllNodes demoFragBufferSize
    ethPlain flood32 solicitGlobal (startSt (templ ethPlain (plainGlobals 8)))
    (emitted globalFloodReply) s1 hl (by decide) (fun hc => by cases hc) h
  have hw2 := send_packet_to_ns_target demoCks demoOracle demoAllNodes demoFragBufferSize
    ethFrag listenVars solicitGlobal (startSt (templ ethFrag (sllaGlobals 16)))
    (emitted globalFragReply) s2 hl2 (by decide) (fun _ => by decide) h2
  exact ⟨⟨hl, hl2⟩, ⟨rfl, rfl, by decide⟩,
    ⟨by decide, fun x hx f hf => (hw x hx).2.1 rfl f hf⟩,
    ⟨by decide, fun x hx => ⟨(hw2 x hx).1, ((hw2 x hx).2.2 rfl).2.2⟩⟩⟩

/-- C19 as stated fails with fragmentation: a responder with `-y 16` and one
link-layer address option replies to a solicitation for 2001:db8::1 with one
datagram cut into two fragments of 16 payload bytes.  The first fragment ends
8 bytes into the target field, the second starts with the other 8 bytes: no
injected frame holds the 16 bytes of the target, neither at the offset of the
target field in the datagram (62) nor behind the Fragment Header (70) nor
anywhere else. -/
theorem send_packet_to_ns_target_split_by_fragmentation :
    pktTarget ethFrag solicitGlobal =
      [0x20, 0x01, 0x0d, 0xb8, 0, 0, 0, 0, 0, 0, 0, 0, 0, 0, 0, 1] ∧
    (emitted globalFragReply).map (fun x => x.frames.map (fun f =>
        (f.len, f.fragOffset 54, f.chunk 54))) =
      [[(78, 0, [135, 0, 4, 180, 0, 0, 0, 0, 0x20, 0x01, 0x0d, 0xb8, 0, 0, 0, 0]),
        (78, 16, [0, 0, 0, 0, 0, 0, 0, 1, 1, 1, 2, 0, 0, 0, 0, 1])]] ∧
    ∀ x ∈ emitted globalFragReply, ∀ f ∈ x.frames, ∀ off < 78,
      readBytes f.data off 16 ≠ pktTarget ethFrag solicitGlobal := by
  refine ⟨by decide, by decide, ?_⟩
  decide

/-! ## The loop of the responder against send_packet, frame by frame -/

theorem SimRes_refl {σ : Type} (R : σ → σ → Prop) (hR : ∀ s, R s s)
    (r : Except Stop (List Sent × σ)) : SimRes R r r := by
  cases r with
  | error e => rfl
  | ok v =>
    obtain ⟨o, t⟩ := v
    exact ⟨rfl, hR t⟩

theorem SimRes_mono {σ : Type} (R Q : σ → σ → Prop) (h : ∀ s t, R s t → Q s t)
    (r r1 : Except Stop (List Sent × σ)) (hs : SimRes R r r1) : SimRes Q r r1 := by
  cases r with
  | error e =>
    cases r1 with
    | error e1 => exact hs
    | ok v1 => exact hs
  | ok v =>
    cases r1 with
    | error e1 => exact hs
    | ok v1 =>
      obtain ⟨o, t⟩ := v
      obtain ⟨o1, t1⟩ := v1
      exact ⟨hs.1, h _ _ hs.2⟩

theorem doWhile_sim {σ : Type} (b1 b2 : Nat → σ → Except Stop (List Sent × σ)) (limit : Nat)
    (R : σ → σ → Prop) (hbody : ∀ i s s1, R s s1 → SimRes R (b1 i s) (b2 i s1)) :
    ∀ fuel i s s1, R s s1 → SimRes R (doWhile b1 limit fuel i s) (doWhile b2 limit fuel i s1) := by
  intro fuel
  induction fuel with
  | zero => intro i s s1 _; rfl
  | succ fuel ih =>
    intro i s s1 hr
    rw [doWhile_succ, doWhile_succ]
    have hb := hbody i s s1 hr
    cases h1 : b1 i s with
    | error e =>
      cases h2 : b2 i s1 with
      | error e1 => rw [h1, h2] at hb; exact hb
      | ok v1 => rw [h1, h2] at hb; exact hb.elim
    | ok v =>
      cases h2 : b2 i s1 with
      | error e1 => rw [h1, h2] at hb; exact hb.elim
      | ok v1 =>
        obtain ⟨o, t⟩ := v
        obtain ⟨o1, t1⟩ := v1
        rw [h1, h2] at hb
        obtain ⟨ho, ht⟩ := hb
        dsimp only
        by_cases hc : (i + 1) % U32 < limit
        · rw [if_pos hc, if_pos hc]
          have hrec := ih ((i + 1) % U32) t t1 ht
          cases h3 : doWhile b1 limit fuel ((i + 1) % U32) t with
          | error e =>
            cases h4 : doWhile b2 limit fuel ((i + 1) % U32) t1 with
            | error e1 => rw [h3, h4] at hrec; exact hrec
            | ok w1 => rw [h3, h4] at hrec; exact hrec.elim
          | ok w =>
            cases h4 : doWhile b2 limit fuel ((i + 1) % U32) t1 with
            | error e1 => rw [h3, h4] at hrec; exact hrec.elim
            | ok w1 =>
              obtain ⟨p, u⟩ := w
              obtain ⟨p1, u1⟩ := w1
              rw [h3, h4] at hrec
              exact ⟨by rw [List.map_append, List.map_append, ho, hrec.1], hrec.2⟩
        · rw [if_neg hc, if_neg hc]
          exact ⟨ho, ht⟩

theorem memcpy_agree (fb : Mem) (sof : Nat) (buf buf1 : Mem) (ptr n : Nat)
    (h : ∀ i, ptr ≤ i → i < ptr + n → buf1 i = buf i) :
    memcpy fb sof buf1 ptr n = memcpy fb sof buf ptr n := by
  funext i
  unfold memcpy
  split
  · rename_i hc
    exact h _ (by omega) (by omega)
  · rfl

theorem fragLoop_agree (lh : Nat) (buf buf1 : Mem) (fp pe fh sof nf : Nat)
    (hb : ∀ i, i < pe → buf1 i = buf i) :
    ∀ (fuel ptr : Nat) (more : Bool) (fb : Mem), ptr ≤ pe → (pe - ptr) % 8 = 0 →
      fragLoop lh buf1 fp pe fh sof nf fuel ptr more fb =
        fragLoop lh buf fp pe fh sof nf fuel ptr more fb := by
  intro fuel
  induction fuel with
  | zero => intro ptr more fb _ _; rfl
  | succ fuel ih =>
    intro ptr more fb hle hmod
    rw [fragLoop_succ, fragLoop_succ]
    have hr := roundFragSize_eq nf
    have hsz : (if pe - ptr ≤ nf then pe - ptr else roundFragSize nf) ≤ pe - ptr ∧
        (if pe - ptr ≤ nf then pe - ptr else roundFragSize nf) % 8 = 0 := by
      split
      · exact ⟨Nat.le_refl _, hmod⟩
      · rw [hr]; omega
    have hm : memcpy fb sof buf1 ptr (if pe - ptr ≤ nf then pe - ptr else roundFragSize nf) =
        memcpy fb sof buf ptr (if pe - ptr ≤ nf then pe - ptr else roundFragSize nf) :=
      memcpy_agree fb sof buf buf1 ptr _ (fun i _ h2 => hb i (by omega))
    rw [hm, ih _ _ _ (by omega) (by omega)]

theorem fragment_path_agree (FBS : Nat) (idata : IfaceData) (g : Globals) (b1 : Mem)
    (ident : Nat) (hptr : g.fragpart ≤ g.ptr) (hmod : (g.ptr - g.fragpart) % 8 = 0)
    (hb : ∀ i, i < g.ptr → b1 i = g.buffer i) :
    fragment_path FBS idata { g with buffer := b1 } ident =
      match fragment_path FBS idata g ident with
      | .error e => .error e
      | .ok (fs, g1) => .ok (fs, { g1 with buffer := b1 }) := by
  unfold fragment_path
  dsimp only
  have hm : memcpy g.fragbuffer 0 b1 0 g.fragpart = memcpy g.fragbuffer 0 g.buffer 0 g.fragpart :=
    memcpy_agree _ _ _ _ _ _ (fun i _ h2 => hb i (by omega))
  rw [hm, fragLoop_agree idata.linkhsize g.buffer b1 g.fragpart g.ptr _ _ _ hb _ _ _ _ hptr
    (by omega)]
  split
  · rfl
  · split <;> rfl

theorem pokeU16be_congr (m m1 : Mem) (off v i : Nat) (h : m1 i = m i) :
    pokeU16be m1 off v i = pokeU16be m off v i := by
  simp only [pokeU16be, poke]
  split
  · rfl
  · split
    · rfl
    · exact h

theorem storeChecksum_agree (cks : List Nat → List Nat → List Nat → Nat → Nat)
    (idata : IfaceData) (g : Globals) (b1 : Mem) (W : Nat) (hptr : g.ptr = W)
    (hfp : idata.linkhsize + 40 ≤ g.ns) (hW : g.ns + 24 ≤ W)
    (hb : ∀ i, i < W → b1 i = g.buffer i) :
    ∀ i, i < W → storeChecksum cks idata { g with buffer := b1 } i = storeChecksum cks idata g i := by
  intro i hi
  have h0 : ∀ j, j < W → pokeU16be b1 (g.ns + 2) 0 j = pokeU16be g.buffer (g.ns + 2) 0 j :=
    fun j hj => pokeU16be_congr _ _ _ _ _ (hb j hj)
  have hc : in_chksum cks (pokeU16be b1 (g.ns + 2) 0) idata.linkhsize g.ns (g.ptr - g.ns)
        IPPROTO_ICMPV6 =
      in_chksum cks (pokeU16be g.buffer (g.ns + 2) 0) idata.linkhsize g.ns (g.ptr - g.ns)
        IPPROTO_ICMPV6 := by
    unfold in_chksum
    rw [readBytes_congr _ (pokeU16be g.buffer (g.ns + 2) 0) (idata.linkhsize + 8)
        (idata.linkhsize + 8) 16 (fun j hj => h0 _ (by omega)),
      readBytes_congr _ (pokeU16be g.buffer (g.ns + 2) 0) (idata.linkhsize + 24)
        (idata.linkhsize + 24) 16 (fun j hj => h0 _ (by omega)),
      readBytes_congr _ (pokeU16be g.buffer (g.ns + 2) 0) g.ns g.ns (g.ptr - g.ns)
        (fun j hj => h0 _ (by omega))]
  show pokeU16be (pokeU16be b1 (g.ns + 2) 0) (g.ns + 2)
      (in_chksum cks (pokeU16be b1 (g.ns + 2) 0) idata.linkhsize g.ns (g.ptr - g.ns)
        IPPROTO_ICMPV6) i =
    pokeU16be (pokeU16be g.buffer (g.ns + 2) 0) (g.ns + 2)
      (in_chksum cks (pokeU16be g.buffer (g.ns + 2) 0) idata.linkhsize g.ns (g.ptr - g.ns)
        IPPROTO_ICMPV6) i
  rw [hc]
  exact pokeU16be_congr _ _ _ _ _ (h0 i hi)

theorem sendDatagram_agree (cks : List Nat → List Nat → List Nat → Nat → Nat) (orc : Oracle)
    (FBS : Nat) (idata : IfaceData) (sources targets : Nat) (s : SendSt) (b1 : Mem)
    (W ns fp : Nat) (hptr : s.g.ptr = W) (hfp : idata.linkhsize + 40 ≤ fp) (hns : fp ≤ ns)
    (hW : ns + 24 ≤ W) (hmod : idata.fragh_f = true → (W - fp) % 8 = 0)
    (hi : ReplyInv W ns fp s) (hb : ∀ i, i < W → b1 i = s.g.buffer i) :
    SimRes (fun t t1 => ReplyInv W ns fp t ∧ AgreeBelow W t t1)
      (sendDatagram cks orc FBS idata sources targets s)
      (sendDatagram cks orc FBS idata sources targets { s with g := { s.g with buffer := b1 } }) := by
  obtain ⟨i1, i2, i3, i4, i5, i6, i7, i8⟩ := hi
  have hB := storeChecksum_agree cks idata s.g b1 W hptr (by omega) (by omega) hb
  cases hf : idata.fragh_f with
  | false =>
    rw [sendDatagram_plain cks orc FBS idata sources targets s hf,
      sendDatagram_plain cks orc FBS idata sources targets _ hf]
    refine ⟨?_, ⟨i1, i2, i3, i4, i5, i6, i7, i8⟩, ⟨_, rfl, ?_⟩⟩
    · show [[Frame.bytes _]] = [[Frame.bytes _]]
      congr 2
      unfold Frame.bytes
      dsimp only
      apply readBytes_congr
      intro j hj
      rw [Nat.zero_add]
      exact (pokeU16be_congr _ _ _ _ _ (hB j (by omega))).symm
    · intro i hlt
      exact pokeU16be_congr _ _ _ _ _ (hB i hlt)
  | true =>
    rw [sendDatagram_frag cks orc FBS idata sources targets s hf,
      sendDatagram_frag cks orc FBS idata sources targets _ hf]
    have hfa := fragment_path_agree FBS idata { s.g with buffer := storeChecksum cks idata s.g }
      (storeChecksum cks idata { s.g with buffer := b1 }) (orc.ident s.nident)
      (by show s.g.fragpart ≤ s.g.ptr; omega)
      (by show (s.g.ptr - s.g.fragpart) % 8 = 0; rw [hptr, i4]; exact hmod hf)
      (by intro i hlt; exact hB i (by rw [← hptr]; exact hlt))
    have hfa2 : fragment_path FBS idata
        { ({ s with g := { s.g with buffer := b1 } } : SendSt).g with
          buffer := storeChecksum cks idata ({ s with g := { s.g with buffer := b1 } } : SendSt).g }
        (orc.ident ({ s with g := { s.g with buffer := b1 } } : SendSt).nident) =
      match fragment_path FBS idata { s.g with buffer := storeChecksum cks idata s.g }
          (orc.ident s.nident) with
      | .error e => .error e
      | .ok (fs, g1) => .ok (fs, { g1 with buffer := storeChecksum cks idata { s.g with buffer := b1 } }) :=
      hfa
    rw [hfa2]
    cases hp : fragment_path FBS idata { s.g with buffer := storeChecksum cks idata s.g }
        (orc.ident s.nident) with
    | error e => rfl
    | ok v =>
      obtain ⟨fs, g1⟩ := v
      obtain ⟨fb, nf, p, hg1⟩ := fragment_path_globals FBS idata _ _ _ _ hp
      subst hg1
      refine ⟨rfl, ⟨i1, i2, i3, i4, i5, i6, i7, i8⟩, ⟨_, rfl, ?_⟩⟩
      intro i hlt
      exact hB i hlt

theorem targetBody_agree (cks : List Nat → List Nat → List Nat → Nat → Nat) (orc : Oracle)
    (FBS : Nat) (idata : IfaceData) (fl fl1 : FloodVars) (sources targets : Nat)
    (W ns fp : Nat) (hfp : idata.linkhsize + 40 ≤ fp) (hns : fp ≤ ns) (hW : ns + 24 ≤ W)
    (hmod : idata.fragh_f = true → (W - fp) % 8 = 0) (s s1 : SendSt)
    (hr : ReplyInv W ns fp s ∧ AgreeBelow W s s1) :
    SimRes (fun t t1 => ReplyInv W ns fp t ∧ AgreeBelow W t t1)
      (targetBody cks orc FBS idata fl false sources targets s)
      (targetBody cks orc FBS idata fl1 false sources targets s1) := by
  obtain ⟨hi, b, hs1, hb⟩ := hr
  subst hs1
  have hl : s.g.linkaddr.length ≤ 1 := by rw [hi.1]; exact Nat.zero_le _
  have h2 := targetBody_single cks orc FBS idata fl1 false sources targets
    { s with g := { s.g with buffer := b } } hl
  rw [targetBody_single cks orc FBS idata fl false sources targets s hl, h2]
  simp only [Bool.false_eq_true, if_false]
  exact sendDatagram_agree cks orc FBS idata sources targets
    { s with g := { s.g with ptr := s.g.startofprefixes } } b W ns fp hi.2.1 hfp hns hW hmod
    hi hb

theorem pokeBytes_congr (m m1 : Mem) (off n : Nat) (bs : List Nat) (i : Nat) (h : m1 i = m i) :
    pokeBytes m1 off n bs i = pokeBytes m off n bs i := by
  unfold pokeBytes
  split
  · rfl
  · exact h

theorem floodSource_agree (orc : Oracle) (idata : IfaceData) (fl : FloodVars) (W ns fp : Nat)
    (hS : idata.hsrcaddr_f = true) (hF : fl.floods_f = true) (s s1 : SendSt)
    (hr : ReplyInv W ns fp s ∧ AgreeBelow W s s1) :
    ReplyInv W ns fp (floodSourceNS orc idata fl false s) ∧
    AgreeBelow W (floodSourceNS orc idata fl false s)
      (floodSource orc idata { fl with floodt_f := false } s1) := by
  obtain ⟨hi, b, hs1, hb⟩ := hr
  subst hs1
  obtain ⟨i1, i2, i3, i4, i5, i6, i7, i8⟩ := hi
  have e1 : floodSourceNS orc idata fl false s = mirrorEtherSrc (randomizeSrc orc idata s) := by
    unfold floodSourceNS
    rw [if_pos ⟨hF, Or.inr i8⟩]
    dsimp only
    have h2 : (if idata.hsrcaddr_f = false then randomizeEtherSrc orc (randomizeSrc orc idata s)
        else randomizeSrc orc idata s) = randomizeSrc orc idata s :=
      if_neg (by rw [hS]; decide)
    rw [h2]
    exact if_pos ⟨i6, i7⟩
  have e2 : floodSource orc idata { fl with floodt_f := false }
      { s with g := { s.g with buffer := b } } =
      randomizeSrc orc idata { s with g := { s.g with buffer := b } } := by
    unfold floodSource
    rw [if_pos hF]
    dsimp only
    exact if_neg (by rw [hS]; decide)
  rw [e1, e2]
  refine ⟨⟨i1, i2, i3, i4, i5, i6, i7, i8⟩, ⟨_, rfl, ?_⟩⟩
  intro i hlt
  show pokeBytes b (idata.linkhsize + 8) 16 _ i =
    memcpy (randomizeSrc orc idata s).g.buffer ((randomizeSrc orc idata s).g.sllaopt + 2)
      (randomizeSrc orc idata s).g.buffer 6 ETH_ALEN i
  have hsl : (randomizeSrc orc idata s).g.sllaopt = s.g.sllaopt := rfl
  rw [memcpy_out _ _ _ _ _ _ (by rw [hsl]; omega)]
  exact pokeBytes_congr _ _ _ _ _ _ (hb i hlt)

theorem send_packet_to_ns_eq_spec
    (cks : List Nat → List Nat → List Nat → Nat → Nat) (orc : Oracle) (an : AllNodes)
    (FBS : Nat) (idata : IfaceData) (fl : FloodVars) (pkt : Mem) (st : SendSt)
    (hm : IN6_IS_ADDR_MULTICAST (pktIp6Dst idata pkt) = true)
    (hp : idata.hsrcaddr_f = false ∨ fl.floods_f = false ∨
      ¬ (st.g.sllopt_f = true ∧ st.g.sllopta_f = false)) :
    send_packet_to_ns cks orc an FBS idata fl (some pkt) st =
      send_packet_to_ns_spec cks orc an FBS idata { fl with floodt_f := false } pkt st := by
  obtain ⟨r1, r2, r3, r4, r5⟩ := replyAddressing_multicast an idata fl pkt st hm
  unfold send_packet_to_ns send_packet_to_ns_spec send_packet
  rw [r5]
  simp only [Option.isNone_some]
  rw [r1]
  refine doWhile_congr _ _ _
    (fun s => s.multicastdst_f = true ∧ s.g.sllopt_f = st.g.sllopt_f ∧
      s.g.sllopta_f = st.g.sllopta_f) ?_ ?_ _ _ _ ⟨r2, r3, r4⟩
  · intro i s hi
    unfold sourceBodyNS sourceBody
    rw [floodSourceNS_eq_floodSource orc idata fl s hi.1 (by rw [hi.2.1, hi.2.2]; exact hp)]
    have hb : targetBody cks orc FBS idata fl false i =
        targetBody cks orc FBS idata { fl with floodt_f := false } false i := by
      funext t s
      exact targetBody_no_target_flood cks orc FBS idata fl _ i t s
    rw [hb]
  · intro i s out s1 hi hb
    unfold sourceBody at hb
    obtain ⟨f1, f2, f3⟩ := floodSource_flags orc idata { fl with floodt_f := false } s
    exact (doWhile_forall _ _
      (fun s => s.multicastdst_f = true ∧ s.g.sllopt_f = st.g.sllopt_f ∧
        s.g.sllopta_f = st.g.sllopta_f) (fun _ => True)
      (targetBody_forall cks orc FBS idata _ false i _ _
        (fun targets la s o s1 la1 nd hi hr =>
          linkRound_flags cks orc FBS idata _ _ _ i targets la s o s1 la1 nd hi hr)
        (fun hc => by cases hc))
      _ _ _ out s1 ⟨f1.trans hi.1, f2.trans hi.2.1, f3.trans hi.2.2⟩ hb).2

theorem send_packet_to_ns_sim_spec
    (cks : List Nat → List Nat → List Nat → Nat → Nat) (orc : Oracle) (an : AllNodes)
    (FBS : Nat) (idata : IfaceData) (fl : FloodVars) (pkt : Mem) (st : SendSt)
    (hm : IN6_IS_ADDR_MULTICAST (pktIp6Dst idata pkt) = true)
    (hlay : Layout idata st.g)
    (hS : idata.hsrcaddr_f = true) (hF : fl.floods_f = true)
    (he : st.g.sllopt_f = true) (hE : st.g.sllopta_f = false)
    (hno : st.g.linkaddr = []) (hopt : st.g.startofprefixes ≤ st.g.sllaopt)
    (hfrag : idata.fragh_f = true → (st.g.startofprefixes - st.g.fragpart) % 8 = 0) :
    SameFrames (send_packet_to_ns cks orc an FBS idata fl (some pkt) st)
      (send_packet_to_ns_spec cks orc an FBS idata { fl with floodt_f := false } pkt st) := by
  obtain ⟨r1, r2, r3, r4, r5⟩ := replyAddressing_multicast an idata fl pkt st hm
  obtain ⟨l1, l2, l3, _⟩ := hlay
  simp only [MIN_IPV6_HLEN, sizeof_nd_neighbor_solicit] at l1 l3
  unfold SameFrames send_packet_to_ns send_packet_to_ns_spec send_packet
  rw [r5]
  simp only [Option.isNone_some]
  rw [r1]
  refine SimRes_mono
    (fun t t1 => ReplyInv st.g.startofprefixes st.g.ns st.g.fragpart t ∧
      AgreeBelow st.g.startofprefixes t t1) _ (fun _ _ _ => True.intro) _ _ ?_
  refine doWhile_sim _ _ _ _ ?_ _ _ _ _
    ⟨⟨hno, rfl, rfl, rfl, hopt, he, hE, r2⟩, ⟨_, rfl, fun _ _ => rfl⟩⟩
  intro i s s1 hr
  unfold sourceBodyNS sourceBody
  exact doWhile_sim _ _ _ _
    (fun t u u1 hu => targetBody_agree cks orc FBS idata fl { fl with floodt_f := false } i t
      st.g.startofprefixes st.g.ns st.g.fragpart l1 l2 l3 hfrag u u1 hu)
    _ _ _ _ (floodSource_agree orc idata fl _ _ _ hS hF s s1 hr)

/-- C28 (as amended).  For a received Neighbor Solicitation whose IPv6
destination is multicast, on a template as init_packet_data leaves it in
listen mode (where `-e` without `-E` leaves no link-layer address configured,
the option that `sllaopt` points to lying behind the end of the datagram):
send_packet_to_ns and the responder of the specification, which hands the
template with the reply addressing to send_packet, run with target flooding
switched off and the same random draws, inject exactly the same sequence of
frames (the same number of frames with the same bytes for each datagram in
turn), or stop short in the same way.  Unless sources are flooded with a fixed
Ethernet source address (`-S`) and a link-layer address option without an
explicit value, the two results are equal altogether, the variables left
behind included. -/
theorem send_packet_to_ns_refines_send_packet
    (cks : List Nat → List Nat → List Nat → Nat → Nat) (orc : Oracle) (an : AllNodes)
    (FBS : Nat) (idata : IfaceData) (fl : FloodVars) (pkt : Mem) (st : SendSt)
    (hm : IN6_IS_ADDR_MULTICAST (pktIp6Dst idata pkt) = true)
    (hlay : Layout idata st.g)
    (hlisten : st.g.sllopt_f = true → st.g.sllopta_f = false →
      st.g.linkaddr = [] ∧ st.g.startofprefixes ≤ st.g.sllaopt)
    (hfrag : idata.fragh_f = true → (st.g.startofprefixes - st.g.fragpart) % 8 = 0) :
    SameFrames (send_packet_to_ns cks orc an FBS idata fl (some pkt) st)
      (send_packet_to_ns_spec cks orc an FBS idata { fl with floodt_f := false } pkt st) ∧
    ((idata.hsrcaddr_f = false ∨ fl.floods_f = false ∨
        ¬ (st.g.sllopt_f = true ∧ st.g.sllopta_f = false)) →
      send_packet_to_ns cks orc an FBS idata fl (some pkt) st =
        send_packet_to_ns_spec cks orc an FBS idata { fl with floodt_f := false } pkt st) := by
  refine ⟨?_, fun hp => send_packet_to_ns_eq_spec cks orc an FBS idata fl pkt st hm hp⟩
  by_cases hp : idata.hsrcaddr_f = false ∨ fl.floods_f = false ∨
      ¬ (st.g.sllopt_f = true ∧ st.g.sllopta_f = false)
  · rw [send_packet_to_ns_eq_spec cks orc an FBS idata fl pkt st hm hp]
    exact SimRes_refl _ (fun _ => True.intro) _
  · have hS : idata.hsrcaddr_f = true := by
      cases h : idata.hsrcaddr_f with
      | true => rfl
      | false => exact absurd (Or.inl h) hp
    have hF : fl.floods_f = true := by
      cases h : fl.floods_f with
      | true => rfl
      | false => exact absurd (Or.inr (Or.inl h)) hp
    have hfl : st.g.sllopt_f = true ∧ st.g.sllopta_f = false := by
      by_contra hc
      exact hp (Or.inr (Or.inr hc))
    obtain ⟨hno, hopt⟩ := hlisten hfl.1 hfl.2
    exact send_packet_to_ns_sim_spec cks orc an FBS idata fl pkt st hm hlay hS hF hfl.1 hfl.2
      hno hopt hfrag

theorem slla_option_no_address (g g1 : Globals) (o : SllaOpt)
    (inv : g.sllopta_f = false → g.linkaddr = []) (h : slla_option g o = .ok g1) :
    g1.sllopta_f = false → g1.linkaddr = [] := by
  cases o with
  | E addr =>
    cases addr with
    | none => cases h
    | some a =>
      simp only [slla_option, Except.ok.injEq] at h
      subst h
      intro hc
      cases hc
  | e =>
    simp only [slla_option, Except.ok.injEq] at h
    subst h
    exact inv

theorem slla_options_no_address :
    ∀ (opts : List SllaOpt) (g g1 : Globals), (g.sllopta_f = false → g.linkaddr = []) →
      slla_options opts g = .ok g1 → g1.sllopta_f = false → g1.linkaddr = [] := by
  intro opts
  induction opts with
  | nil =>
    intro g g1 inv h
    simp only [slla_options, Except.ok.injEq] at h
    subst h
    exact inv
  | cons o rest ih =>
    intro g g1 inv h
    simp only [slla_options] at h
    split at h
    · cases h
    · rename_i g2 h2
      exact ih g2 g1 (slla_option_no_address g g2 o inv h2) h

theorem initNS_sllaopt (idata : IfaceData) (g g1 : Globals) (h : initNS idata g = .ok g1)
    (hno : g.linkaddr = []) : g1.startofprefixes = g1.sllaopt := by
  unfold initNS at h
  have hcfg := storeNh_config g IPPROTO_ICMPV6
  generalize storeNh g IPPROTO_ICMPV6 = s at h hcfg
  obtain ⟨_, _, _, _, _, c6, _, _, _, _⟩ := hcfg
  simp only at h
  split at h
  · cases h
  · split at h
    · rename_i hc
      rw [c6, hno] at hc
      exact absurd hc.2 (by decide)
    · simp only [Except.ok.injEq] at h
      subst h
      rfl

theorem listen_template_no_address (idata : IfaceData) (opts : List SllaOpt)
    (g0 g g1 : Globals) (h0 : g0.sllopta_f = false → g0.linkaddr = [])
    (hopts : slla_options opts g0 = .ok g) (hinit : init_packet_data idata g = .ok g1) :
    g1.sllopt_f = true → g1.sllopta_f = false →
      g1.linkaddr = [] ∧ g1.startofprefixes ≤ g1.sllaopt := by
  intro _ hE
  obtain ⟨ga, gb, gc, gd, h1, h2, h3, h4, h5⟩ := init_packet_data_stages idata g g1 hinit
  have c0 : SameConfig g (initIPv6Header idata g) := by simp [SameConfig, initIPv6Header]
  obtain ⟨_, _, ca⟩ := appendHdrs_simple _ _ _ _ _ h1
  obtain ⟨_, _, cb⟩ := appendHdrs_simple _ _ _ _ _ h2
  obtain ⟨_, cc⟩ := initFragHdr_ptr idata _ gc h3
  obtain ⟨_, _, cd⟩ := appendHdrs_simple _ _ _ _ _ h4
  obtain ⟨_, _, _, _, _, _, _, _, ce⟩ := initNS_effect idata gd g1 h5
  obtain ⟨_, _, _, _, _, a6, _, a8, _, _⟩ := (c0.trans ca).trans cb
  obtain ⟨_, _, _, _, _, b6, _, b8, _, _⟩ := cc
  obtain ⟨_, _, _, _, _, d6, _, d8, _, _⟩ := cd
  obtain ⟨_, _, _, _, _, f6, _, f8, _, _⟩ := ce
  have hla : gd.linkaddr = g.linkaddr := d6.trans (b6.trans a6)
  have hEg : g.sllopta_f = false := by
    rw [← a8, ← b8, ← d8, ← f8]; exact hE
  have hno := slla_options_no_address opts g0 g h0 hopts hEg
  refine ⟨by rw [f6, hla]; exact hno, ?_⟩
  rw [initNS_sllaopt idata gd g1 h5 (by rw [hla]; exact hno)]

theorem send_packet_to_ns_refines_send_packet_witness :
    (slla_options [SllaOpt.e] (plainGlobals 8) = .ok listenSllaNoAddr ∧
      init_packet_data ethFrag listenSllaNoAddr = .ok (templ ethFrag listenSllaNoAddr) ∧
      IN6_IS_ADDR_MULTICAST (pktIp6Dst ethFrag solicitDad) = true ∧
      Layout ethFrag (startSt (templ ethFrag listenSllaNoAddr)).g ∧
      ethFrag.hsrcaddr_f = true ∧ flood32.floods_f = true ∧
      (templ ethFrag listenSllaNoAddr).sllopt_f = true ∧
      (templ ethFrag listenSllaNoAddr).sllopta_f = false) ∧
    SameFrames
      (send_packet_to_ns demoCks demoOracle demoAllNodes demoFragBufferSize ethFrag flood32
        (some solicitDad) (startSt (templ ethFrag listenSllaNoAddr)))
      (send_packet_to_ns_spec demoCks demoOracle demoAllNodes demoFragBufferSize ethFrag
        { flood32 with floodt_f := false } solicitDad (startSt (templ ethFrag listenSllaNoAddr))) ∧
    (emitted (send_packet_to_ns demoCks demoOracle demoAllNodes demoFragBufferSize ethFrag flood32
        (some solicitDad) (startSt (templ ethFrag listenSllaNoAddr)))).map
      (fun x => (x.datagram.len, x.frames.map (fun f => f.len),
        readBytes x.datagram.data 80 6)) =
      List.replicate 6 (78, [70, 70, 70], [2, 0, 0, 0, 0, 1]) ∧
    (emitted (send_packet_to_ns_spec demoCks demoOracle demoAllNodes demoFragBufferSize ethFrag
        { flood32 with floodt_f := false } solicitDad
        (startSt (templ ethFrag listenSllaNoAddr)))).map
      (fun x => (x.datagram.len, x.frames.map (fun f => f.len),
        readBytes x.datagram.data 80 6)) =
      List.replicate 6 (78, [70, 70, 70], [0, 0, 0, 0, 0, 0]) := by
  have hinit : init_packet_data ethFrag listenSllaNoAddr = .ok (templ ethFrag listenSllaNoAddr) :=
    templ_of_isOk _ _ (by decide)
  have hl : Layout ethFrag (startSt (templ ethFrag listenSllaNoAddr)).g := by
    unfold Layout; decide
  exact ⟨⟨rfl, hinit, by decide, hl, rfl, rfl, by decide, by decide⟩,
    (send_packet_to_ns_refines_send_packet demoCks demoOracle demoAllNodes demoFragBufferSize
      ethFrag flood32 solicitDad (startSt (templ ethFrag listenSllaNoAddr)) (by decide) hl
      (listen_template_no_address ethFrag [SllaOpt.e] (plainGlobals 8) listenSllaNoAddr
        (templ ethFrag listenSllaNoAddr) (fun _ => rfl) rfl hinit)
      (fun _ => by decide)).1,
    by decide, by decide⟩

end Ns6
